import Mathlib

/-!
# Buscador TF-IDF (buscador.c, buscador_paralelo.c, indexador.c)

Shallow embedding of the query evaluation and of the index loaders of
`src/buscador.c` and `src/buscador_paralelo.c`, and of the indexer
`src/indexador.c`.

Modelling conventions.

* C `int` values are `Int`; no arithmetic of the modelled code can overflow
  (only comparisons, `+ 1` on small counters and `min`).
* C `double` values are elements of a linearly ordered field `α`; `log10` of
  `<math.h>` is a parameter `log10 : α → α`.  Closed examples instantiate
  `α := ℝ` and `log10 := Real.logb 10`.  Rounding, infinities and NaN are
  outside this model.  What depends on sums being exact is stated over machine
  arithmetic: the scoring loops are given once more (suffix `maq`) over a
  record of operations `Aritmetica` on which no law is assumed, with the field
  (`aritmetica_exacta`) and IEEE 754 binary64 with round to nearest, ties to
  even (`aritmetica_doble`) as instances.
* C strings are `List Char` (`Cadena`); `isalpha` / `tolower` are the "C"
  locale functions `Char.isAlpha` / `Char.toLower`.
* The global arrays with their counters (`vocabulario`/`num_palabras`,
  `documentos`/`num_documentos`, `listas_invertidas`/`num_listas`) are lists;
  the counter is the length of the list.
* `rankings[doc_id] += w` outside the window `[0, num_documentos)` that the
  code initialises is undefined behaviour; the model returns `none` there.
* `qsort` of `<stdlib.h>` is a parameter constrained by the contract of the
  C standard (`ContratoQsort`): the result is a permutation of the input and
  is ordered by the comparator; the order of elements that compare equal is
  unspecified.  `ordenar_por_insercion` is one executable instance.  A
  statement that needs more of the sort says so (`QsortConservaOrdenados`: an
  array already in order comes back unchanged).
* A file is the list of strings that the calls of `fgets` return from it
  (`none` when `fopen` fails); `lecturas_de_archivo` gives them for the text
  of a file and the buffer of `MAX_LINE_LENGTH` characters, a longer line
  coming in several reads.  `%lf` is a parameter, `leer_decimal` being the
  instance for plain decimals; output files are lists of structured lines.
* Two names of indexador.c that buscador.c also declares carry the suffix
  `indexador`: `PalabraVocabIndexador`, `limpiar_palabra_indexador`.
* The point-to-point calls of the collect step are a transition system
  (`paso`): `MPI_Recv` proceeds only when a message from that peer is in
  flight, `MPI_Send` never blocks; the count and the results sent to a peer
  are one message.
-/

namespace Buscador

/-- C strings. -/
abbrev Cadena := List Char

/-- Constant `#define MAX_WORD_LENGTH 100`. -/
def MAX_WORD_LENGTH : Nat := 100

/-- Constant `#define MAX_QUERY_WORDS 100` (the literal `100` in buscador_paralelo.c). -/
def MAX_QUERY_WORDS : Nat := 100

/-- Struct `PalabraVocab`: `char palabra[]; int palabra_id; int num_docs_con_palabra`. -/
structure PalabraVocab where
  palabra : Cadena
  palabra_id : Int
  num_docs_con_palabra : Int
deriving DecidableEq, Repr

/-- Struct `Documento`: `int doc_id; char url[]`. -/
structure Documento where
  doc_id : Int
  url : Cadena
deriving DecidableEq, Repr

/-- Struct `DocFrec`: `int doc_id; double frecuencia_norm`. -/
structure DocFrec (α : Type) where
  doc_id : Int
  frecuencia_norm : α

/-- Struct `ListaInvertida`: `int palabra_id; DocFrec *documentos; int num_docs; int capacity`;
the dynamic array with its counter and capacity is a list. -/
structure ListaInvertida (α : Type) where
  palabra_id : Int
  documentos : List (DocFrec α)

/-- Struct `ResultadoBusqueda`: `int doc_id; double ranking; char url[]`
(buscador.c has no `url` field; there the field stays empty). -/
structure ResultadoBusqueda (α : Type) where
  doc_id : Int
  ranking : α
  url : Cadena

/-- The global index of one process: `vocabulario`, `documentos`, `listas_invertidas`. -/
structure Indice (α : Type) where
  vocabulario : List PalabraVocab
  documentos : List Documento
  listas_invertidas : List (ListaInvertida α)

/-- The counter `num_documentos`. -/
def num_documentos {α : Type} (idx : Indice α) : Int := (idx.documentos.length : Int)

/-- Function `buscar_palabra_id`: linear scan, first entry whose text equals `palabra`, else `-1`. -/
def buscar_palabra_id (vocabulario : List PalabraVocab) (palabra : Cadena) : Int :=
  match vocabulario with
  | [] => -1
  | v :: resto => if v.palabra = palabra then v.palabra_id else buscar_palabra_id resto palabra

/-- The loop of `limpiar_palabra`: `j` is the write position in `limpia`. -/
def limpiar_desde (j : Nat) : Cadena → Cadena
  | [] => []
  | c :: cs =>
    if j < MAX_WORD_LENGTH - 1 then
      if c.isAlpha then c.toLower :: limpiar_desde (j + 1) cs else limpiar_desde j cs
    else []

/-- Function `limpiar_palabra`: keep alphabetic characters, lowercased, at most 99 of them. -/
def limpiar_palabra (palabra : Cadena) : Cadena := limpiar_desde 0 palabra

/-- The delimiters `" \t\n"` given to `strtok`. -/
def es_delimitador (c : Char) : Bool := c = ' ' || c = '\t' || c = '\n'

/-- All tokens that successive `strtok` calls return: `actual` is the token
being read, reversed. -/
def strtok_desde : Cadena → Cadena → List Cadena
  | [], actual => if actual = [] then [] else [actual.reverse]
  | c :: cs, actual =>
    if es_delimitador c then
      if actual = [] then strtok_desde cs [] else actual.reverse :: strtok_desde cs []
    else strtok_desde cs (c :: actual)

/-- Function `strcpy`: the characters before the first NUL. -/
def strcpy (s : Cadena) : Cadena := s.takeWhile (fun c => c != Char.ofNat 0)

/-- The tokenising `while` loop: `n` is `num_palabras_consulta`. -/
def extraer_palabras (n : Nat) : List Cadena → List Cadena
  | [] => []
  | token :: resto =>
    if n < MAX_QUERY_WORDS then
      if (limpiar_palabra token).length > 0 then
        limpiar_palabra token :: extraer_palabras (n + 1) resto
      else extraer_palabras n resto
    else []

/-- The array `palabras_consulta` after the tokenising loop. -/
def palabras_consulta (consulta : Cadena) : List Cadena :=
  extraer_palabras 0 (strtok_desde (strcpy consulta) [])

/-- The loop that fills `palabra_ids`: the ids of the words found in the vocabulary. -/
def resolver_ids (vocabulario : List PalabraVocab) : List Cadena → List Int
  | [] => []
  | p :: resto =>
    if buscar_palabra_id vocabulario p ≥ 0 then
      buscar_palabra_id vocabulario p :: resolver_ids vocabulario resto
    else resolver_ids vocabulario resto

/-- The search loop of `calcular_w`: `d_t` of the first entry with this id, else `0`. -/
def buscar_d_t (vocabulario : List PalabraVocab) (palabra_id : Int) : Int :=
  match vocabulario with
  | [] => 0
  | v :: resto =>
    if v.palabra_id = palabra_id then v.num_docs_con_palabra else buscar_d_t resto palabra_id

/-- Function `calcular_w`: `0` when `d_t == 0`, else `log10((double)n / (double)d_t) * frec_norm`. -/
def calcular_w {α : Type} [LinearOrderedField α] (log10 : α → α) (idx : Indice α)
    (palabra_id : Int) (_doc_id : Int) (frec_norm : α) : α :=
  if buscar_d_t idx.vocabulario palabra_id = 0 then 0
  else log10 (((num_documentos idx : Int) : α) / ((buscar_d_t idx.vocabulario palabra_id : Int) : α))
    * frec_norm

/-- The statement `rankings[doc_id] += w`, defined on the initialised window `[0, N)`. -/
def sumar_ranking {α : Type} [LinearOrderedField α] (rankings : List α) (doc_id : Int) (w : α) :
    Option (List α) :=
  if 0 ≤ doc_id ∧ doc_id < (rankings.length : Int) then
    some (rankings.set doc_id.toNat (rankings.getD doc_id.toNat 0 + w))
  else none

/-- The `k` loop over the postings of one inverted list. -/
def acumular_lista {α : Type} [LinearOrderedField α] (log10 : α → α) (idx : Indice α)
    (palabra_id : Int) : List (DocFrec α) → List α → Option (List α)
  | [], rankings => some rankings
  | df :: resto, rankings =>
    match sumar_ranking rankings df.doc_id
        (calcular_w log10 idx palabra_id df.doc_id df.frecuencia_norm) with
    | none => none
    | some r => acumular_lista log10 idx palabra_id resto r

/-- The `j` loop: the first inverted list with this `palabra_id`, then `break`. -/
def acumular_palabra {α : Type} [LinearOrderedField α] (log10 : α → α) (idx : Indice α)
    (palabra_id : Int) : List (ListaInvertida α) → List α → Option (List α)
  | [], rankings => some rankings
  | l :: resto, rankings =>
    if l.palabra_id = palabra_id then acumular_lista log10 idx palabra_id l.documentos rankings
    else acumular_palabra log10 idx palabra_id resto rankings

/-- The `i` loop over `palabra_ids`. -/
def acumular_consulta {α : Type} [LinearOrderedField α] (log10 : α → α) (idx : Indice α) :
    List Int → List α → Option (List α)
  | [], rankings => some rankings
  | palabra_id :: resto, rankings =>
    match acumular_palabra log10 idx palabra_id idx.listas_invertidas rankings with
    | none => none
    | some r => acumular_consulta log10 idx resto r

/-- The array `rankings` after `for (i < num_documentos) rankings[i] = 0.0`. -/
def rankings_iniciales {α : Type} [LinearOrderedField α] (idx : Indice α) : List α :=
  List.replicate idx.documentos.length 0

/-- The array `rankings` after the scoring loops, for the ids in `palabra_ids`. -/
def calcular_rankings {α : Type} [LinearOrderedField α] (log10 : α → α) (idx : Indice α)
    (palabra_ids : List Int) : Option (List α) :=
  acumular_consulta log10 idx palabra_ids (rankings_iniciales idx)

/-- The collecting loop `for (i < num_documentos) if (rankings[i] > 0.0) ...`, from index `i`. -/
def recopilar_desde {α : Type} [LinearOrderedField α] (i : Nat) :
    List α → List Documento → List (ResultadoBusqueda α)
  | r :: rs, d :: ds =>
    if r > 0 then
      { doc_id := (i : Int), ranking := r, url := d.url } :: recopilar_desde (i + 1) rs ds
    else recopilar_desde (i + 1) rs ds
  | _, _ => []

/-- Function `comparar_resultados`: descending by `ranking`, `0` on equal rankings. -/
def comparar_resultados {α : Type} [LinearOrderedField α] (a b : ResultadoBusqueda α) : Int :=
  if b.ranking > a.ranking then 1 else if b.ranking < a.ranking then -1 else 0

/-- The contract of `qsort` with `comparar_resultados`: a permutation of the
input in which no element compares greater than a later one. -/
def ContratoQsort {α : Type} [LinearOrderedField α]
    (qsort : List (ResultadoBusqueda α) → List (ResultadoBusqueda α)) : Prop :=
  ∀ xs, (qsort xs).Perm xs ∧ (qsort xs).Pairwise (fun a b => comparar_resultados a b ≤ 0)

/-- An executable `qsort`: insertion sort with `comparar_resultados`. -/
def ordenar_por_insercion {α : Type} [LinearOrderedField α]
    (xs : List (ResultadoBusqueda α)) : List (ResultadoBusqueda α) :=
  xs.insertionSort (fun a b => comparar_resultados a b ≤ 0)

/-- Function `procesar_consulta_local` (buscador_paralelo.c): the array `resultados_locales`
with `*num_resultados` entries; `K` is unused, as in the source. -/
def procesar_consulta_local {α : Type} [LinearOrderedField α]
    (qsort : List (ResultadoBusqueda α) → List (ResultadoBusqueda α)) (log10 : α → α)
    (idx : Indice α) (consulta : Cadena) (_K : Int) : Option (List (ResultadoBusqueda α)) :=
  if (palabras_consulta consulta).length = 0 then some []
  else if (resolver_ids idx.vocabulario (palabras_consulta consulta)).length = 0 then some []
  else
    match calcular_rankings log10 idx (resolver_ids idx.vocabulario (palabras_consulta consulta)) with
    | none => none
    | some rankings => some (qsort (recopilar_desde 0 rankings idx.documentos))


/-- The collecting loop of `procesar_consulta` in buscador.c, whose results carry no url. -/
def recopilar_sin_url {α : Type} [LinearOrderedField α] (i : Nat) :
    List α → List (ResultadoBusqueda α)
  | [] => []
  | r :: rs =>
    if r > 0 then
      { doc_id := (i : Int), ranking := r, url := [] } :: recopilar_sin_url (i + 1) rs
    else recopilar_sin_url (i + 1) rs

/-- What `procesar_consulta` of buscador.c prints, one constructor per `printf`. -/
inductive Salida (α : Type) where
  | sin_palabras_validas : Salida α
  | advertencia (palabra : Cadena) : Salida α
  | ninguna_en_vocabulario : Salida α
  | sin_documentos_relevantes : Salida α
  | par (doc : Int) (ranking : α) : Salida α

/-- The warnings printed by the id loop of buscador.c, one per word not in the vocabulary. -/
def advertencias {α : Type} (vocabulario : List PalabraVocab) : List Cadena → List (Salida α)
  | [] => []
  | p :: resto =>
    if buscar_palabra_id vocabulario p ≥ 0 then advertencias vocabulario resto
    else Salida.advertencia p :: advertencias vocabulario resto

/-- Function `procesar_consulta` of buscador.c: the sequence of things printed;
each result is printed as `(doc_id + 1, ranking)`. -/
def procesar_consulta {α : Type} [LinearOrderedField α]
    (qsort : List (ResultadoBusqueda α) → List (ResultadoBusqueda α)) (log10 : α → α)
    (idx : Indice α) (consulta : Cadena) : Option (List (Salida α)) :=
  if (palabras_consulta consulta).length = 0 then some [Salida.sin_palabras_validas]
  else if (resolver_ids idx.vocabulario (palabras_consulta consulta)).length = 0 then
    some (advertencias idx.vocabulario (palabras_consulta consulta)
      ++ [Salida.ninguna_en_vocabulario])
  else
    match calcular_rankings log10 idx (resolver_ids idx.vocabulario (palabras_consulta consulta)) with
    | none => none
    | some rankings =>
      some (advertencias idx.vocabulario (palabras_consulta consulta) ++
        (if (recopilar_sin_url 0 rankings).length = 0 then [Salida.sin_documentos_relevantes]
         else (qsort (recopilar_sin_url 0 rankings)).map
           (fun e => Salida.par (e.doc_id + 1) e.ranking)))

/-! ## One turn of `main` in buscador_paralelo.c -/

/-- The value `(num_resultados_locales < K) ? num_resultados_locales : K`, used both for
`resultados_a_enviar` and (with `num_todos_resultados`) for `resultados_finales`. -/
def resultados_a_enviar (num_resultados : Int) (K : Int) : Int :=
  if num_resultados < K then num_resultados else K

/-- What the two `MPI_Send` calls hand to a peer: the count (tag 0) and the array (tag 1). -/
structure Mensaje (α : Type) where
  num : Int
  datos : List (ResultadoBusqueda α)

/-- The message a node sends: `resultados_a_enviar` and, when it is positive, the first
`resultados_a_enviar` entries of `resultados_locales`. -/
def mensaje_enviado {α : Type} (resultados_locales : List (ResultadoBusqueda α)) (K : Int) :
    Mensaje α :=
  { num := resultados_a_enviar (resultados_locales.length : Int) K,
    datos :=
      if resultados_a_enviar (resultados_locales.length : Int) K > 0 then
        resultados_locales.take (resultados_a_enviar (resultados_locales.length : Int) K).toNat
      else [] }

/-- A message as `MPI_Send` builds it: the array has `num` entries when `num > 0`, none otherwise. -/
def MensajeBienFormado {α : Type} (m : Mensaje α) : Prop :=
  (m.num > 0 → (m.datos.length : Int) = m.num) ∧ (m.num ≤ 0 → m.datos = [])

/-- The receiving branch: when `num_recibidos > 0`, copy `temp[0 .. num_recibidos)`. -/
def copiar_recibidos {α : Type} (m : Mensaje α) : List (ResultadoBusqueda α) :=
  if m.num > 0 then m.datos.take m.num.toNat else []

/-- The collecting loop `for (p = 0; p < size; p++)` that fills `todos_resultados`. -/
def recolectar {α : Type} (size rank : Nat) (resultados_locales : List (ResultadoBusqueda α))
    (a_enviar : Int) (recibido : Nat → Mensaje α) : List (ResultadoBusqueda α) :=
  (List.range size).foldl
    (fun todos p =>
      if p = rank then todos ++ resultados_locales.take a_enviar.toNat
      else todos ++ copiar_recibidos (recibido p))
    []

/-- The sending loop `for (p = 0; p < size; p++) if (p != rank)`: destination and message. -/
def envios {α : Type} (size rank : Nat) (resultados_locales : List (ResultadoBusqueda α))
    (K : Int) : List (Nat × Mensaje α) :=
  (List.range size).foldl
    (fun enviados p =>
      if p ≠ rank then enviados ++ [(p, mensaje_enviado resultados_locales K)] else enviados)
    []

/-- The peers that `MPI_Bcast` with root `rank` delivers the query to. -/
def destinos_bcast (size rank : Nat) : List Nat :=
  (List.range size).filter (fun p => p != rank)

/-- One line that `escribir_resultados` appends to the output file. -/
inductive Linea (α : Type) where
  | encabezado (numero : Int) : Linea α
  | sin_resultados : Linea α
  | resultado (posicion : Int) (doc : Int) (ranking : α) (url : Cadena) : Linea α
  | en_blanco : Linea α

/-- The printing loop of `escribir_resultados`, from index `i`. -/
def lineas_resultados {α : Type} (i : Nat) : List (ResultadoBusqueda α) → List (Linea α)
  | [] => []
  | r :: rs =>
    Linea.resultado ((i : Int) + 1) (r.doc_id + 1) r.ranking r.url :: lineas_resultados (i + 1) rs

/-- Function `escribir_resultados` (the file opens): header, then the "no results" line
when `num_resultados == 0`, else the first `num_resultados` results, then a blank line. -/
def escribir_resultados {α : Type} (consulta_id : Int) (resultados : List (ResultadoBusqueda α))
    (num_resultados : Int) : List (Linea α) :=
  Linea.encabezado (consulta_id + 1) ::
    ((if num_resultados = 0 then [Linea.sin_resultados]
      else lineas_resultados 0 (resultados.take num_resultados.toNat)) ++ [Linea.en_blanco])

/-- The observable outcome of one turn on one node. -/
structure Turno (α : Type) where
  locales : List (ResultadoBusqueda α)
  candidatos : List (ResultadoBusqueda α)
  enviados : List (Nat × Mensaje α)
  ordenados : List (ResultadoBusqueda α)
  escrito : List (Linea α)

/-- The body of the query loop of `main` after `MPI_Bcast`, given the local list. -/
def turno_con_locales {α : Type} [LinearOrderedField α]
    (qsort : List (ResultadoBusqueda α) → List (ResultadoBusqueda α))
    (K : Int) (size rank : Nat) (consulta_id : Int)
    (resultados_locales : List (ResultadoBusqueda α)) (recibido : Nat → Mensaje α) : Turno α :=
  { locales := resultados_locales,
    candidatos := recolectar size rank resultados_locales
      (resultados_a_enviar (resultados_locales.length : Int) K) recibido,
    enviados := envios size rank resultados_locales K,
    ordenados := qsort (recolectar size rank resultados_locales
      (resultados_a_enviar (resultados_locales.length : Int) K) recibido),
    escrito := escribir_resultados consulta_id
      (qsort (recolectar size rank resultados_locales
        (resultados_a_enviar (resultados_locales.length : Int) K) recibido))
      (resultados_a_enviar
        ((recolectar size rank resultados_locales
          (resultados_a_enviar (resultados_locales.length : Int) K) recibido).length : Int) K) }

/-- The body of the query loop of `main` for one query on node `rank`. -/
def turno {α : Type} [LinearOrderedField α]
    (qsort : List (ResultadoBusqueda α) → List (ResultadoBusqueda α)) (log10 : α → α)
    (idx : Indice α) (K : Int) (size rank : Nat) (consulta_id : Int) (consulta : Cadena)
    (recibido : Nat → Mensaje α) : Option (Turno α) :=
  match procesar_consulta_local qsort log10 idx consulta K with
  | none => none
  | some resultados_locales =>
    some (turno_con_locales qsort K size rank consulta_id resultados_locales recibido)

/-- The messages of all nodes of a cluster for one broadcast query, by node id. -/
def mensajes_del_cluster {α : Type} [LinearOrderedField α]
    (qsort : List (ResultadoBusqueda α) → List (ResultadoBusqueda α)) (log10 : α → α)
    (K : Int) (consulta : Cadena) : List (Indice α) → Option (List (Mensaje α))
  | [] => some []
  | idx :: resto =>
    match procesar_consulta_local qsort log10 idx consulta K,
      mensajes_del_cluster qsort log10 K consulta resto with
    | some locales, some ms => some (mensaje_enviado locales K :: ms)
    | _, _ => none

/-- One turn with node `rank` as owner in a cluster whose node `p` holds `indices[p]`:
every node evaluates the broadcast query and the owner receives each peer's message. -/
def turno_en_cluster {α : Type} [LinearOrderedField α]
    (qsort : List (ResultadoBusqueda α) → List (ResultadoBusqueda α)) (log10 : α → α)
    (indices : List (Indice α)) (K : Int) (rank : Nat) (consulta_id : Int)
    (consulta : Cadena) : Option (Turno α) :=
  match indices.get? rank, mensajes_del_cluster qsort log10 K consulta indices with
  | some idx, some ms =>
    turno qsort log10 idx K indices.length rank consulta_id consulta
      (fun p => ms.getD p { num := 0, datos := [] })
  | _, _ => none

/-- The result lines among the lines written: position, printed doc, ranking, url. -/
def entradas_escritas {α : Type} : List (Linea α) → List (Int × Int × α × Cadena)
  | [] => []
  | Linea.resultado posicion doc ranking url :: resto =>
    (posicion, doc, ranking, url) :: entradas_escritas resto
  | _ :: resto => entradas_escritas resto

/-- How `escribir_resultados` prints the results of a list, numbered from `i + 1`. -/
def entradas_de {α : Type} (i : Nat) : List (ResultadoBusqueda α) → List (Int × Int × α × Cadena)
  | [] => []
  | r :: rs => ((i : Int) + 1, r.doc_id + 1, r.ranking, r.url) :: entradas_de (i + 1) rs

/-- A second `qsort` that meets the contract: insertion sort of the reversed array, which
leaves elements that compare equal in the reverse of their input order. -/
def ordenar_invirtiendo {α : Type} [LinearOrderedField α]
    (xs : List (ResultadoBusqueda α)) : List (ResultadoBusqueda α) :=
  ordenar_por_insercion xs.reverse

/-! ## The example indices of the specification -/

/-- The single-partition example: perro (id 0, df 2), gato (id 1, df 1), three documents. -/
def indice_ejemplo (α : Type) [LinearOrderedField α] : Indice α :=
  { vocabulario := [⟨"perro".toList, 0, 2⟩, ⟨"gato".toList, 1, 1⟩],
    documentos := [⟨0, "doc0".toList⟩, ⟨1, "doc1".toList⟩, ⟨2, "doc2".toList⟩],
    listas_invertidas := [⟨0, [⟨0, 1 / 2⟩, ⟨1, 1⟩]⟩, ⟨1, [⟨2, 1⟩]⟩] }

/-- Node 0 of the two-node example: documents doc0 and doc1, local `N = 2`, perro df 2. -/
def indice_nodo0 (α : Type) [LinearOrderedField α] : Indice α :=
  { vocabulario := [⟨"perro".toList, 0, 2⟩],
    documentos := [⟨0, "doc0".toList⟩, ⟨1, "doc1".toList⟩],
    listas_invertidas := [⟨0, [⟨0, 1 / 2⟩, ⟨1, 1⟩]⟩] }

/-- Node 1 of the two-node example: the gato document, local `N = 1`, gato df 1. -/
def indice_nodo1 (α : Type) [LinearOrderedField α] : Indice α :=
  { vocabulario := [⟨"gato".toList, 1, 1⟩],
    documentos := [⟨0, "doc2".toList⟩],
    listas_invertidas := [⟨1, [⟨0, 1⟩]⟩] }

/-- First node of a tie example: `N = 2`, perro df 1, its only posting is document 1. -/
def indice_empate_a (α : Type) [LinearOrderedField α] : Indice α :=
  { vocabulario := [⟨"perro".toList, 0, 1⟩],
    documentos := [⟨0, "a0".toList⟩, ⟨1, "a1".toList⟩],
    listas_invertidas := [⟨0, [⟨1, 1⟩]⟩] }

/-- Second node of a tie example: `N = 2`, perro df 1, its only posting is document 0. -/
def indice_empate_b (α : Type) [LinearOrderedField α] : Indice α :=
  { vocabulario := [⟨"perro".toList, 0, 1⟩],
    documentos := [⟨0, "b0".toList⟩, ⟨1, "b1".toList⟩],
    listas_invertidas := [⟨0, [⟨0, 1⟩]⟩] }

/-- A single-node tie example: `N = 3`, perro df 2 with the same frequency in documents 0 and 1. -/
def indice_empate_local (α : Type) [LinearOrderedField α] : Indice α :=
  { vocabulario := [⟨"perro".toList, 0, 2⟩],
    documentos := [⟨0, "d0".toList⟩, ⟨1, "d1".toList⟩, ⟨2, "d2".toList⟩],
    listas_invertidas := [⟨0, [⟨0, 1⟩, ⟨1, 1⟩]⟩] }

/-- The query text `perro`. -/
def consulta_perro : Cadena := "perro".toList

/-- The query text `perro gato`. -/
def consulta_perro_gato : Cadena := "perro gato".toList

/-! ## Reference definitions for the scoring claim -/

/-- Index invariant of the data model: every posting names a document of the partition. -/
def PostingsEnRango {α : Type} (idx : Indice α) : Prop :=
  ∀ l ∈ idx.listas_invertidas, ∀ p ∈ l.documentos, 0 ≤ p.doc_id ∧ p.doc_id < num_documentos idx

/-- Reference: `D(t)`, the document frequency of the first vocabulary entry with id `t`
(`0` when there is none). -/
def frecuencia_documental {α : Type} (idx : Indice α) (t : Int) : Int :=
  match idx.vocabulario.find? (fun v => decide (v.palabra_id = t)) with
  | some v => v.num_docs_con_palabra
  | none => 0

/-- Reference: the postings of the first list of `ls` with id `t` (none when absent). -/
def postings_en {α : Type} (ls : List (ListaInvertida α)) (t : Int) : List (DocFrec α) :=
  match ls.find? (fun l => decide (l.palabra_id = t)) with
  | some l => l.documentos
  | none => []

/-- Reference: the postings of the first inverted list of the index with id `t`. -/
def postings_de {α : Type} (idx : Indice α) (t : Int) : List (DocFrec α) :=
  postings_en idx.listas_invertidas t

/-- Reference: the weight `log10(N / D(t)) * tf`, and `0` in the guarded case `D(t) = 0`. -/
def peso_esperado {α : Type} [LinearOrderedField α] (log10 : α → α) (idx : Indice α)
    (t : Int) (tf : α) : α :=
  if frecuencia_documental idx t = 0 then 0
  else log10 (((idx.documentos.length : Int) : α) / ((frecuencia_documental idx t : Int) : α)) * tf

/-- Reference: the sum over the ids of the sum over the postings `(d, tf)` of the weight. -/
def puntuacion_esperada {α : Type} [LinearOrderedField α] (log10 : α → α) (idx : Indice α)
    (ids : List Int) (d : Int) : α :=
  (ids.map (fun t =>
    (((postings_de idx t).filter (fun p => decide (p.doc_id = d))).map
      (fun p => peso_esperado log10 idx t p.frecuencia_norm)).sum)).sum

/-! ## Reference definitions for the tokenizer and the lookups -/

/-- Reference: keep only the alphabetic characters of a fragment, lowercased. -/
def limpiar_referencia (fragmento : Cadena) : Cadena :=
  (fragmento.filter Char.isAlpha).map Char.toLower

/-- Reference tokenization: split on space, tab and newline; in each fragment keep only
the alphabetic characters, lowercased; drop the fragments that become empty. -/
def tokenizar_referencia (raw : Cadena) : List Cadena :=
  ((raw.splitOnP es_delimitador).map limpiar_referencia).filter (fun f => decide (f ≠ []))

/-- Reference: the id of the first vocabulary entry whose text equals `w`, else `-1`. -/
def id_primera_entrada (vocabulario : List PalabraVocab) (w : Cadena) : Int :=
  match vocabulario.find? (fun v => decide (v.palabra = w)) with
  | some v => v.palabra_id
  | none => -1

/-- Function `calcular_w` with the division checked: `none` where it would divide by zero. -/
def calcular_w_comprobado {α : Type} [LinearOrderedField α] (log10 : α → α) (idx : Indice α)
    (palabra_id : Int) (_doc_id : Int) (frec_norm : α) : Option α :=
  if buscar_d_t idx.vocabulario palabra_id = 0 then some 0
  else if ((buscar_d_t idx.vocabulario palabra_id : Int) : α) = 0 then none
  else some (log10 (((num_documentos idx : Int) : α)
    / ((buscar_d_t idx.vocabulario palabra_id : Int) : α)) * frec_norm)

/-- The ranked pairs among the things `procesar_consulta` of buscador.c prints. -/
def pares_impresos {α : Type} : List (Salida α) → List (Int × α)
  | [] => []
  | Salida.par doc ranking :: resto => (doc, ranking) :: pares_impresos resto
  | _ :: resto => pares_impresos resto

/-- The unresolved terms that `procesar_consulta` of buscador.c reports, in print order. -/
def terminos_advertidos {α : Type} : List (Salida α) → List Cadena
  | [] => []
  | Salida.advertencia palabra :: resto => palabra :: terminos_advertidos resto
  | _ :: resto => terminos_advertidos resto

/-- Reference: the term `p` is the text of some vocabulary entry. -/
def en_vocabulario (vocabulario : List PalabraVocab) (p : Cadena) : Bool :=
  vocabulario.any (fun v => decide (v.palabra = p))

/-- Reference: `idx2` is `idx` with the postings inside each inverted list permuted. -/
def ListasPermutadas {α : Type} (idx idx2 : Indice α) : Prop :=
  idx2.vocabulario = idx.vocabulario ∧ idx2.documentos = idx.documentos ∧
  List.Forall₂ (fun l l2 => l2.palabra_id = l.palabra_id ∧ l2.documentos.Perm l.documentos)
    idx.listas_invertidas idx2.listas_invertidas

/-- The example index with the two postings of perro in the reverse order. -/
def indice_ejemplo_permutado (α : Type) [LinearOrderedField α] : Indice α :=
  { vocabulario := [⟨"perro".toList, 0, 2⟩, ⟨"gato".toList, 1, 1⟩],
    documentos := [⟨0, "doc0".toList⟩, ⟨1, "doc1".toList⟩, ⟨2, "doc2".toList⟩],
    listas_invertidas := [⟨0, [⟨1, 1⟩, ⟨0, 1 / 2⟩]⟩, ⟨1, [⟨2, 1⟩]⟩] }

/-- Reference: the postings `ps` with the frequency at position `k` replaced by `f2`. -/
def reemplazar_posting {α : Type} : List (DocFrec α) → Nat → α → List (DocFrec α)
  | [], _, _ => []
  | p :: resto, 0, f2 => { doc_id := p.doc_id, frecuencia_norm := f2 } :: resto
  | p :: resto, k + 1, f2 => p :: reemplazar_posting resto k f2

/-- Reference: the lists `ls` with the frequency of posting `k` of list `j` replaced by `f2`. -/
def reemplazar_en_listas {α : Type} :
    List (ListaInvertida α) → Nat → Nat → α → List (ListaInvertida α)
  | [], _, _, _ => []
  | l :: resto, 0, k, f2 =>
    { palabra_id := l.palabra_id, documentos := reemplazar_posting l.documentos k f2 } :: resto
  | l :: resto, j + 1, k, f2 => l :: reemplazar_en_listas resto j k f2

/-- Reference: the index with the frequency of posting `k` of inverted list `j` replaced by
`f2`, all else equal. -/
def reemplazar_frecuencia {α : Type} (idx : Indice α) (j k : Nat) (f2 : α) : Indice α :=
  { vocabulario := idx.vocabulario,
    documentos := idx.documentos,
    listas_invertidas := reemplazar_en_listas idx.listas_invertidas j k f2 }

/-- An index in which perro has a document frequency above the document count: one
document (`N = 1`), perro df 2, and an inverted list of two postings, both for document 0. -/
def indice_df_excesivo (α : Type) [LinearOrderedField α] : Indice α :=
  { vocabulario := [⟨"perro".toList, 0, 2⟩],
    documentos := [⟨0, "d0".toList⟩],
    listas_invertidas := [⟨0, [⟨0, 1 / 2⟩, ⟨0, 1 / 2⟩]⟩] }

/-! ## The collect step as a transition system -/

/-- Where a node stands inside the collect step of a turn: in the receiving loop about to
handle peer `p`, in the sending loop about to handle peer `p`, or past both loops. -/
inductive Control where
  | recibiendo (p : Nat) : Control
  | enviando (p : Nat) : Control
  | terminado : Control
deriving DecidableEq

/-- The state of the cluster during the collect step: the control point of every node and,
for every ordered pair of nodes, the number of messages (count with its results) sent and
not yet received. -/
structure EstadoRed where
  control : Nat → Control
  en_vuelo : Nat → Nat → Nat

/-- The state when every node enters the receiving loop and nothing has been sent. -/
def estado_inicial : EstadoRed :=
  { control := fun _ => Control.recibiendo 0, en_vuelo := fun _ _ => 0 }

/-- One step of node `r`, following the two loops of `main`: in the receiving loop the node
copies its own results at `p == rank` and otherwise executes `MPI_Recv` from `p`, which
proceeds only if a message from `p` is in flight; in the sending loop it executes `MPI_Send`
to every `p != rank`, taken here as never blocking (a buffered send, the most permissive
behaviour MPI allows). `none` means the node cannot move: blocked in `MPI_Recv`, or done. -/
def paso (size r : Nat) (e : EstadoRed) : Option EstadoRed :=
  match e.control r with
  | Control.recibiendo p =>
    if size ≤ p then
      some { control := Function.update e.control r (Control.enviando 0), en_vuelo := e.en_vuelo }
    else if p = r then
      some { control := Function.update e.control r (Control.recibiendo (p + 1)),
             en_vuelo := e.en_vuelo }
    else if 0 < e.en_vuelo p r then
      some { control := Function.update e.control r (Control.recibiendo (p + 1)),
             en_vuelo := Function.update e.en_vuelo p
               (Function.update (e.en_vuelo p) r (e.en_vuelo p r - 1)) }
    else none
  | Control.enviando p =>
    if size ≤ p then
      some { control := Function.update e.control r Control.terminado, en_vuelo := e.en_vuelo }
    else if p = r then
      some { control := Function.update e.control r (Control.enviando (p + 1)),
             en_vuelo := e.en_vuelo }
    else
      some { control := Function.update e.control r (Control.enviando (p + 1)),
             en_vuelo := Function.update e.en_vuelo r
               (Function.update (e.en_vuelo r) p (e.en_vuelo r p + 1)) }
  | Control.terminado => none

/-- The states the cluster can reach from `estado_inicial`, whatever the interleaving. -/
inductive Alcanzable (size : Nat) : EstadoRed → Prop where
  | inicio : Alcanzable size estado_inicial
  | avance (e e2 : EstadoRed) (r : Nat) (hr : r < size) (ha : Alcanzable size e)
      (hp : paso size r e = some e2) : Alcanzable size e2

/-! ## The process state around a query -/

/-- The memory a query evaluation works on: the global index and the arrays the function
fills (`rankings`, `resultados_locales` / `resultados` with their counter) and, for
buscador.c, what has been printed. -/
structure Memoria (α : Type) where
  indice : Indice α
  rankings : List α
  resultados : List (ResultadoBusqueda α)
  impreso : List (Salida α)

/-- Function `procesar_consulta_local` as a transformer of the process memory: every
assignment of the body goes to `rankings`, `resultados_locales` or `*num_resultados`. -/
def procesar_consulta_local_mem {α : Type} [LinearOrderedField α]
    (qsort : List (ResultadoBusqueda α) → List (ResultadoBusqueda α)) (log10 : α → α)
    (m : Memoria α) (consulta : Cadena) (_K : Int) : Option (Memoria α) :=
  if (palabras_consulta consulta).length = 0 then
    some { indice := m.indice, rankings := m.rankings, resultados := [], impreso := m.impreso }
  else if (resolver_ids m.indice.vocabulario (palabras_consulta consulta)).length = 0 then
    some { indice := m.indice, rankings := m.rankings, resultados := [], impreso := m.impreso }
  else
    match acumular_consulta log10 m.indice
        (resolver_ids m.indice.vocabulario (palabras_consulta consulta))
        (rankings_iniciales m.indice) with
    | none => none
    | some r =>
      some { indice := m.indice, rankings := r,
             resultados := qsort (recopilar_desde 0 r m.indice.documentos),
             impreso := m.impreso }

/-- Function `procesar_consulta` of buscador.c as a transformer of the process memory:
the body assigns to `rankings` and `resultados` and prints. -/
def procesar_consulta_mem {α : Type} [LinearOrderedField α]
    (qsort : List (ResultadoBusqueda α) → List (ResultadoBusqueda α)) (log10 : α → α)
    (m : Memoria α) (consulta : Cadena) : Option (Memoria α) :=
  if (palabras_consulta consulta).length = 0 then
    some { indice := m.indice, rankings := m.rankings, resultados := m.resultados,
           impreso := m.impreso ++ [Salida.sin_palabras_validas] }
  else if (resolver_ids m.indice.vocabulario (palabras_consulta consulta)).length = 0 then
    some { indice := m.indice, rankings := m.rankings, resultados := m.resultados,
           impreso := m.impreso ++ advertencias m.indice.vocabulario (palabras_consulta consulta)
             ++ [Salida.ninguna_en_vocabulario] }
  else
    match acumular_consulta log10 m.indice
        (resolver_ids m.indice.vocabulario (palabras_consulta consulta))
        (rankings_iniciales m.indice) with
    | none => none
    | some r =>
      some { indice := m.indice, rankings := r,
             resultados := qsort (recopilar_sin_url 0 r),
             impreso := m.impreso
               ++ advertencias m.indice.vocabulario (palabras_consulta consulta)
               ++ (if (recopilar_sin_url 0 r).length = 0 then [Salida.sin_documentos_relevantes]
                   else (qsort (recopilar_sin_url 0 r)).map
                     (fun e => Salida.par (e.doc_id + 1) e.ranking)) }

/-! ## The batch loop of `main` -/

/-- The iterations of the inner loop `for (i = 0; i < consultas_en_lote; i++)`: the query
index `lote + i` of each with its number `consulta_id`, which is incremented at the end of
the iteration. The body of an iteration, the turn, is not run here: the list is what the
loop does when every turn returns (`PasoLotes` has the loop with its turns). -/
def procesar_lote (lote consultas_en_lote consulta_id : Int) : List (Int × Int) :=
  (List.range consultas_en_lote.toNat).map
    (fun (i : Nat) => (lote + (i : Int), consulta_id + (i : Int)))

/-- The outer loop `for (lote = 0; lote < num_consultas_totales; lote += Q)` from the state
`(lote, consulta_id)`: the iterations of the inner loops, as pairs (query index,
consulta_id), when every turn returns. `fuel` bounds the number of iterations; `none` means
the loop has not ended within it. -/
def bucle_lotes (Q n : Int) : Nat → Int → Int → Option (List (Int × Int))
  | 0, _, _ => none
  | fuel + 1, lote, consulta_id =>
    if lote < n then
      match bucle_lotes Q n fuel (lote + Q)
          (consulta_id + (((if lote + Q ≤ n then Q else n - lote).toNat : Nat) : Int)) with
      | none => none
      | some resto =>
        some (procesar_lote lote (if lote + Q ≤ n then Q else n - lote) consulta_id ++ resto)
    else some []

/-! ## The text of the output lines -/

/-- The conversion `%d` of `fprintf`. -/
def decimal (n : Int) : Cadena := (toString n).toList

/-- The text each `fprintf` of `escribir_resultados` writes; `fmt3` is the conversion
`%.3f` of a `double`. -/
def texto_linea {α : Type} (fmt3 : α → Cadena) : Linea α → Cadena
  | Linea.encabezado numero => "Consulta ".toList ++ decimal numero ++ [':', '\n']
  | Linea.sin_resultados => "  No se encontraron resultados".toList ++ ['\n']
  | Linea.resultado posicion doc ranking url =>
    "  ".toList ++ decimal posicion ++ ". (doc=".toList ++ decimal doc
      ++ ", ranking=".toList ++ fmt3 ranking ++ ") ".toList ++ url ++ ['\n']
  | Linea.en_blanco => ['\n']

/-- Reference: the result line as the specification words it,
`rank. (doc=<docId+1>, score=<score, 3 decimals>) <url>`. -/
def linea_especificada {α : Type} (fmt3 : α → Cadena) (posicion doc : Int) (score : α)
    (url : Cadena) : Cadena :=
  decimal posicion ++ ". (doc=".toList ++ decimal doc ++ ", score=".toList ++ fmt3 score
    ++ ") ".toList ++ url

/-- An example result: document 0 with score 1/2 and url `u`. -/
def resultado_ejemplo : ResultadoBusqueda ℚ := { doc_id := 0, ranking := 1 / 2, url := ['u'] }

/-! ## Loading a partition

A file is given as the lines `fgets` returns from it, in order (`none`: `fopen` fails).
`%lf` is a parameter `leer_double`; `leer_decimal` is the instance for plain decimals. -/

/-- Constant `#define MAX_DOCS 10000`. -/
def MAX_DOCS : Nat := 10000

/-- Constant `#define MAX_WORDS 50000`. -/
def MAX_WORDS : Nat := 50000

/-- Constant `#define MAX_URL_LENGTH 512`. -/
def MAX_URL_LENGTH : Nat := 512

/-- How a load ends: with the loaded value, with the fatal abort (`MPI_Abort`, `exit(1)`),
with an access outside an array (undefined behaviour), or with the fuel of a loop used up. -/
inductive Carga (β : Type) where
  | cargado (x : β) : Carga β
  | abortado : Carga β
  | indefinido : Carga β
  | inconcluso : Carga β

/-- Sequencing of two loading steps. -/
def Carga.bind {β γ : Type} : Carga β → (β → Carga γ) → Carga γ
  | Carga.cargado x, f => f x
  | Carga.abortado, _ => Carga.abortado
  | Carga.indefinido, _ => Carga.indefinido
  | Carga.inconcluso, _ => Carga.inconcluso

/-- The loop `while (fgets(linea, sizeof(linea), f))` with body `cuerpo`. -/
def cargar_lineas {β : Type} (cuerpo : Cadena → β → Carga β) : List Cadena → β → Carga β
  | [], x => Carga.cargado x
  | linea :: resto, x => (cuerpo linea x).bind (cargar_lineas cuerpo resto)

/-- The C string a line buffer holds: its characters up to the first NUL. -/
def cadena_c (s : Cadena) : Cadena := s.takeWhile (fun c => c != Char.ofNat 0)

/-- Function `isspace` in the C locale. -/
def isspace (c : Char) : Bool :=
  c = ' ' || c = '\t' || c = '\n' || c = '\r' || c = Char.ofNat 11 || c = Char.ofNat 12

/-- Function `isdigit`. -/
def isdigit (c : Char) : Bool := decide ('0'.toNat ≤ c.toNat ∧ c.toNat ≤ '9'.toNat)

/-- The digits a numeric conversion consumes: the value read so far and the rest. -/
def leer_digitos : Nat → Cadena → Nat × Cadena
  | acc, [] => (acc, [])
  | acc, c :: cs =>
    if isdigit c then leer_digitos (10 * acc + (c.toNat - '0'.toNat)) cs else (acc, c :: cs)

/-- A nonempty run of digits. -/
def leer_sin_signo : Cadena → Option (Nat × Cadena)
  | [] => none
  | c :: cs => if isdigit c then some (leer_digitos 0 (c :: cs)) else none

/-- The conversion `%d` of `sscanf` (and the parsing of `atoi`): white space is skipped,
then an optional sign and at least one digit; the value and the unread rest. Values that do
not fit an `int` are undefined in C; the model keeps the mathematical value. -/
def leer_entero (s : Cadena) : Option (Int × Cadena) :=
  match s.dropWhile isspace with
  | [] => none
  | c :: cs =>
    if c = '-' then (leer_sin_signo cs).map (fun r => (-(r.1 : Int), r.2))
    else if c = '+' then (leer_sin_signo cs).map (fun r => ((r.1 : Int), r.2))
    else (leer_sin_signo (c :: cs)).map (fun r => ((r.1 : Int), r.2))

/-- Function `atoi`: the leading integer, `0` when there is none. -/
def atoi (s : Cadena) : Int :=
  match leer_entero s with
  | some r => r.1
  | none => 0

/-- Function `strchr(s, c)`: the suffix of `s` that starts at the first `c`. -/
def strchr : Cadena → Char → Option Cadena
  | [], _ => none
  | x :: xs, c => if x = c then some (x :: xs) else strchr xs c

/-- The conversion `%lf` for the texts `%.3f` writes: white space, an optional sign, digits
and optionally a point followed by digits (exponents, hexadecimal forms, `inf` and `nan`
are not covered by this instance). -/
def leer_decimal {α : Type} [LinearOrderedField α] (s : Cadena) : Option (α × Cadena) :=
  match leer_entero s with
  | none => none
  | some (n, r) =>
    match r with
    | [] => some ((n : α), [])
    | c :: cs =>
      if c = '.' then
        some ((if 0 ≤ n ∧ (s.dropWhile isspace).head? ≠ some '-' then
                (n : α) + ((leer_digitos 0 cs).1 : α)
                  / 10 ^ (cs.length - (leer_digitos 0 cs).2.length)
               else (n : α) - ((leer_digitos 0 cs).1 : α)
                  / 10 ^ (cs.length - (leer_digitos 0 cs).2.length)),
              (leer_digitos 0 cs).2)
      else some ((n : α), c :: cs)

/-- The call `sscanf(linea, "%[^,],%d,%d", palabra, &palabra_id, &num_docs) == 3`: a
nonempty run of characters other than the comma, a comma, an integer, a comma, an
integer. -/
def analizar_linea_vocabulario (linea : Cadena) : Option PalabraVocab :=
  if linea.takeWhile (fun c => c != ',') = [] then none
  else
    match linea.dropWhile (fun c => c != ',') with
    | [] => none
    | _ :: r1 =>
      match leer_entero r1 with
      | none => none
      | some (palabra_id, r2) =>
        match r2 with
        | [] => none
        | c :: r3 =>
          if c = ',' then
            (leer_entero r3).map (fun p =>
              { palabra := linea.takeWhile (fun c => c != ','), palabra_id := palabra_id,
                num_docs_con_palabra := p.1 })
          else none

/-- Body of the vocabulary loop: `%[^,]` writes to `palabra[MAX_WORD_LENGTH]` and a parsed
line is stored at `vocabulario[num_palabras]`; other lines are passed over. -/
def cargar_linea_vocabulario (linea : Cadena) (vocabulario : List PalabraVocab) :
    Carga (List PalabraVocab) :=
  if MAX_WORD_LENGTH ≤ ((cadena_c linea).takeWhile (fun c => c != ',')).length then
    Carga.indefinido
  else
    match analizar_linea_vocabulario (cadena_c linea) with
    | none => Carga.cargado vocabulario
    | some p =>
      if MAX_WORDS ≤ vocabulario.length then Carga.indefinido
      else Carga.cargado (vocabulario ++ [p])

/-- Function `cargar_vocabulario` after `fopen`. -/
def cargar_vocabulario (lineas : List Cadena) (vocabulario : List PalabraVocab) :
    Carga (List PalabraVocab) :=
  cargar_lineas cargar_linea_vocabulario lineas vocabulario

/-- The document line split at its first comma: `atoi` of the text before it and the text
after it (`coma + 1`); `none` when the line has no comma. -/
def analizar_linea_documento (linea : Cadena) : Option (Int × Cadena) :=
  match strchr linea ',' with
  | none => none
  | some coma => some (atoi (linea.takeWhile (fun c => c != ',')), coma.tail)

/-- The url without its last character when that is a newline. -/
def quitar_salto (url : Cadena) : Cadena :=
  if url.getLast? = some '\n' then url.dropLast else url

/-- The assignments `documentos[doc_id] = ...; if (doc_id >= num_documentos)
num_documentos = doc_id + 1` on the table of the first `num_documentos` entries of the
zero-initialised global array. -/
def guardar_documento (tabla : List Documento) (doc_id : Nat) (doc : Documento) :
    List Documento :=
  (tabla ++ List.replicate (doc_id + 1 - tabla.length)
    ({ doc_id := 0, url := [] } : Documento)).set doc_id doc

/-- Body of the documents loop: lines without a comma are passed over; `strcpy(url, coma + 1)` writes to
`url[MAX_URL_LENGTH]` and the entry goes to `documentos[doc_id]`. -/
def cargar_linea_documento (linea : Cadena) (tabla : List Documento) : Carga (List Documento) :=
  match analizar_linea_documento (cadena_c linea) with
  | none => Carga.cargado tabla
  | some (doc_id, url) =>
    if MAX_URL_LENGTH ≤ url.length then Carga.indefinido
    else if doc_id < 0 ∨ (MAX_DOCS : Int) ≤ doc_id then Carga.indefinido
    else Carga.cargado
      (guardar_documento tabla doc_id.toNat { doc_id := doc_id, url := quitar_salto url })

/-- Function `cargar_documentos` after `fopen`. -/
def cargar_documentos (lineas : List Cadena) (tabla : List Documento) : Carga (List Documento) :=
  cargar_lineas cargar_linea_documento lineas tabla

/-- The call `sscanf(ptr, "%d,%lf", &doc_id, &frec) == 2`. -/
def leer_par {α : Type} (leer_double : Cadena → Option (α × Cadena)) (s : Cadena) :
    Option (DocFrec α) :=
  match leer_entero s with
  | none => none
  | some (doc_id, r) =>
    match r with
    | [] => none
    | c :: r2 =>
      if c = ',' then
        (leer_double r2).map (fun p => { doc_id := doc_id, frecuencia_norm := p.1 })
      else none

/-- The loop `while (ptr != NULL)` over the pairs of a line: `ptr` is at a comma,
`documentos` holds the `num_docs` pairs stored so far in a block of `capacity` entries,
which is doubled when full. -/
def leer_pares {α : Type} (leer_double : Cadena → Option (α × Cadena)) :
    Nat → Option Cadena → List (DocFrec α) → Nat → Carga (List (DocFrec α))
  | _, none, documentos, _ => Carga.cargado documentos
  | 0, some _, _, _ => Carga.inconcluso
  | fuel + 1, some ptr, documentos, capacity =>
    match leer_par leer_double ptr.tail with
    | none => Carga.cargado documentos
    | some par =>
      if (if capacity ≤ documentos.length then capacity * 2 else capacity) ≤ documentos.length
      then Carga.indefinido
      else
        leer_pares leer_double fuel
          (match strchr ptr.tail ',' with
           | none => none
           | some p => strchr p.tail ',')
          (documentos ++ [par])
          (if capacity ≤ documentos.length then capacity * 2 else capacity)

/-- Body of the inverted-lists loop on one string read by `fgets`: a string that starts with
an integer opens the list `listas_invertidas[num_listas]` with capacity 100, its pairs are
read, and `num_listas` is incremented; other strings are passed over. -/
def cargar_linea_lista {α : Type} (leer_double : Cadena → Option (α × Cadena))
    (linea : Cadena) (listas : List (ListaInvertida α)) : Carga (List (ListaInvertida α)) :=
  match leer_entero (cadena_c linea) with
  | none => Carga.cargado listas
  | some (palabra_id, _) =>
    if MAX_WORDS ≤ listas.length then Carga.indefinido
    else
      (leer_pares leer_double (cadena_c linea).length (strchr (cadena_c linea) ',') [] 100).bind
        (fun documentos =>
          Carga.cargado (listas ++ [{ palabra_id := palabra_id, documentos := documentos }]))

/-- Function `cargar_listas_invertidas` after `fopen`. -/
def cargar_listas_invertidas {α : Type} (leer_double : Cadena → Option (α × Cadena))
    (lineas : List Cadena) (listas : List (ListaInvertida α)) :
    Carga (List (ListaInvertida α)) :=
  cargar_lineas (cargar_linea_lista leer_double) lineas listas

/-- The three files of a partition, each as the lines read from it, `none` when it
cannot be opened. -/
structure ArchivosParticion where
  vocabulario : Option (List Cadena)
  documentos : Option (List Cadena)
  listas_invertidas : Option (List Cadena)

/-- Function `cargar_indice_local` (in buscador.c, the three loaders called by `main`): the
vocabulary, then the documents, then the inverted lists, with the fatal abort at the first
file that cannot be opened. -/
def cargar_indice_local {α : Type} (leer_double : Cadena → Option (α × Cadena))
    (archivos : ArchivosParticion) : Carga (Indice α) :=
  match archivos.vocabulario with
  | none => Carga.abortado
  | some lineas_vocabulario =>
    (cargar_vocabulario lineas_vocabulario []).bind (fun vocabulario =>
      match archivos.documentos with
      | none => Carga.abortado
      | some lineas_documentos =>
        (cargar_documentos lineas_documentos []).bind (fun documentos =>
          match archivos.listas_invertidas with
          | none => Carga.abortado
          | some lineas_listas =>
            (cargar_listas_invertidas leer_double lineas_listas []).bind (fun listas =>
              Carga.cargado
                { vocabulario := vocabulario, documentos := documentos,
                  listas_invertidas := listas })))

/-- The document ids of the lines of a documents file that have a comma, in file order. -/
def ids_de_documentos (lineas : List Cadena) : List Int :=
  lineas.filterMap (fun linea => (analizar_linea_documento (cadena_c linea)).map (fun p => p.1))

/-- One more than the largest of a list of ids, `0` for the empty list. -/
def mayor_id_mas_uno (ids : List Int) : Int := ids.foldr (fun d m => max (d + 1) m) 0

/-- A line of a documents file that the loop body handles within its arrays: no comma, or
fewer than `MAX_URL_LENGTH` characters after the first comma and an id in
`[0, MAX_DOCS)`. -/
def LineaDocumentoEnRango (linea : Cadena) : Prop :=
  match analizar_linea_documento (cadena_c linea) with
  | none => True
  | some (doc_id, url) => url.length < MAX_URL_LENGTH ∧ 0 ≤ doc_id ∧ doc_id < (MAX_DOCS : Int)

/-- Struct `DocFreq` of indexador.c: `int doc_id; int frecuencia`. -/
structure DocFreq where
  doc_id : Int
  frecuencia : Int
deriving DecidableEq, Repr

/-- Struct `PalabraVocab` of indexador.c: `char palabra[]; int palabra_id; int num_docs;
DocFreq *doc_freqs; int capacity`; `doc_freqs` lists the entries written to the block. -/
structure PalabraVocabIndexador where
  palabra : Cadena
  palabra_id : Int
  num_docs : Int
  doc_freqs : List DocFreq
  capacity : Int
deriving DecidableEq, Repr

/-- The globals of indexador.c: `documentos` (its first `num_documentos` entries),
`vocabulario` (its first `num_palabras` entries) and `max_freq_por_doc`. -/
structure EstadoIndexador where
  documentos : List Documento
  vocabulario : List PalabraVocabIndexador
  max_freq_por_doc : Int → Int

/-- The globals when `main` starts, after the loop that clears `max_freq_por_doc`. -/
def estado_indexador_inicial : EstadoIndexador :=
  { documentos := [], vocabulario := [], max_freq_por_doc := fun _ => 0 }

/-- Function `es_stopword`: linear scan with `strcmp`. -/
def es_stopword : List Cadena → Cadena → Bool
  | [], _ => false
  | s :: resto, palabra => if s = palabra then true else es_stopword resto palabra

/-- The loop of `limpiar_palabra` of indexador.c: `j` is the write position in `limpia`. -/
def limpiar_desde_indexador (j : Nat) : Cadena → Cadena
  | [] => []
  | c :: cs =>
    if j < MAX_WORD_LENGTH - 1 then
      if c.isAlpha then c.toLower :: limpiar_desde_indexador (j + 1) cs
      else limpiar_desde_indexador j cs
    else []

/-- Function `limpiar_palabra` of indexador.c. -/
def limpiar_palabra_indexador (palabra : Cadena) : Cadena := limpiar_desde_indexador 0 palabra

/-- The loop of `buscar_palabra_vocabulario` from index `i`. -/
def buscar_palabra_desde (palabra : Cadena) : List PalabraVocabIndexador → Nat → Int
  | [], _ => -1
  | v :: resto, i =>
    if v.palabra = palabra then (i : Int) else buscar_palabra_desde palabra resto (i + 1)

/-- Function `buscar_palabra_vocabulario`: the index of the word, or `-1`. -/
def buscar_palabra_vocabulario (vocabulario : List PalabraVocabIndexador) (palabra : Cadena) :
    Int :=
  buscar_palabra_desde palabra vocabulario 0

/-- Function `agregar_palabra_vocabulario`: nothing is added once `MAX_WORDS` is reached. -/
def agregar_palabra_vocabulario (st : EstadoIndexador) (palabra : Cadena) : EstadoIndexador :=
  if (MAX_WORDS : Int) ≤ st.vocabulario.length then st
  else
    { st with vocabulario := st.vocabulario ++
        [{ palabra := palabra, palabra_id := st.vocabulario.length, num_docs := 0,
           doc_freqs := [], capacity := 10 }] }

/-- The search loop of `agregar_frecuencia_palabra` from index `i`: `doc_encontrado`. -/
def buscar_doc (doc_id : Int) : List DocFreq → Nat → Int
  | [], _ => -1
  | e :: resto, i => if e.doc_id = doc_id then (i : Int) else buscar_doc doc_id resto (i + 1)

/-- The word after `agregar_frecuencia_palabra`, and the frequency the function then compares
with `max_freq_por_doc[doc_id]`: the entry of the document is incremented, or a new entry
with frequency 1 is written at `doc_freqs[num_docs]`, the capacity being doubled when
`num_docs >= capacity`. -/
def registrar_ocurrencia (palabra : PalabraVocabIndexador) (doc_id : Int) :
    Option (PalabraVocabIndexador × Int) :=
  if 0 ≤ buscar_doc doc_id (palabra.doc_freqs.take palabra.num_docs.toNat) 0 then
    match palabra.doc_freqs[(buscar_doc doc_id
        (palabra.doc_freqs.take palabra.num_docs.toNat) 0).toNat]? with
    | none => none
    | some e =>
      some ({ palabra with
              doc_freqs := palabra.doc_freqs.set
                (buscar_doc doc_id (palabra.doc_freqs.take palabra.num_docs.toNat) 0).toNat
                { doc_id := e.doc_id, frecuencia := e.frecuencia + 1 } },
            e.frecuencia + 1)
  else
    if (if palabra.capacity ≤ palabra.num_docs then palabra.capacity * 2 else palabra.capacity)
        ≤ palabra.num_docs ∨ palabra.num_docs < 0
        ∨ (palabra.doc_freqs.length : Int) < palabra.num_docs then none
    else
      some ({ palabra with
              num_docs := palabra.num_docs + 1,
              doc_freqs := palabra.doc_freqs.take palabra.num_docs.toNat
                ++ [{ doc_id := doc_id, frecuencia := 1 }],
              capacity := if palabra.capacity ≤ palabra.num_docs then palabra.capacity * 2
                          else palabra.capacity },
            1)

/-- Function `agregar_frecuencia_palabra`. -/
def agregar_frecuencia_palabra (st : EstadoIndexador) (palabra_idx doc_id : Int) :
    Option EstadoIndexador :=
  if palabra_idx < 0 ∨ doc_id < 0 ∨ (MAX_DOCS : Int) ≤ doc_id then none
  else
    match st.vocabulario[palabra_idx.toNat]? with
    | none => none
    | some palabra =>
      match registrar_ocurrencia palabra doc_id with
      | none => none
      | some (palabra2, frecuencia) =>
        some { st with
          vocabulario := st.vocabulario.set palabra_idx.toNat palabra2,
          max_freq_por_doc :=
            if frecuencia > st.max_freq_por_doc doc_id then
              (fun d => if d = doc_id then frecuencia else st.max_freq_por_doc d)
            else st.max_freq_por_doc }

/-- The body of the token loop of `procesar_base_texto` for one token. -/
def procesar_token (stops : List Cadena) (doc_actual : Int) (st : EstadoIndexador)
    (token : Cadena) : Option EstadoIndexador :=
  if (limpiar_palabra_indexador token).length > 0
      ∧ es_stopword stops (limpiar_palabra_indexador token) = false then
    if buscar_palabra_vocabulario st.vocabulario (limpiar_palabra_indexador token) < 0 then
      agregar_frecuencia_palabra
        (agregar_palabra_vocabulario st (limpiar_palabra_indexador token))
        (((agregar_palabra_vocabulario st (limpiar_palabra_indexador token)).vocabulario.length
          : Int) - 1)
        doc_actual
    else
      agregar_frecuencia_palabra st
        (buscar_palabra_vocabulario st.vocabulario (limpiar_palabra_indexador token)) doc_actual
  else some st

/-- The token loop over the tokens of a line. -/
def procesar_tokens (stops : List Cadena) (doc_actual : Int) :
    List Cadena → EstadoIndexador → Option EstadoIndexador
  | [], st => some st
  | token :: resto, st =>
    match procesar_token stops doc_actual st token with
    | none => none
    | some st2 => procesar_tokens stops doc_actual resto st2

/-- Whether the string `s` starts with `p`. -/
def empieza_con : Cadena → Cadena → Bool
  | _, [] => true
  | [], _ :: _ => false
  | c :: cs, p :: ps => c = p && empieza_con cs ps

/-- Function `strstr(s, aguja)`: the suffix of `s` at the first occurrence of `aguja`. -/
def strstr : Cadena → Cadena → Option Cadena
  | [], aguja => if aguja = [] then some [] else none
  | c :: cs, aguja => if empieza_con (c :: cs) aguja then some (c :: cs) else strstr cs aguja

/-- The globals with the locals `doc_actual` and `en_texto` of `procesar_base_texto`. -/
structure Lectura where
  estado : EstadoIndexador
  doc_actual : Int
  en_texto : Bool

/-- The branch of a `<DOCUMENTO [ID]>` line: the text between the first `[` and the first
`]` goes to `num_str[20]` and `doc_actual = atoi(num_str) - 1`. -/
def procesar_linea_documento (linea : Cadena) (l : Lectura) : Option Lectura :=
  match strchr linea '[', strchr linea ']' with
  | some inicio, some fin =>
    if (inicio.length : Int) - fin.length - 1 < 0 ∨ 20 ≤ (inicio.length : Int) - fin.length - 1
    then none
    else some { l with doc_actual := atoi (inicio.tail.take (inicio.length - fin.length - 1)) - 1 }
  | _, _ => some l

/-- The branch of a `<URL ruta>` line: five characters after the start of `<URL` and the
spaces that follow are skipped, the url runs up to the first `>` or to the end of the line,
and it is stored at `documentos[doc_actual]`. -/
def procesar_linea_url (linea : Cadena) (l : Lectura) : Option Lectura :=
  match strstr linea "<URL".toList with
  | none => some l
  | some inicio =>
    if inicio.length < 5 then none
    else if l.doc_actual < 0 ∨ (MAX_DOCS : Int) ≤ l.doc_actual then none
    else if 512 ≤ (((inicio.drop 5).dropWhile (fun c => c = ' ')).takeWhile
        (fun c => c != '>')).length then none
    else
      some { l with estado := { l.estado with
        documentos := guardar_documento l.estado.documentos l.doc_actual.toNat
          { doc_id := l.doc_actual,
            url := ((inicio.drop 5).dropWhile (fun c => c = ' ')).takeWhile
              (fun c => c != '>') } } }

/-- The body of the reading loop of `procesar_base_texto` for one line. -/
def procesar_linea (stops : List Cadena) (linea : Cadena) (l : Lectura) : Option Lectura :=
  if (strstr (quitar_salto (cadena_c linea)) "<DOCUMENTO".toList).isSome then
    procesar_linea_documento (quitar_salto (cadena_c linea)) l
  else if (strstr (quitar_salto (cadena_c linea)) "<URL".toList).isSome then
    procesar_linea_url (quitar_salto (cadena_c linea)) l
  else if (strstr (quitar_salto (cadena_c linea)) "<TEXTO>".toList).isSome then
    some { l with en_texto := true }
  else if (strstr (quitar_salto (cadena_c linea)) "</TEXTO>".toList).isSome then
    some { l with en_texto := false }
  else if l.en_texto = true ∧ 0 ≤ l.doc_actual then
    match procesar_tokens stops l.doc_actual
        (strtok_desde (quitar_salto (cadena_c linea)) []) l.estado with
    | none => none
    | some st => some { l with estado := st }
  else some l

/-- The reading loop of `procesar_base_texto`. -/
def procesar_lineas (stops : List Cadena) : List Cadena → Lectura → Option Lectura
  | [], l => some l
  | linea :: resto, l =>
    match procesar_linea stops linea l with
    | none => none
    | some l2 => procesar_lineas stops resto l2

/-- Function `procesar_base_texto`: nothing is read when the file cannot be opened. -/
def procesar_base_texto (archivo_base : Option (List Cadena)) (stops : List Cadena)
    (st : EstadoIndexador) : Option EstadoIndexador :=
  match archivo_base with
  | none => some st
  | some lineas =>
    match procesar_lineas stops lineas { estado := st, doc_actual := -1, en_texto := false } with
    | none => none
    | some l => some l.estado

/-- The inner loop of `calcular_max_frecuencias` over the entries of one word. -/
def calcular_max_palabra : List DocFreq → (Int → Int) → Option (Int → Int)
  | [], m => some m
  | e :: resto, m =>
    if e.doc_id < 0 ∨ (MAX_DOCS : Int) ≤ e.doc_id then none
    else
      calcular_max_palabra resto
        (if e.frecuencia > m e.doc_id then (fun d => if d = e.doc_id then e.frecuencia else m d)
         else m)

/-- Function `calcular_max_frecuencias`: the array `max_freq_por_doc` after the two loops. -/
def calcular_max_frecuencias : List PalabraVocabIndexador → (Int → Int) → Option (Int → Int)
  | [], m => some m
  | palabra :: resto, m =>
    if (palabra.doc_freqs.length : Int) < palabra.num_docs then none
    else
      match calcular_max_palabra (palabra.doc_freqs.take palabra.num_docs.toNat) m with
      | none => none
      | some m2 => calcular_max_frecuencias resto m2

/-- Function `strcmp` on strings without NUL: the sign of the first difference. -/
def strcmp : Cadena → Cadena → Int
  | [], [] => 0
  | [], _ :: _ => -1
  | _ :: _, [] => 1
  | a :: resto_a, b :: resto_b =>
    if a = b then strcmp resto_a resto_b else (a.toNat : Int) - (b.toNat : Int)

/-- Function `comparar_palabras`. -/
def comparar_palabras (pa pb : PalabraVocabIndexador) : Int := strcmp pa.palabra pb.palabra

/-- Function `comparar_doc_ids`. -/
def comparar_doc_ids (da db : DocFreq) : Int := da.doc_id - db.doc_id

/-- The contract of `qsort` with a comparator: the result is a permutation of the array and
is ordered by the comparator. -/
def ContratoQsortCon {β : Type} (comparar : β → β → Int) (qsort : List β → List β) : Prop :=
  ∀ xs, (qsort xs).Perm xs ∧ (qsort xs).Pairwise (fun a b => comparar a b ≤ 0)

/-- The loop of `main` that reassigns `vocabulario[i].palabra_id = i`, from index `i`. -/
def reasignar_ids : List PalabraVocabIndexador → Nat → List PalabraVocabIndexador
  | [], _ => []
  | p :: resto, i => { p with palabra_id := (i : Int) } :: reasignar_ids resto (i + 1)

/-- A line of vocabulario.txt, written with `"%s,%d,%d\n"`. -/
structure LineaVocabulario where
  palabra : Cadena
  palabra_id : Int
  num_docs : Int
deriving DecidableEq, Repr

/-- A line of listas_invertidas.txt: the id written with `"%d"` and, for each entry, the
pair written with `",%d,%.3f"`; the frequency is the `double` before its rounding. -/
structure LineaListas (α : Type) where
  palabra_id : Int
  pares : List (Int × α)

/-- The three files the indexer writes; a line of documentos.txt is `"%d,%s\n"`. -/
structure ArchivosIndice (α : Type) where
  vocabulario_txt : List LineaVocabulario
  documentos_txt : List (Int × Cadena)
  listas_invertidas_txt : List (LineaListas α)

/-- Function `generar_vocabulario_txt` (the file opens). -/
def generar_vocabulario_txt (vocabulario : List PalabraVocabIndexador) : List LineaVocabulario :=
  vocabulario.map (fun p =>
    { palabra := p.palabra, palabra_id := p.palabra_id, num_docs := p.num_docs })

/-- Function `generar_documentos_txt` (the file opens). -/
def generar_documentos_txt (documentos : List Documento) : List (Int × Cadena) :=
  documentos.map (fun d => (d.doc_id, d.url))

/-- The pairs of one line of listas_invertidas.txt: for each entry the document id and
`(double)freq / max_freq_por_doc[doc_id]`, or `0.0` when that maximum is not positive. -/
def pares_de_linea {α : Type} [LinearOrderedField α] (max_freq_por_doc : Int → Int) :
    List DocFreq → Option (List (Int × α))
  | [] => some []
  | e :: resto =>
    if e.doc_id < 0 ∨ (MAX_DOCS : Int) ≤ e.doc_id then none
    else
      match pares_de_linea max_freq_por_doc resto with
      | none => none
      | some ps =>
        some ((e.doc_id,
               if max_freq_por_doc e.doc_id > 0 then
                 (e.frecuencia : α) / (max_freq_por_doc e.doc_id : α)
               else 0) :: ps)

/-- Function `generar_listas_invertidas_txt` (the file opens): for each word its first
`num_docs` entries are sorted by `qsort` with `comparar_doc_ids` and written. -/
def generar_listas_invertidas_txt {α : Type} [LinearOrderedField α]
    (qsort_doc_freqs : List DocFreq → List DocFreq) (max_freq_por_doc : Int → Int) :
    List PalabraVocabIndexador → Option (List (LineaListas α))
  | [] => some []
  | palabra :: resto =>
    if (palabra.doc_freqs.length : Int) < palabra.num_docs then none
    else
      match pares_de_linea max_freq_por_doc
          (qsort_doc_freqs (palabra.doc_freqs.take palabra.num_docs.toNat)),
        generar_listas_invertidas_txt qsort_doc_freqs max_freq_por_doc resto with
      | some pares, some lineas => some ({ palabra_id := palabra.palabra_id, pares := pares } :: lineas)
      | _, _ => none

/-- Function `cargar_stopwords`: each line read into `palabra[MAX_WORD_LENGTH]` without its
final newline, empty lines left out; `none` when the file cannot be opened. -/
def cargar_stopwords (archivo : Option (List Cadena)) : Option (List Cadena) :=
  match archivo with
  | none => none
  | some lineas =>
    some ((lineas.map (fun l => quitar_salto (cadena_c l))).filter (fun p => p.length > 0))

/-- How `main` of indexador.c ends: with the files written, with `return 1` before anything
is written (the stopwords cannot be opened), or in undefined behaviour. -/
inductive FinIndexador (α : Type) where
  | escrito (archivos : ArchivosIndice α) : FinIndexador α
  | sin_stopwords : FinIndexador α
  | indefinido : FinIndexador α

/-- The steps of `main` after `procesar_base_texto`: `calcular_max_frecuencias`, `qsort` of
the vocabulary with `comparar_palabras`, the new ids and the three files. -/
def emitir_indice {α : Type} [LinearOrderedField α]
    (qsort_vocabulario : List PalabraVocabIndexador → List PalabraVocabIndexador)
    (qsort_doc_freqs : List DocFreq → List DocFreq) (st : EstadoIndexador) :
    Option (ArchivosIndice α) :=
  match calcular_max_frecuencias st.vocabulario st.max_freq_por_doc with
  | none => none
  | some m =>
    match generar_listas_invertidas_txt qsort_doc_freqs m
        (reasignar_ids (qsort_vocabulario st.vocabulario) 0) with
    | none => none
    | some listas =>
      some { vocabulario_txt :=
               generar_vocabulario_txt (reasignar_ids (qsort_vocabulario st.vocabulario) 0),
             documentos_txt := generar_documentos_txt st.documentos,
             listas_invertidas_txt := listas }

/-- Function `main` of indexador.c on the two input files. -/
def indexador_main {α : Type} [LinearOrderedField α]
    (qsort_vocabulario : List PalabraVocabIndexador → List PalabraVocabIndexador)
    (qsort_doc_freqs : List DocFreq → List DocFreq)
    (archivo_base archivo_stopwords : Option (List Cadena)) : FinIndexador α :=
  match cargar_stopwords archivo_stopwords with
  | none => FinIndexador.sin_stopwords
  | some stops =>
    match procesar_base_texto archivo_base stops estado_indexador_inicial with
    | none => FinIndexador.indefinido
    | some st =>
      match emitir_indice qsort_vocabulario qsort_doc_freqs st with
      | none => FinIndexador.indefinido
      | some archivos => FinIndexador.escrito archivos

/-- An executable `qsort` of the vocabulary: insertion sort with `comparar_palabras`. -/
def ordenar_vocabulario (xs : List PalabraVocabIndexador) : List PalabraVocabIndexador :=
  xs.insertionSort (fun a b => comparar_palabras a b ≤ 0)

/-- An executable `qsort` of the entries of a word: insertion sort with `comparar_doc_ids`. -/
def ordenar_doc_freqs (xs : List DocFreq) : List DocFreq :=
  xs.insertionSort (fun a b => comparar_doc_ids a b ≤ 0)

/-- The invariant of a word of the vocabulary of the indexer: `num_docs` counts the entries
written, within the capacity; no document has two entries; every entry has a frequency of
at least 1, a document id in `[0, MAX_DOCS)`, and a frequency bounded by the maximum
recorded for its document. -/
def PalabraConsistente (max_freq_por_doc : Int → Int) (p : PalabraVocabIndexador) : Prop :=
  p.num_docs = (p.doc_freqs.length : Int) ∧ p.num_docs ≤ p.capacity ∧ 0 < p.capacity ∧
  (p.doc_freqs.map (fun e => e.doc_id)).Nodup ∧
  ∀ e ∈ p.doc_freqs, 1 ≤ e.frecuencia ∧ 0 ≤ e.doc_id ∧ e.doc_id < (MAX_DOCS : Int) ∧
    e.frecuencia ≤ max_freq_por_doc e.doc_id

/-- The invariant of the globals of the indexer: the words are pairwise distinct, each is
consistent, and each recorded maximum is 0 or the frequency of some entry of the
document. -/
def EstadoConsistente (st : EstadoIndexador) : Prop :=
  (st.vocabulario.map (fun p => p.palabra)).Nodup ∧
  (∀ p ∈ st.vocabulario, PalabraConsistente st.max_freq_por_doc p) ∧
  (∀ d, st.max_freq_por_doc d = 0 ∨
    ∃ p ∈ st.vocabulario, ∃ e ∈ p.doc_freqs, e.doc_id = d ∧
      e.frecuencia = st.max_freq_por_doc d)

/-- Reference: the largest raw frequency of any word in document `d`, 0 when no word has
an entry for `d`. -/
def maximo_en_documento (vocabulario : List PalabraVocabIndexador) (d : Int) : Int :=
  ((vocabulario.flatMap (fun p => p.doc_freqs)).filter (fun e => e.doc_id = d)).foldr
    (fun e m => max e.frecuencia m) 0

/-- An example corpus: document 1 with the text `el perro y el gato` / `perro` and
document 2 with the text `gato azul`. -/
def corpus_ejemplo : List Cadena :=
  ["<DOCUMENTO [1]>\n".toList, "<URL http://a>\n".toList, "<TEXTO>\n".toList,
   "el perro y el gato\n".toList, "perro\n".toList, "</TEXTO>\n".toList,
   "<DOCUMENTO [2]>\n".toList, "<URL http://b>\n".toList, "<TEXTO>\n".toList,
   "gato azul\n".toList, "</TEXTO>\n".toList]

/-- An example stopwords file: `el` and `y`. -/
def stopwords_ejemplo : List Cadena := ["el\n".toList, "y\n".toList]

/-! ## The cells of `rankings` the scoring loop touches -/

/-- The document ids at which the `k` loop evaluates `rankings[doc_id] += w` for one
`palabra_id`: the postings of the first inverted list with that id, in order. -/
def accesos_palabra {α : Type} (palabra_id : Int) : List (ListaInvertida α) → List Int
  | [] => []
  | l :: resto =>
    if l.palabra_id = palabra_id then l.documentos.map (fun p => p.doc_id)
    else accesos_palabra palabra_id resto

/-- The document ids at which the scoring loops evaluate `rankings[doc_id] += w`, in
execution order, for the ids in `palabra_ids`. -/
def accesos_consulta {α : Type} (idx : Indice α) : List Int → List Int
  | [] => []
  | palabra_id :: resto =>
    accesos_palabra palabra_id idx.listas_invertidas ++ accesos_consulta idx resto

/-! ## `limpiar_palabra` of buscador_paralelo.c -/

/-- The loop of `limpiar_palabra` of buscador_paralelo.c: `j` is the write position. -/
def limpiar_desde_paralelo (j : Nat) : Cadena → Cadena
  | [] => []
  | c :: cs =>
    if j < MAX_WORD_LENGTH - 1 then
      if c.isAlpha then c.toLower :: limpiar_desde_paralelo (j + 1) cs
      else limpiar_desde_paralelo j cs
    else []

/-- Function `limpiar_palabra` of buscador_paralelo.c (`limpiar_palabra` is the one of
buscador.c). -/
def limpiar_palabra_paralelo (palabra : Cadena) : Cadena := limpiar_desde_paralelo 0 palabra

/-! ## One iteration of the batch loop -/

/-- One iteration of `for (lote = 0; lote < num_consultas_totales; lote += Q)` from the
state `(lote, consulta_id)`: `none` when the loop condition fails, else the turns of the
batch and the next state. -/
def paso_lote (Q n : Int) (lote consulta_id : Int) : Option (List (Int × Int) × Int × Int) :=
  if lote < n then
    some (procesar_lote lote (if lote + Q ≤ n then Q else n - lote) consulta_id,
          lote + Q,
          consulta_id + (((if lote + Q ≤ n then Q else n - lote).toNat : Nat) : Int))
  else none

/-- The state of the batch loop after `k` iterations from `(0, 0)`, with the turns driven
so far; `none` once the loop has ended. -/
def estado_tras_iteraciones (Q n : Int) : Nat → Option (List (Int × Int) × Int × Int)
  | 0 => some ([], 0, 0)
  | k + 1 =>
    match estado_tras_iteraciones Q n k with
    | none => none
    | some (turnos, lote, consulta_id) =>
      match paso_lote Q n lote consulta_id with
      | none => none
      | some (nuevos, lote2, consulta_id2) => some (turnos ++ nuevos, lote2, consulta_id2)

/-- The texts of the vocabulary of the indexer are filtered: each is non-empty, made of
lowercase letters, and not one of the stopwords. -/
def VocabularioFiltrado (stops : List Cadena) (st : EstadoIndexador) : Prop :=
  ∀ w ∈ st.vocabulario.map (fun p => p.palabra),
    w ≠ [] ∧ (∀ c ∈ w, c.isLower = true) ∧ w ∉ stops

/-! ## The dictionary tools (comparar_diccionarios.c, combinar_diccionarios.c)

A `ListaPalabras` is the list of its `count` words. -/

/-- How a run of a function ends: it returns, it reads outside an array (undefined
behaviour), or the fuel given to a loop is used up. -/
inductive Ejecucion (β : Type) where
  | retorna (x : β) : Ejecucion β
  | indefinido : Ejecucion β
  | inconcluso : Ejecucion β

/-- The `while (izquierda <= derecha)` loop of `buscar_palabra_binaria`
(comparar_diccionarios.c); the operands of the division are not negative inside the
loop. -/
def buscar_binaria_desde (palabras : List Cadena) (palabra : Cadena) :
    Nat → Int → Int → Ejecucion Int
  | 0, _, _ => Ejecucion.inconcluso
  | fuel + 1, izquierda, derecha =>
    if izquierda ≤ derecha then
      if izquierda + (derecha - izquierda) / 2 < 0 then Ejecucion.indefinido
      else
        match palabras[(izquierda + (derecha - izquierda) / 2).toNat]? with
        | none => Ejecucion.indefinido
        | some w =>
          if strcmp w palabra = 0 then Ejecucion.retorna 1
          else if strcmp w palabra < 0 then
            buscar_binaria_desde palabras palabra fuel
              (izquierda + (derecha - izquierda) / 2 + 1) derecha
          else
            buscar_binaria_desde palabras palabra fuel izquierda
              (izquierda + (derecha - izquierda) / 2 - 1)
    else Ejecucion.retorna 0

/-- Function `buscar_palabra_binaria` of comparar_diccionarios.c, the loop run with a fuel
of `count + 1` iterations. -/
def buscar_palabra_binaria (lista : List Cadena) (palabra : Cadena) : Ejecucion Int :=
  buscar_binaria_desde lista palabra (lista.length + 1) 0 ((lista.length : Int) - 1)

/-- The `while (izquierda <= derecha)` loop of `palabra_existe_binaria`
(combinar_diccionarios.c). -/
def existe_binaria_desde (palabras : List Cadena) (palabra : Cadena) :
    Nat → Int → Int → Ejecucion Int
  | 0, _, _ => Ejecucion.inconcluso
  | fuel + 1, izquierda, derecha =>
    if izquierda ≤ derecha then
      if izquierda + (derecha - izquierda) / 2 < 0 then Ejecucion.indefinido
      else
        match palabras[(izquierda + (derecha - izquierda) / 2).toNat]? with
        | none => Ejecucion.indefinido
        | some w =>
          if strcmp w palabra = 0 then Ejecucion.retorna 1
          else if strcmp w palabra < 0 then
            existe_binaria_desde palabras palabra fuel
              (izquierda + (derecha - izquierda) / 2 + 1) derecha
          else
            existe_binaria_desde palabras palabra fuel izquierda
              (izquierda + (derecha - izquierda) / 2 - 1)
    else Ejecucion.retorna 0

/-- Function `palabra_existe_binaria` of combinar_diccionarios.c, the loop run with a fuel
of `count + 1` iterations. -/
def palabra_existe_binaria (lista : List Cadena) (palabra : Cadena) : Ejecucion Int :=
  existe_binaria_desde lista palabra (lista.length + 1) 0 ((lista.length : Int) - 1)

/-- Function `palabra_existe` of combinar_diccionarios.c: the linear scan. -/
def palabra_existe : List Cadena → Cadena → Int
  | [], _ => 0
  | w :: resto, palabra => if strcmp w palabra = 0 then 1 else palabra_existe resto palabra

/-- The loop of `encontrar_palabras_faltantes` over the words of `base_html`; `faltantes`
is the list built so far. -/
def faltantes_desde (diccionario : List Cadena) :
    List Cadena → List Cadena → Ejecucion (List Cadena)
  | [], faltantes => Ejecucion.retorna faltantes
  | palabra :: resto, faltantes =>
    match buscar_palabra_binaria diccionario palabra with
    | Ejecucion.retorna r =>
      if r = 0 then faltantes_desde diccionario resto (faltantes ++ [palabra])
      else faltantes_desde diccionario resto faltantes
    | Ejecucion.indefinido => Ejecucion.indefinido
    | Ejecucion.inconcluso => Ejecucion.inconcluso

/-- Function `encontrar_palabras_faltantes` of comparar_diccionarios.c. -/
def encontrar_palabras_faltantes (base_html diccionario : List Cadena) :
    Ejecucion (List Cadena) :=
  faltantes_desde diccionario base_html []

/-! ## A corpus with more distinct words than `MAX_WORDS` -/

/-- The `i`-th lowercase letter (`i` taken modulo 26). -/
def letra (i : Nat) : Char := Char.ofNat (97 + i % 26)

/-- The word number `k`: four lowercase letters, the digits of `k` in base 26. -/
def palabra_numero (k : Nat) : Cadena :=
  [letra (k / 17576), letra (k / 676), letra (k / 26), letra k]

/-- A corpus with one document whose text has `MAX_WORDS + 1` lines, line `k` being the
word number `k`. -/
def corpus_desbordado : List Cadena :=
  ["<DOCUMENTO [1]>\n".toList, "<URL u>\n".toList, "<TEXTO>\n".toList]
    ++ (List.range (MAX_WORDS + 1)).map (fun k => palabra_numero k ++ ['\n'])

/-- The globals of the indexer after the first `n` words of `corpus_desbordado`, for `n`
up to `MAX_WORDS`: each word once in document 0. -/
def estado_con_palabras (n : Nat) : EstadoIndexador :=
  { documentos := [{ doc_id := 0, url := ['u'] }],
    vocabulario := (List.range n).map (fun k =>
      { palabra := palabra_numero k, palabra_id := (k : Int), num_docs := 1,
        doc_freqs := [{ doc_id := 0, frecuencia := 1 }], capacity := 10 }),
    max_freq_por_doc := if n = 0 then (fun _ => 0) else (fun d => if d = 0 then 1 else 0) }

/-- Reference: the tokens inside the `<TEXTO>` blocks of a corpus, each with the document
of its block (the number of the last `<DOCUMENTO [ID]>` line, minus 1), given the document
and the block state at the first line. -/
def tokens_de_lineas : List Cadena → Int → Bool → List (Int × Cadena)
  | [], _, _ => []
  | linea :: resto, doc_actual, en_texto =>
    if (strstr (quitar_salto (cadena_c linea)) "<DOCUMENTO".toList).isSome then
      tokens_de_lineas resto
        (match strchr (quitar_salto (cadena_c linea)) '[',
            strchr (quitar_salto (cadena_c linea)) ']' with
         | some inicio, some fin =>
           atoi (inicio.tail.take (inicio.length - fin.length - 1)) - 1
         | _, _ => doc_actual)
        en_texto
    else if (strstr (quitar_salto (cadena_c linea)) "<URL".toList).isSome then
      tokens_de_lineas resto doc_actual en_texto
    else if (strstr (quitar_salto (cadena_c linea)) "<TEXTO>".toList).isSome then
      tokens_de_lineas resto doc_actual true
    else if (strstr (quitar_salto (cadena_c linea)) "</TEXTO>".toList).isSome then
      tokens_de_lineas resto doc_actual false
    else if en_texto = true ∧ 0 ≤ doc_actual then
      (strtok_desde (quitar_salto (cadena_c linea)) []).map (fun t => (doc_actual, t))
        ++ tokens_de_lineas resto doc_actual en_texto
    else tokens_de_lineas resto doc_actual en_texto

/-- Reference: the number of tokens of the document `d` in a list of tokens, each with its
document, whose cleaned form is `w`. -/
def cuenta_en_tokens (tokens : List (Int × Cadena)) (w : Cadena) (d : Int) : Nat :=
  tokens.countP (fun t => decide (t.1 = d ∧ limpiar_palabra_indexador t.2 = w))

/-- Reference: the number of tokens inside the `<TEXTO>` blocks of document `d` whose
cleaned form is `w`. -/
def cuenta_de_tokens (corpus : List Cadena) (w : Cadena) (d : Int) : Nat :=
  cuenta_en_tokens (tokens_de_lineas corpus (-1) false) w d

/-- Reference: the raw frequency a word stores for the document `d`: that of its first
entry for `d`, 0 when it has none. -/
def frecuencia_de_palabra (p : PalabraVocabIndexador) (d : Int) : Int :=
  match p.doc_freqs.find? (fun e => decide (e.doc_id = d)) with
  | none => 0
  | some e => e.frecuencia

/-- Reference: the raw frequency stored for the word `w` and the document `d`: that of
the first word with text `w`, 0 when there is none. -/
def frecuencia_almacenada (vocabulario : List PalabraVocabIndexador) (w : Cadena) (d : Int) :
    Int :=
  match vocabulario.find? (fun p => decide (p.palabra = w)) with
  | none => 0
  | some p => frecuencia_de_palabra p d

/-- The globals of the indexer after all the words of `corpus_desbordado`: the occurrence
of the word number `MAX_WORDS` has gone to the last word of the vocabulary. -/
def estado_desbordado : EstadoIndexador :=
  { documentos := [{ doc_id := 0, url := ['u'] }],
    vocabulario := (estado_con_palabras MAX_WORDS).vocabulario.set (MAX_WORDS - 1)
      { palabra := palabra_numero (MAX_WORDS - 1), palabra_id := ((MAX_WORDS - 1 : Nat) : Int),
        num_docs := 1, doc_freqs := [{ doc_id := 0, frecuencia := 2 }], capacity := 10 },
    max_freq_por_doc := fun d => if d = 0 then 2 else if d = 0 then 1 else 0 }

/-- The operations on `double` that the scoring uses: the constant `0.0`, the conversion
`(double) n` of an `int`, the operators `+`, `*` and `/`, `log10` of `<math.h>`, and the
comparison `>`. -/
structure Aritmetica (β : Type) where
  cero : β
  de_int : Int → β
  suma : β → β → β
  producto : β → β → β
  cociente : β → β → β
  log10 : β → β
  mayor : β → β → Bool

/-- Function `calcular_w`: `0.0` when `d_t == 0`, else
`log10((double)n / (double)d_t) * frec_norm`. -/
def calcular_w_maq {β : Type} (ar : Aritmetica β) (idx : Indice β)
    (palabra_id : Int) (_doc_id : Int) (frec_norm : β) : β :=
  if buscar_d_t idx.vocabulario palabra_id = 0 then ar.cero
  else ar.producto
    (ar.log10 (ar.cociente (ar.de_int (num_documentos idx))
      (ar.de_int (buscar_d_t idx.vocabulario palabra_id))))
    frec_norm

/-- The statement `rankings[doc_id] += w`, defined on the initialised window `[0, N)`. -/
def sumar_ranking_maq {β : Type} (ar : Aritmetica β) (rankings : List β) (doc_id : Int)
    (w : β) : Option (List β) :=
  if 0 ≤ doc_id ∧ doc_id < (rankings.length : Int) then
    some (rankings.set doc_id.toNat (ar.suma (rankings.getD doc_id.toNat ar.cero) w))
  else none

/-- The `k` loop over the postings of one inverted list. -/
def acumular_lista_maq {β : Type} (ar : Aritmetica β) (idx : Indice β)
    (palabra_id : Int) : List (DocFrec β) → List β → Option (List β)
  | [], rankings => some rankings
  | df :: resto, rankings =>
    match sumar_ranking_maq ar rankings df.doc_id
        (calcular_w_maq ar idx palabra_id df.doc_id df.frecuencia_norm) with
    | none => none
    | some r => acumular_lista_maq ar idx palabra_id resto r

/-- The `j` loop: the first inverted list with this `palabra_id`, then `break`. -/
def acumular_palabra_maq {β : Type} (ar : Aritmetica β) (idx : Indice β)
    (palabra_id : Int) : List (ListaInvertida β) → List β → Option (List β)
  | [], rankings => some rankings
  | l :: resto, rankings =>
    if l.palabra_id = palabra_id then acumular_lista_maq ar idx palabra_id l.documentos rankings
    else acumular_palabra_maq ar idx palabra_id resto rankings

/-- The `i` loop over `palabra_ids`. -/
def acumular_consulta_maq {β : Type} (ar : Aritmetica β) (idx : Indice β) :
    List Int → List β → Option (List β)
  | [], rankings => some rankings
  | palabra_id :: resto, rankings =>
    match acumular_palabra_maq ar idx palabra_id idx.listas_invertidas rankings with
    | none => none
    | some r => acumular_consulta_maq ar idx resto r

/-- The array `rankings` after `for (i < num_documentos) rankings[i] = 0.0`. -/
def rankings_iniciales_maq {β : Type} (ar : Aritmetica β) (idx : Indice β) : List β :=
  List.replicate idx.documentos.length ar.cero

/-- The array `rankings` after the scoring loops, for the ids in `palabra_ids`. -/
def calcular_rankings_maq {β : Type} (ar : Aritmetica β) (idx : Indice β)
    (palabra_ids : List Int) : Option (List β) :=
  acumular_consulta_maq ar idx palabra_ids (rankings_iniciales_maq ar idx)

/-- The collecting loop `for (i < num_documentos) if (rankings[i] > 0.0) ...`, from index
`i`. -/
def recopilar_desde_maq {β : Type} (ar : Aritmetica β) (i : Nat) :
    List β → List Documento → List (ResultadoBusqueda β)
  | r :: rs, d :: ds =>
    if ar.mayor r ar.cero then
      { doc_id := (i : Int), ranking := r, url := d.url } :: recopilar_desde_maq ar (i + 1) rs ds
    else recopilar_desde_maq ar (i + 1) rs ds
  | _, _ => []

/-- Function `procesar_consulta_local` (buscador_paralelo.c) over machine arithmetic; `qsort`
with `comparar_resultados` is any function of the array. -/
def procesar_consulta_local_maq {β : Type}
    (qsort : List (ResultadoBusqueda β) → List (ResultadoBusqueda β)) (ar : Aritmetica β)
    (idx : Indice β) (consulta : Cadena) (_K : Int) : Option (List (ResultadoBusqueda β)) :=
  if (palabras_consulta consulta).length = 0 then some []
  else if (resolver_ids idx.vocabulario (palabras_consulta consulta)).length = 0 then some []
  else
    match calcular_rankings_maq ar idx
        (resolver_ids idx.vocabulario (palabras_consulta consulta)) with
    | none => none
    | some rankings => some (qsort (recopilar_desde_maq ar 0 rankings idx.documentos))

/-- Exact arithmetic as an instance: the operations of a linearly ordered field. -/
def aritmetica_exacta {α : Type} [LinearOrderedField α] (log10 : α → α) : Aritmetica α :=
  { cero := 0,
    de_int := fun n => (n : α),
    suma := fun x y => x + y,
    producto := fun x y => x * y,
    cociente := fun x y => x / y,
    log10 := log10,
    mayor := fun x y => decide (x > y) }

/-- Addition without rounding: associative, with `0.0` neutral on the right. -/
def SumaExacta {β : Type} (ar : Aritmetica β) : Prop :=
  (∀ x y z, ar.suma (ar.suma x y) z = ar.suma x (ar.suma y z)) ∧ ∀ x, ar.suma x ar.cero = x

/-- No inverted list of the index names a document twice. -/
def DocumentosSinRepetir {β : Type} (idx : Indice β) : Prop :=
  ∀ l ∈ idx.listas_invertidas, (l.documentos.map (fun p => p.doc_id)).Nodup

/-! ## IEEE 754 binary64

The finite values of `double` that are zero or normal numbers, with round to nearest, ties
to even, on every operation. A result that is not such a value (a subnormal number, an
overflow, a division by zero) is `none`, and so is every result computed from `none`. -/

/-- A value `mantisa * 2 ^ exponente` of `double`: zero is `mantisa = 0`, `exponente = 0`;
a normal number has `2 ^ 52 ≤ |mantisa| < 2 ^ 53` and `-1074 ≤ exponente ≤ 971`. -/
structure Doble where
  mantisa : Int
  exponente : Int
deriving DecidableEq

/-- The number of binary digits of `n`; `fuel` bounds the recursion. -/
def longitud_bits : Nat → Nat → Nat
  | 0, _ => 0
  | fuel + 1, n => if n = 0 then 0 else longitud_bits fuel (n / 2) + 1

/-- A value in canonical form is a normal number when its exponent is in the range of
binary64. -/
def en_rango (x : Doble) : Option Doble :=
  if -1074 ≤ x.exponente ∧ x.exponente ≤ 971 then some x else none

/-- Rounding of `signo * n * 2 ^ e` where `n` has `53 + s` binary digits, `s ≥ 1`: the
quotient of `n` by `2 ^ s` goes up by one when the remainder is over half of `2 ^ s`, or is
half of it and the quotient is odd; a quotient that reaches `2 ^ 53` is renormalised. -/
def redondear_a_par (signo : Int) (n : Nat) (e : Int) (s : Nat) : Doble :=
  if 2 ^ (s - 1) < n % 2 ^ s ∨ (n % 2 ^ s = 2 ^ (s - 1) ∧ (n / 2 ^ s) % 2 = 1) then
    (if n / 2 ^ s + 1 = 2 ^ 53 then ⟨signo * 2 ^ 52, e + (s : Int) + 1⟩
     else ⟨signo * ((n / 2 ^ s + 1 : Nat) : Int), e + (s : Int)⟩)
  else ⟨signo * ((n / 2 ^ s : Nat) : Int), e + (s : Int)⟩

/-- Round to nearest, ties to even, of the number `m * 2 ^ e` to 53 binary digits: a number
of fewer digits is exact and is brought to canonical form. -/
def redondear (m e : Int) : Option Doble :=
  if m = 0 then some ⟨0, 0⟩
  else if longitud_bits m.natAbs m.natAbs ≤ 53 then
    en_rango ⟨m * 2 ^ (53 - longitud_bits m.natAbs m.natAbs),
      e - ((53 - longitud_bits m.natAbs m.natAbs : Nat) : Int)⟩
  else en_rango (redondear_a_par m.sign m.natAbs e (longitud_bits m.natAbs m.natAbs - 53))

/-- The operator `+`: the exact sum, rounded. -/
def Doble.suma (x y : Doble) : Option Doble :=
  redondear
    (x.mantisa * 2 ^ (x.exponente - min x.exponente y.exponente).toNat
      + y.mantisa * 2 ^ (y.exponente - min x.exponente y.exponente).toNat)
    (min x.exponente y.exponente)

/-- The operator `*`: the exact product, rounded. -/
def Doble.producto (x y : Doble) : Option Doble :=
  redondear (x.mantisa * y.mantisa) (x.exponente + y.exponente)

/-- The operator `/` on operands in canonical form: the quotient to 56 binary digits or
more, the last one set when the division is not exact, rounded. -/
def Doble.cociente (x y : Doble) : Option Doble :=
  if y.mantisa = 0 then none
  else
    redondear
      (x.mantisa.sign * y.mantisa.sign *
        ((2 * ((x.mantisa.natAbs * 2 ^ 55) / y.mantisa.natAbs)
          + (if (x.mantisa.natAbs * 2 ^ 55) % y.mantisa.natAbs = 0 then 0 else 1) : Nat) : Int))
      (x.exponente - y.exponente - 56)

/-- The comparison `>`. -/
def Doble.mayor (x y : Doble) : Bool :=
  decide (y.mantisa * 2 ^ (y.exponente - min x.exponente y.exponente).toNat
    < x.mantisa * 2 ^ (x.exponente - min x.exponente y.exponente).toNat)

/-- The value `1.0`. -/
def Doble.uno : Doble := ⟨2 ^ 52, -52⟩

/-- The value `10.0`. -/
def Doble.diez : Doble := ⟨5 * 2 ^ 50, -49⟩

/-- Function `log10` of `<math.h>` where the examples call it: `log10(10.0)` is `1.0`; its
other values are not modelled. -/
def log10_en_diez (x : Option Doble) : Option Doble :=
  if x = some Doble.diez then some Doble.uno else none

/-- The arithmetic of `double`. -/
def aritmetica_doble : Aritmetica (Option Doble) :=
  { cero := some ⟨0, 0⟩,
    de_int := fun n => redondear n 0,
    suma := fun x y => x.bind (fun a => y.bind (fun b => a.suma b)),
    producto := fun x y => x.bind (fun a => y.bind (fun b => a.producto b)),
    cociente := fun x y => x.bind (fun a => y.bind (fun b => a.cociente b)),
    log10 := log10_en_diez,
    mayor := fun x y =>
      match x, y with
      | some a, some b => a.mayor b
      | _, _ => false }

/-- The `double` nearest to `n / 10`, which `%lf` reads from the text of `n / 10` and which
`(double) n / 10.0` computes. -/
def decimos (n : Int) : Option Doble :=
  aritmetica_doble.cociente (aritmetica_doble.de_int n) (aritmetica_doble.de_int 10)

/-- Function `comparar_resultados` over machine arithmetic: `1` when `rb->ranking >
ra->ranking`, `-1` when `rb->ranking < ra->ranking`, else `0`. -/
def comparar_resultados_maq {β : Type} (ar : Aritmetica β) (a b : ResultadoBusqueda β) : Int :=
  if ar.mayor b.ranking a.ranking then 1 else if ar.mayor a.ranking b.ranking then -1 else 0

/-- An executable `qsort` that keeps the order of the elements that compare equal: insertion
sort with `comparar_resultados_maq`. -/
def ordenar_por_insercion_maq {β : Type} (ar : Aritmetica β)
    (xs : List (ResultadoBusqueda β)) : List (ResultadoBusqueda β) :=
  xs.insertionSort (fun a b => comparar_resultados_maq ar a b ≤ 0)

/-- Addition is commutative. -/
def SumaConmutativa {β : Type} (ar : Aritmetica β) : Prop := ∀ x y, ar.suma x y = ar.suma y x

/-- Two postings whose sums into `rankings` can be exchanged: they name different documents,
or sums are exact and commutative. -/
def Intercambiables {β : Type} (ar : Aritmetica β) (p q : DocFrec β) : Prop :=
  p.doc_id ≠ q.doc_id ∨ (SumaExacta ar ∧ SumaConmutativa ar)

/-- Twenty documents `doc0`, ..., `doc19`. -/
def veinte_documentos : List Documento :=
  (List.range 20).map (fun i => ⟨(i : Int), "doc".toList ++ (toString i).toList⟩)

/-- An index of twenty documents whose only inverted list names document 1 three times,
with frequencies `0.100`, `0.200` and `0.300`, and document 0 once, with `0.600`. -/
def indice_repetido : Indice (Option Doble) :=
  { vocabulario := [⟨"perro".toList, 0, 2⟩],
    documentos := veinte_documentos,
    listas_invertidas := [⟨0, [⟨1, decimos 1⟩, ⟨1, decimos 2⟩, ⟨1, decimos 3⟩, ⟨0, decimos 6⟩]⟩] }

/-- The index `indice_repetido` with the postings of its list in the reverse order. -/
def indice_repetido_permutado : Indice (Option Doble) :=
  { vocabulario := [⟨"perro".toList, 0, 2⟩],
    documentos := veinte_documentos,
    listas_invertidas := [⟨0, [⟨0, decimos 6⟩, ⟨1, decimos 3⟩, ⟨1, decimos 2⟩, ⟨1, decimos 1⟩]⟩] }

/-- An index of twenty documents whose inverted list of `perro` names documents 0 and 1
once each, with frequencies `0.100` and `0.200`. -/
def indice_sin_repetir : Indice (Option Doble) :=
  { vocabulario := [⟨"perro".toList, 0, 2⟩],
    documentos := veinte_documentos,
    listas_invertidas := [⟨0, [⟨0, decimos 1⟩, ⟨1, decimos 2⟩]⟩] }

/-- The index `indice_sin_repetir` with its two postings exchanged. -/
def indice_sin_repetir_permutado : Indice (Option Doble) :=
  { vocabulario := [⟨"perro".toList, 0, 2⟩],
    documentos := veinte_documentos,
    listas_invertidas := [⟨0, [⟨1, decimos 2⟩, ⟨0, decimos 1⟩]⟩] }

/-! ## The batch loop of `main` with its turns -/

/-- The state of the batch loop of `main` on one node: the loop variables `lote`, `i` and
`consulta_id`, and the turns completed so far, as pairs (query index, `consulta_id`). -/
structure EstadoLotes where
  lote : Int
  i : Int
  consulta_id : Int
  completados : List (Int × Int)

/-- The state when `main` enters the batch loop. -/
def estado_lotes_inicial : EstadoLotes :=
  { lote := 0, i := 0, consulta_id := 0, completados := [] }

/-- The collect step of a turn returns on node `rank`: some interleaving of the nodes leads
from the start of the step to a state in which the node is past its two loops. -/
def TurnoRetorna (size rank : Nat) : Prop :=
  ∃ e, Alcanzable size e ∧ e.control rank = Control.terminado

/-- One step of the batch loop on node `rank`. With `lote < num_consultas_totales`: when
`i < consultas_en_lote` the body of the inner loop runs the turn of query `lote + i`, which
ends only if the collect step returns, and then `consulta_id++` and `i++`; otherwise the
inner loop ends and `lote += Q`. -/
inductive PasoLotes (size rank : Nat) (Q n : Int) : EstadoLotes → EstadoLotes → Prop where
  | turno (s : EstadoLotes) (h1 : s.lote < n)
      (h2 : s.i < (if s.lote + Q ≤ n then Q else n - s.lote))
      (h3 : TurnoRetorna size rank) :
      PasoLotes size rank Q n s
        { lote := s.lote, i := s.i + 1, consulta_id := s.consulta_id + 1,
          completados := s.completados ++ [(s.lote + s.i, s.consulta_id)] }
  | siguiente_lote (s : EstadoLotes) (h1 : s.lote < n)
      (h2 : ¬ s.i < (if s.lote + Q ≤ n then Q else n - s.lote)) :
      PasoLotes size rank Q n s
        { lote := s.lote + Q, i := 0, consulta_id := s.consulta_id,
          completados := s.completados }

/-- The states the batch loop of node `rank` can reach from `estado_lotes_inicial`. -/
inductive AlcanzableLotes (size rank : Nat) (Q n : Int) : EstadoLotes → Prop where
  | inicio : AlcanzableLotes size rank Q n estado_lotes_inicial
  | avance (s s2 : EstadoLotes) (ha : AlcanzableLotes size rank Q n s)
      (hp : PasoLotes size rank Q n s s2) : AlcanzableLotes size rank Q n s2

/-! ## The line buffer of the loaders -/

theorem buscar_d_t_eq {α : Type} (idx : Indice α) (t : Int) :
    buscar_d_t idx.vocabulario t = frecuencia_documental idx t := by
  unfold frecuencia_documental
  induction idx.vocabulario with
  | nil => simp [buscar_d_t]
  | cons v vs ih =>
    by_cases h : v.palabra_id = t
    · simp [buscar_d_t, List.find?, h]
    · simp [buscar_d_t, List.find?, h, ih]

theorem calcular_w_eq {α : Type} [LinearOrderedField α] (log10 : α → α) (idx : Indice α)
    (t d : Int) (tf : α) : calcular_w log10 idx t d tf = peso_esperado log10 idx t tf := by
  simp [calcular_w, peso_esperado, buscar_d_t_eq, num_documentos]

theorem sumar_ranking_spec {α : Type} [LinearOrderedField α] (r : List α) (d : Int) (w : α)
    (h0 : 0 ≤ d) (h1 : d < (r.length : Int)) :
    ∃ r2, sumar_ranking r d w = some r2 ∧ r2.length = r.length ∧
      ∀ i : Nat, r2.getD i 0 = r.getD i 0 + if (i : Int) = d then w else 0 := by
  refine ⟨r.set d.toNat (r.getD d.toNat 0 + w), ?_, by simp, ?_⟩
  · simp [sumar_ranking, h0, h1]
  · intro i
    have hd : d.toNat < r.length := by omega
    by_cases hi : (i : Int) = d
    · have : i = d.toNat := by omega
      subst this
      simp [List.getD_eq_getElem?_getD, hd, hi]
    · have : d.toNat ≠ i := by omega
      simp [List.getD_eq_getElem?_getD, List.getElem?_set_ne this, hi]

theorem acumular_lista_spec {α : Type} [LinearOrderedField α] (log10 : α → α) (idx : Indice α)
    (t : Int) (ps : List (DocFrec α)) :
    ∀ r : List α, (∀ p ∈ ps, 0 ≤ p.doc_id ∧ p.doc_id < (r.length : Int)) →
    ∃ r2, acumular_lista log10 idx t ps r = some r2 ∧ r2.length = r.length ∧
      ∀ i : Nat, r2.getD i 0 = r.getD i 0 +
        ((ps.filter (fun p => decide (p.doc_id = (i : Int)))).map
          (fun p => peso_esperado log10 idx t p.frecuencia_norm)).sum := by
  induction ps with
  | nil => intro r _; exact ⟨r, rfl, rfl, by simp⟩
  | cons p ps ih =>
    intro r h
    obtain ⟨h0, h1⟩ := h p (List.mem_cons_self _ _)
    obtain ⟨r1, e1, l1, g1⟩ := sumar_ranking_spec r p.doc_id
      (calcular_w log10 idx t p.doc_id p.frecuencia_norm) h0 h1
    obtain ⟨r2, e2, l2, g2⟩ := ih r1 (fun q hq => by
      rw [l1]; exact h q (List.mem_cons_of_mem _ hq))
    refine ⟨r2, ?_, by rw [l2, l1], ?_⟩
    · simp [acumular_lista, e1, e2]
    · intro i
      rw [g2 i, g1 i, calcular_w_eq]
      by_cases hi : p.doc_id = (i : Int)
      · have hi2 : (i : Int) = p.doc_id := hi.symm
        simp [List.filter_cons, hi, add_assoc]
      · have hi2 : ¬ (i : Int) = p.doc_id := fun e => hi e.symm
        simp [List.filter_cons, hi, hi2]

theorem acumular_palabra_spec {α : Type} [LinearOrderedField α] (log10 : α → α) (idx : Indice α)
    (t : Int) (ls : List (ListaInvertida α)) :
    ∀ r : List α, (∀ l ∈ ls, ∀ p ∈ l.documentos, 0 ≤ p.doc_id ∧ p.doc_id < (r.length : Int)) →
    ∃ r2, acumular_palabra log10 idx t ls r = some r2 ∧ r2.length = r.length ∧
      ∀ i : Nat, r2.getD i 0 = r.getD i 0 +
        (((postings_en ls t).filter (fun p => decide (p.doc_id = (i : Int)))).map
          (fun p => peso_esperado log10 idx t p.frecuencia_norm)).sum := by
  induction ls with
  | nil => intro r _; exact ⟨r, rfl, rfl, by simp [postings_en]⟩
  | cons l ls ih =>
    intro r h
    by_cases hl : l.palabra_id = t
    · obtain ⟨r2, e2, l2, g2⟩ := acumular_lista_spec log10 idx t l.documentos r
        (h l (List.mem_cons_self _ _))
      refine ⟨r2, by simp [acumular_palabra, hl, e2], l2, ?_⟩
      intro i
      rw [g2 i]
      simp [postings_en, List.find?, hl]
    · obtain ⟨r2, e2, l2, g2⟩ := ih r (fun m hm => h m (List.mem_cons_of_mem _ hm))
      refine ⟨r2, by simp [acumular_palabra, hl, e2], l2, ?_⟩
      intro i
      rw [g2 i]
      simp [postings_en, List.find?, hl]

theorem acumular_consulta_spec {α : Type} [LinearOrderedField α] (log10 : α → α) (idx : Indice α)
    (ids : List Int) :
    ∀ r : List α,
    (∀ l ∈ idx.listas_invertidas, ∀ p ∈ l.documentos, 0 ≤ p.doc_id ∧ p.doc_id < (r.length : Int)) →
    ∃ r2, acumular_consulta log10 idx ids r = some r2 ∧ r2.length = r.length ∧
      ∀ i : Nat, r2.getD i 0 = r.getD i 0 + puntuacion_esperada log10 idx ids (i : Int) := by
  induction ids with
  | nil => intro r _; exact ⟨r, rfl, rfl, by simp [puntuacion_esperada]⟩
  | cons t ts ih =>
    intro r h
    obtain ⟨r1, e1, l1, g1⟩ := acumular_palabra_spec log10 idx t idx.listas_invertidas r h
    obtain ⟨r2, e2, l2, g2⟩ := ih r1 (by rw [l1]; exact h)
    refine ⟨r2, by simp [acumular_consulta, e1, e2], by rw [l2, l1], ?_⟩
    intro i
    rw [g2 i, g1 i]
    simp [puntuacion_esperada, postings_de, add_assoc]

theorem calcular_rankings_spec {α : Type} [LinearOrderedField α] (log10 : α → α)
    (idx : Indice α) (ids : List Int) (h : PostingsEnRango idx) :
    ∃ r, calcular_rankings log10 idx ids = some r ∧ r.length = idx.documentos.length ∧
      ∀ d : Nat, d < idx.documentos.length →
        r[d]? = some (puntuacion_esperada log10 idx ids (d : Int)) := by
  obtain ⟨r, e, l, g⟩ := acumular_consulta_spec log10 idx ids (rankings_iniciales idx)
    (by simpa [rankings_iniciales, PostingsEnRango, num_documentos] using h)
  have l2 : r.length = idx.documentos.length := by simpa [rankings_iniciales] using l
  refine ⟨r, e, l2, ?_⟩
  intro d hd
  have := g d
  have hd2 : d < r.length := by omega
  simp [List.getD_eq_getElem?_getD, hd2, rankings_iniciales, hd] at this
  simp [hd2, this]


theorem recopilar_desde_mem {α : Type} [LinearOrderedField α] (rs : List α) :
    ∀ (i : Nat) (ds : List Documento), ∀ e ∈ recopilar_desde i rs ds,
      ∃ k : Nat, e.doc_id = ((i + k : Nat) : Int) ∧ rs[k]? = some e.ranking ∧
        (ds[k]?).map (fun doc => doc.url) = some e.url ∧ 0 < e.ranking := by
  induction rs with
  | nil => intro i ds e he; simp [recopilar_desde] at he
  | cons r rs ih =>
    intro i ds e he
    cases ds with
    | nil => simp [recopilar_desde] at he
    | cons d0 ds =>
      simp only [recopilar_desde] at he
      by_cases hr : r > 0
      · rw [if_pos hr, List.mem_cons] at he
        rcases he with he | he
        · exact ⟨0, by simp [he], by simp [he], by simp [he], by simpa [he] using hr⟩
        · obtain ⟨k, h1, h2, h3, h4⟩ := ih (i + 1) ds e he
          exact ⟨k + 1, by rw [h1]; congr 1; omega, by simpa using h2, by simpa using h3, h4⟩
      · rw [if_neg hr] at he
        obtain ⟨k, h1, h2, h3, h4⟩ := ih (i + 1) ds e he
        exact ⟨k + 1, by rw [h1]; congr 1; omega, by simpa using h2, by simpa using h3, h4⟩

theorem recopilar_desde_count {α : Type} [LinearOrderedField α] (rs : List α) :
    ∀ (i : Nat) (ds : List Documento), rs.length ≤ ds.length → ∀ d : Int,
      ((recopilar_desde i rs ds).filter (fun e => decide (e.doc_id = d))).length =
        if (i : Int) ≤ d ∧ d < (i : Int) + (rs.length : Int) ∧ 0 < rs.getD (d - (i : Int)).toNat 0
        then 1 else 0 := by
  induction rs with
  | nil =>
    intro i ds _ d
    have : ¬ ((i : Int) ≤ d ∧ d < (i : Int) + (([] : List α).length : Int) ∧
        0 < ([] : List α).getD (d - (i : Int)).toNat 0) := by
      simp
    rw [if_neg this]
    simp [recopilar_desde]
  | cons r rs ih =>
    intro i ds hlen d
    cases ds with
    | nil => simp at hlen
    | cons d0 ds =>
      have hlen2 : rs.length ≤ ds.length := by simpa using hlen
      have hrec := ih (i + 1) ds hlen2 d
      simp only [recopilar_desde]
      by_cases hd : d = (i : Int)
      · subst hd
        have h0 : ¬ (((i + 1 : Nat) : Int) ≤ (i : Int) ∧
            (i : Int) < ((i + 1 : Nat) : Int) + (rs.length : Int) ∧
            0 < rs.getD ((i : Int) - ((i + 1 : Nat) : Int)).toNat 0) := by
          intro h; have := h.1; omega
        rw [if_neg h0] at hrec
        by_cases hr : r > 0
        · have hr2 : 0 < r := hr
          rw [if_pos hr]
          simp [List.filter_cons, hrec, hr2]
        · have hr2 : ¬ 0 < r := hr
          rw [if_neg hr]
          simp [hrec, hr2]
      · have key : ((i : Int) ≤ d ∧ d < (i : Int) + ((r :: rs).length : Int) ∧
              0 < (r :: rs).getD (d - (i : Int)).toNat 0) ↔
            (((i + 1 : Nat) : Int) ≤ d ∧ d < ((i + 1 : Nat) : Int) + (rs.length : Int) ∧
              0 < rs.getD (d - ((i + 1 : Nat) : Int)).toNat 0) := by
          by_cases hlt : (i : Int) < d
          · have e1 : (d - (i : Int)).toNat = (d - ((i + 1 : Nat) : Int)).toNat + 1 := by
              push_cast; omega
            rw [e1]
            simp only [List.getD_cons_succ, List.length_cons]
            push_cast
            constructor
            · rintro ⟨a, b, c⟩; exact ⟨by omega, by omega, c⟩
            · rintro ⟨a, b, c⟩; exact ⟨by omega, by omega, c⟩
          · constructor
            · rintro ⟨a, _, _⟩; omega
            · rintro ⟨a, _, _⟩; push_cast at a; omega
        have hne : ¬ ((i : Int) = d) := fun e => hd e.symm
        by_cases hr : r > 0
        · rw [if_pos hr]
          simp only [List.filter_cons, hne, decide_False, Bool.false_eq_true, if_false]
          rw [hrec]
          exact if_congr key.symm rfl rfl
        · rw [if_neg hr, hrec]
          exact if_congr key.symm rfl rfl


/-! ## The comparator and the sorting contract -/

theorem comparar_le_zero_iff {α : Type} [LinearOrderedField α] (a b : ResultadoBusqueda α) :
    comparar_resultados a b ≤ 0 ↔ b.ranking ≤ a.ranking := by
  unfold comparar_resultados
  by_cases h1 : b.ranking > a.ranking
  · simp [h1]
  · by_cases h2 : b.ranking < a.ranking
    · simp [h1, h2, le_of_lt h2]
    · simp [h1, h2, not_lt.mp h1]

theorem contrato_ordenar_por_insercion {α : Type} [LinearOrderedField α] :
    ContratoQsort (ordenar_por_insercion : List (ResultadoBusqueda α) → _) := by
  intro xs
  haveI : IsTotal (ResultadoBusqueda α) (fun a b => comparar_resultados a b ≤ 0) :=
    ⟨fun a b => by
      simp only [comparar_le_zero_iff]
      exact (le_total b.ranking a.ranking)⟩
  haveI : IsTrans (ResultadoBusqueda α) (fun a b => comparar_resultados a b ≤ 0) :=
    ⟨fun a b c => by
      simp only [comparar_le_zero_iff]
      exact fun h1 h2 => le_trans h2 h1⟩
  exact ⟨List.perm_insertionSort _ xs, List.sorted_insertionSort _ xs⟩

theorem contrato_ordenar_invirtiendo {α : Type} [LinearOrderedField α] :
    ContratoQsort (ordenar_invirtiendo : List (ResultadoBusqueda α) → _) := by
  intro xs
  obtain ⟨h1, h2⟩ := contrato_ordenar_por_insercion (α := α) xs.reverse
  exact ⟨h1.trans (List.reverse_perm xs), h2⟩

theorem contrato_descendente {α : Type} [LinearOrderedField α]
    (qsort : List (ResultadoBusqueda α) → List (ResultadoBusqueda α))
    (hq : ContratoQsort qsort) (xs : List (ResultadoBusqueda α)) :
    (qsort xs).Pairwise (fun a b => a.ranking ≥ b.ranking) :=
  (hq xs).2.imp (fun h => (comparar_le_zero_iff _ _).mp h)

/-! ## Claims about scoring and the local result list -/

theorem getD_replicate_cero {α : Type} [LinearOrderedField α] (n i : Nat) :
    (List.replicate n (0 : α)).getD i 0 = 0 := by
  simp only [List.getD_eq_getElem?_getD, List.getElem?_replicate]
  split <;> rfl

theorem resolver_ids_nil_of_length {α : Type} (idx : Indice α) (ps : List Cadena)
    (h : ps.length = 0) : resolver_ids idx.vocabulario ps = [] := by
  have : ps = [] := List.length_eq_zero.mp h
  subst this
  rfl

theorem postings_en_rango_ejemplo (α : Type) [LinearOrderedField α] :
    PostingsEnRango (indice_ejemplo α) := by
  intro l hl p hp
  simp [indice_ejemplo] at hl
  rcases hl with rfl | rfl
  · simp at hp
    rcases hp with rfl | rfl <;> simp [num_documentos, indice_ejemplo]
  · simp at hp
    subst hp
    simp [num_documentos, indice_ejemplo]

theorem procesar_consulta_local_forma {α : Type} [LinearOrderedField α]
    (qsort : List (ResultadoBusqueda α) → List (ResultadoBusqueda α))
    (hq : ContratoQsort qsort) (log10 : α → α)
    (idx : Indice α) (consulta : Cadena) (K : Int) (h : PostingsEnRango idx) :
    ∃ rankings,
      calcular_rankings log10 idx (resolver_ids idx.vocabulario (palabras_consulta consulta))
        = some rankings ∧
      rankings.length = idx.documentos.length ∧
      procesar_consulta_local qsort log10 idx consulta K
        = some (qsort (recopilar_desde 0 rankings idx.documentos)) := by
  obtain ⟨r, e, l, _⟩ := calcular_rankings_spec log10 idx
    (resolver_ids idx.vocabulario (palabras_consulta consulta)) h
  refine ⟨r, e, l, ?_⟩
  have hnil : qsort [] = [] := List.Perm.eq_nil (hq []).1
  have hvacio : ∀ ids : List Int, ids.length = 0 →
      calcular_rankings log10 idx ids = some r → recopilar_desde 0 r idx.documentos = [] := by
    intro ids hids e2
    have : ids = [] := List.length_eq_zero.mp hids
    subst this
    have hr : r = rankings_iniciales idx := by
      simpa [calcular_rankings, acumular_consulta] using e2.symm
    apply List.eq_nil_of_length_eq_zero
    by_contra hne
    obtain ⟨x, hx⟩ := List.exists_mem_of_length_pos (Nat.pos_of_ne_zero hne)
    obtain ⟨k, _, h2, _, h4⟩ := recopilar_desde_mem r 0 idx.documentos x hx
    have h5 : r.getD k 0 = x.ranking := by simp [List.getD_eq_getElem?_getD, h2]
    rw [hr, rankings_iniciales, getD_replicate_cero] at h5
    rw [← h5] at h4
    exact lt_irrefl _ h4
  unfold procesar_consulta_local
  by_cases h1 : (palabras_consulta consulta).length = 0
  · rw [if_pos h1]
    have h2 := resolver_ids_nil_of_length idx _ h1
    rw [hvacio _ (by rw [h2]; rfl) e, hnil]
  · rw [if_neg h1]
    by_cases h2 : (resolver_ids idx.vocabulario (palabras_consulta consulta)).length = 0
    · rw [if_pos h2, hvacio _ h2 e, hnil]
    · rw [if_neg h2, e]


/-- Claim C2: under the index invariant, for every query `procesar_consulta_local` returns a
list that has exactly one entry for each document id `d` in `[0, N)` whose accumulated score
`rankings[d]` is strictly positive and no entry for any other id, and each entry carries the
url stored at its document id in the document table. -/
theorem resultados_locales_son_los_positivos {α : Type} [LinearOrderedField α]
    (qsort : List (ResultadoBusqueda α) → List (ResultadoBusqueda α))
    (hq : ContratoQsort qsort) (log10 : α → α)
    (idx : Indice α) (consulta : Cadena) (K : Int) (h : PostingsEnRango idx) :
    ∃ rankings resultados,
      calcular_rankings log10 idx (resolver_ids idx.vocabulario (palabras_consulta consulta))
        = some rankings ∧
      procesar_consulta_local qsort log10 idx consulta K = some resultados ∧
      (∀ d : Int, (resultados.filter (fun e => decide (e.doc_id = d))).length =
        if 0 ≤ d ∧ d < num_documentos idx ∧ 0 < rankings.getD d.toNat 0 then 1 else 0) ∧
      (∀ e ∈ resultados, 0 ≤ e.doc_id ∧
        ∃ doc, idx.documentos[e.doc_id.toNat]? = some doc ∧ e.url = doc.url) := by
  obtain ⟨r, e, l, hp⟩ := procesar_consulta_local_forma qsort hq log10 idx consulta K h
  refine ⟨r, _, e, hp, ?_, ?_⟩
  · intro d
    rw [((hq _).1.filter _).length_eq, recopilar_desde_count r 0 idx.documentos (by omega) d]
    simp [num_documentos, l]
  · intro x hx
    have hx2 := (hq _).1.mem_iff.mp hx
    obtain ⟨k, h1, _, h3, _⟩ := recopilar_desde_mem r 0 idx.documentos x hx2
    refine ⟨by rw [h1]; omega, ?_⟩
    have hk : x.doc_id.toNat = k := by rw [h1]; simp
    rw [hk]
    cases hdoc : idx.documentos[k]? with
    | none => simp [hdoc] at h3
    | some doc => exact ⟨doc, rfl, by simpa [hdoc] using h3.symm⟩

/-- Witness of claim C2 on the single-partition example and the query `perro gato`. -/
theorem resultados_locales_son_los_positivos_witness :
    ContratoQsort (ordenar_por_insercion : List (ResultadoBusqueda ℝ) → _) ∧
    PostingsEnRango (indice_ejemplo ℝ) ∧
    ∃ rankings resultados,
      calcular_rankings (Real.logb 10) (indice_ejemplo ℝ)
        (resolver_ids (indice_ejemplo ℝ).vocabulario (palabras_consulta consulta_perro_gato))
        = some rankings ∧
      procesar_consulta_local ordenar_por_insercion (Real.logb 10) (indice_ejemplo ℝ)
        consulta_perro_gato 10 = some resultados ∧
      (∀ d : Int, (resultados.filter (fun e => decide (e.doc_id = d))).length =
        if 0 ≤ d ∧ d < num_documentos (indice_ejemplo ℝ) ∧ 0 < rankings.getD d.toNat 0
        then 1 else 0) ∧
      (∀ e ∈ resultados, 0 ≤ e.doc_id ∧
        ∃ doc, (indice_ejemplo ℝ).documentos[e.doc_id.toNat]? = some doc ∧ e.url = doc.url) :=
  ⟨contrato_ordenar_por_insercion, postings_en_rango_ejemplo ℝ,
    resultados_locales_son_los_positivos ordenar_por_insercion contrato_ordenar_por_insercion
      (Real.logb 10) (indice_ejemplo ℝ) consulta_perro_gato 10 (postings_en_rango_ejemplo ℝ)⟩


/-! ## The turn of `main`: ordering, truncation, collection -/

theorem turno_forma {α : Type} [LinearOrderedField α]
    (qsort : List (ResultadoBusqueda α) → List (ResultadoBusqueda α))
    (hq : ContratoQsort qsort) (log10 : α → α)
    (idx : Indice α) (K : Int) (size rank : Nat) (consulta_id : Int) (consulta : Cadena)
    (recibido : Nat → Mensaje α) (h : PostingsEnRango idx) :
    ∃ rankings,
      calcular_rankings log10 idx (resolver_ids idx.vocabulario (palabras_consulta consulta))
        = some rankings ∧
      procesar_consulta_local qsort log10 idx consulta K
        = some (qsort (recopilar_desde 0 rankings idx.documentos)) ∧
      turno qsort log10 idx K size rank consulta_id consulta recibido
        = some (turno_con_locales qsort K size rank consulta_id
            (qsort (recopilar_desde 0 rankings idx.documentos)) recibido) := by
  obtain ⟨r, e, _, hp⟩ := procesar_consulta_local_forma qsort hq log10 idx consulta K h
  exact ⟨r, e, hp, by simp [turno, hp]⟩

theorem entradas_escritas_append {α : Type} (a b : List (Linea α)) :
    entradas_escritas (a ++ b) = entradas_escritas a ++ entradas_escritas b := by
  induction a with
  | nil => rfl
  | cons x xs ih => cases x <;> simp [entradas_escritas, ih]

theorem entradas_lineas_resultados {α : Type} (xs : List (ResultadoBusqueda α)) :
    ∀ i : Nat, entradas_escritas (lineas_resultados i xs) = entradas_de i xs := by
  induction xs with
  | nil => intro i; rfl
  | cons x xs ih => intro i; simp [lineas_resultados, entradas_escritas, entradas_de, ih]

theorem entradas_escribir_resultados {α : Type} (consulta_id : Int)
    (xs : List (ResultadoBusqueda α)) (num : Int) :
    entradas_escritas (escribir_resultados consulta_id xs num)
      = entradas_de 0 (xs.take num.toNat) := by
  unfold escribir_resultados
  by_cases h : num = 0
  · subst h
    simp [entradas_escritas, entradas_de]
  · simp [h, entradas_escritas, entradas_escritas_append, entradas_lineas_resultados]

theorem take_resultados_a_enviar {β : Type} (xs : List β) (K : Int) :
    xs.take (resultados_a_enviar (xs.length : Int) K).toNat = xs.take K.toNat := by
  unfold resultados_a_enviar
  by_cases h : (xs.length : Int) < K
  · rw [if_pos h]
    have h1 : xs.length ≤ K.toNat := by omega
    simp [List.take_of_length_le h1]
  · rw [if_neg h]

/-- Claim C3: under the index invariant and the `qsort` contract, for every query the list
returned by `procesar_consulta_local` and the final list that `main` writes after the merge
are in non-increasing order of ranking, and each sort only reorders: the local list is a
permutation of the collected positive documents and the sorted candidates are a permutation
of the collected candidates. -/
theorem listas_ordenadas_y_permutadas {α : Type} [LinearOrderedField α]
    (qsort : List (ResultadoBusqueda α) → List (ResultadoBusqueda α))
    (hq : ContratoQsort qsort) (log10 : α → α)
    (idx : Indice α) (K : Int) (size rank : Nat) (consulta_id : Int) (consulta : Cadena)
    (recibido : Nat → Mensaje α) (h : PostingsEnRango idx) :
    ∃ rankings t,
      calcular_rankings log10 idx (resolver_ids idx.vocabulario (palabras_consulta consulta))
        = some rankings ∧
      procesar_consulta_local qsort log10 idx consulta K = some t.locales ∧
      turno qsort log10 idx K size rank consulta_id consulta recibido = some t ∧
      t.locales.Pairwise (fun a b => a.ranking ≥ b.ranking) ∧
      t.locales.Perm (recopilar_desde 0 rankings idx.documentos) ∧
      t.ordenados.Pairwise (fun a b => a.ranking ≥ b.ranking) ∧
      t.ordenados.Perm t.candidatos ∧
      entradas_escritas t.escrito
        = entradas_de 0 (t.ordenados.take (resultados_a_enviar (t.candidatos.length : Int) K).toNat) ∧
      (t.ordenados.take (resultados_a_enviar (t.candidatos.length : Int) K).toNat).Pairwise
        (fun a b => a.ranking ≥ b.ranking) := by
  obtain ⟨r, e, hp, ht⟩ := turno_forma qsort hq log10 idx K size rank consulta_id consulta
    recibido h
  refine ⟨r, _, e, ?_, ht, ?_, ?_, ?_, ?_, ?_, ?_⟩
  · exact hp
  · exact contrato_descendente qsort hq _
  · exact (hq _).1
  · exact contrato_descendente qsort hq _
  · exact (hq _).1
  · exact entradas_escribir_resultados _ _ _
  · exact (contrato_descendente qsort hq _).sublist (List.take_sublist _ _)

/-- Witness of claim C3: the single-partition example as the only node of a cluster. -/
theorem listas_ordenadas_y_permutadas_witness :
    ContratoQsort (ordenar_por_insercion : List (ResultadoBusqueda ℝ) → _) ∧
    PostingsEnRango (indice_ejemplo ℝ) ∧
    ∃ rankings t,
      calcular_rankings (Real.logb 10) (indice_ejemplo ℝ)
        (resolver_ids (indice_ejemplo ℝ).vocabulario (palabras_consulta consulta_perro_gato))
        = some rankings ∧
      procesar_consulta_local ordenar_por_insercion (Real.logb 10) (indice_ejemplo ℝ)
        consulta_perro_gato 10 = some t.locales ∧
      turno ordenar_por_insercion (Real.logb 10) (indice_ejemplo ℝ) 10 1 0 0
        consulta_perro_gato (fun _ => { num := 0, datos := [] }) = some t ∧
      t.locales.Pairwise (fun a b => a.ranking ≥ b.ranking) ∧
      t.locales.Perm (recopilar_desde 0 rankings (indice_ejemplo ℝ).documentos) ∧
      t.ordenados.Pairwise (fun a b => a.ranking ≥ b.ranking) ∧
      t.ordenados.Perm t.candidatos ∧
      entradas_escritas t.escrito
        = entradas_de 0 (t.ordenados.take (resultados_a_enviar (t.candidatos.length : Int) 10).toNat) ∧
      (t.ordenados.take (resultados_a_enviar (t.candidatos.length : Int) 10).toNat).Pairwise
        (fun a b => a.ranking ≥ b.ranking) :=
  ⟨contrato_ordenar_por_insercion, postings_en_rango_ejemplo ℝ,
    listas_ordenadas_y_permutadas ordenar_por_insercion contrato_ordenar_por_insercion
      (Real.logb 10) (indice_ejemplo ℝ) 10 1 0 0 consulta_perro_gato
      (fun _ => { num := 0, datos := [] }) (postings_en_rango_ejemplo ℝ)⟩

/-- Claim C5: for every limit `K` (positive, zero or negative) and every candidate list `xs`
of `n` results, the result lines that `escribir_resultados` writes with
`resultados_finales = (n < K) ? n : K` are the first `K` entries of `xs`: none when `K ≤ 0`,
exactly `K` entries when `0 < K < n`, and all `n` entries when `K ≥ n`. -/
theorem respuesta_final_son_los_primeros_K {α : Type} (consulta_id : Int)
    (xs : List (ResultadoBusqueda α)) (K : Int) :
    entradas_escritas
        (escribir_resultados consulta_id xs (resultados_a_enviar (xs.length : Int) K))
      = entradas_de 0 (xs.take K.toNat) ∧
    (K ≤ 0 → entradas_escritas
        (escribir_resultados consulta_id xs (resultados_a_enviar (xs.length : Int) K)) = []) ∧
    (0 < K → K < (xs.length : Int) → ((xs.take K.toNat).length : Int) = K) ∧
    ((xs.length : Int) ≤ K → entradas_escritas
        (escribir_resultados consulta_id xs (resultados_a_enviar (xs.length : Int) K))
      = entradas_de 0 xs) := by
  have e : entradas_escritas
        (escribir_resultados consulta_id xs (resultados_a_enviar (xs.length : Int) K))
      = entradas_de 0 (xs.take K.toNat) := by
    rw [entradas_escribir_resultados, take_resultados_a_enviar]
  refine ⟨e, ?_, ?_, ?_⟩
  · intro hK
    have : K.toNat = 0 := by omega
    rw [e, this]
    rfl
  · intro h0 h1
    rw [List.length_take]
    omega
  · intro hn
    have : xs.length ≤ K.toNat := by omega
    rw [e, List.take_of_length_le this]

/-- Witness of claim C5 with `K = 1` and a list of two results. -/
theorem respuesta_final_son_los_primeros_K_witness :
    (0 : Int) < 1 ∧
    (1 : Int) < (([⟨0, 1, []⟩, ⟨1, 0, []⟩] : List (ResultadoBusqueda ℚ)).length : Int) ∧
    (((([⟨0, 1, []⟩, ⟨1, 0, []⟩] : List (ResultadoBusqueda ℚ)).take (1 : Int).toNat).length
      : Int) = 1) :=
  ⟨by decide, by decide,
    (respuesta_final_son_los_primeros_K 0
      ([⟨0, 1, []⟩, ⟨1, 0, []⟩] : List (ResultadoBusqueda ℚ)) 1).2.2.1 (by decide) (by decide)⟩


theorem foldl_append_flatten {β γ : Type} (f : γ → List β) (l : List γ) :
    ∀ init : List β,
      l.foldl (fun acc p => acc ++ f p) init = init ++ (l.map f).flatten := by
  induction l with
  | nil => intro init; simp
  | cons x xs ih => intro init; simp [ih, List.append_assoc]

theorem recolectar_eq_flatten {α : Type} (size rank : Nat)
    (locales : List (ResultadoBusqueda α)) (a_enviar : Int) (recibido : Nat → Mensaje α) :
    recolectar size rank locales a_enviar recibido
      = ((List.range size).map (fun p =>
          if p = rank then locales.take a_enviar.toNat
          else copiar_recibidos (recibido p))).flatten := by
  unfold recolectar
  have hf : (fun (todos : List (ResultadoBusqueda α)) (p : Nat) =>
        if p = rank then todos ++ locales.take a_enviar.toNat
        else todos ++ copiar_recibidos (recibido p))
      = (fun todos p => todos ++
          (if p = rank then locales.take a_enviar.toNat
           else copiar_recibidos (recibido p))) := by
    funext todos p
    split <;> rfl
  rw [hf, foldl_append_flatten]
  simp

theorem copiar_recibidos_bien_formado {α : Type} (m : Mensaje α) (hm : MensajeBienFormado m) :
    copiar_recibidos m = m.datos := by
  unfold copiar_recibidos
  by_cases h : m.num > 0
  · rw [if_pos h]
    have := hm.1 h
    exact List.take_of_length_le (by omega)
  · rw [if_neg h]
    exact (hm.2 (by omega)).symm

theorem mensaje_enviado_bien_formado {α : Type} (locales : List (ResultadoBusqueda α))
    (K : Int) : MensajeBienFormado (mensaje_enviado locales K) := by
  unfold MensajeBienFormado mensaje_enviado
  constructor
  · intro h
    simp only at h
    simp only [if_pos h, List.length_take]
    unfold resultados_a_enviar at h ⊢
    split at h <;> split <;> omega
  · intro h
    simp only at h
    have : ¬ resultados_a_enviar (locales.length : Int) K > 0 := by omega
    simp only [if_neg this]

/-- Claim C9: for every cluster size and every owner rank, when each peer's message is as
`MPI_Send` built it (a count and that many results), the candidate list the owner sorts is
the concatenation, for `p = 0, 1, ..., size - 1` in ascending node id, of node `p`'s
contribution: the list received from peer `p`, and at `p = rank` the first `min(n, K)`
entries of the owner's local ranked list; nothing is dropped, duplicated or reordered. -/
theorem candidatos_son_la_concatenacion {α : Type} [LinearOrderedField α]
    (qsort : List (ResultadoBusqueda α) → List (ResultadoBusqueda α))
    (K : Int) (size rank : Nat) (consulta_id : Int)
    (locales : List (ResultadoBusqueda α)) (recibido : Nat → Mensaje α)
    (hm : ∀ p, p < size → p ≠ rank → MensajeBienFormado (recibido p)) :
    (turno_con_locales qsort K size rank consulta_id locales recibido).candidatos
      = ((List.range size).map (fun p =>
          if p = rank then locales.take (min (locales.length : Int) K).toNat
          else (recibido p).datos)).flatten ∧
    (turno_con_locales qsort K size rank consulta_id locales recibido).ordenados
      = qsort (turno_con_locales qsort K size rank consulta_id locales recibido).candidatos := by
  refine ⟨?_, rfl⟩
  show recolectar size rank locales (resultados_a_enviar (locales.length : Int) K) recibido = _
  rw [recolectar_eq_flatten]
  congr 1
  apply List.map_congr_left
  intro p hp
  have hp2 : p < size := List.mem_range.mp hp
  by_cases hr : p = rank
  · simp only [if_pos hr]
    rw [take_resultados_a_enviar]
    by_cases hK : (locales.length : Int) < K
    · rw [min_eq_left (le_of_lt hK)]
      simp
      omega
    · rw [min_eq_right (not_lt.mp hK)]
  · simp only [if_neg hr]
    exact copiar_recibidos_bien_formado _ (hm p hp2 hr)

/-- Witness of claim C9: owner 1 of a three-node cluster, `K = 1`, peers sending the
messages built from their local lists. -/
theorem candidatos_son_la_concatenacion_witness :
    (∀ p, p < 3 → p ≠ 1 → MensajeBienFormado
      (mensaje_enviado ([⟨p, 2, []⟩, ⟨7, 1, []⟩] : List (ResultadoBusqueda ℚ)) 1)) ∧
    (turno_con_locales ordenar_por_insercion 1 3 1 0
        ([⟨5, 3, []⟩, ⟨6, 2, []⟩] : List (ResultadoBusqueda ℚ))
        (fun p => mensaje_enviado [⟨p, 2, []⟩, ⟨7, 1, []⟩] 1)).candidatos
      = ((List.range 3).map (fun p =>
          if p = 1 then
            ([⟨5, 3, []⟩, ⟨6, 2, []⟩] : List (ResultadoBusqueda ℚ)).take
              (min ((([⟨5, 3, []⟩, ⟨6, 2, []⟩] : List (ResultadoBusqueda ℚ)).length : Int)) 1).toNat
          else (mensaje_enviado
            ([⟨p, 2, []⟩, ⟨7, 1, []⟩] : List (ResultadoBusqueda ℚ)) 1).datos)).flatten :=
  ⟨fun _ _ _ => mensaje_enviado_bien_formado _ _,
    (candidatos_son_la_concatenacion ordenar_por_insercion 1 3 1 0
      ([⟨5, 3, []⟩, ⟨6, 2, []⟩] : List (ResultadoBusqueda ℚ))
      (fun p => mensaje_enviado [⟨p, 2, []⟩, ⟨7, 1, []⟩] 1)
      (fun _ _ _ => mensaje_enviado_bien_formado _ _)).1⟩


/-! ## Evaluation of the example indices -/

theorem palabras_consulta_perro : palabras_consulta consulta_perro = ["perro".toList] := by
  decide

theorem palabras_consulta_perro_gato :
    palabras_consulta consulta_perro_gato = ["perro".toList, "gato".toList] := by
  decide

theorem logb_dos_pos : 0 < Real.logb 10 2 := Real.logb_pos (by norm_num) (by norm_num)

theorem logb_tres_medios_pos : 0 < Real.logb 10 (3 / 2) :=
  Real.logb_pos (by norm_num) (by norm_num)

theorem logb_tres_medios_lt : Real.logb 10 (3 / 2) < Real.logb 10 3 :=
  Real.logb_lt_logb (by norm_num) (by norm_num) (by norm_num)

theorem locales_empate_a (qsort : List (ResultadoBusqueda ℝ) → List (ResultadoBusqueda ℝ))
    (K : Int) :
    procesar_consulta_local qsort (Real.logb 10) (indice_empate_a ℝ) consulta_perro K
      = some (qsort [⟨1, Real.logb 10 2, "a1".toList⟩]) := by
  have h := logb_dos_pos
  simp only [procesar_consulta_local, palabras_consulta_perro]
  simp [resolver_ids, buscar_palabra_id,
    indice_empate_a, calcular_rankings, acumular_consulta, acumular_palabra, acumular_lista,
    sumar_ranking, calcular_w, buscar_d_t, rankings_iniciales, num_documentos, recopilar_desde, h]

theorem locales_empate_b (qsort : List (ResultadoBusqueda ℝ) → List (ResultadoBusqueda ℝ))
    (K : Int) :
    procesar_consulta_local qsort (Real.logb 10) (indice_empate_b ℝ) consulta_perro K
      = some (qsort [⟨0, Real.logb 10 2, "b0".toList⟩]) := by
  have h := logb_dos_pos
  simp only [procesar_consulta_local, palabras_consulta_perro]
  simp [resolver_ids, buscar_palabra_id,
    indice_empate_b, calcular_rankings, acumular_consulta, acumular_palabra, acumular_lista,
    sumar_ranking, calcular_w, buscar_d_t, rankings_iniciales, num_documentos, recopilar_desde, h]

theorem locales_empate_local (qsort : List (ResultadoBusqueda ℝ) → List (ResultadoBusqueda ℝ))
    (K : Int) :
    procesar_consulta_local qsort (Real.logb 10) (indice_empate_local ℝ) consulta_perro K
      = some (qsort [⟨0, Real.logb 10 (3 / 2), "d0".toList⟩,
          ⟨1, Real.logb 10 (3 / 2), "d1".toList⟩]) := by
  have h := logb_tres_medios_pos
  simp only [procesar_consulta_local, palabras_consulta_perro]
  simp [resolver_ids, buscar_palabra_id,
    indice_empate_local, calcular_rankings, acumular_consulta, acumular_palabra, acumular_lista,
    sumar_ranking, calcular_w, buscar_d_t, rankings_iniciales, num_documentos, recopilar_desde, h]

theorem rankings_ejemplo :
    calcular_rankings (Real.logb 10) (indice_ejemplo ℝ)
      (resolver_ids (indice_ejemplo ℝ).vocabulario (palabras_consulta consulta_perro_gato))
      = some [Real.logb 10 (3 / 2) * (1 / 2), Real.logb 10 (3 / 2) * 1, Real.logb 10 3 * 1] := by
  simp only [palabras_consulta_perro_gato]
  simp [resolver_ids, buscar_palabra_id,
    indice_ejemplo, calcular_rankings, acumular_consulta, acumular_palabra, acumular_lista,
    sumar_ranking, calcular_w, buscar_d_t, rankings_iniciales, num_documentos]

theorem locales_nodo0 (qsort : List (ResultadoBusqueda ℝ) → List (ResultadoBusqueda ℝ))
    (K : Int) :
    procesar_consulta_local qsort (Real.logb 10) (indice_nodo0 ℝ) consulta_perro_gato K
      = some (qsort []) := by
  simp only [procesar_consulta_local, palabras_consulta_perro_gato]
  simp [resolver_ids, buscar_palabra_id,
    indice_nodo0, calcular_rankings, acumular_consulta, acumular_palabra, acumular_lista,
    sumar_ranking, calcular_w, buscar_d_t, rankings_iniciales, num_documentos, recopilar_desde]

theorem locales_nodo1 (qsort : List (ResultadoBusqueda ℝ) → List (ResultadoBusqueda ℝ))
    (K : Int) :
    procesar_consulta_local qsort (Real.logb 10) (indice_nodo1 ℝ) consulta_perro_gato K
      = some (qsort []) := by
  simp only [procesar_consulta_local, palabras_consulta_perro_gato]
  simp [resolver_ids, buscar_palabra_id,
    indice_nodo1, calcular_rankings, acumular_consulta, acumular_palabra, acumular_lista,
    sumar_ranking, calcular_w, buscar_d_t, rankings_iniciales, num_documentos, recopilar_desde]


/-! ## Sorted lists of scores -/

/-- The scores of a list in non-increasing order (reference for what any `qsort` yields). -/
theorem puntuaciones_qsort {α : Type} [LinearOrderedField α]
    (qsort : List (ResultadoBusqueda α) → List (ResultadoBusqueda α))
    (hq : ContratoQsort qsort) (xs : List (ResultadoBusqueda α)) :
    (qsort xs).map (fun e => e.ranking)
      = (xs.map (fun e => e.ranking)).insertionSort (fun a b => a ≥ b) := by
  apply List.eq_of_perm_of_sorted (r := fun (a b : α) => a ≥ b)
  · exact ((hq xs).1.map _).trans (List.perm_insertionSort _ _).symm
  · exact List.pairwise_map.mpr (contrato_descendente qsort hq xs)
  · exact List.sorted_insertionSort _ _

theorem insertionSort_perm_congr {α : Type} [LinearOrderedField α] {xs ys : List α}
    (h : xs.Perm ys) :
    xs.insertionSort (fun a b => a ≥ b) = ys.insertionSort (fun a b => a ≥ b) := by
  apply List.eq_of_perm_of_sorted (r := fun (a b : α) => a ≥ b)
  · exact ((List.perm_insertionSort _ xs).trans h).trans (List.perm_insertionSort _ ys).symm
  · exact List.sorted_insertionSort _ _
  · exact List.sorted_insertionSort _ _

theorem mejores_cubren {α : Type} [LinearOrderedField α] (d : α) (s : List α) :
    s.Pairwise (fun a b => a ≥ b) → ∀ k : Nat, k ≤ s.countP (fun a => decide (a ≥ d)) →
      ∀ a ∈ s.take k, a ≥ d := by
  induction s with
  | nil => intro _ k _ a ha; simp at ha
  | cons x s ih =>
    intro hs k hk a ha
    cases k with
    | zero => simp at ha
    | succ k =>
      rw [List.pairwise_cons] at hs
      by_cases hx : x ≥ d
      · rw [List.take_succ_cons, List.mem_cons] at ha
        rcases ha with rfl | ha
        · exact hx
        · apply ih hs.2 k _ a ha
          rw [List.countP_cons_of_pos _ _ (by simpa using hx)] at hk
          omega
      · exfalso
        have h0 : (x :: s).countP (fun a => decide (a ≥ d)) = 0 := by
          rw [List.countP_eq_zero]
          intro b hb
          rw [List.mem_cons] at hb
          rcases hb with rfl | hb
          · simpa using hx
          · have := hs.1 b hb
            have hlt : x < d := not_le.mp hx
            simpa using lt_of_le_of_lt this hlt
        omega

theorem take_insertionSort_append {α : Type} [LinearOrderedField α] (k : Nat)
    (xs ds : List α) (h : ∀ d ∈ ds, k ≤ xs.countP (fun a => decide (a ≥ d))) :
    ((xs ++ ds).insertionSort (fun a b => a ≥ b)).take k
      = (xs.insertionSort (fun a b => a ≥ b)).take k := by
  cases ds with
  | nil => simp
  | cons d0 ds0 =>
    have hs := List.sorted_insertionSort (fun (a b : α) => a ≥ b) xs
    have hp := List.perm_insertionSort (fun (a b : α) => a ≥ b) xs
    have hlen : k ≤ (xs.insertionSort (fun a b => a ≥ b)).length := by
      have h1 := h d0 (List.mem_cons_self _ _)
      have h2 := List.countP_le_length (fun a => decide (a ≥ d0)) (l := xs)
      rw [List.length_insertionSort]
      omega
    have key : (xs ++ d0 :: ds0).insertionSort (fun a b => a ≥ b)
        = (xs.insertionSort (fun a b => a ≥ b)).take k ++
          (((xs.insertionSort (fun a b => a ≥ b)).drop k) ++ d0 :: ds0).insertionSort
            (fun a b => a ≥ b) := by
      apply List.eq_of_perm_of_sorted (r := fun (a b : α) => a ≥ b)
      · refine (List.perm_insertionSort _ _).trans ?_
        refine List.Perm.trans ?_
          (List.Perm.append_left _ (List.perm_insertionSort _ _).symm)
        rw [← List.append_assoc, List.take_append_drop]
        exact List.Perm.append_right _ hp.symm
      · exact List.sorted_insertionSort _ _
      · unfold List.Sorted
        rw [List.pairwise_append]
        refine ⟨hs.sublist (List.take_sublist _ _), List.sorted_insertionSort _ _, ?_⟩
        intro a ha b hb
        have hb2 := (List.perm_insertionSort _ _).mem_iff.mp hb
        rw [List.mem_append] at hb2
        rcases hb2 with hb2 | hb2
        · exact hs.rel_of_mem_take_of_mem_drop ha hb2
        · apply mejores_cubren b _ hs k _ a ha
          rw [hp.countP_eq]
          exact h b hb2
    rw [key, List.take_left' (by rw [List.length_take]; omega)]


theorem flatten_perm_take_drop {β : Type} (k : Nat) (Ms : List (List β)) :
    Ms.flatten.Perm ((Ms.map (List.take k)).flatten ++ (Ms.map (List.drop k)).flatten) := by
  induction Ms with
  | nil => simp
  | cons M Ms ih =>
    simp only [List.flatten_cons, List.map_cons]
    have h1 : (M ++ Ms.flatten).Perm
        ((M.take k ++ M.drop k) ++
          ((Ms.map (List.take k)).flatten ++ (Ms.map (List.drop k)).flatten)) := by
      rw [List.take_append_drop]
      exact List.Perm.append_left _ ih
    refine h1.trans ?_
    simp only [List.append_assoc]
    refine List.Perm.append_left _ ?_
    rw [← List.append_assoc, ← List.append_assoc]
    exact List.Perm.append_right _ List.perm_append_comm

theorem mejores_de_truncadas {α : Type} [LinearOrderedField α] (k : Nat) (Ms : List (List α))
    (hs : ∀ M ∈ Ms, M.Pairwise (fun a b => a ≥ b)) :
    (((Ms.map (List.take k)).flatten).insertionSort (fun a b => a ≥ b)).take k
      = ((Ms.flatten).insertionSort (fun a b => a ≥ b)).take k := by
  rw [insertionSort_perm_congr (flatten_perm_take_drop k Ms)]
  symm
  apply take_insertionSort_append
  intro d hd
  rw [List.mem_flatten] at hd
  obtain ⟨D, hD, hdD⟩ := hd
  rw [List.mem_map] at hD
  obtain ⟨M, hM, rfl⟩ := hD
  have hlen : k < M.length := by
    by_contra hcon
    rw [List.drop_of_length_le (by omega)] at hdD
    simp at hdD
  have hsub : (M.take k).Sublist ((Ms.map (List.take k)).flatten) :=
    List.sublist_flatten_of_mem (List.mem_map_of_mem _ hM)
  have hall : (M.take k).countP (fun a => decide (a ≥ d)) = (M.take k).length := by
    rw [List.countP_eq_length]
    intro a ha
    simpa using (hs M hM).rel_of_mem_take_of_mem_drop ha hdD
  calc k = (M.take k).length := by rw [List.length_take]; omega
    _ = (M.take k).countP (fun a => decide (a ≥ d)) := hall.symm
    _ ≤ ((Ms.map (List.take k)).flatten).countP (fun a => decide (a ≥ d)) :=
        hsub.countP_le _


/-! ## The single-partition example -/

theorem qsort_unico {α : Type} [LinearOrderedField α]
    (qsort : List (ResultadoBusqueda α) → List (ResultadoBusqueda α))
    (hq : ContratoQsort qsort) (xs ys : List (ResultadoBusqueda α))
    (hp : ys.Perm xs) (hs : ys.Pairwise (fun a b => a.ranking > b.ranking)) :
    qsort xs = ys := by
  haveI : IsAntisymm (ResultadoBusqueda α) (fun a b => a.ranking > b.ranking) :=
    ⟨fun a b h1 h2 => absurd h1 (not_lt.mpr (le_of_lt h2))⟩
  have hne : (qsort xs).Pairwise (fun a b => a.ranking ≠ b.ranking) := by
    have h1 : ys.Pairwise (fun a b => a.ranking ≠ b.ranking) := hs.imp (fun h => ne_of_gt h)
    exact (List.Perm.pairwise_iff (fun h => Ne.symm h) ((hq xs).1.trans hp.symm)).mpr h1
  have hgt : (qsort xs).Pairwise (fun a b => a.ranking > b.ranking) :=
    ((contrato_descendente qsort hq xs).and hne).imp (fun h => lt_of_le_of_ne h.1 (Ne.symm h.2))
  exact List.eq_of_perm_of_sorted ((hq xs).1.trans hp.symm) hgt hs

theorem orden_puntuaciones_ejemplo :
    Real.logb 10 3 * 1 > Real.logb 10 (3 / 2) * 1 ∧
    Real.logb 10 (3 / 2) * 1 > Real.logb 10 (3 / 2) * 0.5 ∧
    Real.logb 10 (3 / 2) * 0.5 > 0 := by
  have h1 := logb_tres_medios_pos
  have h2 := logb_tres_medios_lt
  refine ⟨by linarith, by linarith, by linarith⟩

/-- Claim C7: on the single-partition example (perro id 0 df 2, gato id 1 df 1, `N = 3`,
perro -> [(0, 0.5), (1, 1.0)], gato -> [(2, 1.0)]) the query `perro gato` gives documents
0, 1, 2 the scores `log10(3/2) * 0.5`, `log10(3/2) * 1.0`, `log10(3) * 1.0`, and
`procesar_consulta` prints them in the ranked order doc2, doc1, doc0 (printed 1-based as
3, 2, 1), for every `qsort` that meets the contract. -/
theorem ejemplo_particion_unica
    (qsort : List (ResultadoBusqueda ℝ) → List (ResultadoBusqueda ℝ))
    (hq : ContratoQsort qsort) :
    calcular_rankings (Real.logb 10) (indice_ejemplo ℝ)
      (resolver_ids (indice_ejemplo ℝ).vocabulario (palabras_consulta consulta_perro_gato))
      = some [Real.logb 10 (3 / 2) * 0.5, Real.logb 10 (3 / 2) * 1.0, Real.logb 10 3 * 1.0] ∧
    procesar_consulta qsort (Real.logb 10) (indice_ejemplo ℝ) consulta_perro_gato
      = some [Salida.par 3 (Real.logb 10 3 * 1.0), Salida.par 2 (Real.logb 10 (3 / 2) * 1.0),
          Salida.par 1 (Real.logb 10 (3 / 2) * 0.5)] := by
  have hr : calcular_rankings (Real.logb 10) (indice_ejemplo ℝ)
      (resolver_ids (indice_ejemplo ℝ).vocabulario (palabras_consulta consulta_perro_gato))
      = some [Real.logb 10 (3 / 2) * 0.5, Real.logb 10 (3 / 2) * 1.0, Real.logb 10 3 * 1.0] := by
    rw [rankings_ejemplo]
    norm_num
  refine ⟨hr, ?_⟩
  obtain ⟨o1, o2, o3⟩ := orden_puntuaciones_ejemplo
  have e1 : (1.0 : ℝ) = 1 := by norm_num
  rw [e1] at hr ⊢
  have hrec : recopilar_sin_url 0
      [Real.logb 10 (3 / 2) * 0.5, Real.logb 10 (3 / 2) * 1, Real.logb 10 3 * 1]
      = [⟨0, Real.logb 10 (3 / 2) * 0.5, []⟩, ⟨1, Real.logb 10 (3 / 2) * 1, []⟩,
          ⟨2, Real.logb 10 3 * 1, []⟩] := by
    have o4 : Real.logb 10 (3 / 2) * 1 > 0 := lt_trans o3 o2
    have o5 : Real.logb 10 3 * 1 > 0 := lt_trans o4 o1
    simp only [recopilar_sin_url, if_pos o3, if_pos o4, if_pos o5]
    rfl
  have hsort : qsort [⟨0, Real.logb 10 (3 / 2) * 0.5, []⟩, ⟨1, Real.logb 10 (3 / 2) * 1, []⟩,
          ⟨2, Real.logb 10 3 * 1, []⟩]
      = [⟨2, Real.logb 10 3 * 1, []⟩, ⟨1, Real.logb 10 (3 / 2) * 1, []⟩,
          ⟨0, Real.logb 10 (3 / 2) * 0.5, []⟩] := by
    apply qsort_unico qsort hq
    · exact List.reverse_perm
        [⟨0, Real.logb 10 (3 / 2) * 0.5, []⟩, ⟨1, Real.logb 10 (3 / 2) * 1, []⟩,
          (⟨2, Real.logb 10 3 * 1, []⟩ : ResultadoBusqueda ℝ)]
    · simp only [List.pairwise_cons, List.mem_cons, List.mem_singleton, List.not_mem_nil,
        forall_eq_or_imp, forall_eq, List.Pairwise.nil, and_true, false_implies, implies_true]
      exact ⟨⟨o1, lt_trans o2 o1⟩, o2⟩
  unfold procesar_consulta
  rw [hr]
  simp only [hrec, hsort, palabras_consulta_perro_gato]
  simp [resolver_ids, advertencias, buscar_palabra_id, indice_ejemplo]

/-- Witness of claim C7 with insertion sort as `qsort`. -/
theorem ejemplo_particion_unica_witness :
    ContratoQsort (ordenar_por_insercion : List (ResultadoBusqueda ℝ) → _) ∧
    calcular_rankings (Real.logb 10) (indice_ejemplo ℝ)
      (resolver_ids (indice_ejemplo ℝ).vocabulario (palabras_consulta consulta_perro_gato))
      = some [Real.logb 10 (3 / 2) * 0.5, Real.logb 10 (3 / 2) * 1.0, Real.logb 10 3 * 1.0] ∧
    procesar_consulta ordenar_por_insercion (Real.logb 10) (indice_ejemplo ℝ)
        consulta_perro_gato
      = some [Salida.par 3 (Real.logb 10 3 * 1.0), Salida.par 2 (Real.logb 10 (3 / 2) * 1.0),
          Salida.par 1 (Real.logb 10 (3 / 2) * 0.5)] :=
  ⟨contrato_ordenar_por_insercion,
    ejemplo_particion_unica ordenar_por_insercion contrato_ordenar_por_insercion⟩


theorem locales_ejemplo (qsort : List (ResultadoBusqueda ℝ) → List (ResultadoBusqueda ℝ))
    (hq : ContratoQsort qsort) (K : Int) :
    procesar_consulta_local qsort (Real.logb 10) (indice_ejemplo ℝ) consulta_perro_gato K
      = some [⟨2, Real.logb 10 3 * 1, "doc2".toList⟩,
          ⟨1, Real.logb 10 (3 / 2) * 1, "doc1".toList⟩,
          ⟨0, Real.logb 10 (3 / 2) * (1 / 2), "doc0".toList⟩] := by
  obtain ⟨o1, o2, o3⟩ := orden_puntuaciones_ejemplo
  have e1 : (0.5 : ℝ) = 1 / 2 := by norm_num
  rw [e1] at o2 o3
  have o4 : Real.logb 10 (3 / 2) * 1 > 0 := lt_trans o3 o2
  have o5 : Real.logb 10 3 * 1 > 0 := lt_trans o4 o1
  have hrec : recopilar_desde 0
      [Real.logb 10 (3 / 2) * (1 / 2), Real.logb 10 (3 / 2) * 1, Real.logb 10 3 * 1]
      (indice_ejemplo ℝ).documentos
      = [⟨0, Real.logb 10 (3 / 2) * (1 / 2), "doc0".toList⟩,
          ⟨1, Real.logb 10 (3 / 2) * 1, "doc1".toList⟩,
          ⟨2, Real.logb 10 3 * 1, "doc2".toList⟩] := by
    simp only [indice_ejemplo, recopilar_desde, if_pos o3, if_pos o4, if_pos o5]
    rfl
  have hsort : qsort [⟨0, Real.logb 10 (3 / 2) * (1 / 2), "doc0".toList⟩,
          ⟨1, Real.logb 10 (3 / 2) * 1, "doc1".toList⟩,
          ⟨2, Real.logb 10 3 * 1, "doc2".toList⟩]
      = [⟨2, Real.logb 10 3 * 1, "doc2".toList⟩,
          ⟨1, Real.logb 10 (3 / 2) * 1, "doc1".toList⟩,
          ⟨0, Real.logb 10 (3 / 2) * (1 / 2), "doc0".toList⟩] := by
    apply qsort_unico qsort hq
    · exact List.reverse_perm
        [⟨0, Real.logb 10 (3 / 2) * (1 / 2), "doc0".toList⟩,
          ⟨1, Real.logb 10 (3 / 2) * 1, "doc1".toList⟩,
          (⟨2, Real.logb 10 3 * 1, "doc2".toList⟩ : ResultadoBusqueda ℝ)]
    · simp only [List.pairwise_cons, List.mem_cons, List.mem_singleton, List.not_mem_nil,
        forall_eq_or_imp, forall_eq, List.Pairwise.nil, and_true, false_implies, implies_true]
      exact ⟨⟨o1, lt_trans o2 o1⟩, o2⟩
  unfold procesar_consulta_local
  rw [rankings_ejemplo]
  simp only [hrec, hsort, palabras_consulta_perro_gato]
  simp [resolver_ids, buscar_palabra_id, indice_ejemplo]

/-! ## The two-node example -/

theorem qsort_nil {α : Type} [LinearOrderedField α]
    (qsort : List (ResultadoBusqueda α) → List (ResultadoBusqueda α))
    (hq : ContratoQsort qsort) : qsort [] = [] :=
  List.Perm.eq_nil (hq []).1

theorem turno_dos_nodos (qsort : List (ResultadoBusqueda ℝ) → List (ResultadoBusqueda ℝ))
    (hq : ContratoQsort qsort) (K : Int) (consulta_id : Int) :
    turno_en_cluster qsort (Real.logb 10) [indice_nodo0 ℝ, indice_nodo1 ℝ] K 0 consulta_id
        consulta_perro_gato
      = some { locales := [], candidatos := [], enviados := [(1, mensaje_enviado [] K)],
               ordenados := [],
               escrito := escribir_resultados consulta_id [] (resultados_a_enviar 0 K) } := by
  have hn := qsort_nil qsort hq
  have hm : (mensaje_enviado ([] : List (ResultadoBusqueda ℝ)) K).datos = [] := by
    simp [mensaje_enviado]
  simp [turno_en_cluster, mensajes_del_cluster, locales_nodo0, locales_nodo1, turno, hn,
    turno_con_locales, recolectar, envios, List.range, List.range.loop, copiar_recibidos, hm]

/-- Counterexample to claim C8: in the two-node example the merged final list of owner 0 for
`perro gato` is empty (the "no results" block is written), so it does not contain the three
documents. -/
theorem ejemplo_dos_nodos_sin_resultados :
    ∃ t, turno_en_cluster ordenar_por_insercion (Real.logb 10)
        [indice_nodo0 ℝ, indice_nodo1 ℝ] 10 0 0 consulta_perro_gato = some t ∧
      t.ordenados = [] ∧
      t.escrito = [Linea.encabezado 1, Linea.sin_resultados, Linea.en_blanco] ∧
      ¬ ∃ e ∈ t.ordenados, e.url = "doc2".toList := by
  refine ⟨_, turno_dos_nodos ordenar_por_insercion contrato_ordenar_por_insercion 10 0,
    rfl, ?_, ?_⟩
  · simp [escribir_resultados, resultados_a_enviar]
  · simp

/-- Claim C8, amended: in the two-node example every local weight is `log10(1) * tf = 0`
(node 0: `N = 2`, perro df 2; node 1: `N = 1`, gato df 1), so the rankings of both nodes are
all `0`, both local lists are empty, and the merged final list of owner 0 for `perro gato`
is empty: no result line is written, for every `K` and every `qsort` meeting the contract. -/
theorem ejemplo_dos_nodos_puntuaciones_nulas
    (qsort : List (ResultadoBusqueda ℝ) → List (ResultadoBusqueda ℝ))
    (hq : ContratoQsort qsort) (K : Int) (consulta_id : Int) :
    calcular_rankings (Real.logb 10) (indice_nodo0 ℝ)
      (resolver_ids (indice_nodo0 ℝ).vocabulario (palabras_consulta consulta_perro_gato))
      = some [0, 0] ∧
    calcular_rankings (Real.logb 10) (indice_nodo1 ℝ)
      (resolver_ids (indice_nodo1 ℝ).vocabulario (palabras_consulta consulta_perro_gato))
      = some [0] ∧
    procesar_consulta_local qsort (Real.logb 10) (indice_nodo0 ℝ) consulta_perro_gato K
      = some [] ∧
    procesar_consulta_local qsort (Real.logb 10) (indice_nodo1 ℝ) consulta_perro_gato K
      = some [] ∧
    ∃ t, turno_en_cluster qsort (Real.logb 10) [indice_nodo0 ℝ, indice_nodo1 ℝ] K 0 consulta_id
        consulta_perro_gato = some t ∧
      t.candidatos = [] ∧ t.ordenados = [] ∧ entradas_escritas t.escrito = [] := by
  refine ⟨?_, ?_, ?_, ?_, _, turno_dos_nodos qsort hq K consulta_id, rfl, rfl, ?_⟩
  · simp only [palabras_consulta_perro_gato]
    simp [resolver_ids, buscar_palabra_id,
      indice_nodo0, calcular_rankings, acumular_consulta, acumular_palabra, acumular_lista,
      sumar_ranking, calcular_w, buscar_d_t, rankings_iniciales, num_documentos]
  · simp only [palabras_consulta_perro_gato]
    simp [resolver_ids, buscar_palabra_id,
      indice_nodo1, calcular_rankings, acumular_consulta, acumular_palabra, acumular_lista,
      sumar_ranking, calcular_w, buscar_d_t, rankings_iniciales, num_documentos]
  · rw [locales_nodo0, qsort_nil qsort hq]
  · rw [locales_nodo1, qsort_nil qsort hq]
  · rw [entradas_escribir_resultados, List.take_nil]
    rfl

/-- Witness of the amended claim C8 with insertion sort and `K = 10`. -/
theorem ejemplo_dos_nodos_puntuaciones_nulas_witness :
    ContratoQsort (ordenar_por_insercion : List (ResultadoBusqueda ℝ) → _) ∧
    ∃ t, turno_en_cluster ordenar_por_insercion (Real.logb 10)
        [indice_nodo0 ℝ, indice_nodo1 ℝ] 10 0 0 consulta_perro_gato = some t ∧
      t.candidatos = [] ∧ t.ordenados = [] ∧ entradas_escritas t.escrito = [] :=
  ⟨contrato_ordenar_por_insercion,
    (ejemplo_dos_nodos_puntuaciones_nulas ordenar_por_insercion
      contrato_ordenar_por_insercion 10 0).2.2.2.2⟩


/-! ## Merging the local lists -/

/-- Counterexample to claim C6: with the three documents of the example split over two
nodes, the merged list of owner 0 truncated to `K = 10` has no document, while scoring the
whole collection as one partition and taking its top 10 gives documents 2, 1, 0. -/
theorem fusion_difiere_de_particion_unica :
    ∃ t g,
      turno_en_cluster ordenar_por_insercion (Real.logb 10)
        [indice_nodo0 ℝ, indice_nodo1 ℝ] 10 0 0 consulta_perro_gato = some t ∧
      procesar_consulta_local ordenar_por_insercion (Real.logb 10) (indice_ejemplo ℝ)
        consulta_perro_gato 10 = some g ∧
      (t.ordenados.take 10).map (fun e => e.url) = [] ∧
      (g.take 10).map (fun e => e.url) = ["doc2".toList, "doc1".toList, "doc0".toList] ∧
      (t.ordenados.take 10).map (fun e => e.doc_id) ≠ (g.take 10).map (fun e => e.doc_id) := by
  refine ⟨_, _, turno_dos_nodos ordenar_por_insercion contrato_ordenar_por_insercion 10 0,
    locales_ejemplo ordenar_por_insercion contrato_ordenar_por_insercion 10, ?_, ?_, ?_⟩
  · rfl
  · rfl
  · simp

theorem copiar_mensaje_enviado {α : Type} (locales : List (ResultadoBusqueda α)) (K : Int) :
    copiar_recibidos (mensaje_enviado locales K) = locales.take K.toNat := by
  rw [copiar_recibidos_bien_formado _ (mensaje_enviado_bien_formado locales K)]
  unfold mensaje_enviado
  simp only
  by_cases h : resultados_a_enviar (locales.length : Int) K > 0
  · rw [if_pos h, take_resultados_a_enviar]
  · rw [if_neg h]
    unfold resultados_a_enviar at h
    by_cases hK : (locales.length : Int) < K
    · rw [if_pos hK] at h
      have : locales.length = 0 := by omega
      rw [List.length_eq_zero.mp this]
      simp
    · rw [if_neg hK] at h
      have : K.toNat = 0 := by omega
      rw [this]
      rfl

theorem map_range_getD {β γ : Type} (f : List β → γ) (Ls : List (List β)) :
    (List.range Ls.length).map (fun p => f (Ls.getD p [])) = Ls.map f := by
  apply List.ext_getElem
  · simp
  · intro i h1 h2
    simp only [List.length_map, List.length_range] at h1
    simp [List.getD_eq_getElem?_getD, h1]

theorem candidatos_de_listas_locales {α : Type} [LinearOrderedField α]
    (qsort : List (ResultadoBusqueda α) → List (ResultadoBusqueda α))
    (K : Int) (Ls : List (List (ResultadoBusqueda α))) (rank : Nat) (consulta_id : Int) :
    (turno_con_locales qsort K Ls.length rank consulta_id (Ls.getD rank [])
        (fun p => mensaje_enviado (Ls.getD p []) K)).candidatos
      = (Ls.map (List.take K.toNat)).flatten := by
  show recolectar Ls.length rank (Ls.getD rank [])
    (resultados_a_enviar ((Ls.getD rank []).length : Int) K)
    (fun p => mensaje_enviado (Ls.getD p []) K) = _
  rw [recolectar_eq_flatten, ← map_range_getD (List.take K.toNat) Ls]
  congr 1
  apply List.map_congr_left
  intro p _
  by_cases hr : p = rank
  · rw [if_pos hr, take_resultados_a_enviar, hr]
  · rw [if_neg hr, copiar_mensaje_enviado]

theorem mejores_puntuaciones_de_fusion {α : Type} [LinearOrderedField α]
    (qsort : List (ResultadoBusqueda α) → List (ResultadoBusqueda α))
    (hq : ContratoQsort qsort) (k : Nat) (Ls : List (List (ResultadoBusqueda α)))
    (hs : ∀ L ∈ Ls, L.Pairwise (fun a b => a.ranking ≥ b.ranking)) :
    ((qsort ((Ls.map (List.take k)).flatten)).take k).map (fun e => e.ranking)
      = ((qsort Ls.flatten).take k).map (fun e => e.ranking) := by
  rw [List.map_take, List.map_take, puntuaciones_qsort qsort hq, puntuaciones_qsort qsort hq]
  have h1 : ((Ls.map (List.take k)).flatten).map (fun e => e.ranking)
      = ((Ls.map (List.map (fun e => e.ranking))).map (List.take k)).flatten := by
    rw [List.map_flatten, List.map_map, List.map_map]
    congr 1
    apply List.map_congr_left
    intro L _
    simp [List.map_take]
  have h2 : (Ls.flatten).map (fun e => e.ranking)
      = (Ls.map (List.map (fun e => e.ranking))).flatten := by
    rw [List.map_flatten]
  rw [h1, h2]
  apply mejores_de_truncadas
  intro M hM
  rw [List.mem_map] at hM
  obtain ⟨L, hL, rfl⟩ := hM
  exact List.pairwise_map.mpr (hs L hL)

theorem eq_of_map_eq_of_inj_on {β γ : Type} (f : β → γ) (B : List β)
    (hinj : ∀ x ∈ B, ∀ y ∈ B, f x = f y → x = y) :
    ∀ X Y : List β, (∀ x ∈ X, x ∈ B) → (∀ y ∈ Y, y ∈ B) → X.map f = Y.map f → X = Y := by
  intro X
  induction X with
  | nil =>
    intro Y _ _ h
    cases Y with
    | nil => rfl
    | cons y Y => simp at h
  | cons x X ih =>
    intro Y hX hY h
    cases Y with
    | nil => simp at h
    | cons y Y =>
      simp only [List.map_cons, List.cons.injEq] at h
      have hxy : x = y :=
        hinj x (hX x (List.mem_cons_self _ _)) y (hY y (List.mem_cons_self _ _)) h.1
      rw [hxy, ih Y (fun a ha => hX a (List.mem_cons_of_mem _ ha))
        (fun a ha => hY a (List.mem_cons_of_mem _ ha)) h.2]

theorem mem_flatten_take {β : Type} (k : Nat) (Ls : List (List β)) (x : β)
    (hx : x ∈ (Ls.map (List.take k)).flatten) : x ∈ Ls.flatten := by
  rw [List.mem_flatten] at hx ⊢
  obtain ⟨T, hT, hxT⟩ := hx
  rw [List.mem_map] at hT
  obtain ⟨L, hL, rfl⟩ := hT
  exact ⟨L, hL, List.mem_of_mem_take hxT⟩

/-- Claim C6, amended: for every cluster in which node `p` contributes the first `K` entries
of its local ranked list `Ls[p]` (ranked by the node's own scores, computed with its local
`N` and `D(t)`), the scores of the merged list truncated to `K` are exactly the scores of
the top `K` obtained by sorting the complete local lists of all nodes together; when no two
of those scores are equal, the merged top `K` are the very same entries (same document ids
and urls). -/
theorem fusion_conserva_mejores_puntuaciones {α : Type} [LinearOrderedField α]
    (qsort : List (ResultadoBusqueda α) → List (ResultadoBusqueda α))
    (hq : ContratoQsort qsort) (K : Int) (Ls : List (List (ResultadoBusqueda α)))
    (rank : Nat) (consulta_id : Int)
    (hs : ∀ L ∈ Ls, L.Pairwise (fun a b => a.ranking ≥ b.ranking)) :
    ((turno_con_locales qsort K Ls.length rank consulta_id (Ls.getD rank [])
        (fun p => mensaje_enviado (Ls.getD p []) K)).ordenados.take K.toNat).map
        (fun e => e.ranking)
      = ((qsort Ls.flatten).take K.toNat).map (fun e => e.ranking) ∧
    ((Ls.flatten.map (fun e => e.ranking)).Nodup →
      (turno_con_locales qsort K Ls.length rank consulta_id (Ls.getD rank [])
        (fun p => mensaje_enviado (Ls.getD p []) K)).ordenados.take K.toNat
      = (qsort Ls.flatten).take K.toNat) := by
  have h := candidatos_de_listas_locales qsort K Ls rank consulta_id
  have hord : (turno_con_locales qsort K Ls.length rank consulta_id (Ls.getD rank [])
        (fun p => mensaje_enviado (Ls.getD p []) K)).ordenados
      = qsort ((Ls.map (List.take K.toNat)).flatten) := by
    show qsort (turno_con_locales qsort K Ls.length rank consulta_id (Ls.getD rank [])
        (fun p => mensaje_enviado (Ls.getD p []) K)).candidatos = _
    rw [h]
  rw [hord]
  have hsc := mejores_puntuaciones_de_fusion qsort hq K.toNat Ls hs
  refine ⟨hsc, ?_⟩
  intro hnd
  apply eq_of_map_eq_of_inj_on (fun e => e.ranking) Ls.flatten
    (List.inj_on_of_nodup_map hnd) _ _ _ _ hsc
  · intro x hx
    exact mem_flatten_take K.toNat Ls x ((hq _).1.mem_iff.mp (List.mem_of_mem_take hx))
  · intro y hy
    exact (hq _).1.mem_iff.mp (List.mem_of_mem_take hy)

/-- Witness of the amended claim C6: two nodes with ranked local lists, `K = 1`, owner 0. -/
theorem fusion_conserva_mejores_puntuaciones_witness :
    ContratoQsort (ordenar_por_insercion : List (ResultadoBusqueda ℚ) → _) ∧
    (∀ L ∈ ([[⟨0, 3, []⟩, ⟨1, 1, []⟩], [⟨0, 2, []⟩]] : List (List (ResultadoBusqueda ℚ))),
      L.Pairwise (fun a b => a.ranking ≥ b.ranking)) ∧
    ((([[⟨0, 3, []⟩, ⟨1, 1, []⟩], [⟨0, 2, []⟩]] : List (List (ResultadoBusqueda ℚ))).flatten.map
      (fun e => e.ranking)).Nodup) ∧
    (turno_con_locales ordenar_por_insercion 1
        ([[⟨0, 3, []⟩, ⟨1, 1, []⟩], [⟨0, 2, []⟩]] : List (List (ResultadoBusqueda ℚ))).length
        0 0
        (([[⟨0, 3, []⟩, ⟨1, 1, []⟩], [⟨0, 2, []⟩]] : List (List (ResultadoBusqueda ℚ))).getD 0 [])
        (fun p => mensaje_enviado
          (([[⟨0, 3, []⟩, ⟨1, 1, []⟩], [⟨0, 2, []⟩]] :
            List (List (ResultadoBusqueda ℚ))).getD p []) 1)).ordenados.take (1 : Int).toNat
      = (ordenar_por_insercion
          ([[⟨0, 3, []⟩, ⟨1, 1, []⟩], [⟨0, 2, []⟩]] :
            List (List (ResultadoBusqueda ℚ))).flatten).take (1 : Int).toNat :=
  ⟨contrato_ordenar_por_insercion,
    by
      intro L hL
      simp only [List.mem_cons, List.mem_singleton, List.not_mem_nil, or_false] at hL
      rcases hL with rfl | rfl
      · simp
      · simp,
    by simp,
    (fusion_conserva_mejores_puntuaciones ordenar_por_insercion contrato_ordenar_por_insercion 1
      ([[⟨0, 3, []⟩, ⟨1, 1, []⟩], [⟨0, 2, []⟩]] : List (List (ResultadoBusqueda ℚ))) 0 0
      (by
        intro L hL
        simp only [List.mem_cons, List.mem_singleton, List.not_mem_nil, or_false] at hL
        rcases hL with rfl | rfl
        · simp
        · simp)).2 (by simp)⟩


/-! ## Results with equal score -/

theorem turno_empate_dos_nodos :
    turno_en_cluster ordenar_por_insercion (Real.logb 10)
        [indice_empate_a ℝ, indice_empate_b ℝ] 10 0 0 consulta_perro
      = some (turno_con_locales ordenar_por_insercion 10 2 0 0
          [⟨1, Real.logb 10 2, "a1".toList⟩]
          (fun p => ([mensaje_enviado [⟨1, Real.logb 10 2, "a1".toList⟩] 10,
            mensaje_enviado [⟨0, Real.logb 10 2, "b0".toList⟩] 10]).getD p ⟨0, []⟩)) := by
  have h1 : ∀ x : ResultadoBusqueda ℝ, ordenar_por_insercion [x] = [x] := by
    intro x
    simp [ordenar_por_insercion]
  simp [turno_en_cluster, mensajes_del_cluster, locales_empate_a, locales_empate_b, turno, h1]

theorem recolectar_empate_dos_nodos :
    recolectar 2 0 [(⟨1, Real.logb 10 2, "a1".toList⟩ : ResultadoBusqueda ℝ)]
        (resultados_a_enviar
          (([(⟨1, Real.logb 10 2, "a1".toList⟩ : ResultadoBusqueda ℝ)].length : Nat) : Int) 10)
        (fun p => ([mensaje_enviado [⟨1, Real.logb 10 2, "a1".toList⟩] 10,
          mensaje_enviado [⟨0, Real.logb 10 2, "b0".toList⟩] 10]).getD p ⟨0, []⟩)
      = [⟨1, Real.logb 10 2, "a1".toList⟩, ⟨0, Real.logb 10 2, "b0".toList⟩] := by
  simp [recolectar, List.range, List.range.loop, mensaje_enviado,
    resultados_a_enviar, copiar_recibidos]

theorem insercion_empate (a b : ResultadoBusqueda ℝ) (h : a.ranking = b.ranking) :
    ordenar_por_insercion [a, b] = [a, b] := by
  simp [ordenar_por_insercion, comparar_resultados, h]

theorem invirtiendo_empate (a b : ResultadoBusqueda ℝ) (h : a.ranking = b.ranking) :
    ordenar_invirtiendo [a, b] = [b, a] := by
  simp [ordenar_invirtiendo, ordenar_por_insercion, comparar_resultados, h]

/-- Counterexample to claim C4, in a merged list and in a local list.
Merged: two nodes, each with one document scoring `log10(2)` for the query `perro`
(document 1 on node 0, document 0 on node 1); with the stable insertion sort as `qsort`
the merged final list of owner 0 lists document 1 before document 0 although their scores
are equal. Local: one node whose documents 0 and 1 both score `log10(3/2)`; with a `qsort`
that meets the contract and reverses equal elements the local list is d1, d0. -/
theorem empate_sin_orden_por_doc_id :
    (∃ t, turno_en_cluster ordenar_por_insercion (Real.logb 10)
        [indice_empate_a ℝ, indice_empate_b ℝ] 10 0 0 consulta_perro = some t ∧
      t.ordenados = [⟨1, Real.logb 10 2, "a1".toList⟩, ⟨0, Real.logb 10 2, "b0".toList⟩] ∧
      entradas_escritas t.escrito
        = [(1, 2, Real.logb 10 2, "a1".toList), (2, 1, Real.logb 10 2, "b0".toList)] ∧
      ¬ t.ordenados.Pairwise (fun a b => a.ranking = b.ranking → a.doc_id ≤ b.doc_id)) ∧
    (ContratoQsort (ordenar_invirtiendo : List (ResultadoBusqueda ℝ) → _) ∧
      ∃ l, procesar_consulta_local ordenar_invirtiendo (Real.logb 10)
          (indice_empate_local ℝ) consulta_perro 10 = some l ∧
        l = [⟨1, Real.logb 10 (3 / 2), "d1".toList⟩, ⟨0, Real.logb 10 (3 / 2), "d0".toList⟩] ∧
        ¬ l.Pairwise (fun a b => a.ranking = b.ranking → a.doc_id ≤ b.doc_id)) := by
  refine ⟨?_, contrato_ordenar_invirtiendo, _, ?_, rfl, by simp⟩
  swap
  · rw [locales_empate_local,
      invirtiendo_empate ⟨0, Real.logb 10 (3 / 2), "d0".toList⟩
        ⟨1, Real.logb 10 (3 / 2), "d1".toList⟩ rfl]
  have hord : (turno_con_locales ordenar_por_insercion 10 2 0 0
        [⟨1, Real.logb 10 2, "a1".toList⟩]
        (fun p => ([mensaje_enviado [⟨1, Real.logb 10 2, "a1".toList⟩] 10,
          mensaje_enviado [⟨0, Real.logb 10 2, "b0".toList⟩] 10]).getD p ⟨0, []⟩)).ordenados
      = [⟨1, Real.logb 10 2, "a1".toList⟩, ⟨0, Real.logb 10 2, "b0".toList⟩] := by
    show ordenar_por_insercion (recolectar _ _ _ _ _) = _
    rw [recolectar_empate_dos_nodos, insercion_empate ⟨1, Real.logb 10 2, "a1".toList⟩ ⟨0, Real.logb 10 2, "b0".toList⟩ rfl]
  refine ⟨_, turno_empate_dos_nodos, hord, ?_, ?_⟩
  · show entradas_escritas (escribir_resultados 0
      (ordenar_por_insercion (recolectar _ _ _ _ _))
      (resultados_a_enviar ((recolectar _ _ _ _ _).length : Int) 10)) = _
    rw [entradas_escribir_resultados, recolectar_empate_dos_nodos, insercion_empate ⟨1, Real.logb 10 2, "a1".toList⟩ ⟨0, Real.logb 10 2, "b0".toList⟩ rfl]
    simp [resultados_a_enviar, entradas_de]
  · rw [hord]
    simp

/-- Claim C4, amended: in every ranked list the program outputs (the local list of a node
and the merged final list of the owner) the results are ordered by score alone: of two
results with different scores the one with the higher score comes first, and
`comparar_resultados` returns `0` for two results with equal score whatever their docIds,
so `qsort` may leave them in either order. -/
theorem orden_solo_por_puntuacion {α : Type} [LinearOrderedField α]
    (qsort : List (ResultadoBusqueda α) → List (ResultadoBusqueda α))
    (hq : ContratoQsort qsort) (log10 : α → α)
    (idx : Indice α) (K : Int) (size rank : Nat) (consulta_id : Int) (consulta : Cadena)
    (recibido : Nat → Mensaje α) (h : PostingsEnRango idx) :
    (∀ a b : ResultadoBusqueda α, a.ranking = b.ranking → comparar_resultados a b = 0) ∧
    ∃ t, turno qsort log10 idx K size rank consulta_id consulta recibido = some t ∧
      procesar_consulta_local qsort log10 idx consulta K = some t.locales ∧
      t.locales.Pairwise (fun a b => a.ranking ≠ b.ranking → a.ranking > b.ranking) ∧
      (t.ordenados.take (resultados_a_enviar (t.candidatos.length : Int) K).toNat).Pairwise
        (fun a b => a.ranking ≠ b.ranking → a.ranking > b.ranking) := by
  constructor
  · intro a b hab
    simp [comparar_resultados, hab]
  · obtain ⟨r, _, hp, ht⟩ := turno_forma qsort hq log10 idx K size rank consulta_id consulta
      recibido h
    refine ⟨_, ht, hp, ?_, ?_⟩
    · exact (contrato_descendente qsort hq _).imp
        (fun hab hne => lt_of_le_of_ne hab (Ne.symm hne))
    · exact ((contrato_descendente qsort hq _).sublist (List.take_sublist _ _)).imp
        (fun hab hne => lt_of_le_of_ne hab (Ne.symm hne))

/-- Witness of the amended claim C4: the single-partition example as the only node. -/
theorem orden_solo_por_puntuacion_witness :
    ContratoQsort (ordenar_por_insercion : List (ResultadoBusqueda ℝ) → _) ∧
    PostingsEnRango (indice_ejemplo ℝ) ∧
    ∃ t, turno ordenar_por_insercion (Real.logb 10) (indice_ejemplo ℝ) 10 1 0 0
        consulta_perro_gato (fun _ => { num := 0, datos := [] }) = some t ∧
      procesar_consulta_local ordenar_por_insercion (Real.logb 10) (indice_ejemplo ℝ)
        consulta_perro_gato 10 = some t.locales ∧
      t.locales.Pairwise (fun a b => a.ranking ≠ b.ranking → a.ranking > b.ranking) ∧
      (t.ordenados.take (resultados_a_enviar (t.candidatos.length : Int) 10).toNat).Pairwise
        (fun a b => a.ranking ≠ b.ranking → a.ranking > b.ranking) :=
  ⟨contrato_ordenar_por_insercion, postings_en_rango_ejemplo ℝ,
    (orden_solo_por_puntuacion ordenar_por_insercion contrato_ordenar_por_insercion
      (Real.logb 10) (indice_ejemplo ℝ) 10 1 0 0 consulta_perro_gato
      (fun _ => { num := 0, datos := [] }) (postings_en_rango_ejemplo ℝ)).2⟩


/-! ## The single-node cluster -/

theorem take_resultados_finales {α : Type} [LinearOrderedField α]
    (qsort : List (ResultadoBusqueda α) → List (ResultadoBusqueda α))
    (hq : ContratoQsort qsort) (xs : List (ResultadoBusqueda α)) (K : Int) :
    (qsort xs).take (resultados_a_enviar (xs.length : Int) K).toNat = (qsort xs).take K.toNat := by
  rw [← (hq xs).1.length_eq]
  exact take_resultados_a_enviar _ _

theorem recolectar_un_nodo {α : Type} (locales : List (ResultadoBusqueda α)) (a_enviar : Int)
    (recibido : Nat → Mensaje α) :
    recolectar 1 0 locales a_enviar recibido = locales.take a_enviar.toNat := by
  simp [recolectar, List.range, List.range.loop]

theorem envios_un_nodo {α : Type} (locales : List (ResultadoBusqueda α)) (K : Int) :
    envios 1 0 locales K = [] := by
  simp [envios, List.range, List.range.loop]

/-- With a single node (`size = 1`, `rank = 0`) and any `qsort` that meets the contract, for
every query and every `K`, the broadcast has no destination, nothing is sent and nothing
received (the candidates are the first `K` entries of the local ranked list whatever
`recibido` is), and the final answer written is `qsort` applied to the local ranked list
truncated to its first `K` entries: a permutation of that truncated list with the same
sequence of scores, and the truncated list itself when no two of its scores are equal. -/
theorem un_nodo_respuesta_es_lista_local_reordenada {α : Type} [LinearOrderedField α]
    (qsort : List (ResultadoBusqueda α) → List (ResultadoBusqueda α))
    (hq : ContratoQsort qsort) (log10 : α → α)
    (idx : Indice α) (K : Int) (consulta_id : Int) (consulta : Cadena)
    (recibido : Nat → Mensaje α) (h : PostingsEnRango idx) :
    destinos_bcast 1 0 = [] ∧
    ∃ t, turno qsort log10 idx K 1 0 consulta_id consulta recibido = some t ∧
      procesar_consulta_local qsort log10 idx consulta K = some t.locales ∧
      t.enviados = [] ∧
      t.candidatos = t.locales.take K.toNat ∧
      entradas_escritas t.escrito = entradas_de 0 (qsort (t.locales.take K.toNat)) ∧
      (qsort (t.locales.take K.toNat)).Perm (t.locales.take K.toNat) ∧
      (qsort (t.locales.take K.toNat)).map (fun e => e.ranking)
        = (t.locales.take K.toNat).map (fun e => e.ranking) ∧
      (((t.locales.take K.toNat).map (fun e => e.ranking)).Nodup →
        entradas_escritas t.escrito = entradas_de 0 (t.locales.take K.toNat)) := by
  refine ⟨by decide, ?_⟩
  obtain ⟨r, _, hp, ht⟩ := turno_forma qsort hq log10 idx K 1 0 consulta_id consulta
    recibido h
  have hsorted : ((qsort (recopilar_desde 0 r idx.documentos)).take K.toNat).Pairwise
      (fun a b => a.ranking ≥ b.ranking) :=
    (contrato_descendente qsort hq _).sublist (List.take_sublist _ _)
  have hcand : (turno_con_locales qsort K 1 0 consulta_id
      (qsort (recopilar_desde 0 r idx.documentos)) recibido).candidatos
      = (qsort (recopilar_desde 0 r idx.documentos)).take K.toNat := by
    simp only [turno_con_locales]
    rw [recolectar_un_nodo, take_resultados_a_enviar]
  have hesc : entradas_escritas (turno_con_locales qsort K 1 0 consulta_id
      (qsort (recopilar_desde 0 r idx.documentos)) recibido).escrito
      = entradas_de 0 (qsort ((qsort (recopilar_desde 0 r idx.documentos)).take K.toNat)) := by
    simp only [turno_con_locales]
    rw [entradas_escribir_resultados, take_resultados_finales _ hq, recolectar_un_nodo,
      take_resultados_a_enviar]
    congr 1
    apply List.take_of_length_le
    rw [((hq _).1).length_eq, List.length_take]
    omega
  have hsc : (qsort ((qsort (recopilar_desde 0 r idx.documentos)).take K.toNat)).map
      (fun e => e.ranking)
      = ((qsort (recopilar_desde 0 r idx.documentos)).take K.toNat).map (fun e => e.ranking) := by
    rw [puntuaciones_qsort qsort hq]
    exact List.Sorted.insertionSort_eq (List.pairwise_map.mpr hsorted)
  refine ⟨_, ht, hp, envios_un_nodo (qsort (recopilar_desde 0 r idx.documentos)) K, hcand,
    hesc, (hq _).1, hsc, ?_⟩
  intro hnd
  rw [hesc]
  congr 1
  exact eq_of_map_eq_of_inj_on (fun e => e.ranking) _ (List.inj_on_of_nodup_map hnd) _ _
    (fun x hx => (hq _).1.mem_iff.mp hx) (fun y hy => hy) hsc

/-! ## The vocabulary lookups -/

theorem buscar_palabra_id_eq (vocabulario : List PalabraVocab) (w : Cadena) :
    buscar_palabra_id vocabulario w = id_primera_entrada vocabulario w := by
  unfold id_primera_entrada
  induction vocabulario with
  | nil => simp [buscar_palabra_id]
  | cons v vs ih =>
    by_cases h : v.palabra = w
    · simp [buscar_palabra_id, List.find?, h]
    · simp [buscar_palabra_id, List.find?, h, ih]

theorem buscar_palabra_id_neg_iff (vocabulario : List PalabraVocab) (w : Cadena)
    (hids : ∀ v ∈ vocabulario, 0 ≤ v.palabra_id) :
    buscar_palabra_id vocabulario w = -1 ↔ ∀ v ∈ vocabulario, v.palabra ≠ w := by
  induction vocabulario with
  | nil => simp [buscar_palabra_id]
  | cons v vs ih =>
    have ih2 := ih (fun u hu => hids u (List.mem_cons_of_mem _ hu))
    have hv := hids v (List.mem_cons_self _ _)
    by_cases h : v.palabra = w
    · simp only [buscar_palabra_id, if_pos h, List.mem_cons, forall_eq_or_imp]
      constructor
      · intro e; omega
      · intro e; exact absurd h e.1
    · simp only [buscar_palabra_id, if_neg h, List.mem_cons, forall_eq_or_imp]
      rw [ih2]
      exact ⟨fun e => ⟨h, e⟩, fun e => e.2⟩

/-- Claim C17: for every vocabulary whose term ids are non-negative and every string `w`,
`buscar_palabra_id` returns the id of the first vocabulary entry whose text equals `w`
exactly (whole string, case-sensitive) and `-1` when there is none, and it returns `-1` if
and only if no entry has that text. -/
theorem buscar_palabra_id_primera_coincidencia (vocabulario : List PalabraVocab) (w : Cadena)
    (hids : ∀ v ∈ vocabulario, 0 ≤ v.palabra_id) :
    buscar_palabra_id vocabulario w
      = (match vocabulario.find? (fun v => decide (v.palabra = w)) with
         | some v => v.palabra_id
         | none => -1) ∧
    (buscar_palabra_id vocabulario w = -1 ↔ ∀ v ∈ vocabulario, v.palabra ≠ w) :=
  ⟨buscar_palabra_id_eq vocabulario w, buscar_palabra_id_neg_iff vocabulario w hids⟩

/-- Witness of claim C17 on the vocabulary of the single-partition example: `gato` is found
at the second entry, and `Gato` is not found. -/
theorem buscar_palabra_id_primera_coincidencia_witness :
    (∀ v ∈ (indice_ejemplo ℚ).vocabulario, 0 ≤ v.palabra_id) ∧
    buscar_palabra_id (indice_ejemplo ℚ).vocabulario "gato".toList = 1 ∧
    buscar_palabra_id (indice_ejemplo ℚ).vocabulario "Gato".toList = -1 ∧
    (buscar_palabra_id (indice_ejemplo ℚ).vocabulario "Gato".toList = -1 ↔
      ∀ v ∈ (indice_ejemplo ℚ).vocabulario, v.palabra ≠ "Gato".toList) :=
  ⟨by decide, by decide, by decide,
    (buscar_palabra_id_primera_coincidencia (indice_ejemplo ℚ).vocabulario "Gato".toList
      (by decide)).2⟩

theorem frecuencia_documental_sin_entrada {α : Type} (idx : Indice α) (t : Int)
    (h : ∀ v ∈ idx.vocabulario, v.palabra_id ≠ t) : frecuencia_documental idx t = 0 := by
  unfold frecuencia_documental
  have : idx.vocabulario.find? (fun v => decide (v.palabra_id = t)) = none := by
    rw [List.find?_eq_none]
    intro v hv
    simpa using h v hv
  rw [this]

theorem calcular_w_comprobado_eq {α : Type} [LinearOrderedField α] (log10 : α → α)
    (idx : Indice α) (t d : Int) (f : α) :
    calcular_w_comprobado log10 idx t d f = some (calcular_w log10 idx t d f) := by
  unfold calcular_w_comprobado calcular_w
  by_cases h : buscar_d_t idx.vocabulario t = 0
  · simp [h]
  · have h2 : ((buscar_d_t idx.vocabulario t : Int) : α) ≠ 0 := Int.cast_ne_zero.mpr h
    simp [h, h2]

theorem acumular_palabra_sin_peso {α : Type} [LinearOrderedField α] (log10 : α → α)
    (idx : Indice α) (t : Int) (h0 : frecuencia_documental idx t = 0)
    (r : List α) (hr : r.length = idx.documentos.length) (h : PostingsEnRango idx) :
    acumular_palabra log10 idx t idx.listas_invertidas r = some r := by
  obtain ⟨r2, e, l, g⟩ := acumular_palabra_spec log10 idx t idx.listas_invertidas r
    (by simpa [PostingsEnRango, num_documentos, hr] using h)
  rw [e]
  congr 1
  apply List.ext_getElem l
  intro i h1 h2
  have := g i
  have hz : ∀ ps : List (DocFrec α),
      (ps.map (fun p => peso_esperado log10 idx t p.frecuencia_norm)).sum = 0 := by
    intro ps
    induction ps with
    | nil => rfl
    | cons p ps ih => simp [peso_esperado, h0] at ih ⊢
  rw [hz, add_zero] at this
  simpa [List.getD_eq_getElem?_getD, h1, h2] using this

/-- Claim C18: for every term id that no vocabulary entry carries, and for every term id
whose document frequency is `0`, `calcular_w` returns `0` for every document and every
normalized frequency; `calcular_w` never divides by zero (the checked version always
returns the value of `calcular_w`); and the scoring loop for such a term leaves the
rankings of all documents unchanged. -/
theorem calcular_w_cero_sin_documentos {α : Type} [LinearOrderedField α] (log10 : α → α)
    (idx : Indice α) (t : Int)
    (h : (∀ v ∈ idx.vocabulario, v.palabra_id ≠ t) ∨ frecuencia_documental idx t = 0) :
    (∀ (d : Int) (f : α), calcular_w log10 idx t d f = 0) ∧
    (∀ (t2 d : Int) (f : α),
      calcular_w_comprobado log10 idx t2 d f = some (calcular_w log10 idx t2 d f)) ∧
    (∀ r : List α, r.length = idx.documentos.length → PostingsEnRango idx →
      acumular_palabra log10 idx t idx.listas_invertidas r = some r) := by
  have h0 : frecuencia_documental idx t = 0 := by
    rcases h with h | h
    · exact frecuencia_documental_sin_entrada idx t h
    · exact h
  refine ⟨?_, ?_, ?_⟩
  · intro d f
    rw [calcular_w_eq]
    simp [peso_esperado, h0]
  · intro t2 d f
    exact calcular_w_comprobado_eq log10 idx t2 d f
  · intro r hr hrango
    exact acumular_palabra_sin_peso log10 idx t h0 r hr hrango

/-- Witness of claim C18: term id 7, which the vocabulary of the example does not carry. -/
theorem calcular_w_cero_sin_documentos_witness :
    ((∀ v ∈ (indice_ejemplo ℝ).vocabulario, v.palabra_id ≠ 7) ∨
      frecuencia_documental (indice_ejemplo ℝ) 7 = 0) ∧
    (∀ (d : Int) (f : ℝ), calcular_w (Real.logb 10) (indice_ejemplo ℝ) 7 d f = 0) :=
  ⟨Or.inl (by decide),
    (calcular_w_cero_sin_documentos (Real.logb 10) (indice_ejemplo ℝ) 7
      (Or.inl (by decide))).1⟩

/-! ## The tokenizer -/

theorem limpiar_desde_eq (s : Cadena) :
    ∀ j : Nat, limpiar_desde j s = (limpiar_referencia s).take (MAX_WORD_LENGTH - 1 - j) := by
  induction s with
  | nil => intro j; simp [limpiar_desde, limpiar_referencia]
  | cons c cs ih =>
    intro j
    unfold limpiar_desde
    by_cases hj : j < MAX_WORD_LENGTH - 1
    · rw [if_pos hj]
      by_cases hc : c.isAlpha = true
      · rw [if_pos hc, ih (j + 1)]
        have e : MAX_WORD_LENGTH - 1 - j = (MAX_WORD_LENGTH - 1 - (j + 1)) + 1 := by omega
        rw [e]
        simp [limpiar_referencia, hc, List.filter_cons]
      · rw [if_neg hc, ih j]
        simp [limpiar_referencia, hc, List.filter_cons]
    · rw [if_neg hj]
      have e : MAX_WORD_LENGTH - 1 - j = 0 := by omega
      rw [e]
      rfl

theorem limpiar_palabra_eq (s : Cadena) :
    limpiar_palabra s = (limpiar_referencia s).take 99 := by
  unfold limpiar_palabra
  rw [limpiar_desde_eq]
  rfl

theorem strtok_desde_eq (s : Cadena) :
    ∀ actual : Cadena, strtok_desde s actual
      = (List.splitOnP.go es_delimitador s actual).filter (fun f => decide (f ≠ [])) := by
  induction s with
  | nil =>
    intro actual
    by_cases h : actual = []
    · simp [strtok_desde, List.splitOnP.go, h]
    · simp [strtok_desde, List.splitOnP.go, h]
  | cons c cs ih =>
    intro actual
    by_cases hc : es_delimitador c = true
    · by_cases h : actual = []
      · simp [strtok_desde, List.splitOnP.go, hc, h, ih]
      · simp [strtok_desde, List.splitOnP.go, hc, h, ih]
    · simp [strtok_desde, List.splitOnP.go, hc, ih]

theorem extraer_palabras_eq (tokens : List Cadena) :
    ∀ n : Nat, extraer_palabras n tokens
      = ((tokens.map limpiar_palabra).filter (fun f => decide (f ≠ []))).take
          (MAX_QUERY_WORDS - n) := by
  induction tokens with
  | nil => intro n; simp [extraer_palabras]
  | cons t ts ih =>
    intro n
    unfold extraer_palabras
    by_cases hn : n < MAX_QUERY_WORDS
    · rw [if_pos hn]
      by_cases ht : (limpiar_palabra t).length > 0
      · have ht2 : limpiar_palabra t ≠ [] := List.ne_nil_of_length_pos ht
        have e : MAX_QUERY_WORDS - n = (MAX_QUERY_WORDS - (n + 1)) + 1 := by omega
        rw [if_pos ht, ih (n + 1), e]
        simp [List.filter_cons, ht2]
      · have ht2 : limpiar_palabra t = [] := List.eq_nil_of_length_eq_zero (by omega)
        rw [if_neg ht, ih n]
        simp [List.filter_cons, ht2]
    · rw [if_neg hn]
      have e : MAX_QUERY_WORDS - n = 0 := by omega
      rw [e]
      rfl

theorem filter_map_take_no_vacias (fragmentos : List Cadena) :
    (((fragmentos.filter (fun f => decide (f ≠ []))).map limpiar_palabra).filter
        (fun f => decide (f ≠ [])))
      = (((fragmentos.map limpiar_referencia).filter (fun f => decide (f ≠ []))).map
          (List.take 99)) := by
  induction fragmentos with
  | nil => rfl
  | cons f fs ih =>
    by_cases hf : f = []
    · subst hf
      simpa [List.filter_cons, limpiar_referencia] using ih
    · by_cases hl : limpiar_referencia f = []
      · simpa [List.filter_cons, hf, hl, limpiar_palabra_eq] using ih
      · have hl2 : (limpiar_referencia f).take 99 ≠ [] := by
          cases hx : limpiar_referencia f with
          | nil => exact absurd hx hl
          | cons a as => simp
        simpa [List.filter_cons, hf, hl, hl2, limpiar_palabra_eq] using ih

theorem palabras_consulta_eq (consulta : Cadena) :
    palabras_consulta consulta
      = ((tokenizar_referencia (strcpy consulta)).map (List.take 99)).take 100 := by
  unfold palabras_consulta tokenizar_referencia
  rw [extraer_palabras_eq, strtok_desde_eq, filter_map_take_no_vacias]
  rfl

theorem strcpy_sin_nul (s : Cadena) (h : ∀ c ∈ s, c ≠ Char.ofNat 0) : strcpy s = s := by
  unfold strcpy
  rw [List.takeWhile_eq_self_iff]
  intro c hc
  simpa using h c hc

/-- Counterexample to claim C12: a query that is one word of 100 letters `a` is cleaned to
99 letters, and a query of 101 words `a` yields only 100 terms; the reference tokenization
gives the 100-letter word and 101 terms. -/
theorem tokenizacion_recortada :
    palabras_consulta (List.replicate 100 'a') = [List.replicate 99 'a'] ∧
    tokenizar_referencia (List.replicate 100 'a') = [List.replicate 100 'a'] ∧
    palabras_consulta (List.replicate 100 'a') ≠ tokenizar_referencia (List.replicate 100 'a') ∧
    (palabras_consulta (List.replicate 101 ['a', ' ']).flatten).length = 100 ∧
    (tokenizar_referencia (List.replicate 101 ['a', ' ']).flatten).length = 101 := by
  refine ⟨by decide, by decide, by decide, by decide, by decide⟩

/-- Claim C12, amended: for every raw query string (a C string, without NUL), the sequence
of cleaned terms that `procesar_consulta_local` / `procesar_consulta` extracts is the
reference tokenization with every term cut to its first 99 letters and the sequence cut to
its first 100 terms; it is the reference tokenization itself whenever that has at most 100
terms of at most 99 letters each. -/
theorem palabras_consulta_es_tokenizacion_acotada (consulta : Cadena)
    (h : ∀ c ∈ consulta, c ≠ Char.ofNat 0) :
    palabras_consulta consulta
      = ((tokenizar_referencia consulta).map (List.take 99)).take 100 ∧
    ((tokenizar_referencia consulta).length ≤ 100 →
      (∀ p ∈ tokenizar_referencia consulta, p.length ≤ 99) →
      palabras_consulta consulta = tokenizar_referencia consulta) := by
  have e := palabras_consulta_eq consulta
  rw [strcpy_sin_nul consulta h] at e
  refine ⟨e, ?_⟩
  intro h1 h2
  rw [e, List.take_of_length_le (by simpa using h1)]
  conv_rhs => rw [← List.map_id (tokenizar_referencia consulta)]
  apply List.map_congr_left
  intro p hp
  exact List.take_of_length_le (h2 p hp)

/-- Witness of the amended claim C12 on the query ` Perro, GATO-2 x9 `. -/
theorem palabras_consulta_es_tokenizacion_acotada_witness :
    (∀ c ∈ " Perro, GATO-2 x9 ".toList, c ≠ Char.ofNat 0) ∧
    (tokenizar_referencia " Perro, GATO-2 x9 ".toList).length ≤ 100 ∧
    (∀ p ∈ tokenizar_referencia " Perro, GATO-2 x9 ".toList, p.length ≤ 99) ∧
    tokenizar_referencia " Perro, GATO-2 x9 ".toList = ["perro".toList, "gato".toList, "x".toList] ∧
    palabras_consulta " Perro, GATO-2 x9 ".toList
      = tokenizar_referencia " Perro, GATO-2 x9 ".toList :=
  ⟨by decide, by decide, by decide, by decide,
    (palabras_consulta_es_tokenizacion_acotada " Perro, GATO-2 x9 ".toList (by decide)).2
      (by decide) (by decide)⟩

theorem fragmentos_sin_letras (s : Cadena) :
    ∀ actual : Cadena, (∀ c ∈ s, c.isAlpha = false) → (∀ c ∈ actual, c.isAlpha = false) →
      ∀ f ∈ List.splitOnP.go es_delimitador s actual, ∀ c ∈ f, c.isAlpha = false := by
  induction s with
  | nil =>
    intro actual _ ha f hf c hc
    simp only [List.splitOnP.go, List.mem_singleton] at hf
    subst hf
    exact ha c (List.mem_reverse.mp hc)
  | cons x xs ih =>
    intro actual hs ha f hf c hc
    have hxs : ∀ c ∈ xs, c.isAlpha = false := fun c h => hs c (List.mem_cons_of_mem _ h)
    simp only [List.splitOnP.go] at hf
    by_cases hx : es_delimitador x = true
    · simp only [hx, if_true, List.mem_cons] at hf
      rcases hf with hf | hf
      · subst hf
        exact ha c (List.mem_reverse.mp hc)
      · exact ih [] hxs (by simp) f hf c hc
    · simp only [hx, Bool.false_eq_true, if_false] at hf
      refine ih (x :: actual) hxs ?_ f hf c hc
      intro c2 hc2
      rw [List.mem_cons] at hc2
      rcases hc2 with rfl | hc2
      · exact hs _ (List.mem_cons_self _ _)
      · exact ha c2 hc2

theorem limpiar_referencia_sin_letras (f : Cadena) (h : ∀ c ∈ f, c.isAlpha = false) :
    limpiar_referencia f = [] := by
  unfold limpiar_referencia
  rw [List.map_eq_nil_iff, List.filter_eq_nil_iff]
  intro c hc
  simp [h c hc]

theorem tokenizar_referencia_sin_letras (s : Cadena) (h : ∀ c ∈ s, c.isAlpha = false) :
    tokenizar_referencia s = [] := by
  unfold tokenizar_referencia
  rw [List.filter_eq_nil_iff]
  intro f hf
  rw [List.mem_map] at hf
  obtain ⟨g, hg, rfl⟩ := hf
  have := limpiar_referencia_sin_letras g
    (fragmentos_sin_letras s [] h (by simp) g hg)
  simp [this]

theorem palabras_consulta_sin_letras (consulta : Cadena)
    (h : ∀ c ∈ consulta, c.isAlpha = false) : palabras_consulta consulta = [] := by
  rw [palabras_consulta_eq, tokenizar_referencia_sin_letras]
  · rfl
  · intro c hc
    exact h c ((List.takeWhile_sublist _).subset hc)

/-- Claim C16: for every query string that contains no alphabetic character, the local
ranked list is empty (`procesar_consulta_local` returns normally with no result, and
`procesar_consulta` of buscador.c prints only its "no valid words" message), and on a single
node with `K ≥ 0` the block written for the query is the header, the "no results" line and
the separating blank line. -/
theorem consulta_sin_letras_sin_resultados {α : Type} [LinearOrderedField α]
    (qsort : List (ResultadoBusqueda α) → List (ResultadoBusqueda α))
    (hq : ContratoQsort qsort) (log10 : α → α)
    (idx : Indice α) (K : Int) (consulta_id : Int) (consulta : Cadena)
    (recibido : Nat → Mensaje α)
    (h : ∀ c ∈ consulta, c.isAlpha = false) (hK : 0 ≤ K) :
    procesar_consulta_local qsort log10 idx consulta K = some [] ∧
    procesar_consulta qsort log10 idx consulta = some [Salida.sin_palabras_validas] ∧
    ∃ t, turno qsort log10 idx K 1 0 consulta_id consulta recibido = some t ∧
      t.locales = [] ∧
      t.escrito
        = [Linea.encabezado (consulta_id + 1), Linea.sin_resultados, Linea.en_blanco] := by
  have hp := palabras_consulta_sin_letras consulta h
  have hl : procesar_consulta_local qsort log10 idx consulta K = some [] := by
    simp [procesar_consulta_local, hp]
  refine ⟨hl, by simp [procesar_consulta, hp],
    turno_con_locales qsort K 1 0 consulta_id [] recibido, by simp only [turno, hl], rfl, ?_⟩
  have hn := qsort_nil qsort hq
  have hr : resultados_a_enviar 0 K = 0 := by
    unfold resultados_a_enviar
    split <;> omega
  simp [turno_con_locales, recolectar_un_nodo, escribir_resultados, hn, hr]

/-- Witness of claim C16: the query `42 !?` on the example index, single node, `K = 10`. -/
theorem consulta_sin_letras_sin_resultados_witness :
    ContratoQsort (ordenar_por_insercion : List (ResultadoBusqueda ℝ) → _) ∧
    (∀ c ∈ "42 !?".toList, c.isAlpha = false) ∧ (0 : Int) ≤ 10 ∧
    procesar_consulta_local ordenar_por_insercion (Real.logb 10) (indice_ejemplo ℝ)
      "42 !?".toList 10 = some [] ∧
    procesar_consulta ordenar_por_insercion (Real.logb 10) (indice_ejemplo ℝ) "42 !?".toList
      = some [Salida.sin_palabras_validas] ∧
    ∃ t, turno ordenar_por_insercion (Real.logb 10) (indice_ejemplo ℝ) 10 1 0 0
        "42 !?".toList (fun _ => { num := 0, datos := [] }) = some t ∧
      t.locales = [] ∧
      t.escrito = [Linea.encabezado (0 + 1), Linea.sin_resultados, Linea.en_blanco] :=
  ⟨contrato_ordenar_por_insercion, by decide, by decide,
    consulta_sin_letras_sin_resultados ordenar_por_insercion contrato_ordenar_por_insercion
      (Real.logb 10) (indice_ejemplo ℝ) 10 0 "42 !?".toList
      (fun _ => { num := 0, datos := [] }) (by decide) (by decide)⟩

/-! ## Algebraic properties of scoring -/

theorem resolver_ids_append (vocabulario : List PalabraVocab) (A B : List Cadena) :
    resolver_ids vocabulario (A ++ B)
      = resolver_ids vocabulario A ++ resolver_ids vocabulario B := by
  induction A with
  | nil => rfl
  | cons a A ih =>
    by_cases h : buscar_palabra_id vocabulario a ≥ 0
    · simp [resolver_ids, h, ih]
    · simp [resolver_ids, h, ih]

theorem puntuacion_esperada_append {α : Type} [LinearOrderedField α] (log10 : α → α)
    (idx : Indice α) (X Y : List Int) (d : Int) :
    puntuacion_esperada log10 idx (X ++ Y) d
      = puntuacion_esperada log10 idx X d + puntuacion_esperada log10 idx Y d := by
  simp [puntuacion_esperada]

theorem rankings_getD {α : Type} [LinearOrderedField α] (log10 : α → α)
    (idx : Indice α) (ids : List Int) (h : PostingsEnRango idx) :
    ∃ r, calcular_rankings log10 idx ids = some r ∧ r.length = idx.documentos.length ∧
      ∀ d : Nat, d < idx.documentos.length →
        r.getD d 0 = puntuacion_esperada log10 idx ids (d : Int) := by
  obtain ⟨r, e, l, g⟩ := calcular_rankings_spec log10 idx ids h
  refine ⟨r, e, l, ?_⟩
  intro d hd
  simp [List.getD_eq_getElem?_getD, g d hd]

/-- Over a field, where sums are exact, scoring is additive over the term list. Under the
index invariant, for every two term lists `A` and `B` the scoring loops succeed on `A`, on
`B` and on `A` followed by `B`, and each document's accumulated score for `A ++ B` is the sum
of its scores for `A` and for `B`; in particular the term list that repeats a term `w` twice
gives every document exactly twice its score for `w` (duplicates are not removed). -/
theorem puntuacion_aditiva {α : Type} [LinearOrderedField α] (log10 : α → α)
    (idx : Indice α) (A B : List Cadena) (w : Cadena) (h : PostingsEnRango idx) :
    (∃ rA rB rAB,
      calcular_rankings log10 idx (resolver_ids idx.vocabulario A) = some rA ∧
      calcular_rankings log10 idx (resolver_ids idx.vocabulario B) = some rB ∧
      calcular_rankings log10 idx (resolver_ids idx.vocabulario (A ++ B)) = some rAB ∧
      ∀ d : Nat, d < idx.documentos.length → rAB.getD d 0 = rA.getD d 0 + rB.getD d 0) ∧
    (∃ r1 r2,
      calcular_rankings log10 idx (resolver_ids idx.vocabulario [w]) = some r1 ∧
      calcular_rankings log10 idx (resolver_ids idx.vocabulario [w, w]) = some r2 ∧
      ∀ d : Nat, d < idx.documentos.length → r2.getD d 0 = 2 * r1.getD d 0) := by
  have key : ∀ X Y : List Cadena, ∃ rX rY rXY,
      calcular_rankings log10 idx (resolver_ids idx.vocabulario X) = some rX ∧
      calcular_rankings log10 idx (resolver_ids idx.vocabulario Y) = some rY ∧
      calcular_rankings log10 idx (resolver_ids idx.vocabulario (X ++ Y)) = some rXY ∧
      ∀ d : Nat, d < idx.documentos.length → rXY.getD d 0 = rX.getD d 0 + rY.getD d 0 := by
    intro X Y
    obtain ⟨rX, eX, _, gX⟩ := rankings_getD log10 idx (resolver_ids idx.vocabulario X) h
    obtain ⟨rY, eY, _, gY⟩ := rankings_getD log10 idx (resolver_ids idx.vocabulario Y) h
    obtain ⟨rXY, eXY, _, gXY⟩ :=
      rankings_getD log10 idx (resolver_ids idx.vocabulario (X ++ Y)) h
    refine ⟨rX, rY, rXY, eX, eY, eXY, ?_⟩
    intro d hd
    rw [gXY d hd, gX d hd, gY d hd, resolver_ids_append, puntuacion_esperada_append]
  refine ⟨key A B, ?_⟩
  obtain ⟨r1, r1b, r2, e1, e1b, e2, g⟩ := key [w] [w]
  have : r1b = r1 := by
    rw [e1] at e1b
    exact (Option.some.inj e1b).symm
  subst this
  refine ⟨r1b, r2, e1, e2, ?_⟩
  intro d hd
  rw [g d hd, two_mul]

/-! ## Terms absent from the vocabulary -/

theorem buscar_palabra_id_ausente (vocabulario : List PalabraVocab) (p : Cadena)
    (h : en_vocabulario vocabulario p = false) : buscar_palabra_id vocabulario p = -1 := by
  induction vocabulario with
  | nil => rfl
  | cons v vs ih =>
    simp only [en_vocabulario, List.any_cons, Bool.or_eq_false_iff, decide_eq_false_iff_not] at h
    simp only [buscar_palabra_id, if_neg h.1]
    exact ih h.2

theorem resolver_ids_filter_presentes (vocabulario : List PalabraVocab) (ps : List Cadena) :
    resolver_ids vocabulario (ps.filter (en_vocabulario vocabulario))
      = resolver_ids vocabulario ps := by
  induction ps with
  | nil => rfl
  | cons p ps ih =>
    by_cases hp : en_vocabulario vocabulario p = true
    · rw [List.filter_cons_of_pos hp]
      by_cases h : buscar_palabra_id vocabulario p ≥ 0
      · simp [resolver_ids, h, ih]
      · simp [resolver_ids, h, ih]
    · rw [List.filter_cons_of_neg hp]
      have h1 := buscar_palabra_id_ausente vocabulario p (by simpa using hp)
      have h2 : ¬ buscar_palabra_id vocabulario p ≥ 0 := by omega
      simp [resolver_ids, h2, ih]

theorem pares_impresos_advertencias {α : Type} (vocabulario : List PalabraVocab)
    (ps : List Cadena) (resto : List (Salida α)) :
    pares_impresos (advertencias vocabulario ps ++ resto) = pares_impresos resto := by
  induction ps with
  | nil => rfl
  | cons p ps ih =>
    by_cases h : buscar_palabra_id vocabulario p ≥ 0
    · simp [advertencias, h, ih]
    · simp [advertencias, h, pares_impresos, ih]

theorem procesar_consulta_local_por_ids {α : Type} [LinearOrderedField α]
    (qsort : List (ResultadoBusqueda α) → List (ResultadoBusqueda α)) (log10 : α → α)
    (idx : Indice α) (consulta : Cadena) (K : Int) :
    procesar_consulta_local qsort log10 idx consulta K
      = if (resolver_ids idx.vocabulario (palabras_consulta consulta)).length = 0 then some []
        else (calcular_rankings log10 idx
          (resolver_ids idx.vocabulario (palabras_consulta consulta))).map
            (fun rankings => qsort (recopilar_desde 0 rankings idx.documentos)) := by
  unfold procesar_consulta_local
  by_cases h1 : (palabras_consulta consulta).length = 0
  · have h2 := resolver_ids_nil_of_length idx _ h1
    simp [h1, h2]
  · rw [if_neg h1]
    by_cases h2 : (resolver_ids idx.vocabulario (palabras_consulta consulta)).length = 0
    · simp [h2]
    · rw [if_neg h2, if_neg h2]
      cases calcular_rankings log10 idx
        (resolver_ids idx.vocabulario (palabras_consulta consulta)) <;> rfl

theorem pares_procesar_consulta_por_ids {α : Type} [LinearOrderedField α]
    (qsort : List (ResultadoBusqueda α) → List (ResultadoBusqueda α)) (log10 : α → α)
    (idx : Indice α) (consulta : Cadena) :
    (procesar_consulta qsort log10 idx consulta).map pares_impresos
      = if (resolver_ids idx.vocabulario (palabras_consulta consulta)).length = 0 then some []
        else (calcular_rankings log10 idx
          (resolver_ids idx.vocabulario (palabras_consulta consulta))).map
            (fun rankings =>
              pares_impresos
                (if (recopilar_sin_url 0 rankings).length = 0
                 then [Salida.sin_documentos_relevantes]
                 else (qsort (recopilar_sin_url 0 rankings)).map
                   (fun e => Salida.par (e.doc_id + 1) e.ranking))) := by
  unfold procesar_consulta
  by_cases h1 : (palabras_consulta consulta).length = 0
  · have h2 := resolver_ids_nil_of_length idx _ h1
    simp [h1, h2, pares_impresos]
  · rw [if_neg h1]
    by_cases h2 : (resolver_ids idx.vocabulario (palabras_consulta consulta)).length = 0
    · rw [if_pos h2, if_pos h2]
      simp only [Option.map_some']
      rw [pares_impresos_advertencias]
      rfl
    · rw [if_neg h2, if_neg h2]
      cases calcular_rankings log10 idx
          (resolver_ids idx.vocabulario (palabras_consulta consulta)) with
      | none => rfl
      | some r =>
        simp only [Option.map_some']
        rw [pares_impresos_advertencias]

/-- For every index and every two queries such that the terms extracted from the second are
the terms extracted from the first without those absent from the vocabulary, the resolved
ids, every document's accumulated score, the ranked list returned by
`procesar_consulta_local` and the ranked pairs printed by `procesar_consulta` are the same:
an unresolved term is skipped. -/
theorem terminos_ausentes_se_omiten {α : Type} [LinearOrderedField α]
    (qsort : List (ResultadoBusqueda α) → List (ResultadoBusqueda α)) (log10 : α → α)
    (idx : Indice α) (consulta consulta2 : Cadena) (K : Int)
    (h : palabras_consulta consulta2
      = (palabras_consulta consulta).filter (en_vocabulario idx.vocabulario)) :
    resolver_ids idx.vocabulario (palabras_consulta consulta2)
      = resolver_ids idx.vocabulario (palabras_consulta consulta) ∧
    calcular_rankings log10 idx (resolver_ids idx.vocabulario (palabras_consulta consulta2))
      = calcular_rankings log10 idx
          (resolver_ids idx.vocabulario (palabras_consulta consulta)) ∧
    procesar_consulta_local qsort log10 idx consulta2 K
      = procesar_consulta_local qsort log10 idx consulta K ∧
    (procesar_consulta qsort log10 idx consulta2).map pares_impresos
      = (procesar_consulta qsort log10 idx consulta).map pares_impresos := by
  have e : resolver_ids idx.vocabulario (palabras_consulta consulta2)
      = resolver_ids idx.vocabulario (palabras_consulta consulta) := by
    rw [h, resolver_ids_filter_presentes]
  refine ⟨e, by rw [e], ?_, ?_⟩
  · rw [procesar_consulta_local_por_ids, procesar_consulta_local_por_ids, e]
  · rw [pares_procesar_consulta_por_ids, pares_procesar_consulta_por_ids, e]

theorem advertencias_todas_ausentes {α : Type} (vocabulario : List PalabraVocab)
    (ps : List Cadena) (h : ∀ p ∈ ps, en_vocabulario vocabulario p = false) :
    (advertencias vocabulario ps : List (Salida α)) = ps.map Salida.advertencia ∧
    resolver_ids vocabulario ps = [] := by
  induction ps with
  | nil => exact ⟨rfl, rfl⟩
  | cons p ps ih =>
    have h1 := buscar_palabra_id_ausente vocabulario p (h p (List.mem_cons_self _ _))
    have h2 : ¬ buscar_palabra_id vocabulario p ≥ 0 := by omega
    obtain ⟨i1, i2⟩ := ih (fun q hq => h q (List.mem_cons_of_mem _ hq))
    exact ⟨by simp [advertencias, h2, i1], by simp [resolver_ids, h2, i2]⟩

theorem terminos_advertidos_map {α : Type} (ps : List Cadena) (resto : List (Salida α)) :
    terminos_advertidos (ps.map Salida.advertencia ++ resto)
      = ps ++ terminos_advertidos resto := by
  induction ps with
  | nil => rfl
  | cons p ps ih => simp [terminos_advertidos, ih]

/-- Counterexample to claim C15: the query `zeta`, whose only term is absent from the
vocabulary of the example. `procesar_consulta` of buscador.c prints the warning for `zeta`;
on a node of buscador_paralelo.c the turn writes only the header, the "no results" line and
the blank line and sends nothing: the term is reported nowhere. -/
theorem termino_ausente_no_reportado_en_paralelo :
    (∀ p ∈ palabras_consulta "zeta".toList,
      en_vocabulario (indice_ejemplo ℝ).vocabulario p = false) ∧
    procesar_consulta ordenar_por_insercion (Real.logb 10) (indice_ejemplo ℝ) "zeta".toList
      = some [Salida.advertencia "zeta".toList, Salida.ninguna_en_vocabulario] ∧
    ∃ t, turno ordenar_por_insercion (Real.logb 10) (indice_ejemplo ℝ) 10 1 0 0
        "zeta".toList (fun _ => { num := 0, datos := [] }) = some t ∧
      t.locales = [] ∧ t.enviados = [] ∧
      t.escrito = [Linea.encabezado 1, Linea.sin_resultados, Linea.en_blanco] := by
  have hp : palabras_consulta "zeta".toList = ["zeta".toList] := by decide
  have hl : procesar_consulta_local ordenar_por_insercion (Real.logb 10) (indice_ejemplo ℝ)
      "zeta".toList 10 = some [] := by
    simp only [procesar_consulta_local, hp]
    simp [resolver_ids, buscar_palabra_id, indice_ejemplo]
  refine ⟨by decide, ?_, turno_con_locales ordenar_por_insercion 10 1 0 0 []
    (fun _ => { num := 0, datos := [] }), by simp only [turno, hl], rfl, ?_, ?_⟩
  · simp only [procesar_consulta, hp]
    simp [resolver_ids, advertencias, buscar_palabra_id, indice_ejemplo]
  · exact envios_un_nodo ([] : List (ResultadoBusqueda ℝ)) 10
  · simp [turno_con_locales, recolectar_un_nodo, escribir_resultados, resultados_a_enviar,
      ordenar_por_insercion]

/-- Claim C15, amended: for every index and every query all of whose cleaned terms are
absent from the vocabulary, the ranked list is empty in both programs;
`procesar_consulta` of buscador.c reports every term of the query, in query order, as a
warning (followed by its "none in the vocabulary" message, or only the "no valid words"
message when the query has no term); `procesar_consulta_local` of buscador_paralelo.c
returns the empty list and reports no term. -/
theorem consulta_de_terminos_ausentes {α : Type} [LinearOrderedField α]
    (qsort : List (ResultadoBusqueda α) → List (ResultadoBusqueda α)) (log10 : α → α)
    (idx : Indice α) (consulta : Cadena) (K : Int)
    (h : ∀ p ∈ palabras_consulta consulta, en_vocabulario idx.vocabulario p = false) :
    procesar_consulta_local qsort log10 idx consulta K = some [] ∧
    ∃ impreso, procesar_consulta qsort log10 idx consulta = some impreso ∧
      pares_impresos impreso = [] ∧
      terminos_advertidos impreso = palabras_consulta consulta ∧
      impreso = (if (palabras_consulta consulta).length = 0 then [Salida.sin_palabras_validas]
        else (palabras_consulta consulta).map Salida.advertencia
          ++ [Salida.ninguna_en_vocabulario]) := by
  obtain ⟨ha, hr⟩ := advertencias_todas_ausentes (α := α) idx.vocabulario
    (palabras_consulta consulta) h
  constructor
  · rw [procesar_consulta_local_por_ids, hr]
    rfl
  · by_cases h1 : (palabras_consulta consulta).length = 0
    · have h2 : palabras_consulta consulta = [] := List.length_eq_zero.mp h1
      refine ⟨[Salida.sin_palabras_validas], by simp [procesar_consulta, h1], rfl, ?_, ?_⟩
      · rw [h2]; rfl
      · rw [if_pos h1]
    · refine ⟨(palabras_consulta consulta).map Salida.advertencia
          ++ [Salida.ninguna_en_vocabulario], ?_, ?_, ?_, ?_⟩
      · simp [procesar_consulta, h1, hr, ha]
      · rw [← ha, pares_impresos_advertencias]
        rfl
      · rw [terminos_advertidos_map]
        simp [terminos_advertidos]
      · rw [if_neg h1]

/-- Witness of the amended claim C15: the query `zeta omega` on the example index. -/
theorem consulta_de_terminos_ausentes_witness :
    (∀ p ∈ palabras_consulta "zeta omega".toList,
      en_vocabulario (indice_ejemplo ℝ).vocabulario p = false) ∧
    procesar_consulta_local ordenar_por_insercion (Real.logb 10) (indice_ejemplo ℝ)
      "zeta omega".toList 10 = some [] ∧
    ∃ impreso, procesar_consulta ordenar_por_insercion (Real.logb 10) (indice_ejemplo ℝ)
        "zeta omega".toList = some impreso ∧
      pares_impresos impreso = [] ∧
      terminos_advertidos impreso = palabras_consulta "zeta omega".toList ∧
      impreso = (if (palabras_consulta "zeta omega".toList).length = 0
        then [Salida.sin_palabras_validas]
        else (palabras_consulta "zeta omega".toList).map Salida.advertencia
          ++ [Salida.ninguna_en_vocabulario]) :=
  ⟨by decide,
    consulta_de_terminos_ausentes ordenar_por_insercion (Real.logb 10) (indice_ejemplo ℝ)
      "zeta omega".toList 10 (by decide)⟩

/-! ## Order of the postings -/

theorem postings_en_perm {α : Type} (t : Int) (ls ls2 : List (ListaInvertida α))
    (h : List.Forall₂ (fun l l2 => l2.palabra_id = l.palabra_id ∧
      l2.documentos.Perm l.documentos) ls ls2) :
    (postings_en ls2 t).Perm (postings_en ls t) := by
  induction h with
  | nil => exact List.Perm.refl _
  | @cons l l2 ls ls2 hab _ ih =>
    by_cases ht : l.palabra_id = t
    · have ht2 : l2.palabra_id = t := by rw [hab.1, ht]
      simpa [postings_en, List.find?, ht, ht2] using hab.2
    · have ht2 : ¬ l2.palabra_id = t := by rw [hab.1]; exact ht
      simpa [postings_en, List.find?, ht, ht2] using ih

theorem postings_en_rango_perm {α : Type} (idx idx2 : Indice α)
    (hp : ListasPermutadas idx idx2) (h : PostingsEnRango idx) : PostingsEnRango idx2 := by
  obtain ⟨_, hd, hl⟩ := hp
  unfold PostingsEnRango num_documentos at h ⊢
  rw [hd]
  revert h
  generalize idx.listas_invertidas = ls at hl
  generalize idx2.listas_invertidas = ls2 at hl
  intro h
  induction hl with
  | nil => intro l hl; simp at hl
  | @cons l l2 ls ls2 hab _ ih =>
    intro m hm p hpm
    rw [List.mem_cons] at hm
    rcases hm with rfl | hm
    · exact h l (List.mem_cons_self _ _) p (hab.2.mem_iff.mp hpm)
    · exact ih (fun m hm => h m (List.mem_cons_of_mem _ hm)) m hm p hpm

theorem puntuacion_esperada_perm {α : Type} [LinearOrderedField α] (log10 : α → α)
    (idx idx2 : Indice α) (hp : ListasPermutadas idx idx2) (ids : List Int) (d : Int) :
    puntuacion_esperada log10 idx2 ids d = puntuacion_esperada log10 idx ids d := by
  obtain ⟨hv, hd, hl⟩ := hp
  unfold puntuacion_esperada
  congr 1
  apply List.map_congr_left
  intro t _
  have hw : ∀ tf : α, peso_esperado log10 idx2 t tf = peso_esperado log10 idx t tf := by
    intro tf
    simp [peso_esperado, frecuencia_documental, hv, hd]
  simp only [hw]
  exact (((postings_en_perm t _ _ hl).filter _).map _).sum_eq

theorem calcular_rankings_perm {α : Type} [LinearOrderedField α] (log10 : α → α)
    (idx idx2 : Indice α) (hp : ListasPermutadas idx idx2) (h : PostingsEnRango idx)
    (ids : List Int) :
    ∃ r, calcular_rankings log10 idx ids = some r ∧
      calcular_rankings log10 idx2 ids = some r := by
  obtain ⟨r, e, l, g⟩ := rankings_getD log10 idx ids h
  obtain ⟨r2, e2, l2, g2⟩ := rankings_getD log10 idx2 ids (postings_en_rango_perm idx idx2 hp h)
  have hd : idx2.documentos = idx.documentos := hp.2.1
  rw [hd] at l2 g2
  have : r2 = r := by
    apply List.ext_getElem (by rw [l, l2])
    intro i h1 h2
    have a := g i (by omega)
    have b := g2 i (by omega)
    rw [puntuacion_esperada_perm log10 idx idx2 hp, ← a] at b
    simpa [List.getD_eq_getElem?_getD, h1, h2] using b
  exact ⟨r, e, by rw [e2, this]⟩

/-- Over a field, where sums are exact and commutative: for every index satisfying the index
invariant, permuting the postings inside any inverted lists leaves the accumulated score of
every document unchanged for every list of query ids, and therefore leaves the list
`procesar_consulta_local` returns unchanged for every query. -/
theorem puntuacion_independiente_del_orden_de_postings {α : Type} [LinearOrderedField α]
    (log10 : α → α) (idx idx2 : Indice α) (hp : ListasPermutadas idx idx2)
    (h : PostingsEnRango idx) :
    (∀ ids : List Int, ∃ r, calcular_rankings log10 idx ids = some r ∧
      calcular_rankings log10 idx2 ids = some r) ∧
    (∀ (qsort : List (ResultadoBusqueda α) → List (ResultadoBusqueda α))
      (consulta : Cadena) (K : Int),
      procesar_consulta_local qsort log10 idx2 consulta K
        = procesar_consulta_local qsort log10 idx consulta K) := by
  refine ⟨calcular_rankings_perm log10 idx idx2 hp h, ?_⟩
  intro qsort consulta K
  rw [procesar_consulta_local_por_ids, procesar_consulta_local_por_ids, hp.1, hp.2.1]
  obtain ⟨r, e, e2⟩ := calcular_rankings_perm log10 idx idx2 hp h
    (resolver_ids idx.vocabulario (palabras_consulta consulta))
  rw [e, e2]

theorem listas_permutadas_ejemplo (α : Type) [LinearOrderedField α] :
    ListasPermutadas (indice_ejemplo α) (indice_ejemplo_permutado α) := by
  refine ⟨rfl, rfl, ?_⟩
  refine List.Forall₂.cons ⟨rfl, ?_⟩ (List.Forall₂.cons ⟨rfl, List.Perm.refl _⟩ List.Forall₂.nil)
  exact List.Perm.swap _ _ _

/-! ## Monotonicity in the normalized frequency -/

theorem reemplazar_posting_forall₂ {α : Type} [LinearOrderedField α] (ps : List (DocFrec α)) :
    ∀ (k : Nat) (p : DocFrec α) (f2 : α), ps[k]? = some p → p.frecuencia_norm ≤ f2 →
      List.Forall₂ (fun q q2 => q2.doc_id = q.doc_id ∧ q.frecuencia_norm ≤ q2.frecuencia_norm)
        ps (reemplazar_posting ps k f2) := by
  have hrefl : ∀ qs : List (DocFrec α),
      List.Forall₂ (fun q q2 => q2.doc_id = q.doc_id ∧ q.frecuencia_norm ≤ q2.frecuencia_norm)
        qs qs := by
    intro qs
    induction qs with
    | nil => exact List.Forall₂.nil
    | cons q qs ih => exact List.Forall₂.cons ⟨rfl, le_refl _⟩ ih
  induction ps with
  | nil => intro k p f2 h; simp at h
  | cons q qs ih =>
    intro k p f2 h hf
    cases k with
    | zero =>
      simp only [List.getElem?_cons_zero, Option.some.injEq] at h
      subst h
      exact List.Forall₂.cons ⟨rfl, hf⟩ (hrefl qs)
    | succ k =>
      simp only [List.getElem?_cons_succ] at h
      exact List.Forall₂.cons ⟨rfl, le_refl _⟩ (ih k p f2 h hf)

theorem reemplazar_posting_doc_ids {α : Type} (ps : List (DocFrec α)) :
    ∀ (k : Nat) (f2 : α), ∀ q ∈ reemplazar_posting ps k f2, ∃ p ∈ ps, q.doc_id = p.doc_id := by
  induction ps with
  | nil => intro k f2 q hq; simp [reemplazar_posting] at hq
  | cons p ps ih =>
    intro k f2 q hq
    cases k with
    | zero =>
      simp only [reemplazar_posting, List.mem_cons] at hq
      rcases hq with rfl | hq
      · exact ⟨p, List.mem_cons_self _ _, rfl⟩
      · exact ⟨q, List.mem_cons_of_mem _ hq, rfl⟩
    | succ k =>
      simp only [reemplazar_posting, List.mem_cons] at hq
      rcases hq with rfl | hq
      · exact ⟨q, List.mem_cons_self _ _, rfl⟩
      · obtain ⟨p2, hp2, e⟩ := ih k f2 q hq
        exact ⟨p2, List.mem_cons_of_mem _ hp2, e⟩

theorem reemplazar_en_listas_rango {α : Type} (P : Int → Prop) (ls : List (ListaInvertida α)) :
    ∀ (j k : Nat) (f2 : α), (∀ l ∈ ls, ∀ p ∈ l.documentos, P p.doc_id) →
      ∀ l ∈ reemplazar_en_listas ls j k f2, ∀ p ∈ l.documentos, P p.doc_id := by
  induction ls with
  | nil => intro j k f2 _ l hl; simp [reemplazar_en_listas] at hl
  | cons l0 ls ih =>
    intro j k f2 h l hl p hp
    cases j with
    | zero =>
      simp only [reemplazar_en_listas, List.mem_cons] at hl
      rcases hl with rfl | hl
      · obtain ⟨p2, hp2, e⟩ := reemplazar_posting_doc_ids l0.documentos k f2 p hp
        rw [e]
        exact h l0 (List.mem_cons_self _ _) p2 hp2
      · exact h l (List.mem_cons_of_mem _ hl) p hp
    | succ j =>
      simp only [reemplazar_en_listas, List.mem_cons] at hl
      rcases hl with rfl | hl
      · exact h l (List.mem_cons_self _ _) p hp
      · exact ih j k f2 (fun m hm => h m (List.mem_cons_of_mem _ hm)) l hl p hp

theorem postings_en_reemplazar {α : Type} [LinearOrderedField α]
    (ls : List (ListaInvertida α)) :
    ∀ (j k : Nat) (l : ListaInvertida α) (p : DocFrec α) (f2 : α),
      ls[j]? = some l → l.documentos[k]? = some p → p.frecuencia_norm ≤ f2 →
      ∀ t : Int,
        (t ≠ l.palabra_id → postings_en (reemplazar_en_listas ls j k f2) t = postings_en ls t) ∧
        List.Forall₂
          (fun q q2 => q2.doc_id = q.doc_id ∧ q.frecuencia_norm ≤ q2.frecuencia_norm)
          (postings_en ls t) (postings_en (reemplazar_en_listas ls j k f2) t) := by
  have hrefl : ∀ qs : List (DocFrec α),
      List.Forall₂ (fun q q2 => q2.doc_id = q.doc_id ∧ q.frecuencia_norm ≤ q2.frecuencia_norm)
        qs qs := by
    intro qs
    induction qs with
    | nil => exact List.Forall₂.nil
    | cons q qs ih => exact List.Forall₂.cons ⟨rfl, le_refl _⟩ ih
  induction ls with
  | nil => intro j k l p f2 h; simp at h
  | cons l0 ls ih =>
    intro j k l p f2 hl hp hf t
    cases j with
    | zero =>
      simp only [List.getElem?_cons_zero, Option.some.injEq] at hl
      subst hl
      by_cases ht : l0.palabra_id = t
      · refine ⟨fun hne => absurd ht.symm hne, ?_⟩
        simpa [postings_en, reemplazar_en_listas, List.find?, ht] using
          reemplazar_posting_forall₂ l0.documentos k p f2 hp hf
      · refine ⟨fun _ => by simp [postings_en, reemplazar_en_listas, List.find?, ht], ?_⟩
        simp [postings_en, reemplazar_en_listas, List.find?, ht]
    | succ j =>
      simp only [List.getElem?_cons_succ] at hl
      obtain ⟨i1, i2⟩ := ih j k l p f2 hl hp hf t
      by_cases ht : l0.palabra_id = t
      · refine ⟨fun _ => by simp [postings_en, reemplazar_en_listas, List.find?, ht], ?_⟩
        simp [postings_en, reemplazar_en_listas, List.find?, ht]
      · refine ⟨fun hne => ?_, ?_⟩
        · simpa [postings_en, reemplazar_en_listas, List.find?, ht] using i1 hne
        · simpa [postings_en, reemplazar_en_listas, List.find?, ht] using i2

theorem suma_pesos_monotona {α : Type} [LinearOrderedField α] (w : α → α)
    (hw : ∀ a b : α, a ≤ b → w a ≤ w b) (d : Int) (ps ps2 : List (DocFrec α))
    (h : List.Forall₂
      (fun q q2 => q2.doc_id = q.doc_id ∧ q.frecuencia_norm ≤ q2.frecuencia_norm) ps ps2) :
    ((ps.filter (fun p => decide (p.doc_id = d))).map (fun p => w p.frecuencia_norm)).sum
      ≤ ((ps2.filter (fun p => decide (p.doc_id = d))).map
          (fun p => w p.frecuencia_norm)).sum := by
  induction h with
  | nil => simp
  | @cons q q2 qs qs2 hab _ ih =>
    by_cases hd : q.doc_id = d
    · have hd2 : q2.doc_id = d := by rw [hab.1, hd]
      simp only [List.filter_cons, hd, hd2, decide_True, if_true, List.map_cons, List.sum_cons]
      exact add_le_add (hw _ _ hab.2) ih
    · have hd2 : ¬ q2.doc_id = d := by rw [hab.1]; exact hd
      simpa [List.filter_cons, hd, hd2] using ih

theorem peso_esperado_monotono {α : Type} [LinearOrderedField α] (log10 : α → α)
    (idx : Indice α) (t : Int)
    (hD : 0 ≤ frecuencia_documental idx t ∧
      frecuencia_documental idx t ≤ (idx.documentos.length : Int))
    (hlog : ∀ x : α, 1 ≤ x → 0 ≤ log10 x) (a b : α) (hab : a ≤ b) :
    peso_esperado log10 idx t a ≤ peso_esperado log10 idx t b := by
  unfold peso_esperado
  by_cases h0 : frecuencia_documental idx t = 0
  · simp [h0]
  · rw [if_neg h0, if_neg h0]
    apply mul_le_mul_of_nonneg_left hab
    apply hlog
    have hpos : (0 : α) < ((frecuencia_documental idx t : Int) : α) := by
      have : 0 < frecuencia_documental idx t := lt_of_le_of_ne hD.1 (Ne.symm h0)
      exact_mod_cast this
    rw [le_div_iff₀ hpos, one_mul]
    exact_mod_cast hD.2

theorem puntuacion_esperada_monotona {α : Type} [LinearOrderedField α] (log10 : α → α)
    (idx : Indice α) (ids : List Int) (j k : Nat) (l : ListaInvertida α) (p : DocFrec α)
    (f2 : α) (hl : idx.listas_invertidas[j]? = some l) (hp : l.documentos[k]? = some p)
    (hf : p.frecuencia_norm ≤ f2)
    (hD : 0 ≤ frecuencia_documental idx l.palabra_id ∧
      frecuencia_documental idx l.palabra_id ≤ (idx.documentos.length : Int))
    (hlog : ∀ x : α, 1 ≤ x → 0 ≤ log10 x) (d : Int) :
    puntuacion_esperada log10 idx ids d
      ≤ puntuacion_esperada log10 (reemplazar_frecuencia idx j k f2) ids d := by
  unfold puntuacion_esperada
  apply List.sum_le_sum
  intro t _
  have hw : ∀ tf : α, peso_esperado log10 (reemplazar_frecuencia idx j k f2) t tf
      = peso_esperado log10 idx t tf := by
    intro tf
    simp [peso_esperado, frecuencia_documental, reemplazar_frecuencia]
  simp only [hw]
  obtain ⟨i1, i2⟩ := postings_en_reemplazar idx.listas_invertidas j k l p f2 hl hp hf t
  by_cases ht : t = l.palabra_id
  · subst ht
    exact suma_pesos_monotona (peso_esperado log10 idx l.palabra_id)
      (peso_esperado_monotono log10 idx l.palabra_id hD hlog) d _ _ i2
  · have e : postings_de (reemplazar_frecuencia idx j k f2) t = postings_de idx t := i1 ht
    rw [e]

theorem postings_en_rango_reemplazar {α : Type} (idx : Indice α) (j k : Nat) (f2 : α)
    (h : PostingsEnRango idx) : PostingsEnRango (reemplazar_frecuencia idx j k f2) :=
  reemplazar_en_listas_rango
    (fun i => 0 ≤ i ∧ i < (idx.documentos.length : Int)) idx.listas_invertidas j k f2 h

theorem logb_un_medio_neg : Real.logb 10 (1 / 2) < 0 :=
  Real.logb_neg (by norm_num) (by norm_num) (by norm_num)

/-- Counterexample to claim C19: one document (`N = 1`), perro with document frequency 2
and the postings `(0, 1/2), (0, 1/2)`. For the query `perro` the score of document 0 is
`log10(1/2) * (1/2) + log10(1/2) * (1/2)`; replacing the frequency of the first posting by
`1 ≥ 1/2` makes it `log10(1/2) * 1 + log10(1/2) * (1/2)`, which is smaller. -/
theorem frecuencia_mayor_puntuacion_menor :
    ∃ r r2,
      calcular_rankings (Real.logb 10) (indice_df_excesivo ℝ)
        (resolver_ids (indice_df_excesivo ℝ).vocabulario (palabras_consulta consulta_perro))
        = some r ∧
      calcular_rankings (Real.logb 10) (reemplazar_frecuencia (indice_df_excesivo ℝ) 0 0 1)
        (resolver_ids (indice_df_excesivo ℝ).vocabulario (palabras_consulta consulta_perro))
        = some r2 ∧
      r = [Real.logb 10 (1 / 2) * (1 / 2) + Real.logb 10 (1 / 2) * (1 / 2)] ∧
      r2 = [Real.logb 10 (1 / 2) * 1 + Real.logb 10 (1 / 2) * (1 / 2)] ∧
      ((1 : ℝ) / 2 ≤ 1) ∧ r2.getD 0 0 < r.getD 0 0 := by
  refine ⟨[Real.logb 10 (1 / 2) * (1 / 2) + Real.logb 10 (1 / 2) * (1 / 2)],
    [Real.logb 10 (1 / 2) * 1 + Real.logb 10 (1 / 2) * (1 / 2)], ?_, ?_, rfl, rfl,
    by norm_num, ?_⟩
  · simp only [palabras_consulta_perro]
    simp [resolver_ids, buscar_palabra_id, indice_df_excesivo, calcular_rankings,
      acumular_consulta, acumular_palabra, acumular_lista, sumar_ranking, calcular_w,
      buscar_d_t, rankings_iniciales, num_documentos]
  · simp only [palabras_consulta_perro]
    simp [resolver_ids, buscar_palabra_id, indice_df_excesivo, calcular_rankings,
      acumular_consulta, acumular_palabra, acumular_lista, sumar_ranking, calcular_w,
      buscar_d_t, rankings_iniciales, num_documentos, reemplazar_frecuencia,
      reemplazar_en_listas, reemplazar_posting]
  · have h := logb_un_medio_neg
    simp only [List.getD_cons_zero]
    linarith

/-- Claim C19, amended: for every index satisfying the index invariant, every inverted
list `l` (position `j`) whose term has a document frequency `D(t)` with `0 ≤ D(t) ≤ N`,
every posting of it (position `k`, frequency `f`) and every `f2 ≥ f`: replacing the
frequency of that posting by `f2`, all else equal, never decreases the accumulated score of
any document for any query (`log10` being non-negative from `1` on). -/
theorem puntuacion_monotona_en_frecuencia {α : Type} [LinearOrderedField α] (log10 : α → α)
    (idx : Indice α) (ids : List Int) (j k : Nat) (l : ListaInvertida α) (p : DocFrec α)
    (f2 : α) (h : PostingsEnRango idx)
    (hl : idx.listas_invertidas[j]? = some l) (hp : l.documentos[k]? = some p)
    (hf : p.frecuencia_norm ≤ f2)
    (hD : 0 ≤ frecuencia_documental idx l.palabra_id ∧
      frecuencia_documental idx l.palabra_id ≤ (idx.documentos.length : Int))
    (hlog : ∀ x : α, 1 ≤ x → 0 ≤ log10 x) :
    ∃ r r2,
      calcular_rankings log10 idx ids = some r ∧
      calcular_rankings log10 (reemplazar_frecuencia idx j k f2) ids = some r2 ∧
      ∀ d : Nat, d < idx.documentos.length → r.getD d 0 ≤ r2.getD d 0 := by
  obtain ⟨r, e, _, g⟩ := rankings_getD log10 idx ids h
  obtain ⟨r2, e2, _, g2⟩ := rankings_getD log10 (reemplazar_frecuencia idx j k f2) ids
    (postings_en_rango_reemplazar idx j k f2 h)
  refine ⟨r, r2, e, e2, ?_⟩
  intro d hd
  rw [g d hd, g2 d hd]
  exact puntuacion_esperada_monotona log10 idx ids j k l p f2 hl hp hf hD hlog d

theorem logb_no_negativo : ∀ x : ℝ, 1 ≤ x → 0 ≤ Real.logb 10 x :=
  fun x hx => Real.logb_nonneg (by norm_num) hx

/-- Witness of the amended claim C19: the posting `(0, 1/2)` of perro in the example index
(`D = 2`, `N = 3`) raised to frequency `1`, query ids `[0, 1]`. -/
theorem puntuacion_monotona_en_frecuencia_witness :
    PostingsEnRango (indice_ejemplo ℝ) ∧
    (0 ≤ frecuencia_documental (indice_ejemplo ℝ) 0 ∧
      frecuencia_documental (indice_ejemplo ℝ) 0
        ≤ ((indice_ejemplo ℝ).documentos.length : Int)) ∧
    (∀ x : ℝ, 1 ≤ x → 0 ≤ Real.logb 10 x) ∧
    ∃ r r2,
      calcular_rankings (Real.logb 10) (indice_ejemplo ℝ) [0, 1] = some r ∧
      calcular_rankings (Real.logb 10) (reemplazar_frecuencia (indice_ejemplo ℝ) 0 0 1) [0, 1]
        = some r2 ∧
      ∀ d : Nat, d < (indice_ejemplo ℝ).documentos.length → r.getD d 0 ≤ r2.getD d 0 :=
  ⟨postings_en_rango_ejemplo ℝ, by decide, logb_no_negativo,
    puntuacion_monotona_en_frecuencia (Real.logb 10) (indice_ejemplo ℝ) [0, 1] 0 0
      ⟨0, [⟨0, 1 / 2⟩, ⟨1, 1⟩]⟩ ⟨0, 1 / 2⟩ 1 (postings_en_rango_ejemplo ℝ) rfl rfl
      (by norm_num) (by decide) logb_no_negativo⟩

/-! ## The collect step blocks -/

theorem invariante_recoleccion (size : Nat) (h : 2 ≤ size) (e : EstadoRed)
    (ha : Alcanzable size e) :
    (∀ a b, e.en_vuelo a b = 0) ∧
    (e.control 0 = Control.recibiendo 0 ∨ e.control 0 = Control.recibiendo 1) ∧
    (∀ r, r ≠ 0 → e.control r = Control.recibiendo 0) := by
  induction ha with
  | inicio => exact ⟨fun _ _ => rfl, Or.inl rfl, fun _ _ => rfl⟩
  | avance e e2 r hr _ hp ih =>
    obtain ⟨i1, i2, i3⟩ := ih
    by_cases hr0 : r = 0
    · subst hr0
      rcases i2 with i2 | i2
      · have h2 : ¬ size ≤ 0 := by omega
        simp only [paso, i2, h2, if_false, if_true, Option.some.injEq] at hp
        subst hp
        refine ⟨i1, Or.inr (by simp), ?_⟩
        intro r hr
        simp [Function.update, hr, i3 r hr]
      · have h2 : ¬ size ≤ 1 := by omega
        have h3 : ¬ 0 < e.en_vuelo 1 0 := by rw [i1]; omega
        simp [paso, i2, h2, h3] at hp
    · have h2 : ¬ size ≤ 0 := by omega
      have h3 : ¬ 0 < e.en_vuelo 0 r := by rw [i1]; omega
      have h4 : ¬ (0 = r) := fun e => hr0 e.symm
      simp [paso, i3 r hr0, h2, h3, h4] at hp

theorem bloqueo_tras_copia_local (size : Nat) (h : 2 ≤ size) :
    ∃ e, Alcanzable size e ∧ ∀ r, r < size → paso size r e = none := by
  have h2 : ¬ size ≤ 0 := by omega
  have hp : paso size 0 estado_inicial
      = some { control := Function.update estado_inicial.control 0 (Control.recibiendo 1),
               en_vuelo := estado_inicial.en_vuelo } := by
    simp [paso, estado_inicial, h2]
  refine ⟨_, Alcanzable.avance _ _ 0 (by omega) Alcanzable.inicio hp, ?_⟩
  intro r _
  by_cases hr0 : r = 0
  · subst hr0
    have h3 : ¬ size ≤ 1 := by omega
    simp [paso, estado_inicial, h3]
  · have h4 : ¬ (0 = r) := fun e => hr0 e.symm
    simp [paso, estado_inicial, Function.update, hr0, h2, h4]

/-- Claim C11, evaluated on the code: in a cluster of two or more nodes, whatever the
interleaving, no node ever leaves the receiving loop of the collect step: no `MPI_Send` is
executed and no node completes the step (even if `MPI_Send` never blocks); and the cluster
reaches a state in which every node is blocked in `MPI_Recv`. -/
theorem recoleccion_se_bloquea (size : Nat) (h : 2 ≤ size) :
    (∀ e, Alcanzable size e →
      (∀ a b, e.en_vuelo a b = 0) ∧
      ∀ r, e.control r ≠ Control.terminado ∧ ∀ p, e.control r ≠ Control.enviando p) ∧
    (∃ e, Alcanzable size e ∧ ∀ r, r < size → paso size r e = none) := by
  refine ⟨?_, bloqueo_tras_copia_local size h⟩
  intro e ha
  obtain ⟨i1, i2, i3⟩ := invariante_recoleccion size h e ha
  refine ⟨i1, ?_⟩
  intro r
  by_cases hr0 : r = 0
  · subst hr0
    rcases i2 with i2 | i2 <;> simp [i2]
  · simp [i3 r hr0]

/-- Witness of the evaluation of claim C11 with two nodes. -/
theorem recoleccion_se_bloquea_witness :
    (2 ≤ 2) ∧
    (∀ e, Alcanzable 2 e →
      (∀ a b, e.en_vuelo a b = 0) ∧
      ∀ r, e.control r ≠ Control.terminado ∧ ∀ p, e.control r ≠ Control.enviando p) ∧
    (∃ e, Alcanzable 2 e ∧ ∀ r, r < 2 → paso 2 r e = none) :=
  ⟨le_refl 2, recoleccion_se_bloquea 2 (le_refl 2)⟩

/-! ## The index is read-only during a query -/

theorem procesar_consulta_local_mem_spec {α : Type} [LinearOrderedField α]
    (qsort : List (ResultadoBusqueda α) → List (ResultadoBusqueda α)) (log10 : α → α)
    (m : Memoria α) (consulta : Cadena) (K : Int) :
    (procesar_consulta_local_mem qsort log10 m consulta K).map (fun m2 => m2.indice)
      = (procesar_consulta_local qsort log10 m.indice consulta K).map (fun _ => m.indice) ∧
    (procesar_consulta_local_mem qsort log10 m consulta K).map (fun m2 => m2.resultados)
      = procesar_consulta_local qsort log10 m.indice consulta K := by
  unfold procesar_consulta_local_mem procesar_consulta_local calcular_rankings
  by_cases h1 : (palabras_consulta consulta).length = 0
  · simp [h1]
  · by_cases h2 : (resolver_ids m.indice.vocabulario (palabras_consulta consulta)).length = 0
    · simp [h1, h2]
    · rw [if_neg h1, if_neg h2, if_neg h1, if_neg h2]
      cases acumular_consulta log10 m.indice
        (resolver_ids m.indice.vocabulario (palabras_consulta consulta))
        (rankings_iniciales m.indice) <;> simp

theorem procesar_consulta_mem_spec {α : Type} [LinearOrderedField α]
    (qsort : List (ResultadoBusqueda α) → List (ResultadoBusqueda α)) (log10 : α → α)
    (m : Memoria α) (consulta : Cadena) :
    (procesar_consulta_mem qsort log10 m consulta).map (fun m2 => m2.indice)
      = (procesar_consulta qsort log10 m.indice consulta).map (fun _ => m.indice) ∧
    (procesar_consulta_mem qsort log10 m consulta).map (fun m2 => m2.impreso)
      = (procesar_consulta qsort log10 m.indice consulta).map (fun s => m.impreso ++ s) := by
  unfold procesar_consulta_mem procesar_consulta calcular_rankings
  by_cases h1 : (palabras_consulta consulta).length = 0
  · simp [h1]
  · by_cases h2 : (resolver_ids m.indice.vocabulario (palabras_consulta consulta)).length = 0
    · simp [h1, h2]
    · rw [if_neg h1, if_neg h2, if_neg h1, if_neg h2]
      cases acumular_consulta log10 m.indice
        (resolver_ids m.indice.vocabulario (palabras_consulta consulta))
        (rankings_iniciales m.indice) <;> simp

/-- Claim C21: for every query, `procesar_consulta_local` (and `procesar_consulta` of the
single-node searcher) leaves the loaded index unchanged: whenever the call returns, the
vocabulary entries, the document table and the inverted lists of the memory after the call
are those before it, and so are the three counters `num_palabras`, `num_documentos` and
`num_listas` (the lengths of the three arrays); under the index invariant the calls do
return. -/
theorem consulta_no_modifica_indice {α : Type} [LinearOrderedField α]
    (qsort : List (ResultadoBusqueda α) → List (ResultadoBusqueda α)) (log10 : α → α)
    (m : Memoria α) (consulta : Cadena) (K : Int) :
    (∀ m2, (procesar_consulta_local_mem qsort log10 m consulta K = some m2 ∨
        procesar_consulta_mem qsort log10 m consulta = some m2) →
      m2.indice.vocabulario = m.indice.vocabulario ∧
      m2.indice.documentos = m.indice.documentos ∧
      m2.indice.listas_invertidas = m.indice.listas_invertidas ∧
      m2.indice.vocabulario.length = m.indice.vocabulario.length ∧
      num_documentos m2.indice = num_documentos m.indice ∧
      m2.indice.listas_invertidas.length = m.indice.listas_invertidas.length) ∧
    (ContratoQsort qsort → PostingsEnRango m.indice →
      (∃ m2, procesar_consulta_local_mem qsort log10 m consulta K = some m2) ∧
      (∃ m2, procesar_consulta_mem qsort log10 m consulta = some m2)) := by
  constructor
  · intro m2 h
    have hi : m2.indice = m.indice := by
      rcases h with h | h
      · have := (procesar_consulta_local_mem_spec qsort log10 m consulta K).1
        rw [h] at this
        cases hp : procesar_consulta_local qsort log10 m.indice consulta K with
        | none => simp [hp] at this
        | some l => simpa [hp] using this
      · have := (procesar_consulta_mem_spec qsort log10 m consulta).1
        rw [h] at this
        cases hp : procesar_consulta qsort log10 m.indice consulta with
        | none => simp [hp] at this
        | some l => simpa [hp] using this
    rw [hi]
    exact ⟨rfl, rfl, rfl, rfl, rfl, rfl⟩
  · intro hq hr
    obtain ⟨r, e, _, hp⟩ := procesar_consulta_local_forma qsort hq log10 m.indice consulta K hr
    constructor
    · have := (procesar_consulta_local_mem_spec qsort log10 m consulta K).2
      rw [hp] at this
      cases hm : procesar_consulta_local_mem qsort log10 m consulta K with
      | none => simp [hm] at this
      | some m2 => exact ⟨m2, rfl⟩
    · have := (procesar_consulta_mem_spec qsort log10 m consulta).1
      cases hm : procesar_consulta_mem qsort log10 m consulta with
      | some m2 => exact ⟨m2, rfl⟩
      | none =>
        exfalso
        unfold procesar_consulta_mem at hm
        unfold calcular_rankings at e
        by_cases h1 : (palabras_consulta consulta).length = 0
        · simp [h1] at hm
        · by_cases h2 :
              (resolver_ids m.indice.vocabulario (palabras_consulta consulta)).length = 0
          · simp [h1, h2] at hm
          · simp [h1, h2, e] at hm

/-- Witness of claim C21 on the example index and the query `perro gato`. -/
theorem consulta_no_modifica_indice_witness :
    ContratoQsort (ordenar_por_insercion : List (ResultadoBusqueda ℝ) → _) ∧
    PostingsEnRango (indice_ejemplo ℝ) ∧
    (∃ m2, procesar_consulta_local_mem ordenar_por_insercion (Real.logb 10)
        { indice := indice_ejemplo ℝ, rankings := [], resultados := [], impreso := [] }
        consulta_perro_gato 10 = some m2) ∧
    (∃ m2, procesar_consulta_mem ordenar_por_insercion (Real.logb 10)
        { indice := indice_ejemplo ℝ, rankings := [], resultados := [], impreso := [] }
        consulta_perro_gato = some m2) :=
  ⟨contrato_ordenar_por_insercion, postings_en_rango_ejemplo ℝ,
    (consulta_no_modifica_indice ordenar_por_insercion (Real.logb 10)
      { indice := indice_ejemplo ℝ, rankings := [], resultados := [], impreso := [] }
      consulta_perro_gato 10).2 contrato_ordenar_por_insercion (postings_en_rango_ejemplo ℝ)⟩

/-! ## The batch loop -/

theorem bucle_lotes_fin (Q n : Int) (fuel : Nat) (lote consulta_id : Int) (h : n ≤ lote) :
    bucle_lotes Q n (fuel + 1) lote consulta_id = some [] := by
  simp [bucle_lotes, not_lt.mpr h]

theorem procesar_lote_diagonal (lote c : Int) :
    procesar_lote lote c lote
      = (List.range' lote.toNat c.toNat).map (fun (k : Nat) => ((k : Int), (k : Int)))
        ∨ lote < 0 := by
  by_cases hl : lote < 0
  · exact Or.inr hl
  · left
    push_neg at hl
    unfold procesar_lote
    rw [List.range_eq_range', List.range'_eq_map_range (s := lote.toNat), List.map_map,
      List.range_eq_range']
    apply List.map_congr_left
    intro i _
    simp only [Function.comp]
    have : ((lote.toNat + i : Nat) : Int) = lote + (i : Int) := by
      push_cast
      rw [Int.toNat_of_nonneg hl]
    rw [this]

theorem bucle_lotes_desde (Q n : Int) (hQ : 1 ≤ Q) :
    ∀ (fuel : Nat) (lote : Int), 0 ≤ lote → lote ≤ n → (n - lote).toNat + 1 ≤ fuel →
      bucle_lotes Q n fuel lote lote
        = some ((List.range' lote.toNat (n - lote).toNat).map
            (fun (k : Nat) => ((k : Int), (k : Int)))) := by
  intro fuel
  induction fuel with
  | zero => intro lote _ _ h; omega
  | succ fuel ih =>
    intro lote h0 hn hf
    by_cases hlt : lote < n
    · by_cases hq : lote + Q ≤ n
      · have hQn : 0 ≤ Q := by omega
        have e1 : ((Q.toNat : Nat) : Int) = Q := Int.toNat_of_nonneg hQn
        have hrec := ih (lote + Q) (by omega) hq (by omega)
        rcases procesar_lote_diagonal lote Q with hp | hp
        · simp only [bucle_lotes, if_pos hlt, if_pos hq, e1, hrec, hp]
          rw [← List.map_append]
          congr 2
          have a1 : (lote + Q).toNat = lote.toNat + Q.toNat := by omega
          have a2 : (n - lote).toNat = Q.toNat + (n - (lote + Q)).toNat := by omega
          rw [a1, a2, List.range'_append_1, Nat.add_comm]
        · omega
      · have hc : 0 ≤ n - lote := by omega
        have e1 : (((n - lote).toNat : Nat) : Int) = n - lote := Int.toNat_of_nonneg hc
        have hfin : bucle_lotes Q n fuel (lote + Q) (lote + (n - lote)) = some [] := by
          cases fuel with
          | zero => omega
          | succ f => exact bucle_lotes_fin Q n f _ _ (by omega)
        rcases procesar_lote_diagonal lote (n - lote) with hp | hp
        · simp only [bucle_lotes, if_pos hlt, if_neg hq, e1, hfin, hp, List.append_nil]
        · omega
    · have e : n - lote = 0 := by omega
      simp [bucle_lotes, hlt, e]

/-- The iterations of the batch loop, every turn taken as a step that returns: for every
batch size `Q ≥ 1` and every number `n ≥ 0` of loaded queries, the loop ends (any fuel of at
least `n + 1` iterations suffices) and its iterations are exactly the query indices
`0, 1, ..., n-1` in that order, the query of index `k` with `consulta_id = k`; the sequence
is the same for every `Q`. -/
theorem bucle_lotes_un_turno_por_consulta (Q n : Int) (fuel : Nat) (hQ : 1 ≤ Q) (hn : 0 ≤ n)
    (hf : n.toNat + 1 ≤ fuel) :
    bucle_lotes Q n fuel 0 0
      = some ((List.range n.toNat).map (fun (k : Nat) => ((k : Int), (k : Int)))) := by
  have := bucle_lotes_desde Q n hQ fuel 0 le_rfl hn (by simpa using hf)
  rw [this, List.range_eq_range']
  simp

/-! ## The block `escribir_resultados` appends -/

theorem texto_lineas_resultados {α : Type} (fmt3 : α → Cadena) :
    ∀ (rs : List (ResultadoBusqueda α)) (i : Nat),
      (lineas_resultados i rs).map (texto_linea fmt3)
        = (rs.enumFrom i).map (fun p =>
            "  ".toList ++ decimal ((p.1 : Int) + 1) ++ ". (doc=".toList
              ++ decimal (p.2.doc_id + 1) ++ ", ranking=".toList ++ fmt3 p.2.ranking
              ++ ") ".toList ++ p.2.url ++ ['\n'])
  | [], _ => rfl
  | r :: rs, i => by
    simp only [lineas_resultados, List.map_cons, List.enumFrom_cons, texto_linea,
      texto_lineas_resultados fmt3 rs (i + 1)]

/-- Counterexample to claim C24 as worded: with the result count `-1` the block is the
header and the blank line, with neither the "no results" line nor a result line; and the
line written for a result, here the first one of a one-element list, is not the worded
template (indented and ended by a newline) for any rendering of the score: it carries the
label `ranking=`. -/
theorem bloque_sin_alternativa_y_etiqueta_ranking :
    escribir_resultados 0 [resultado_ejemplo] (-1)
      = [Linea.encabezado 1, Linea.en_blanco] ∧
    ∀ fmt3 : ℚ → Cadena,
      (escribir_resultados 0 [resultado_ejemplo] 1).map (texto_linea fmt3)
        ≠ ["Consulta 1:".toList ++ ['\n'],
           "  ".toList ++ linea_especificada fmt3 1 1 (1 / 2) ['u'] ++ ['\n'],
           ['\n']] := by
  constructor
  · rfl
  · intro fmt3 h
    simp [escribir_resultados, lineas_resultados, texto_linea, linea_especificada,
      resultado_ejemplo] at h

/-- Claim C24, amended: for every `consulta_id` and every result count between 0 and the
number of results, the block `escribir_resultados` appends is the header line
`Consulta <consulta_id + 1>:`, then the line `  No se encontraron resultados` when the
count is 0 and otherwise one line per result among the first `count`, in order, of the
form `  <rank>. (doc=<docId + 1>, ranking=<score with 3 decimals>) <url>` with
rank = position + 1, then one blank line. -/
theorem bloque_escrito {α : Type} (fmt3 : α → Cadena) (consulta_id : Int)
    (resultados : List (ResultadoBusqueda α)) (num_resultados : Int)
    (h0 : 0 ≤ num_resultados) (_h1 : num_resultados ≤ resultados.length) :
    (escribir_resultados consulta_id resultados num_resultados).map (texto_linea fmt3)
      = ("Consulta ".toList ++ decimal (consulta_id + 1) ++ [':', '\n']) ::
        ((if num_resultados = 0 then ["  No se encontraron resultados".toList ++ ['\n']]
          else ((resultados.take num_resultados.toNat).enum).map (fun p =>
            "  ".toList ++ decimal ((p.1 : Int) + 1) ++ ". (doc=".toList
              ++ decimal (p.2.doc_id + 1) ++ ", ranking=".toList ++ fmt3 p.2.ranking
              ++ ") ".toList ++ p.2.url ++ ['\n'])) ++ [['\n']]) ∧
    ((resultados.take num_resultados.toNat).length : Int) = num_resultados := by
  constructor
  · unfold escribir_resultados
    by_cases h : num_resultados = 0
    · simp [h, texto_linea]
    · simp only [if_neg h, List.map_cons, List.map_append, texto_linea, List.map_nil,
        texto_lineas_resultados, List.enum]
  · rw [List.length_take]
    omega

/-- Witness of the amended claim C24: a block with one result and an empty block. -/
theorem bloque_escrito_witness :
    (escribir_resultados 0 [resultado_ejemplo] 1).map (texto_linea (fun _ => "0.500".toList))
      = ["Consulta 1:".toList ++ ['\n'],
         "  1. (doc=1, ranking=0.500) u".toList ++ ['\n'], ['\n']] ∧
    (escribir_resultados 4 ([] : List (ResultadoBusqueda ℚ)) 0).map
        (texto_linea (fun _ => "0.500".toList))
      = ["Consulta 5:".toList ++ ['\n'],
         "  No se encontraron resultados".toList ++ ['\n'], ['\n']] :=
  ⟨(bloque_escrito (fun _ => "0.500".toList) 0 [resultado_ejemplo] 1
      (by decide) (by decide)).1.trans (by decide),
   (bloque_escrito (fun _ => "0.500".toList) 4 ([] : List (ResultadoBusqueda ℚ)) 0
      (by decide) (by decide)).1.trans (by decide)⟩

/-! ## Loading: general facts -/

@[simp] theorem bind_cargado {β γ : Type} (x : β) (f : β → Carga γ) :
    (Carga.cargado x).bind f = f x := rfl

theorem bind_eq_cargado {β γ : Type} (c : Carga β) (f : β → Carga γ) (y : γ)
    (h : c.bind f = Carga.cargado y) : ∃ x, c = Carga.cargado x ∧ f x = Carga.cargado y := by
  cases c with
  | cargado x => exact ⟨x, rfl, h⟩
  | abortado => exact absurd h (by simp [Carga.bind])
  | indefinido => exact absurd h (by simp [Carga.bind])
  | inconcluso => exact absurd h (by simp [Carga.bind])

theorem cargar_lineas_append {β : Type} (cuerpo : Cadena → β → Carga β) :
    ∀ (a b : List Cadena) (x : β),
      cargar_lineas cuerpo (a ++ b) x = (cargar_lineas cuerpo a x).bind (cargar_lineas cuerpo b)
  | [], b, x => rfl
  | l :: a, b, x => by
    simp only [List.cons_append, cargar_lineas]
    cases cuerpo l x with
    | cargado y => simp [cargar_lineas_append cuerpo a b y]
    | abortado => rfl
    | indefinido => rfl
    | inconcluso => rfl

/-! ## Loading the documents -/

theorem guardar_documento_length (tabla : List Documento) (d : Nat) (doc : Documento) :
    (guardar_documento tabla d doc).length = max tabla.length (d + 1) := by
  unfold guardar_documento
  rw [List.length_set, List.length_append, List.length_replicate]
  omega

theorem guardar_documento_mismo (tabla : List Documento) (d : Nat) (doc : Documento) :
    (guardar_documento tabla d doc)[d]? = some doc := by
  unfold guardar_documento
  rw [List.getElem?_set_self]
  rw [List.length_append, List.length_replicate]
  omega

theorem guardar_documento_otro (tabla : List Documento) (d e : Nat) (doc x : Documento)
    (hne : d ≠ e) (he : tabla[e]? = some x) : (guardar_documento tabla d doc)[e]? = some x := by
  unfold guardar_documento
  rw [List.getElem?_set_ne hne]
  have hlt : e < tabla.length := by
    rcases List.getElem?_eq_some.mp he with ⟨h, _⟩
    exact h
  rw [List.getElem?_append_left hlt]
  exact he

theorem cargar_linea_documento_en_rango (linea : Cadena) (tabla : List Documento)
    (h : LineaDocumentoEnRango linea) :
    cargar_linea_documento linea tabla
      = Carga.cargado
          (match analizar_linea_documento (cadena_c linea) with
           | none => tabla
           | some p => guardar_documento tabla p.1.toNat
               { doc_id := p.1, url := quitar_salto p.2 }) := by
  unfold LineaDocumentoEnRango at h
  unfold cargar_linea_documento
  cases ha : analizar_linea_documento (cadena_c linea) with
  | none => rfl
  | some p =>
    obtain ⟨d, u⟩ := p
    simp only [ha] at h
    simp only
    rw [if_neg (by omega), if_neg (by omega)]

theorem cargar_linea_documento_cargado (linea : Cadena) (tabla tabla2 : List Documento)
    (h : cargar_linea_documento linea tabla = Carga.cargado tabla2) :
    LineaDocumentoEnRango linea := by
  unfold LineaDocumentoEnRango
  unfold cargar_linea_documento at h
  cases ha : analizar_linea_documento (cadena_c linea) with
  | none => trivial
  | some p =>
    obtain ⟨d, u⟩ := p
    simp only [ha] at h
    simp only
    by_cases h1 : MAX_URL_LENGTH ≤ u.length
    · simp [h1] at h
    · by_cases h2 : d < 0 ∨ (MAX_DOCS : Int) ≤ d
      · simp [h1, h2] at h
      · omega

theorem cargar_documentos_existe :
    ∀ (lineas : List Cadena) (tabla : List Documento),
      (∀ l ∈ lineas, LineaDocumentoEnRango l) →
      ∃ tabla2, cargar_documentos lineas tabla = Carga.cargado tabla2
  | [], tabla, _ => ⟨tabla, rfl⟩
  | l :: ls, tabla, h => by
    unfold cargar_documentos
    simp only [cargar_lineas]
    rw [cargar_linea_documento_en_rango l tabla (h l (List.mem_cons_self _ _))]
    exact cargar_documentos_existe ls _ (fun x hx => h x (List.mem_cons_of_mem _ hx))

theorem cargar_documentos_cons (l : Cadena) (ls : List Cadena) (tabla tabla2 : List Documento)
    (h : cargar_documentos (l :: ls) tabla = Carga.cargado tabla2) :
    LineaDocumentoEnRango l ∧
    cargar_documentos ls
      (match analizar_linea_documento (cadena_c l) with
       | none => tabla
       | some p => guardar_documento tabla p.1.toNat
           { doc_id := p.1, url := quitar_salto p.2 }) = Carga.cargado tabla2 := by
  unfold cargar_documentos at h
  simp only [cargar_lineas] at h
  obtain ⟨t1, h1, h2⟩ := bind_eq_cargado _ _ _ h
  have hr := cargar_linea_documento_cargado l tabla t1 h1
  refine ⟨hr, ?_⟩
  rw [cargar_linea_documento_en_rango l tabla hr] at h1
  injection h1 with h1
  rw [h1]
  exact h2

theorem cargar_documentos_length :
    ∀ (lineas : List Cadena) (tabla tabla2 : List Documento),
      cargar_documentos lineas tabla = Carga.cargado tabla2 →
      (tabla2.length : Int) = max (tabla.length : Int) (mayor_id_mas_uno (ids_de_documentos lineas))
        ∧ ∀ d ∈ ids_de_documentos lineas, 0 ≤ d
  | [], tabla, tabla2, h => by
    have : tabla = tabla2 := by
      simpa [cargar_documentos, cargar_lineas] using h
    subst this
    simp [ids_de_documentos, mayor_id_mas_uno]
  | l :: ls, tabla, tabla2, h => by
    obtain ⟨hr, h2⟩ := cargar_documentos_cons l ls tabla tabla2 h
    have ih := cargar_documentos_length ls _ tabla2 h2
    unfold LineaDocumentoEnRango at hr
    cases ha : analizar_linea_documento (cadena_c l) with
    | none =>
      simp only [ha] at ih
      simpa [ids_de_documentos, ha] using ih
    | some p =>
      obtain ⟨d, u⟩ := p
      simp only [ha] at ih hr
      have e : ids_de_documentos (l :: ls) = d :: ids_de_documentos ls := by
        simp [ids_de_documentos, ha]
      rw [e]
      constructor
      · rw [ih.1, guardar_documento_length]
        simp only [mayor_id_mas_uno, List.foldr_cons]
        have : ((d.toNat + 1 : Nat) : Int) = d + 1 := by
          push_cast
          rw [Int.toNat_of_nonneg hr.2.1]
        rw [Nat.cast_max, this, max_assoc]
      · intro x hx
        rcases List.mem_cons.mp hx with hx | hx
        · rw [hx]; exact hr.2.1
        · exact ih.2 x hx

theorem cargar_documentos_conserva :
    ∀ (lineas : List Cadena) (tabla tabla2 : List Documento) (d : Nat) (x : Documento),
      cargar_documentos lineas tabla = Carga.cargado tabla2 →
      tabla[d]? = some x → (d : Int) ∉ ids_de_documentos lineas → tabla2[d]? = some x
  | [], tabla, tabla2, d, x, h, hx, _ => by
    have : tabla = tabla2 := by
      simpa [cargar_documentos, cargar_lineas] using h
    rw [← this]
    exact hx
  | l :: ls, tabla, tabla2, d, x, h, hx, hd => by
    obtain ⟨hr, h2⟩ := cargar_documentos_cons l ls tabla tabla2 h
    unfold LineaDocumentoEnRango at hr
    cases ha : analizar_linea_documento (cadena_c l) with
    | none =>
      simp only [ha] at h2
      apply cargar_documentos_conserva ls tabla tabla2 d x h2 hx
      simpa [ids_de_documentos, ha] using hd
    | some p =>
      obtain ⟨e, u⟩ := p
      simp only [ha] at h2 hr
      have hids : ids_de_documentos (l :: ls) = e :: ids_de_documentos ls := by
        simp [ids_de_documentos, ha]
      rw [hids] at hd
      have hne : (d : Int) ≠ e := fun hh => hd (by rw [hh]; exact List.mem_cons_self _ _)
      have hne2 : e.toNat ≠ d := by
        intro hh
        apply hne
        rw [← hh, Int.toNat_of_nonneg hr.2.1]
      apply cargar_documentos_conserva ls _ tabla2 d x h2
        (guardar_documento_otro tabla e.toNat d _ x hne2 hx)
      exact fun hh => hd (List.mem_cons_of_mem _ hh)

theorem mem_mayor_id_mas_uno : ∀ (ids : List Int) (d : Int), d ∈ ids → d + 1 ≤ mayor_id_mas_uno ids
  | [], _, h => absurd h (List.not_mem_nil _)
  | e :: es, d, h => by
    simp only [mayor_id_mas_uno, List.foldr_cons]
    rcases List.mem_cons.mp h with h | h
    · rw [h]; exact le_max_left _ _
    · exact le_trans (mem_mayor_id_mas_uno es d h) (le_max_right _ _)

theorem mayor_id_mas_uno_nonneg : ∀ ids : List Int, 0 ≤ mayor_id_mas_uno ids
  | [] => le_rfl
  | e :: es => by
    simp only [mayor_id_mas_uno, List.foldr_cons]
    exact le_trans (mayor_id_mas_uno_nonneg es) (le_max_right _ _)

theorem cadena_c_sin_nul (s : Cadena) (h : Char.ofNat 0 ∉ s) : cadena_c s = s := by
  unfold cadena_c
  rw [List.takeWhile_eq_self_iff]
  intro c hc
  simp only [bne_iff_ne, ne_eq]
  intro e
  exact h (e ▸ hc)

theorem strchr_append (c : Char) : ∀ (s r : Cadena), c ∉ s →
    strchr (s ++ c :: r) c = some (c :: r) ∧
    (s ++ c :: r).takeWhile (fun x => x != c) = s
  | [], r, _ => by simp [strchr]
  | x :: s, r, h => by
    have hx : x ≠ c := fun e => h (e ▸ List.mem_cons_self _ _)
    have ih := strchr_append c s r (fun hh => h (List.mem_cons_of_mem _ hh))
    simp [strchr, hx, ih.1, ih.2]

theorem strchr_none (c : Char) : ∀ s : Cadena, c ∉ s → strchr s c = none
  | [], _ => rfl
  | x :: s, h => by
    have hx : x ≠ c := fun e => h (e ▸ List.mem_cons_self _ _)
    simp [strchr, hx, strchr_none c s (fun hh => h (List.mem_cons_of_mem _ hh))]

theorem quitar_salto_linea (url fin : Cadena) (h : '\n' ∉ url) (hf : fin = [] ∨ fin = ['\n']) :
    quitar_salto (url ++ fin) = url := by
  unfold quitar_salto
  rcases hf with hf | hf
  · subst hf
    rw [List.append_nil]
    have : url.getLast? ≠ some '\n' := by
      intro e
      exact h (List.mem_of_getLast?_eq_some e)
    rw [if_neg this]
  · subst hf
    simp

theorem analizar_linea_documento_forma (id_texto resto : Cadena) (h : ',' ∉ id_texto) :
    analizar_linea_documento (id_texto ++ ',' :: resto) = some (atoi id_texto, resto) := by
  unfold analizar_linea_documento
  rw [(strchr_append ',' id_texto resto h).1, (strchr_append ',' id_texto resto h).2]
  rfl

theorem analizar_linea_documento_sin_coma (linea : Cadena) (h : ',' ∉ linea) :
    analizar_linea_documento (cadena_c linea) = none := by
  unfold analizar_linea_documento
  have hc : ',' ∉ cadena_c linea := fun hh => h ((List.takeWhile_sublist _).subset hh)
  rw [strchr_none ',' _ hc]

/-- Counterexample to claim C22 as worded: the documents file with the single line `5,u`
loads with `num_documentos = 6`, while the file contains one document id. -/
theorem num_documentos_con_ids_dispersos :
    ∃ idx : Indice ℚ,
      cargar_indice_local leer_decimal
        { vocabulario := some [], documentos := some ["5,u\n".toList],
          listas_invertidas := some [] } = Carga.cargado idx ∧
      num_documentos idx = 6 ∧
      (ids_de_documentos ["5,u\n".toList]).dedup.length = 1 :=
  ⟨_, rfl, rfl, by decide⟩

/-- Claim C22, amended: a documents file whose lines stay within the arrays loads, and then
`num_documentos` (the length of the table) is one more than the largest document id on a
line with a comma, `0` when there is none; it is the number of distinct ids of the file
whenever every id from 0 up to the largest one occurs in the file. -/
theorem num_documentos_es_mayor_id_mas_uno (lineas : List Cadena)
    (h : ∀ l ∈ lineas, LineaDocumentoEnRango l) :
    ∃ tabla, cargar_documentos lineas [] = Carga.cargado tabla ∧
      (tabla.length : Int) = mayor_id_mas_uno (ids_de_documentos lineas) ∧
      ((∀ d : Int, 0 ≤ d → d < mayor_id_mas_uno (ids_de_documentos lineas) →
          d ∈ ids_de_documentos lineas) →
        tabla.length = (ids_de_documentos lineas).dedup.length) := by
  obtain ⟨tabla, ht⟩ := cargar_documentos_existe lineas [] h
  obtain ⟨hl, hpos⟩ := cargar_documentos_length lineas [] tabla ht
  have hl2 : (tabla.length : Int) = mayor_id_mas_uno (ids_de_documentos lineas) := by
    rw [hl]
    simpa using mayor_id_mas_uno_nonneg _
  refine ⟨tabla, ht, hl2, ?_⟩
  intro hd
  have hf : (ids_de_documentos lineas).toFinset
      = Finset.Ico (0 : Int) (mayor_id_mas_uno (ids_de_documentos lineas)) := by
    ext d
    rw [List.mem_toFinset, Finset.mem_Ico]
    constructor
    · intro hm
      exact ⟨hpos d hm, by have := mem_mayor_id_mas_uno _ d hm; omega⟩
    · intro hm
      exact hd d hm.1 hm.2
  rw [← List.card_toFinset, hf, Int.card_Ico, ← hl2]
  simp

/-- Witness of the amended claim C22: ids 0 and 1, with id 1 on two lines. -/
theorem num_documentos_es_mayor_id_mas_uno_witness :
    ∃ tabla, cargar_documentos ["1,a\n".toList, "0,b\n".toList, "1,c\n".toList] []
        = Carga.cargado tabla ∧
      (tabla.length : Int)
        = mayor_id_mas_uno (ids_de_documentos ["1,a\n".toList, "0,b\n".toList, "1,c\n".toList]) ∧
      ((∀ d : Int, 0 ≤ d →
          d < mayor_id_mas_uno
            (ids_de_documentos ["1,a\n".toList, "0,b\n".toList, "1,c\n".toList]) →
          d ∈ ids_de_documentos ["1,a\n".toList, "0,b\n".toList, "1,c\n".toList]) →
        tabla.length
          = (ids_de_documentos ["1,a\n".toList, "0,b\n".toList, "1,c\n".toList]).dedup.length) :=
  num_documentos_es_mayor_id_mas_uno ["1,a\n".toList, "0,b\n".toList, "1,c\n".toList]
    (by
      intro l hl
      simp only [List.mem_cons, List.mem_singleton, List.not_mem_nil, or_false] at hl
      rcases hl with hl | hl | hl <;> subst hl <;>
        exact ⟨by decide, by decide, by decide⟩)

/-- Claim C27: a documents file whose lines stay within the arrays loads, and for every
line made of an id text without a comma, a comma and a url (commas allowed in it), ended
or not by a newline, on which no later line carries the same id, the table entry at
position `atoi(id text)` has that `doc_id` and that url; a line without a comma leaves the
result as if it were not there. -/
theorem documentos_cargados_por_posicion (lineas : List Cadena)
    (h : ∀ l ∈ lineas, LineaDocumentoEnRango l) :
    ∃ tabla, cargar_documentos lineas [] = Carga.cargado tabla ∧
      (∀ (antes : List Cadena) (id_texto url fin : Cadena) (despues : List Cadena),
        lineas = antes ++ (id_texto ++ ',' :: (url ++ fin)) :: despues →
        ',' ∉ id_texto → Char.ofNat 0 ∉ id_texto → Char.ofNat 0 ∉ url → '\n' ∉ url →
        (fin = [] ∨ fin = ['\n']) →
        atoi id_texto ∉ ids_de_documentos despues →
        tabla[(atoi id_texto).toNat]? = some { doc_id := atoi id_texto, url := url }) ∧
      (∀ (antes : List Cadena) (linea : Cadena) (despues : List Cadena),
        lineas = antes ++ linea :: despues → ',' ∉ linea →
        cargar_documentos (antes ++ despues) [] = Carga.cargado tabla) := by
  obtain ⟨tabla, ht⟩ := cargar_documentos_existe lineas [] h
  refine ⟨tabla, ht, ?_, ?_⟩
  · intro antes id_texto url fin despues hl hc hn1 hn2 hs hf hd
    subst hl
    unfold cargar_documentos at ht
    rw [cargar_lineas_append] at ht
    obtain ⟨t1, _, h2⟩ := bind_eq_cargado _ _ _ ht
    have h3 := cargar_documentos_cons _ despues t1 tabla h2
    have hnul : Char.ofNat 0 ∉ id_texto ++ ',' :: (url ++ fin) := by
      rcases hf with hf | hf <;> subst hf <;> simp [hn1, hn2]
    rw [cadena_c_sin_nul _ hnul, analizar_linea_documento_forma id_texto _ hc] at h3
    have hr := h3.1
    unfold LineaDocumentoEnRango at hr
    rw [cadena_c_sin_nul _ hnul, analizar_linea_documento_forma id_texto _ hc] at hr
    simp only at hr
    have h4 := h3.2
    simp only [quitar_salto_linea url fin hs hf] at h4
    apply cargar_documentos_conserva despues _ tabla _ _ h4 (guardar_documento_mismo _ _ _)
    rw [Int.toNat_of_nonneg hr.2.1]
    exact hd
  · intro antes linea despues hl hc
    subst hl
    unfold cargar_documentos at ht ⊢
    rw [cargar_lineas_append] at ht ⊢
    obtain ⟨t1, h1, h2⟩ := bind_eq_cargado _ _ _ ht
    rw [h1]
    simp only [cargar_lineas, bind_cargado] at h2 ⊢
    unfold cargar_linea_documento at h2
    rw [analizar_linea_documento_sin_coma linea hc] at h2
    exact h2

/-- Witness of claim C27: the url `a,b` keeps its comma, the second line of id 1 wins, and
the line without a comma is passed over. -/
theorem documentos_cargados_por_posicion_witness :
    ∃ tabla, cargar_documentos ["1,x\n".toList, "nada\n".toList, "1,a,b\n".toList] []
        = Carga.cargado tabla ∧
      tabla[1]? = some { doc_id := 1, url := "a,b".toList } ∧
      cargar_documentos ["1,x\n".toList, "1,a,b\n".toList] [] = Carga.cargado tabla := by
  obtain ⟨tabla, ht, h1, h2⟩ := documentos_cargados_por_posicion
    ["1,x\n".toList, "nada\n".toList, "1,a,b\n".toList]
    (by
      intro l hl
      simp only [List.mem_cons, List.mem_singleton, List.not_mem_nil, or_false] at hl
      rcases hl with hl | hl | hl <;> subst hl
      · exact ⟨by decide, by decide, by decide⟩
      · trivial
      · exact ⟨by decide, by decide, by decide⟩)
  refine ⟨tabla, ht, ?_, ?_⟩
  · exact h1 ["1,x\n".toList, "nada\n".toList] "1".toList "a,b".toList ['\n'] [] rfl
      (by decide) (by decide) (by decide) (by decide) (Or.inr rfl) (by decide)
  · exact h2 ["1,x\n".toList] "nada\n".toList ["1,a,b\n".toList] rfl (by decide)

/-! ## Loading the inverted lists -/

theorem buscar_doc_spec (d : Int) :
    ∀ (l : List DocFreq) (i : Nat),
      (buscar_doc d l i = -1 ∧ ∀ e ∈ l, e.doc_id ≠ d) ∨
      (∃ k e, buscar_doc d l i = ((i + k : Nat) : Int) ∧ l[k]? = some e ∧ e.doc_id = d)
  | [], i => Or.inl ⟨rfl, fun e he => absurd he (List.not_mem_nil e)⟩
  | x :: l, i => by
    by_cases h : x.doc_id = d
    · right
      exact ⟨0, x, by simp [buscar_doc, h], by simp, h⟩
    · rcases buscar_doc_spec d l (i + 1) with ⟨h1, h2⟩ | ⟨k, e, h1, h2, h3⟩
      · left
        refine ⟨by simp [buscar_doc, h, h1], ?_⟩
        intro e he
        rcases List.mem_cons.mp he with he | he
        · rw [he]; exact h
        · exact h2 e he
      · right
        refine ⟨k + 1, e, ?_, by simpa using h2, h3⟩
        simp only [buscar_doc, h, if_false, h1]
        congr 1
        omega

theorem mem_set_de_otro {β : Type} (l : List β) (i : Nat) (a x y : β)
    (hx : x ∈ l) (hi : l[i]? = some y) (hne : x ≠ y) : x ∈ l.set i a := by
  obtain ⟨j, hj, hjx⟩ := List.getElem_of_mem hx
  have hij : i ≠ j := by
    intro e
    subst e
    rw [List.getElem?_eq_getElem hj] at hi
    exact hne (hjx.symm.trans (Option.some.inj hi))
  have : (l.set i a)[j]? = some x := by
    rw [List.getElem?_set_ne hij, List.getElem?_eq_getElem hj, hjx]
  exact List.mem_iff_getElem?.mpr ⟨j, this⟩

theorem nodup_map_set {β γ : Type} (f : β → γ) (l : List β) (i : Nat) (a y : β)
    (hi : l[i]? = some y) (hf : f a = f y) : (l.set i a).map f = l.map f := by
  apply List.ext_getElem?
  intro j
  rw [List.getElem?_map, List.getElem?_map]
  by_cases hij : i = j
  · subst hij
    have hlt : i < l.length := (List.getElem?_eq_some.mp hi).1
    rw [List.getElem?_set_self hlt, hi]
    simp [hf]
  · rw [List.getElem?_set_ne hij]

/-- The maximum recorded after an occurrence of frequency `f` in document `d`. -/
theorem max_actualizado (m : Int → Int) (d f : Int) :
    (∀ x, m x ≤ (if f > m d then (fun y => if y = d then f else m y) else m) x) ∧
    f ≤ (if f > m d then (fun y => if y = d then f else m y) else m) d ∧
    (∀ x, x ≠ d → (if f > m d then (fun y => if y = d then f else m y) else m) x = m x) ∧
    ((if f > m d then (fun y => if y = d then f else m y) else m) d = f ∨
     ((if f > m d then (fun y => if y = d then f else m y) else m) d = m d ∧ f ≤ m d)) := by
  by_cases h : f > m d
  · simp only [if_pos h]
    refine ⟨?_, by simp, ?_, Or.inl (by simp)⟩
    · intro x
      by_cases hx : x = d
      · subst hx; simp; omega
      · simp [hx]
    · intro x hx
      simp [hx]
  · rw [if_neg h]
    exact ⟨fun x => le_rfl, by omega, fun x _ => rfl, Or.inr ⟨rfl, by omega⟩⟩

theorem registrar_ocurrencia_spec (m : Int → Int) (p : PalabraVocabIndexador) (d : Int)
    (hp : PalabraConsistente m p) :
    ∃ p2 f, registrar_ocurrencia p d = some (p2, f) ∧ p2.palabra = p.palabra ∧
      p2.palabra_id = p.palabra_id ∧ 1 ≤ f ∧
      p2.num_docs = (p2.doc_freqs.length : Int) ∧ p2.num_docs ≤ p2.capacity ∧
      0 < p2.capacity ∧ (p2.doc_freqs.map (fun e => e.doc_id)).Nodup ∧
      ({ doc_id := d, frecuencia := f } : DocFreq) ∈ p2.doc_freqs ∧
      (∀ e ∈ p2.doc_freqs, e = { doc_id := d, frecuencia := f } ∨
        (e ∈ p.doc_freqs ∧ e.doc_id ≠ d)) ∧
      (∀ e ∈ p.doc_freqs, e.doc_id ≠ d → e ∈ p2.doc_freqs) ∧
      (∀ e ∈ p.doc_freqs, e.doc_id = d → f = e.frecuencia + 1) := by
  obtain ⟨h1, h2, h3, h4, h5⟩ := hp
  have htake : p.doc_freqs.take p.num_docs.toNat = p.doc_freqs := by
    rw [h1]
    simp
  unfold registrar_ocurrencia
  rw [htake]
  rcases buscar_doc_spec d p.doc_freqs 0 with ⟨hb, hne⟩ | ⟨k, e, hb, hk, hed⟩
  · rw [hb]
    rw [if_neg (by decide)]
    have hcap : ¬ ((if p.capacity ≤ p.num_docs then p.capacity * 2 else p.capacity)
        ≤ p.num_docs ∨ p.num_docs < 0 ∨ (p.doc_freqs.length : Int) < p.num_docs) := by
      by_cases hc : p.capacity ≤ p.num_docs
      · rw [if_pos hc]; omega
      · rw [if_neg hc]; omega
    rw [if_neg hcap]
    refine ⟨_, _, rfl, rfl, rfl, le_rfl, ?_, ?_, ?_, ?_, ?_, ?_, ?_, ?_⟩
    · simp only [List.length_append, List.length_singleton]
      rw [h1]
      push_cast
      rfl
    · simp only
      by_cases hc : p.capacity ≤ p.num_docs
      · rw [if_pos hc]; omega
      · rw [if_neg hc]; omega
    · simp only
      by_cases hc : p.capacity ≤ p.num_docs
      · rw [if_pos hc]; omega
      · rw [if_neg hc]; exact h3
    · simp only [List.map_append, List.map_cons, List.map_nil]
      rw [List.nodup_append]
      refine ⟨h4, List.nodup_singleton _, ?_⟩
      intro x hx hx2
      rw [List.mem_singleton] at hx2
      obtain ⟨e, he, hex⟩ := List.mem_map.mp hx
      exact hne e he (hex.trans hx2)
    · simp
    · intro e he
      simp only [List.mem_append, List.mem_singleton] at he
      rcases he with he | he
      · exact Or.inr ⟨he, hne e he⟩
      · exact Or.inl he
    · intro e he _
      simp [he]
    · intro e he hed
      exact absurd hed (hne e he)
  · have hk0 : buscar_doc d p.doc_freqs 0 = (k : Int) := by
      rw [hb]; simp
    rw [hk0]
    rw [if_pos (by omega)]
    simp only [Int.toNat_ofNat, hk]
    have hmap : (p.doc_freqs.set k { doc_id := e.doc_id, frecuencia := e.frecuencia + 1 }).map
        (fun e => e.doc_id) = p.doc_freqs.map (fun e => e.doc_id) :=
      nodup_map_set (fun x : DocFreq => x.doc_id) p.doc_freqs k
        { doc_id := e.doc_id, frecuencia := e.frecuencia + 1 } e hk rfl
    have hklt : k < p.doc_freqs.length := (List.getElem?_eq_some.mp hk).1
    have hmem : ({ doc_id := d, frecuencia := e.frecuencia + 1 } : DocFreq)
        ∈ p.doc_freqs.set k { doc_id := e.doc_id, frecuencia := e.frecuencia + 1 } := by
      rw [hed]
      exact List.mem_iff_getElem?.mpr ⟨k, List.getElem?_set_self hklt⟩
    have hemem : e ∈ p.doc_freqs := List.mem_iff_getElem?.mpr ⟨k, hk⟩
    have hinj : ∀ x ∈ p.doc_freqs, x.doc_id = d → x = e := by
      intro x hx hxd
      exact List.inj_on_of_nodup_map h4 hx hemem (hxd.trans hed.symm)
    refine ⟨_, _, rfl, rfl, rfl, ?_, ?_, h2, h3, ?_, hmem, ?_, ?_, ?_⟩
    · have := (h5 e hemem).1
      omega
    · simp only [List.length_set]
      exact h1
    · rw [hmap]; exact h4
    · intro x hx
      by_cases hxd : x.doc_id = d
      · left
        have hnd : ((p.doc_freqs.set k { doc_id := e.doc_id, frecuencia := e.frecuencia + 1 }).map
            (fun e => e.doc_id)).Nodup := by rw [hmap]; exact h4
        exact List.inj_on_of_nodup_map hnd hx hmem hxd
      · right
        rcases List.mem_or_eq_of_mem_set hx with h | h
        · exact ⟨h, hxd⟩
        · exact absurd (by rw [h]; exact hed) hxd
    · intro x hx hxd
      exact mem_set_de_otro p.doc_freqs k _ x e hx hk (fun h => hxd (h ▸ hed))
    · intro x hx hxd
      rw [hinj x hx hxd]

theorem agregar_frecuencia_palabra_consistente (st : EstadoIndexador) (idx d : Int)
    (h : EstadoConsistente st) (hidx : 0 ≤ idx ∧ idx < (st.vocabulario.length : Int))
    (hd : 0 ≤ d ∧ d < (MAX_DOCS : Int)) :
    ∃ st2, agregar_frecuencia_palabra st idx d = some st2 ∧ EstadoConsistente st2 ∧
      st2.documentos = st.documentos ∧
      st2.vocabulario.map (fun p => p.palabra) = st.vocabulario.map (fun p => p.palabra) := by
  obtain ⟨hn, hw, hmax⟩ := h
  have hlt : idx.toNat < st.vocabulario.length := by omega
  have hget : st.vocabulario[idx.toNat]? = some (st.vocabulario[idx.toNat]) :=
    List.getElem?_eq_getElem hlt
  have hpmem : st.vocabulario[idx.toNat] ∈ st.vocabulario := List.getElem_mem hlt
  obtain ⟨p2, f, hr, hpal, _, hf1, hs1, hs2, hs3, hs4, hmem, hnew, hold, hinc⟩ :=
    registrar_ocurrencia_spec st.max_freq_por_doc (st.vocabulario[idx.toNat]) d
      (hw _ hpmem)
  obtain ⟨m1, m2, m3, m4⟩ := max_actualizado st.max_freq_por_doc d f
  unfold agregar_frecuencia_palabra
  rw [if_neg (by omega), hget]
  simp only [hr]
  have hp2mem : p2 ∈ st.vocabulario.set idx.toNat p2 :=
    List.mem_iff_getElem?.mpr ⟨idx.toNat, List.getElem?_set_self hlt⟩
  refine ⟨_, rfl, ⟨?_, ?_, ?_⟩, rfl, ?_⟩
  · simp only
    rw [nodup_map_set (fun p : PalabraVocabIndexador => p.palabra) _ _ p2 _ hget hpal]
    exact hn
  · intro q hq
    simp only at hq ⊢
    rcases List.mem_or_eq_of_mem_set hq with hq | hq
    · obtain ⟨a1, a2, a3, a4, a5⟩ := hw q hq
      refine ⟨a1, a2, a3, a4, ?_⟩
      intro e he
      obtain ⟨b1, b2, b3, b4⟩ := a5 e he
      exact ⟨b1, b2, b3, le_trans b4 (m1 _)⟩
    · subst hq
      refine ⟨hs1, hs2, hs3, hs4, ?_⟩
      intro e he
      rcases hnew e he with he | ⟨he, _⟩
      · subst he
        exact ⟨hf1, hd.1, hd.2, m2⟩
      · obtain ⟨b1, b2, b3, b4⟩ := (hw _ hpmem).2.2.2.2 e he
        exact ⟨b1, b2, b3, le_trans b4 (m1 _)⟩
  · intro x
    simp only
    by_cases hx : x = d
    · subst hx
      rcases m4 with m4 | ⟨m4, m5⟩
      · right
        exact ⟨p2, hp2mem, _, hmem, rfl, m4.symm⟩
      · rcases hmax x with h0 | ⟨q0, hq0, e0, he0, hd0, hf0⟩
        · omega
        · right
          by_cases hq : q0 = st.vocabulario[idx.toNat]
          · subst hq
            have := hinc e0 he0 hd0
            omega
          · exact ⟨q0, mem_set_de_otro _ _ _ _ _ hq0 hget hq, e0, he0, hd0, by rw [m4]; exact hf0⟩
    · rw [m3 x hx]
      rcases hmax x with h0 | ⟨q0, hq0, e0, he0, hd0, hf0⟩
      · exact Or.inl h0
      · right
        by_cases hq : q0 = st.vocabulario[idx.toNat]
        · subst hq
          exact ⟨p2, hp2mem, e0, hold e0 he0 (by rw [hd0]; exact hx), hd0, hf0⟩
        · exact ⟨q0, mem_set_de_otro _ _ _ _ _ hq0 hget hq, e0, he0, hd0, hf0⟩
  · simp only
    exact nodup_map_set (fun p : PalabraVocabIndexador => p.palabra) _ _ p2 _ hget hpal

theorem agregar_frecuencia_palabra_some (st st2 : EstadoIndexador) (idx d : Int)
    (h : agregar_frecuencia_palabra st idx d = some st2) :
    (0 ≤ idx ∧ idx < (st.vocabulario.length : Int)) ∧ (0 ≤ d ∧ d < (MAX_DOCS : Int)) := by
  unfold agregar_frecuencia_palabra at h
  by_cases hc : idx < 0 ∨ d < 0 ∨ (MAX_DOCS : Int) ≤ d
  · rw [if_pos hc] at h
    exact absurd h (by simp)
  · rw [if_neg hc] at h
    cases hg : st.vocabulario[idx.toNat]? with
    | none => simp [hg] at h
    | some p =>
      have := (List.getElem?_eq_some.mp hg).1
      omega

theorem buscar_palabra_desde_spec (palabra : Cadena) :
    ∀ (v : List PalabraVocabIndexador) (i : Nat),
      (buscar_palabra_desde palabra v i = -1 ∧ palabra ∉ v.map (fun p => p.palabra)) ∨
      (∃ k : Nat, buscar_palabra_desde palabra v i = ((i + k : Nat) : Int) ∧ k < v.length)
  | [], i => Or.inl ⟨rfl, by simp⟩
  | x :: v, i => by
    by_cases h : x.palabra = palabra
    · right
      exact ⟨0, by simp [buscar_palabra_desde, h], by simp⟩
    · rcases buscar_palabra_desde_spec palabra v (i + 1) with ⟨h1, h2⟩ | ⟨k, h1, h2⟩
      · left
        refine ⟨by simp [buscar_palabra_desde, h, h1], ?_⟩
        simp only [List.map_cons, List.mem_cons, not_or]
        exact ⟨fun e => h e.symm, h2⟩
      · right
        refine ⟨k + 1, ?_, by simp; omega⟩
        simp only [buscar_palabra_desde, h, if_false, h1]
        congr 1
        omega

theorem agregar_palabra_vocabulario_consistente (st : EstadoIndexador) (palabra : Cadena)
    (h : EstadoConsistente st) (hp : palabra ∉ st.vocabulario.map (fun p => p.palabra)) :
    EstadoConsistente (agregar_palabra_vocabulario st palabra) ∧
    (agregar_palabra_vocabulario st palabra).documentos = st.documentos := by
  unfold agregar_palabra_vocabulario
  by_cases hc : (MAX_WORDS : Int) ≤ st.vocabulario.length
  · rw [if_pos hc]
    exact ⟨h, rfl⟩
  · rw [if_neg hc]
    obtain ⟨hn, hw, hmax⟩ := h
    refine ⟨⟨?_, ?_, ?_⟩, rfl⟩
    · simp only [List.map_append, List.map_cons, List.map_nil]
      rw [List.nodup_append]
      refine ⟨hn, List.nodup_singleton _, ?_⟩
      intro x hx hx2
      rw [List.mem_singleton] at hx2
      exact hp (hx2 ▸ hx)
    · intro q hq
      simp only [List.mem_append, List.mem_singleton] at hq
      rcases hq with hq | hq
      · exact hw q hq
      · subst hq
        exact ⟨by simp, by simp, by simp, by simp, by simp⟩
    · intro d
      rcases hmax d with h0 | ⟨q, hq, e, he, h1, h2⟩
      · exact Or.inl h0
      · exact Or.inr ⟨q, List.mem_append_left _ hq, e, he, h1, h2⟩

theorem procesar_token_consistente (stops : List Cadena) (doc_actual : Int)
    (st st2 : EstadoIndexador) (token : Cadena) (h : EstadoConsistente st)
    (hr : procesar_token stops doc_actual st token = some st2) :
    EstadoConsistente st2 ∧ st2.documentos = st.documentos := by
  unfold procesar_token at hr
  by_cases hc : (limpiar_palabra_indexador token).length > 0
      ∧ es_stopword stops (limpiar_palabra_indexador token) = false
  · rw [if_pos hc] at hr
    by_cases hb : buscar_palabra_vocabulario st.vocabulario (limpiar_palabra_indexador token) < 0
    · rw [if_pos hb] at hr
      have habs : limpiar_palabra_indexador token ∉ st.vocabulario.map (fun p => p.palabra) := by
        unfold buscar_palabra_vocabulario at hb
        rcases buscar_palabra_desde_spec (limpiar_palabra_indexador token) st.vocabulario 0 with
          ⟨_, h2⟩ | ⟨k, h1, _⟩
        · exact h2
        · rw [h1] at hb
          omega
      obtain ⟨hc1, hc2⟩ := agregar_palabra_vocabulario_consistente st _ h habs
      obtain ⟨hi, hd⟩ := agregar_frecuencia_palabra_some _ _ _ _ hr
      obtain ⟨st3, h3, h4, h5, _⟩ := agregar_frecuencia_palabra_consistente _ _ _ hc1 hi hd
      rw [h3] at hr
      have : st3 = st2 := Option.some.inj hr
      subst this
      exact ⟨h4, h5.trans hc2⟩
    · rw [if_neg hb] at hr
      obtain ⟨hi, hd⟩ := agregar_frecuencia_palabra_some _ _ _ _ hr
      obtain ⟨st3, h3, h4, h5, _⟩ := agregar_frecuencia_palabra_consistente _ _ _ h hi hd
      rw [h3] at hr
      have : st3 = st2 := Option.some.inj hr
      subst this
      exact ⟨h4, h5⟩
  · rw [if_neg hc] at hr
    have : st = st2 := Option.some.inj hr
    subst this
    exact ⟨h, rfl⟩

theorem procesar_tokens_consistente (stops : List Cadena) (doc_actual : Int) :
    ∀ (tokens : List Cadena) (st st2 : EstadoIndexador), EstadoConsistente st →
      procesar_tokens stops doc_actual tokens st = some st2 →
      EstadoConsistente st2 ∧ st2.documentos = st.documentos
  | [], st, st2, h, hr => by
    have : st = st2 := by simpa [procesar_tokens] using hr
    subst this
    exact ⟨h, rfl⟩
  | t :: ts, st, st2, h, hr => by
    simp only [procesar_tokens] at hr
    cases h1 : procesar_token stops doc_actual st t with
    | none => simp [h1] at hr
    | some st1 =>
      simp only [h1] at hr
      obtain ⟨a, b⟩ := procesar_token_consistente stops doc_actual st st1 t h h1
      obtain ⟨c, d⟩ := procesar_tokens_consistente stops doc_actual ts st1 st2 a hr
      exact ⟨c, d.trans b⟩

theorem procesar_linea_consistente (stops : List Cadena) (linea : Cadena) (l l2 : Lectura)
    (h : EstadoConsistente l.estado) (hr : procesar_linea stops linea l = some l2) :
    EstadoConsistente l2.estado := by
  unfold procesar_linea at hr
  split at hr
  · unfold procesar_linea_documento at hr
    split at hr
    · split at hr
      · exact absurd hr (by simp)
      · rw [← Option.some.inj hr]; exact h
    · rw [← Option.some.inj hr]; exact h
  · split at hr
    · unfold procesar_linea_url at hr
      split at hr
      · rw [← Option.some.inj hr]; exact h
      · split at hr
        · exact absurd hr (by simp)
        · split at hr
          · exact absurd hr (by simp)
          · split at hr
            · exact absurd hr (by simp)
            · rw [← Option.some.inj hr]
              exact ⟨h.1, h.2.1, h.2.2⟩
    · split at hr
      · rw [← Option.some.inj hr]; exact h
      · split at hr
        · rw [← Option.some.inj hr]; exact h
        · split at hr
          · split at hr
            · exact absurd hr (by simp)
            · rename_i st hst
              rw [← Option.some.inj hr]
              exact (procesar_tokens_consistente stops _ _ _ st h hst).1
          · rw [← Option.some.inj hr]; exact h

theorem procesar_lineas_consistente (stops : List Cadena) :
    ∀ (lineas : List Cadena) (l l2 : Lectura), EstadoConsistente l.estado →
      procesar_lineas stops lineas l = some l2 → EstadoConsistente l2.estado
  | [], l, l2, h, hr => by
    have : l = l2 := by simpa [procesar_lineas] using hr
    subst this
    exact h
  | x :: xs, l, l2, h, hr => by
    simp only [procesar_lineas] at hr
    cases h1 : procesar_linea stops x l with
    | none => simp [h1] at hr
    | some l1 =>
      simp only [h1] at hr
      exact procesar_lineas_consistente stops xs l1 l2
        (procesar_linea_consistente stops x l l1 h h1) hr

theorem estado_inicial_consistente : EstadoConsistente estado_indexador_inicial :=
  ⟨List.nodup_nil, fun p hp => absurd hp (List.not_mem_nil p), fun _ => Or.inl rfl⟩

theorem procesar_base_texto_consistente (archivo_base : Option (List Cadena))
    (stops : List Cadena) (st : EstadoIndexador)
    (hr : procesar_base_texto archivo_base stops estado_indexador_inicial = some st) :
    EstadoConsistente st := by
  unfold procesar_base_texto at hr
  cases archivo_base with
  | none =>
    rw [← Option.some.inj hr]
    exact estado_inicial_consistente
  | some lineas =>
    simp only at hr
    cases h1 : procesar_lineas stops lineas
        { estado := estado_indexador_inicial, doc_actual := -1, en_texto := false } with
    | none => simp [h1] at hr
    | some l =>
      simp only [h1] at hr
      rw [← Option.some.inj hr]
      exact procesar_lineas_consistente stops lineas _ l estado_inicial_consistente h1

/-! ## The indexer: what is written -/

theorem calcular_max_palabra_igual (m : Int → Int) :
    ∀ l : List DocFreq,
      (∀ e ∈ l, 0 ≤ e.doc_id ∧ e.doc_id < (MAX_DOCS : Int) ∧ e.frecuencia ≤ m e.doc_id) →
      calcular_max_palabra l m = some m
  | [], _ => rfl
  | e :: l, h => by
    obtain ⟨h1, h2, h3⟩ := h e (List.mem_cons_self _ _)
    simp only [calcular_max_palabra]
    rw [if_neg (by omega), if_neg (by omega)]
    exact calcular_max_palabra_igual m l (fun x hx => h x (List.mem_cons_of_mem _ hx))

theorem take_num_docs (m : Int → Int) (p : PalabraVocabIndexador)
    (hp : PalabraConsistente m p) :
    p.doc_freqs.take p.num_docs.toNat = p.doc_freqs ∧
    ¬ ((p.doc_freqs.length : Int) < p.num_docs) := by
  obtain ⟨h1, _⟩ := hp
  rw [h1]
  simp

theorem calcular_max_frecuencias_igual (m : Int → Int) :
    ∀ v : List PalabraVocabIndexador, (∀ p ∈ v, PalabraConsistente m p) →
      calcular_max_frecuencias v m = some m
  | [], _ => rfl
  | p :: v, h => by
    have hp := h p (List.mem_cons_self _ _)
    simp only [calcular_max_frecuencias]
    rw [if_neg (take_num_docs m p hp).2, (take_num_docs m p hp).1,
      calcular_max_palabra_igual m p.doc_freqs
        (fun e he => ⟨(hp.2.2.2.2 e he).2.1, (hp.2.2.2.2 e he).2.2.1, (hp.2.2.2.2 e he).2.2.2⟩)]
    exact calcular_max_frecuencias_igual m v (fun x hx => h x (List.mem_cons_of_mem _ hx))

theorem pares_de_linea_forma {α : Type} [LinearOrderedField α] (m : Int → Int) :
    ∀ l : List DocFreq, (∀ e ∈ l, 0 ≤ e.doc_id ∧ e.doc_id < (MAX_DOCS : Int)) →
      pares_de_linea m l
        = some (l.map (fun e =>
            (e.doc_id, if m e.doc_id > 0 then (e.frecuencia : α) / (m e.doc_id : α) else 0)))
  | [], _ => rfl
  | e :: l, h => by
    obtain ⟨h1, h2⟩ := h e (List.mem_cons_self _ _)
    simp only [pares_de_linea]
    rw [if_neg (by omega),
      pares_de_linea_forma m l (fun x hx => h x (List.mem_cons_of_mem _ hx))]
    rfl

theorem generar_listas_forma {α : Type} [LinearOrderedField α]
    (qsort_doc_freqs : List DocFreq → List DocFreq)
    (hq : ContratoQsortCon comparar_doc_ids qsort_doc_freqs) (m : Int → Int) :
    ∀ v : List PalabraVocabIndexador, (∀ p ∈ v, PalabraConsistente m p) →
      generar_listas_invertidas_txt qsort_doc_freqs m v
        = some (v.map (fun p =>
            ({ palabra_id := p.palabra_id,
               pares := (qsort_doc_freqs p.doc_freqs).map (fun e =>
                 (e.doc_id,
                  if m e.doc_id > 0 then (e.frecuencia : α) / (m e.doc_id : α) else 0)) } :
              LineaListas α)))
  | [], _ => rfl
  | p :: v, h => by
    have hp := h p (List.mem_cons_self _ _)
    simp only [generar_listas_invertidas_txt]
    rw [if_neg (take_num_docs m p hp).2, (take_num_docs m p hp).1,
      pares_de_linea_forma m (qsort_doc_freqs p.doc_freqs)
        (fun e he => ⟨(hp.2.2.2.2 e ((hq _).1.subset he)).2.1,
          (hp.2.2.2.2 e ((hq _).1.subset he)).2.2.1⟩),
      generar_listas_forma qsort_doc_freqs hq m v
        (fun x hx => h x (List.mem_cons_of_mem _ hx))]
    rfl

theorem reasignar_ids_forma :
    ∀ (l : List PalabraVocabIndexador) (i : Nat),
      (reasignar_ids l i).map (fun p => p.palabra) = l.map (fun p => p.palabra) ∧
      (reasignar_ids l i).map (fun p => p.palabra_id)
        = (List.range' i l.length).map (fun (k : Nat) => (k : Int)) ∧
      ∀ p ∈ reasignar_ids l i, ∃ q ∈ l, p.palabra = q.palabra ∧ p.num_docs = q.num_docs ∧
        p.doc_freqs = q.doc_freqs ∧ p.capacity = q.capacity
  | [], _ => ⟨rfl, rfl, fun p hp => absurd hp (List.not_mem_nil p)⟩
  | x :: l, i => by
    obtain ⟨h1, h2, h3⟩ := reasignar_ids_forma l (i + 1)
    refine ⟨by simp [reasignar_ids, h1], by simp [reasignar_ids, h2, List.range'], ?_⟩
    intro p hp
    simp only [reasignar_ids, List.mem_cons] at hp
    rcases hp with hp | hp
    · subst hp
      exact ⟨x, List.mem_cons_self _ _, rfl, rfl, rfl, rfl⟩
    · obtain ⟨q, hq, hh⟩ := h3 p hp
      exact ⟨q, List.mem_cons_of_mem _ hq, hh⟩

theorem palabra_consistente_de_campos (m : Int → Int) (p q : PalabraVocabIndexador)
    (h : PalabraConsistente m q) (h1 : p.num_docs = q.num_docs)
    (h2 : p.doc_freqs = q.doc_freqs) (h3 : p.capacity = q.capacity) :
    PalabraConsistente m p := by
  unfold PalabraConsistente at h ⊢
  rw [h1, h2, h3]
  exact h

theorem emitir_indice_forma {α : Type} [LinearOrderedField α]
    (qsort_vocabulario : List PalabraVocabIndexador → List PalabraVocabIndexador)
    (qsort_doc_freqs : List DocFreq → List DocFreq)
    (hv : ContratoQsortCon comparar_palabras qsort_vocabulario)
    (hd : ContratoQsortCon comparar_doc_ids qsort_doc_freqs)
    (st : EstadoIndexador) (h : EstadoConsistente st) :
    (emitir_indice qsort_vocabulario qsort_doc_freqs st : Option (ArchivosIndice α))
      = some
        { vocabulario_txt :=
            generar_vocabulario_txt (reasignar_ids (qsort_vocabulario st.vocabulario) 0),
          documentos_txt := generar_documentos_txt st.documentos,
          listas_invertidas_txt :=
            (reasignar_ids (qsort_vocabulario st.vocabulario) 0).map (fun p =>
              { palabra_id := p.palabra_id,
                pares := (qsort_doc_freqs p.doc_freqs).map (fun e =>
                  (e.doc_id,
                   if st.max_freq_por_doc e.doc_id > 0 then
                     (e.frecuencia : α) / (st.max_freq_por_doc e.doc_id : α)
                   else 0)) }) } := by
  unfold emitir_indice
  rw [calcular_max_frecuencias_igual st.max_freq_por_doc st.vocabulario h.2.1]
  simp only
  rw [generar_listas_forma qsort_doc_freqs hd st.max_freq_por_doc]
  intro p hp
  obtain ⟨q, hq, _, h1, h2, h3⟩ := (reasignar_ids_forma _ 0).2.2 p hp
  exact palabra_consistente_de_campos _ p q (h.2.1 q ((hv _).1.subset hq)) h1 h2 h3

/-! ## The order of the vocabulary -/

theorem char_toNat_ne (a b : Char) (h : a ≠ b) : (a.toNat : Int) ≠ (b.toNat : Int) := by
  intro e
  apply h
  have e2 : a.toNat = b.toNat := by exact_mod_cast e
  rw [← Char.ofNat_toNat a, ← Char.ofNat_toNat b, e2]

theorem strcmp_eq_zero : ∀ a b : Cadena, strcmp a b = 0 → a = b
  | [], [], _ => rfl
  | [], _ :: _, h => by simp [strcmp] at h
  | _ :: _, [], h => by simp [strcmp] at h
  | x :: a, y :: b, h => by
    by_cases hxy : x = y
    · subst hxy
      simp only [strcmp, if_true] at h
      rw [strcmp_eq_zero a b h]
    · simp only [strcmp, hxy, if_false] at h
      exact absurd (by omega) (char_toNat_ne x y hxy)

theorem strcmp_total : ∀ a b : Cadena, strcmp a b ≤ 0 ∨ strcmp b a ≤ 0
  | [], [] => Or.inl (by simp [strcmp])
  | [], _ :: _ => Or.inl (by simp [strcmp])
  | _ :: _, [] => Or.inr (by simp [strcmp])
  | x :: a, y :: b => by
    by_cases hxy : x = y
    · subst hxy
      simp only [strcmp, if_true]
      exact strcmp_total a b
    · have hyx : ¬ y = x := fun e => hxy e.symm
      simp only [strcmp, hxy, hyx, if_false]
      omega

theorem strcmp_trans : ∀ a b c : Cadena, strcmp a b ≤ 0 → strcmp b c ≤ 0 → strcmp a c ≤ 0
  | [], _, [], _, _ => by simp [strcmp]
  | [], _, _ :: _, _, _ => by simp [strcmp]
  | _ :: _, [], _, h, _ => by simp [strcmp] at h
  | _ :: _, _ :: _, [], _, h => by simp [strcmp] at h
  | x :: a, y :: b, z :: c, h1, h2 => by
    by_cases hxy : x = y
    · subst hxy
      simp only [strcmp, if_true] at h1
      by_cases hxz : x = z
      · subst hxz
        simp only [strcmp, if_true] at h2 ⊢
        exact strcmp_trans a b c h1 h2
      · simp only [strcmp, hxz, if_false] at h2 ⊢
        exact h2
    · simp only [strcmp, hxy, if_false] at h1
      have n1 := char_toNat_ne x y hxy
      by_cases hyz : y = z
      · subst hyz
        simp only [strcmp, hxy, if_false]
        exact h1
      · simp only [strcmp, hyz, if_false] at h2
        have n2 := char_toNat_ne y z hyz
        have hxz : x ≠ z := by
          intro e
          subst e
          omega
        simp only [strcmp, hxz, if_false]
        omega

theorem contrato_ordenar_vocabulario : ContratoQsortCon comparar_palabras ordenar_vocabulario := by
  intro xs
  haveI : IsTotal PalabraVocabIndexador (fun a b => comparar_palabras a b ≤ 0) :=
    ⟨fun a b => strcmp_total a.palabra b.palabra⟩
  haveI : IsTrans PalabraVocabIndexador (fun a b => comparar_palabras a b ≤ 0) :=
    ⟨fun a b c => strcmp_trans a.palabra b.palabra c.palabra⟩
  exact ⟨List.perm_insertionSort _ xs, List.sorted_insertionSort _ xs⟩

theorem contrato_ordenar_doc_freqs : ContratoQsortCon comparar_doc_ids ordenar_doc_freqs := by
  intro xs
  haveI : IsTotal DocFreq (fun a b => comparar_doc_ids a b ≤ 0) :=
    ⟨fun a b => by unfold comparar_doc_ids; omega⟩
  haveI : IsTrans DocFreq (fun a b => comparar_doc_ids a b ≤ 0) :=
    ⟨fun a b c => by unfold comparar_doc_ids; omega⟩
  exact ⟨List.perm_insertionSort _ xs, List.sorted_insertionSort _ xs⟩

theorem indexador_main_escrito {α : Type} [LinearOrderedField α]
    (qsort_vocabulario : List PalabraVocabIndexador → List PalabraVocabIndexador)
    (qsort_doc_freqs : List DocFreq → List DocFreq)
    (archivo_base archivo_stopwords : Option (List Cadena)) (archivos : ArchivosIndice α)
    (h : indexador_main qsort_vocabulario qsort_doc_freqs archivo_base archivo_stopwords
      = FinIndexador.escrito archivos) :
    ∃ stops st, cargar_stopwords archivo_stopwords = some stops ∧
      procesar_base_texto archivo_base stops estado_indexador_inicial = some st ∧
      EstadoConsistente st ∧
      emitir_indice qsort_vocabulario qsort_doc_freqs st = some archivos := by
  unfold indexador_main at h
  cases h1 : cargar_stopwords archivo_stopwords with
  | none => simp [h1] at h
  | some stops =>
    simp only [h1] at h
    cases h2 : procesar_base_texto archivo_base stops estado_indexador_inicial with
    | none => simp [h2] at h
    | some st =>
      simp only [h2] at h
      cases h3 : (emitir_indice qsort_vocabulario qsort_doc_freqs st :
          Option (ArchivosIndice α)) with
      | none => simp [h3] at h
      | some a =>
        simp only [h3] at h
        injection h with h
        subst h
        exact ⟨stops, st, rfl, h2, procesar_base_texto_consistente _ _ _ h2, h3⟩

theorem emitir_indice_vocabulario {α : Type} [LinearOrderedField α]
    (qsort_vocabulario : List PalabraVocabIndexador → List PalabraVocabIndexador)
    (qsort_doc_freqs : List DocFreq → List DocFreq) (st : EstadoIndexador)
    (archivos : ArchivosIndice α)
    (h : emitir_indice qsort_vocabulario qsort_doc_freqs st = some archivos) :
    archivos.vocabulario_txt
      = generar_vocabulario_txt (reasignar_ids (qsort_vocabulario st.vocabulario) 0) := by
  unfold emitir_indice at h
  cases h1 : calcular_max_frecuencias st.vocabulario st.max_freq_por_doc with
  | none => simp [h1] at h
  | some m =>
    simp only [h1] at h
    cases h2 : (generar_listas_invertidas_txt qsort_doc_freqs m
        (reasignar_ids (qsort_vocabulario st.vocabulario) 0) : Option (List (LineaListas α))) with
    | none => simp [h2] at h
    | some l =>
      simp only [h2] at h
      rw [← Option.some.inj h]

/-- Claim C30: whenever the indexer writes its files, `qsort` meeting its contract, the lines
of vocabulario.txt carry pairwise distinct term texts in strictly ascending `strcmp` order,
and their term ids are exactly `0, 1, ..., n-1` in that order. -/
theorem vocabulario_emitido_ordenado {α : Type} [LinearOrderedField α]
    (qsort_vocabulario : List PalabraVocabIndexador → List PalabraVocabIndexador)
    (qsort_doc_freqs : List DocFreq → List DocFreq)
    (hv : ContratoQsortCon comparar_palabras qsort_vocabulario)
    (archivo_base archivo_stopwords : Option (List Cadena)) (archivos : ArchivosIndice α)
    (h : indexador_main qsort_vocabulario qsort_doc_freqs archivo_base archivo_stopwords
      = FinIndexador.escrito archivos) :
    archivos.vocabulario_txt.Pairwise (fun a b => strcmp a.palabra b.palabra < 0) ∧
    (archivos.vocabulario_txt.map (fun a => a.palabra)).Nodup ∧
    archivos.vocabulario_txt.map (fun a => a.palabra_id)
      = (List.range archivos.vocabulario_txt.length).map (fun (k : Nat) => (k : Int)) := by
  obtain ⟨stops, st, _, _, hc, he⟩ := indexador_main_escrito _ _ _ _ _ h
  have hvoc := emitir_indice_vocabulario _ _ _ _ he
  obtain ⟨r1, r2, _⟩ := reasignar_ids_forma (qsort_vocabulario st.vocabulario) 0
  have htxt : archivos.vocabulario_txt.map (fun a => a.palabra)
      = (qsort_vocabulario st.vocabulario).map (fun p => p.palabra) := by
    rw [hvoc, ← r1]
    simp [generar_vocabulario_txt]
  have hnodup : (archivos.vocabulario_txt.map (fun a => a.palabra)).Nodup := by
    rw [htxt]
    exact (((hv st.vocabulario).1.map _).nodup_iff).mpr hc.1
  have hord : ((qsort_vocabulario st.vocabulario).map (fun p => p.palabra)).Pairwise
      (fun a b => strcmp a b ≤ 0) := by
    rw [List.pairwise_map]
    exact (hv st.vocabulario).2
  refine ⟨?_, hnodup, ?_⟩
  · have hp : (archivos.vocabulario_txt.map (fun a => a.palabra)).Pairwise
        (fun a b => strcmp a b < 0) := by
      rw [htxt] at hnodup ⊢
      refine (hord.and hnodup).imp ?_
      intro a b hab
      rcases lt_or_eq_of_le hab.1 with h1 | h1
      · exact h1
      · exact absurd (strcmp_eq_zero a b h1) hab.2
    rw [List.pairwise_map] at hp
    exact hp
  · rw [hvoc]
    simp only [generar_vocabulario_txt, List.map_map, List.length_map]
    have : (reasignar_ids (qsort_vocabulario st.vocabulario) 0).length
        = (qsort_vocabulario st.vocabulario).length := by
      have := congrArg List.length r1
      simpa using this
    rw [this, List.range_eq_range']
    exact r2

/-- Witness of claim C30 on the example corpus: the vocabulary written is `azul`, `gato`,
`perro` with ids 0, 1, 2. -/
theorem vocabulario_emitido_ordenado_witness :
    ∃ archivos : ArchivosIndice ℚ,
      indexador_main ordenar_vocabulario ordenar_doc_freqs (some corpus_ejemplo)
        (some stopwords_ejemplo) = FinIndexador.escrito archivos ∧
      archivos.vocabulario_txt.map (fun a => (a.palabra, a.palabra_id))
        = [("azul".toList, 0), ("gato".toList, 1), ("perro".toList, 2)] ∧
      archivos.vocabulario_txt.Pairwise (fun a b => strcmp a.palabra b.palabra < 0) ∧
      (archivos.vocabulario_txt.map (fun a => a.palabra)).Nodup ∧
      archivos.vocabulario_txt.map (fun a => a.palabra_id)
        = (List.range archivos.vocabulario_txt.length).map (fun (k : Nat) => (k : Int)) :=
  ⟨_, rfl, by decide,
    vocabulario_emitido_ordenado ordenar_vocabulario ordenar_doc_freqs
      contrato_ordenar_vocabulario (some corpus_ejemplo) (some stopwords_ejemplo) _ rfl⟩

/-! ## The indexer: consistency of the files and normalised frequencies -/

theorem countP_uno {β γ : Type} [DecidableEq γ] (f : β → γ) :
    ∀ (l : List β) (p : β), (l.map f).Nodup → p ∈ l →
      l.countP (fun q => f q = f p) = 1
  | [], p, _, hp => absurd hp (List.not_mem_nil p)
  | x :: l, p, hn, hp => by
    rw [List.map_cons, List.nodup_cons] at hn
    rcases List.mem_cons.mp hp with hp | hp
    · subst hp
      have : l.countP (fun q => f q = f p) = 0 := by
        rw [List.countP_eq_zero]
        intro q hq
        simp only [decide_eq_true_eq]
        intro e
        exact hn.1 (e ▸ List.mem_map_of_mem f hq)
      simp [List.countP_cons, this]
    · have hx : f x ≠ f p := fun e => hn.1 (e ▸ List.mem_map_of_mem f hp)
      simp [List.countP_cons, hx, countP_uno f l p hn.2 hp]

theorem reasignar_ids_mem :
    ∀ (l : List PalabraVocabIndexador) (i : Nat), ∀ q ∈ l,
      ∃ p ∈ reasignar_ids l i, p.palabra = q.palabra ∧ p.doc_freqs = q.doc_freqs
  | [], _, q, hq => absurd hq (List.not_mem_nil q)
  | x :: l, i, q, hq => by
    rcases List.mem_cons.mp hq with hq | hq
    · subst hq
      exact ⟨_, List.mem_cons_self _ _, rfl, rfl⟩
    · obtain ⟨p, hp, hh⟩ := reasignar_ids_mem l (i + 1) q hq
      exact ⟨p, List.mem_cons_of_mem _ hp, hh⟩

theorem reasignar_ids_nodup (l : List PalabraVocabIndexador) :
    ((reasignar_ids l 0).map (fun p => p.palabra_id)).Nodup := by
  rw [(reasignar_ids_forma l 0).2.1]
  exact (List.nodup_range' 0 l.length).map (fun a b h => by exact_mod_cast h)

theorem emitir_indice_archivos {α : Type} [LinearOrderedField α]
    (qsort_vocabulario : List PalabraVocabIndexador → List PalabraVocabIndexador)
    (qsort_doc_freqs : List DocFreq → List DocFreq)
    (hv : ContratoQsortCon comparar_palabras qsort_vocabulario)
    (hd : ContratoQsortCon comparar_doc_ids qsort_doc_freqs)
    (st : EstadoIndexador) (h : EstadoConsistente st) (archivos : ArchivosIndice α)
    (he : emitir_indice qsort_vocabulario qsort_doc_freqs st = some archivos) :
    archivos.vocabulario_txt
      = (reasignar_ids (qsort_vocabulario st.vocabulario) 0).map (fun p =>
          { palabra := p.palabra, palabra_id := p.palabra_id, num_docs := p.num_docs }) ∧
    archivos.listas_invertidas_txt
      = (reasignar_ids (qsort_vocabulario st.vocabulario) 0).map (fun p =>
          { palabra_id := p.palabra_id,
            pares := (qsort_doc_freqs p.doc_freqs).map (fun e =>
              (e.doc_id,
               if st.max_freq_por_doc e.doc_id > 0 then
                 (e.frecuencia : α) / (st.max_freq_por_doc e.doc_id : α)
               else 0)) }) ∧
    ∀ p ∈ reasignar_ids (qsort_vocabulario st.vocabulario) 0,
      PalabraConsistente st.max_freq_por_doc p ∧
      ∃ q ∈ st.vocabulario, p.palabra = q.palabra ∧ p.doc_freqs = q.doc_freqs := by
  rw [emitir_indice_forma qsort_vocabulario qsort_doc_freqs hv hd st h] at he
  rw [← Option.some.inj he]
  refine ⟨rfl, rfl, ?_⟩
  intro p hp
  obtain ⟨q, hq, h0, h1, h2, h3⟩ := (reasignar_ids_forma _ 0).2.2 p hp
  have hq2 : q ∈ st.vocabulario := (hv _).1.subset hq
  exact ⟨palabra_consistente_de_campos _ p q (h.2.1 q hq2) h1 h2 h3, q, hq2, h0, h2⟩

/-- Claim C28: whenever the indexer writes its files, `qsort` meeting its contract, the term
ids of vocabulario.txt are pairwise distinct and, for every line of vocabulario.txt,
exactly one line of listas_invertidas.txt carries its term id, and the number of pairs on
that line is the document frequency written on the vocabulary line. -/
theorem particion_emitida_consistente {α : Type} [LinearOrderedField α]
    (qsort_vocabulario : List PalabraVocabIndexador → List PalabraVocabIndexador)
    (qsort_doc_freqs : List DocFreq → List DocFreq)
    (hv : ContratoQsortCon comparar_palabras qsort_vocabulario)
    (hd : ContratoQsortCon comparar_doc_ids qsort_doc_freqs)
    (archivo_base archivo_stopwords : Option (List Cadena)) (archivos : ArchivosIndice α)
    (h : indexador_main qsort_vocabulario qsort_doc_freqs archivo_base archivo_stopwords
      = FinIndexador.escrito archivos) :
    (archivos.vocabulario_txt.map (fun a => a.palabra_id)).Nodup ∧
    ∀ lv ∈ archivos.vocabulario_txt,
      archivos.listas_invertidas_txt.countP (fun ll => ll.palabra_id = lv.palabra_id) = 1 ∧
      ∀ ll ∈ archivos.listas_invertidas_txt, ll.palabra_id = lv.palabra_id →
        (ll.pares.length : Int) = lv.num_docs := by
  obtain ⟨stops, st, _, _, hc, he⟩ := indexador_main_escrito _ _ _ _ _ h
  obtain ⟨e1, e2, e3⟩ := emitir_indice_archivos _ _ hv hd st hc archivos he
  have hnd := reasignar_ids_nodup (qsort_vocabulario st.vocabulario)
  rw [e1, e2]
  refine ⟨by simpa [List.map_map, Function.comp] using hnd, ?_⟩
  intro lv hlv
  obtain ⟨p, hp, hpl⟩ := List.mem_map.mp hlv
  subst hpl
  constructor
  · rw [List.countP_map]
    exact countP_uno (fun q : PalabraVocabIndexador => q.palabra_id) _ p hnd hp
  · intro ll hll hid
    obtain ⟨q, hq, hql⟩ := List.mem_map.mp hll
    subst hql
    have hqp : q = p := List.inj_on_of_nodup_map hnd hq hp hid
    subst hqp
    simp only [List.length_map]
    rw [(hd _).1.length_eq]
    exact (e3 q hq).1.1.symm

/-- Witness of claim C28 on the example corpus: the document frequencies written are 1, 2
and 1, and the lists written have 1, 2 and 1 pairs. -/
theorem particion_emitida_consistente_witness :
    ∃ archivos : ArchivosIndice ℚ,
      indexador_main ordenar_vocabulario ordenar_doc_freqs (some corpus_ejemplo)
        (some stopwords_ejemplo) = FinIndexador.escrito archivos ∧
      archivos.vocabulario_txt.map (fun a => (a.palabra_id, a.num_docs))
        = [(0, 1), (1, 2), (2, 1)] ∧
      archivos.listas_invertidas_txt.map (fun ll => (ll.palabra_id, ll.pares.length))
        = [(0, 1), (1, 2), (2, 1)] ∧
      (archivos.vocabulario_txt.map (fun a => a.palabra_id)).Nodup ∧
      ∀ lv ∈ archivos.vocabulario_txt,
        archivos.listas_invertidas_txt.countP (fun ll => ll.palabra_id = lv.palabra_id) = 1 ∧
        ∀ ll ∈ archivos.listas_invertidas_txt, ll.palabra_id = lv.palabra_id →
          (ll.pares.length : Int) = lv.num_docs :=
  ⟨_, rfl, by decide, by decide,
    particion_emitida_consistente ordenar_vocabulario ordenar_doc_freqs
      contrato_ordenar_vocabulario contrato_ordenar_doc_freqs (some corpus_ejemplo)
      (some stopwords_ejemplo) _ rfl⟩

theorem foldr_max_cota (M : Int) (hM : 0 ≤ M) :
    ∀ l : List DocFreq, (∀ e ∈ l, e.frecuencia ≤ M) →
      l.foldr (fun e m => max e.frecuencia m) 0 ≤ M
  | [], _ => hM
  | e :: l, h => by
    simp only [List.foldr_cons]
    exact max_le (h e (List.mem_cons_self _ _))
      (foldr_max_cota M hM l (fun x hx => h x (List.mem_cons_of_mem _ hx)))

theorem foldr_max_mayor :
    ∀ (l : List DocFreq), 0 ≤ l.foldr (fun e m => max e.frecuencia m) 0 ∧
      ∀ e ∈ l, e.frecuencia ≤ l.foldr (fun e m => max e.frecuencia m) 0
  | [] => ⟨le_rfl, fun e he => absurd he (List.not_mem_nil e)⟩
  | x :: l => by
    obtain ⟨h1, h2⟩ := foldr_max_mayor l
    simp only [List.foldr_cons]
    refine ⟨le_trans h1 (le_max_right _ _), ?_⟩
    intro e he
    rcases List.mem_cons.mp he with he | he
    · rw [he]; exact le_max_left _ _
    · exact le_trans (h2 e he) (le_max_right _ _)

theorem max_freq_es_maximo (st : EstadoIndexador) (h : EstadoConsistente st) (d : Int) :
    st.max_freq_por_doc d = maximo_en_documento st.vocabulario d := by
  unfold maximo_en_documento
  have hmem : ∀ e, e ∈ (st.vocabulario.flatMap (fun p => p.doc_freqs)).filter
      (fun e => e.doc_id = d) ↔ (∃ p ∈ st.vocabulario, e ∈ p.doc_freqs) ∧ e.doc_id = d := by
    intro e
    simp [List.mem_filter, List.mem_flatMap]
  have hcota : ∀ e ∈ (st.vocabulario.flatMap (fun p => p.doc_freqs)).filter
      (fun e => e.doc_id = d), e.frecuencia ≤ st.max_freq_por_doc d := by
    intro e he
    obtain ⟨⟨p, hp, hep⟩, hed⟩ := (hmem e).mp he
    rw [← hed]
    exact (h.2.1 p hp).2.2.2.2 e hep |>.2.2.2
  apply le_antisymm
  · rcases h.2.2 d with h0 | ⟨p, hp, e, he, hed, hef⟩
    · rw [h0]
      exact (foldr_max_mayor _).1
    · rw [← hef]
      exact (foldr_max_mayor _).2 e ((hmem e).mpr ⟨⟨p, hp, he⟩, hed⟩)
  · apply foldr_max_cota _ _ _ hcota
    rcases h.2.2 d with h0 | ⟨p, hp, e, he, hed, hef⟩
    · rw [h0]
    · rw [← hef]
      have := ((h.2.1 p hp).2.2.2.2 e he).1
      omega

/-- Whenever the indexer writes its files, `qsort` meeting its contract, each pair written on
the line of a term for a document is the raw frequency stored for that term and document
divided by the largest raw frequency stored for any term in that document, it lies in
`(0, 1]`, and for every document in which some term has an entry, some line carries that
document with the frequency exactly 1. -/
theorem frecuencias_normalizadas {α : Type} [LinearOrderedField α]
    (qsort_vocabulario : List PalabraVocabIndexador → List PalabraVocabIndexador)
    (qsort_doc_freqs : List DocFreq → List DocFreq)
    (hv : ContratoQsortCon comparar_palabras qsort_vocabulario)
    (hd : ContratoQsortCon comparar_doc_ids qsort_doc_freqs)
    (archivo_base archivo_stopwords : Option (List Cadena)) (archivos : ArchivosIndice α)
    (h : indexador_main qsort_vocabulario qsort_doc_freqs archivo_base archivo_stopwords
      = FinIndexador.escrito archivos) :
    ∃ stops st, cargar_stopwords archivo_stopwords = some stops ∧
      procesar_base_texto archivo_base stops estado_indexador_inicial = some st ∧
      List.Forall₂ (fun lv ll => lv.palabra_id = ll.palabra_id ∧ ∀ par ∈ ll.pares,
          (∃ p ∈ st.vocabulario, p.palabra = lv.palabra ∧ ∃ e ∈ p.doc_freqs,
            e.doc_id = par.1 ∧
            par.2 = (e.frecuencia : α) / (maximo_en_documento st.vocabulario par.1 : α)) ∧
          0 < par.2 ∧ par.2 ≤ 1)
        archivos.vocabulario_txt archivos.listas_invertidas_txt ∧
      (∀ p ∈ st.vocabulario, ∀ e ∈ p.doc_freqs,
        ∃ ll ∈ archivos.listas_invertidas_txt, (e.doc_id, (1 : α)) ∈ ll.pares) := by
  obtain ⟨stops, st, hs, hb, hc, he⟩ := indexador_main_escrito _ _ _ _ _ h
  obtain ⟨e1, e2, e3⟩ := emitir_indice_archivos _ _ hv hd st hc archivos he
  refine ⟨stops, st, hs, hb, ?_, ?_⟩
  · rw [e1, e2, List.forall₂_map_left_iff, List.forall₂_map_right_iff, List.forall₂_same]
    intro p hp
    refine ⟨rfl, ?_⟩
    intro par hpar
    obtain ⟨e, he, hpe⟩ := List.mem_map.mp hpar
    obtain ⟨hcons, q, hq, hq1, hq2⟩ := e3 p hp
    have hep : e ∈ p.doc_freqs := (hd _).1.subset he
    obtain ⟨b1, _, _, b4⟩ := hcons.2.2.2.2 e hep
    have hpos : st.max_freq_por_doc e.doc_id > 0 := by omega
    have hposα : (0 : α) < (st.max_freq_por_doc e.doc_id : α) := by exact_mod_cast hpos
    have hfα : (0 : α) < (e.frecuencia : α) := by
      have : (0 : Int) < e.frecuencia := by omega
      exact_mod_cast this
    have hleα : (e.frecuencia : α) ≤ (st.max_freq_por_doc e.doc_id : α) := by exact_mod_cast b4
    rw [if_pos hpos] at hpe
    subst hpe
    refine ⟨⟨q, hq, hq1.symm, e, hq2 ▸ hep, rfl, ?_⟩, div_pos hfα hposα,
      (div_le_one hposα).mpr hleα⟩
    simp only
    rw [max_freq_es_maximo st hc]
  · intro p hp e hep
    have hb := ((hc.2.1 p hp).2.2.2.2 e hep)
    rcases hc.2.2 e.doc_id with h0 | ⟨q, hq, e2m, he2, hd2, hf2⟩
    · omega
    · obtain ⟨q2, hq2, _, hdf⟩ := reasignar_ids_mem (qsort_vocabulario st.vocabulario) 0 q
        ((hv _).1.symm.subset hq)
      rw [e2]
      refine ⟨_, List.mem_map_of_mem _ hq2, ?_⟩
      simp only
      apply List.mem_map.mpr
      refine ⟨e2m, (hd _).1.symm.subset (hdf ▸ he2), ?_⟩
      have hpos : st.max_freq_por_doc e2m.doc_id > 0 := by rw [hd2]; omega
      have hne : (st.max_freq_por_doc e2m.doc_id : α) ≠ 0 := by
        have : (0 : α) < (st.max_freq_por_doc e2m.doc_id : α) := by exact_mod_cast hpos
        exact ne_of_gt this
      rw [if_pos hpos, hd2, hf2]
      rw [hd2] at hne
      rw [div_self hne]

/-! ## Sending the first K of each node is enough -/

/-- Claim C31: for every `K` and every family of local lists, each in descending order of
score, `qsort` meeting its contract, sorting the concatenation of the lists cut to their
first `resultados_a_enviar` entries and keeping the first `resultados_finales` gives the
same sequence of scores as sorting the concatenation of the whole lists and keeping the
first `K`. -/
theorem mejores_K_de_listas_truncadas {α : Type} [LinearOrderedField α]
    (qsort : List (ResultadoBusqueda α) → List (ResultadoBusqueda α))
    (hq : ContratoQsort qsort) (K : Int) (Ls : List (List (ResultadoBusqueda α)))
    (hs : ∀ L ∈ Ls, L.Pairwise (fun a b => a.ranking ≥ b.ranking)) :
    ((qsort ((Ls.map (fun L =>
          L.take (resultados_a_enviar (L.length : Int) K).toNat)).flatten)).take
        (resultados_a_enviar
          (((Ls.map (fun L =>
            L.take (resultados_a_enviar (L.length : Int) K).toNat)).flatten).length : Int)
          K).toNat).map (fun e => e.ranking)
      = ((qsort Ls.flatten).take K.toNat).map (fun e => e.ranking) := by
  rw [take_resultados_finales qsort hq]
  have : Ls.map (fun L => L.take (resultados_a_enviar (L.length : Int) K).toNat)
      = Ls.map (List.take K.toNat) := by
    apply List.map_congr_left
    intro L _
    exact take_resultados_a_enviar L K
  rw [this]
  exact mejores_puntuaciones_de_fusion qsort hq K.toNat Ls hs

/-- Witness of claim C31: two nodes with scores 3, 1 and 2, and `K = 1`. -/
theorem mejores_K_de_listas_truncadas_witness :
    ((ordenar_por_insercion ((([[⟨0, 3, []⟩, ⟨1, 1, []⟩], [⟨0, 2, []⟩]] :
          List (List (ResultadoBusqueda ℚ))).map (fun L =>
          L.take (resultados_a_enviar (L.length : Int) 1).toNat)).flatten)).take
        (resultados_a_enviar
          (((([[⟨0, 3, []⟩, ⟨1, 1, []⟩], [⟨0, 2, []⟩]] :
            List (List (ResultadoBusqueda ℚ))).map (fun L =>
            L.take (resultados_a_enviar (L.length : Int) 1).toNat)).flatten).length : Int)
          1).toNat).map (fun e => e.ranking)
      = ((ordenar_por_insercion ([[⟨0, 3, []⟩, ⟨1, 1, []⟩], [⟨0, 2, []⟩]] :
          List (List (ResultadoBusqueda ℚ))).flatten).take (1 : Int).toNat).map
          (fun e => e.ranking) :=
  mejores_K_de_listas_truncadas ordenar_por_insercion contrato_ordenar_por_insercion 1
    [[⟨0, 3, []⟩, ⟨1, 1, []⟩], [⟨0, 2, []⟩]]
    (by
      intro L hL
      simp only [List.mem_cons, List.mem_singleton, List.not_mem_nil, or_false] at hL
      rcases hL with rfl | rfl
      · simp
      · simp)

/-! ## Every access to `rankings` is inside the initialised window -/

theorem sumar_ranking_some_iff {α : Type} [LinearOrderedField α] (r : List α) (d : Int) (w : α) :
    (∃ r2, sumar_ranking r d w = some r2) ↔ (0 ≤ d ∧ d < (r.length : Int)) := by
  unfold sumar_ranking
  by_cases h : 0 ≤ d ∧ d < (r.length : Int)
  · simp [h]
  · simp [h]

theorem sumar_ranking_length {α : Type} [LinearOrderedField α] (r r2 : List α) (d : Int) (w : α)
    (h : sumar_ranking r d w = some r2) : r2.length = r.length := by
  unfold sumar_ranking at h
  by_cases hc : 0 ≤ d ∧ d < (r.length : Int)
  · rw [if_pos hc] at h
    rw [← Option.some.inj h, List.length_set]
  · rw [if_neg hc] at h
    exact absurd h (by simp)

theorem acumular_lista_some_iff {α : Type} [LinearOrderedField α] (log10 : α → α)
    (idx : Indice α) (t : Int) :
    ∀ (ps : List (DocFrec α)) (r : List α),
      ((∃ r2, acumular_lista log10 idx t ps r = some r2) ↔
        ∀ d ∈ ps.map (fun p => p.doc_id), 0 ≤ d ∧ d < (r.length : Int)) ∧
      ∀ r2, acumular_lista log10 idx t ps r = some r2 → r2.length = r.length
  | [], r => by simp [acumular_lista]
  | p :: ps, r => by
    simp only [acumular_lista, List.map_cons, List.forall_mem_cons]
    cases hs : sumar_ranking r p.doc_id (calcular_w log10 idx t p.doc_id p.frecuencia_norm) with
    | none =>
      have hn : ¬ (0 ≤ p.doc_id ∧ p.doc_id < (r.length : Int)) := by
        intro hc
        obtain ⟨r2, h2⟩ := (sumar_ranking_some_iff r p.doc_id _).mpr hc
        rw [hs] at h2
        exact absurd h2 (by simp)
      simp [hn]
    | some r1 =>
      have hl := sumar_ranking_length r r1 _ _ hs
      have hc := (sumar_ranking_some_iff r p.doc_id
        (calcular_w log10 idx t p.doc_id p.frecuencia_norm)).mp ⟨r1, hs⟩
      obtain ⟨ih1, ih2⟩ := acumular_lista_some_iff log10 idx t ps r1
      simp only
      rw [hl] at ih1 ih2
      exact ⟨by rw [ih1]; exact ⟨fun h => ⟨hc, h⟩, fun h => h.2⟩, ih2⟩

theorem acumular_palabra_some_iff {α : Type} [LinearOrderedField α] (log10 : α → α)
    (idx : Indice α) (t : Int) :
    ∀ (ls : List (ListaInvertida α)) (r : List α),
      ((∃ r2, acumular_palabra log10 idx t ls r = some r2) ↔
        ∀ d ∈ accesos_palabra t ls, 0 ≤ d ∧ d < (r.length : Int)) ∧
      ∀ r2, acumular_palabra log10 idx t ls r = some r2 → r2.length = r.length
  | [], r => by simp [acumular_palabra, accesos_palabra]
  | l :: ls, r => by
    by_cases h : l.palabra_id = t
    · simp only [acumular_palabra, accesos_palabra, if_pos h]
      exact acumular_lista_some_iff log10 idx t l.documentos r
    · simp only [acumular_palabra, accesos_palabra, if_neg h]
      exact acumular_palabra_some_iff log10 idx t ls r

theorem acumular_consulta_some_iff {α : Type} [LinearOrderedField α] (log10 : α → α)
    (idx : Indice α) :
    ∀ (ids : List Int) (r : List α),
      ((∃ r2, acumular_consulta log10 idx ids r = some r2) ↔
        ∀ d ∈ accesos_consulta idx ids, 0 ≤ d ∧ d < (r.length : Int)) ∧
      ∀ r2, acumular_consulta log10 idx ids r = some r2 → r2.length = r.length
  | [], r => by simp [acumular_consulta, accesos_consulta]
  | t :: ids, r => by
    obtain ⟨p1, p2⟩ := acumular_palabra_some_iff log10 idx t idx.listas_invertidas r
    simp only [acumular_consulta, accesos_consulta, List.forall_mem_append]
    cases hp : acumular_palabra log10 idx t idx.listas_invertidas r with
    | none =>
      have hn : ¬ ∀ d ∈ accesos_palabra t idx.listas_invertidas, 0 ≤ d ∧ d < (r.length : Int) := by
        intro hc
        obtain ⟨r2, h2⟩ := p1.mpr hc
        rw [hp] at h2
        exact absurd h2 (by simp)
      simp [hn]
    | some r1 =>
      have hl := p2 r1 hp
      have hc := p1.mp ⟨r1, hp⟩
      obtain ⟨ih1, ih2⟩ := acumular_consulta_some_iff log10 idx ids r1
      simp only
      rw [hl] at ih1 ih2
      exact ⟨by rw [ih1]; exact ⟨fun h => ⟨hc, h⟩, fun h => h.2⟩, ih2⟩

theorem accesos_palabra_mem {α : Type} (t : Int) :
    ∀ (ls : List (ListaInvertida α)), ∀ d ∈ accesos_palabra t ls,
      ∃ l ∈ ls, ∃ p ∈ l.documentos, p.doc_id = d
  | [], d, h => by simp [accesos_palabra] at h
  | l :: ls, d, h => by
    by_cases hl : l.palabra_id = t
    · simp only [accesos_palabra, if_pos hl, List.mem_map] at h
      obtain ⟨p, hp, hpd⟩ := h
      exact ⟨l, List.mem_cons_self _ _, p, hp, hpd⟩
    · simp only [accesos_palabra, if_neg hl] at h
      obtain ⟨l2, hl2, hh⟩ := accesos_palabra_mem t ls d h
      exact ⟨l2, List.mem_cons_of_mem _ hl2, hh⟩

theorem accesos_consulta_mem {α : Type} (idx : Indice α) :
    ∀ (ids : List Int), ∀ d ∈ accesos_consulta idx ids,
      ∃ l ∈ idx.listas_invertidas, ∃ p ∈ l.documentos, p.doc_id = d
  | [], d, h => by simp [accesos_consulta] at h
  | t :: ids, d, h => by
    simp only [accesos_consulta, List.mem_append] at h
    rcases h with h | h
    · exact accesos_palabra_mem t _ d h
    · exact accesos_consulta_mem idx ids d h

/-- Claim C32: under the index invariant that every posting names a document in `[0, N)`,
with `N = num_documentos ≤ MAX_DOCS`, every cell `rankings[doc_id]` the scoring loops touch
lies in `[0, N)`, inside the array and inside the window that was set to 0; the loops
return with the window at its length, holding for each document the sum of the weights of
all its postings; and in general the loops return exactly when every touched cell is
inside the window. -/
theorem accesos_dentro_de_la_ventana {α : Type} [LinearOrderedField α] (log10 : α → α)
    (idx : Indice α) (ids : List Int) (h : PostingsEnRango idx)
    (hN : num_documentos idx ≤ (MAX_DOCS : Int)) :
    (∀ d ∈ accesos_consulta idx ids,
      0 ≤ d ∧ d < num_documentos idx ∧ d < (MAX_DOCS : Int)) ∧
    ((rankings_iniciales idx : List α).length = idx.documentos.length ∧
      ∀ x ∈ (rankings_iniciales idx : List α), x = 0) ∧
    (∃ r, calcular_rankings log10 idx ids = some r ∧ r.length = idx.documentos.length ∧
      ∀ d : Nat, d < idx.documentos.length →
        r[d]? = some (puntuacion_esperada log10 idx ids (d : Int))) ∧
    (∀ r0 : List α, (∃ r, acumular_consulta log10 idx ids r0 = some r) ↔
      ∀ d ∈ accesos_consulta idx ids, 0 ≤ d ∧ d < (r0.length : Int)) := by
  refine ⟨?_, ⟨by simp [rankings_iniciales], ?_⟩, calcular_rankings_spec log10 idx ids h,
    fun r0 => (acumular_consulta_some_iff log10 idx ids r0).1⟩
  · intro d hd
    obtain ⟨l, hl, p, hp, hpd⟩ := accesos_consulta_mem idx ids d hd
    obtain ⟨h1, h2⟩ := h l hl p hp
    rw [← hpd]
    exact ⟨h1, h2, lt_of_lt_of_le h2 hN⟩
  · intro x hx
    exact List.eq_of_mem_replicate hx

/-- Witness of claim C32 on the example index and the ids of `perro gato`: the cells
touched are 0, 1 and 2. -/
theorem accesos_dentro_de_la_ventana_witness :
    PostingsEnRango (indice_ejemplo ℝ) ∧ num_documentos (indice_ejemplo ℝ) ≤ (MAX_DOCS : Int) ∧
    accesos_consulta (indice_ejemplo ℝ) [0, 1] = [0, 1, 2] ∧
    (∀ d ∈ accesos_consulta (indice_ejemplo ℝ) [0, 1],
      0 ≤ d ∧ d < num_documentos (indice_ejemplo ℝ) ∧ d < (MAX_DOCS : Int)) :=
  ⟨postings_en_rango_ejemplo ℝ, by simp [num_documentos, indice_ejemplo, MAX_DOCS],
    by simp [accesos_consulta, accesos_palabra, indice_ejemplo],
    (accesos_dentro_de_la_ventana (Real.logb 10) (indice_ejemplo ℝ) [0, 1]
      (postings_en_rango_ejemplo ℝ) (by simp [num_documentos, indice_ejemplo, MAX_DOCS])).1⟩

/-! ## The three copies of `limpiar_palabra` -/

theorem limpiar_desde_indexador_eq : ∀ (s : Cadena) (j : Nat),
    limpiar_desde_indexador j s = limpiar_desde j s
  | [], _ => rfl
  | c :: cs, j => by
    simp only [limpiar_desde_indexador, limpiar_desde, limpiar_desde_indexador_eq cs]

theorem limpiar_desde_paralelo_eq : ∀ (s : Cadena) (j : Nat),
    limpiar_desde_paralelo j s = limpiar_desde j s
  | [], _ => rfl
  | c :: cs, j => by
    simp only [limpiar_desde_paralelo, limpiar_desde, limpiar_desde_paralelo_eq cs]

/-- Claim C36: for every string, `limpiar_palabra` of indexador.c, of buscador.c and of
buscador_paralelo.c return the same string: the first 99 alphabetic characters of the
input, converted to lowercase. -/
theorem limpiar_palabra_igual_en_los_tres_programas (s : Cadena) :
    limpiar_palabra_indexador s = limpiar_palabra s ∧
    limpiar_palabra_paralelo s = limpiar_palabra s ∧
    limpiar_palabra s = ((s.filter Char.isAlpha).take 99).map Char.toLower := by
  refine ⟨limpiar_desde_indexador_eq s 0, limpiar_desde_paralelo_eq s 0, ?_⟩
  rw [limpiar_palabra_eq, limpiar_referencia, List.map_take]

/-! ## Terms that occur in every document of the partition -/

theorem set_del_mismo_valor {β : Type} (l : List β) (i : Nat) (h : i < l.length) :
    l.set i l[i] = l := by
  apply List.ext_getElem?
  intro j
  by_cases hij : i = j
  · subst hij
    rw [List.getElem?_set_self h, List.getElem?_eq_getElem h]
  · rw [List.getElem?_set_ne hij]

theorem calcular_w_nulo {α : Type} [LinearOrderedField α] (log10 : α → α)
    (hlog : log10 1 = 0) (idx : Indice α) (t d : Int) (tf : α)
    (h : buscar_d_t idx.vocabulario t = num_documentos idx) :
    calcular_w log10 idx t d tf = 0 := by
  unfold calcular_w
  by_cases h0 : buscar_d_t idx.vocabulario t = 0
  · rw [if_pos h0]
  · rw [if_neg h0, h]
    have hne : ((num_documentos idx : Int) : α) ≠ 0 := by
      rw [h] at h0
      exact_mod_cast h0
    rw [div_self hne, hlog, zero_mul]

theorem acumular_lista_nulo {α : Type} [LinearOrderedField α] (log10 : α → α)
    (hlog : log10 1 = 0) (idx : Indice α) (t : Int)
    (h : buscar_d_t idx.vocabulario t = num_documentos idx) :
    ∀ (ps : List (DocFrec α)) (r r2 : List α),
      acumular_lista log10 idx t ps r = some r2 → r2 = r
  | [], r, r2, hr => by
    simp only [acumular_lista] at hr
    exact (Option.some.inj hr).symm
  | p :: ps, r, r2, hr => by
    simp only [acumular_lista, calcular_w_nulo log10 hlog idx t _ _ h] at hr
    unfold sumar_ranking at hr
    by_cases hc : 0 ≤ p.doc_id ∧ p.doc_id < (r.length : Int)
    · rw [if_pos hc] at hr
      simp only at hr
      have hset : r.set p.doc_id.toNat (r.getD p.doc_id.toNat 0 + 0) = r := by
        have hlt : p.doc_id.toNat < r.length := by omega
        rw [add_zero, List.getD_eq_getElem?_getD, List.getElem?_eq_getElem hlt, Option.getD_some,
          set_del_mismo_valor r _ hlt]
      rw [hset] at hr
      exact acumular_lista_nulo log10 hlog idx t h ps r r2 hr
    · rw [if_neg hc] at hr
      exact absurd hr (by simp)

theorem acumular_palabra_nulo {α : Type} [LinearOrderedField α] (log10 : α → α)
    (hlog : log10 1 = 0) (idx : Indice α) (t : Int)
    (h : buscar_d_t idx.vocabulario t = num_documentos idx) :
    ∀ (ls : List (ListaInvertida α)) (r r2 : List α),
      acumular_palabra log10 idx t ls r = some r2 → r2 = r
  | [], r, r2, hr => by
    simp only [acumular_palabra] at hr
    exact (Option.some.inj hr).symm
  | l :: ls, r, r2, hr => by
    by_cases hl : l.palabra_id = t
    · simp only [acumular_palabra, if_pos hl] at hr
      exact acumular_lista_nulo log10 hlog idx t h _ r r2 hr
    · simp only [acumular_palabra, if_neg hl] at hr
      exact acumular_palabra_nulo log10 hlog idx t h ls r r2 hr

theorem acumular_consulta_nulo {α : Type} [LinearOrderedField α] (log10 : α → α)
    (hlog : log10 1 = 0) (idx : Indice α) :
    ∀ (ids : List Int) (r r2 : List α),
      (∀ t ∈ ids, buscar_d_t idx.vocabulario t = num_documentos idx) →
      acumular_consulta log10 idx ids r = some r2 → r2 = r
  | [], r, r2, _, hr => by
    simp only [acumular_consulta] at hr
    exact (Option.some.inj hr).symm
  | t :: ids, r, r2, h, hr => by
    simp only [acumular_consulta] at hr
    cases hp : acumular_palabra log10 idx t idx.listas_invertidas r with
    | none => simp [hp] at hr
    | some r1 =>
      simp only [hp] at hr
      have h1 := acumular_palabra_nulo log10 hlog idx t (h t (List.mem_cons_self _ _)) _ r r1 hp
      subst h1
      exact acumular_consulta_nulo log10 hlog idx ids r1 r2
        (fun x hx => h x (List.mem_cons_of_mem _ hx)) hr

theorem recopilar_desde_ceros {α : Type} [LinearOrderedField α] :
    ∀ (n i : Nat) (ds : List Documento),
      recopilar_desde i (List.replicate n (0 : α)) ds = []
  | 0, _, ds => by cases ds <;> simp [recopilar_desde]
  | n + 1, i, [] => by simp [List.replicate, recopilar_desde]
  | n + 1, i, d :: ds => by
    simp only [List.replicate, recopilar_desde, lt_irrefl, if_false]
    exact recopilar_desde_ceros n (i + 1) ds

/-- Claim C37: with `log10(1) = 0`, for every term whose document frequency equals the
document count of the partition, `calcular_w` returns 0 for every posting, and under the
index invariant a query all of whose resolved terms are such terms returns the empty
ranked list, `qsort` meeting its contract. -/
theorem terminos_en_todos_los_documentos {α : Type} [LinearOrderedField α] (log10 : α → α)
    (hlog : log10 1 = 0) (idx : Indice α) :
    (∀ (t d : Int) (tf : α), buscar_d_t idx.vocabulario t = num_documentos idx →
      calcular_w log10 idx t d tf = 0) ∧
    (∀ (qsort : List (ResultadoBusqueda α) → List (ResultadoBusqueda α)) (consulta : Cadena)
        (K : Int), ContratoQsort qsort → PostingsEnRango idx →
      (∀ t ∈ resolver_ids idx.vocabulario (palabras_consulta consulta),
        buscar_d_t idx.vocabulario t = num_documentos idx) →
      procesar_consulta_local qsort log10 idx consulta K = some []) := by
  refine ⟨fun t d tf h => calcular_w_nulo log10 hlog idx t d tf h, ?_⟩
  intro qsort consulta K hq hp hall
  obtain ⟨r, hr, _, hres⟩ := procesar_consulta_local_forma qsort hq log10 idx consulta K hp
  have : r = rankings_iniciales idx :=
    acumular_consulta_nulo log10 hlog idx _ _ r hall hr
  rw [hres, this, rankings_iniciales, recopilar_desde_ceros, qsort_nil qsort hq]

/-- Witness of claim C37: the one-document partition that holds `gato` with document
frequency 1 returns nothing for `perro gato`. -/
theorem terminos_en_todos_los_documentos_witness :
    Real.logb 10 1 = 0 ∧
    calcular_w (Real.logb 10) (indice_nodo1 ℝ) 1 0 1 = 0 ∧
    procesar_consulta_local ordenar_por_insercion (Real.logb 10) (indice_nodo1 ℝ)
      consulta_perro_gato 10 = some [] :=
  ⟨Real.logb_one,
   (terminos_en_todos_los_documentos (Real.logb 10) Real.logb_one (indice_nodo1 ℝ)).1 1 0 1
     (by decide),
   (terminos_en_todos_los_documentos (Real.logb 10) Real.logb_one (indice_nodo1 ℝ)).2
     ordenar_por_insercion consulta_perro_gato 10 contrato_ordenar_por_insercion
     (by
       intro l hl p hp
       simp only [indice_nodo1, List.mem_singleton] at hl
       subst hl
       simp only [List.mem_singleton] at hp
       subst hp
       simp [num_documentos, indice_nodo1])
     (by
       rw [palabras_consulta_perro_gato]
       decide)⟩

/-! ## The comparator of the ranked lists -/

/-- Claim C38: `comparar_resultados` looks at the scores only: it returns 1 exactly when
`b.ranking > a.ranking`, -1 exactly when `b.ranking < a.ranking` and 0 exactly when the
rankings are equal, so results with the same rankings compare alike whatever their
`doc_id` and `url`; `comparar(a, b) = -comparar(b, a)`, and the order it induces is
transitive. -/
theorem comparar_resultados_consistente {α : Type} [LinearOrderedField α]
    (a b c : ResultadoBusqueda α) :
    (comparar_resultados a b = 1 ↔ b.ranking > a.ranking) ∧
    (comparar_resultados a b = -1 ↔ b.ranking < a.ranking) ∧
    (comparar_resultados a b = 0 ↔ a.ranking = b.ranking) ∧
    (∀ a2 b2 : ResultadoBusqueda α, a2.ranking = a.ranking → b2.ranking = b.ranking →
      comparar_resultados a2 b2 = comparar_resultados a b) ∧
    comparar_resultados a b = -comparar_resultados b a ∧
    (comparar_resultados a b ≤ 0 → comparar_resultados b c ≤ 0 →
      comparar_resultados a c ≤ 0) ∧
    (comparar_resultados a b < 0 → comparar_resultados b c < 0 →
      comparar_resultados a c < 0) := by
  refine ⟨?_, ?_, ?_, ?_, ?_, ?_, ?_⟩
  · unfold comparar_resultados
    rcases lt_trichotomy a.ranking b.ranking with h | h | h
    · simp [h]
    · simp [h]
    · simp [h, not_lt.mpr (le_of_lt h)]
  · unfold comparar_resultados
    rcases lt_trichotomy a.ranking b.ranking with h | h | h
    · simp [h, not_lt.mpr (le_of_lt h)]
    · simp [h]
    · simp [h, not_lt.mpr (le_of_lt h)]
  · unfold comparar_resultados
    rcases lt_trichotomy a.ranking b.ranking with h | h | h
    · simp [h, ne_of_lt h]
    · simp [h]
    · simp [h, not_lt.mpr (le_of_lt h), ne_of_gt h]
  · intro a2 b2 ha hb
    unfold comparar_resultados
    rw [ha, hb]
  · unfold comparar_resultados
    rcases lt_trichotomy a.ranking b.ranking with h | h | h
    · simp [h, not_lt.mpr (le_of_lt h)]
    · simp [h]
    · simp [h, not_lt.mpr (le_of_lt h)]
  · intro h1 h2
    rw [comparar_le_zero_iff] at h1 h2 ⊢
    exact le_trans h2 h1
  · intro h1 h2
    have k1 : b.ranking < a.ranking := by
      unfold comparar_resultados at h1
      by_contra hc
      rcases lt_or_eq_of_le (not_lt.mp hc) with h | h
      · simp [h] at h1
      · simp [h] at h1
    have k2 : c.ranking < b.ranking := by
      unfold comparar_resultados at h2
      by_contra hc
      rcases lt_or_eq_of_le (not_lt.mp hc) with h | h
      · simp [h] at h2
      · simp [h] at h2
    have k3 : c.ranking < a.ranking := lt_trans k2 k1
    unfold comparar_resultados
    simp [k3, not_lt.mpr (le_of_lt k3)]

/-- Witness of claim C38: scores 3, 2 and 1 with different documents and urls. -/
theorem comparar_resultados_consistente_witness :
    comparar_resultados (⟨0, 3, ['a']⟩ : ResultadoBusqueda ℚ) ⟨1, 2, ['b']⟩ < 0 ∧
    comparar_resultados (⟨1, 2, ['b']⟩ : ResultadoBusqueda ℚ) ⟨2, 1, ['c']⟩ < 0 ∧
    comparar_resultados (⟨0, 3, ['a']⟩ : ResultadoBusqueda ℚ) ⟨2, 1, ['c']⟩ < 0 :=
  ⟨by decide, by decide,
    (comparar_resultados_consistente (⟨0, 3, ['a']⟩ : ResultadoBusqueda ℚ) ⟨1, 2, ['b']⟩
      ⟨2, 1, ['c']⟩).2.2.2.2.2.2 (by decide) (by decide)⟩

/-! ## The batch loop with `Q = 0` -/

theorem bucle_lotes_paso (Q n : Int) (fuel : Nat) (lote consulta_id : Int) :
    bucle_lotes Q n (fuel + 1) lote consulta_id
      = match paso_lote Q n lote consulta_id with
        | none => some []
        | some (turnos, lote2, consulta_id2) =>
          (bucle_lotes Q n fuel lote2 consulta_id2).map (fun resto => turnos ++ resto) := by
  unfold paso_lote
  by_cases h : lote < n
  · simp only [bucle_lotes, if_pos h]
    cases bucle_lotes Q n fuel (lote + Q)
      (consulta_id + (((if lote + Q ≤ n then Q else n - lote).toNat : Nat) : Int)) <;> rfl
  · simp only [bucle_lotes, if_neg h]

/-- Claim C39: with `Q = 0` and at least one query loaded, one iteration of the batch loop
drives no turn and leaves `lote` at 0 and `consulta_id` at 0, so after any number of
iterations the state is the initial one with no turn driven, and the loop does not end
within any number of iterations. -/
theorem lote_cero_no_termina (n : Int) (hn : 1 ≤ n) :
    paso_lote 0 n 0 0 = some ([], 0, 0) ∧
    (∀ k : Nat, estado_tras_iteraciones 0 n k = some ([], 0, 0)) ∧
    (∀ fuel : Nat, bucle_lotes 0 n fuel 0 0 = none) := by
  have h1 : paso_lote 0 n 0 0 = some ([], 0, 0) := by
    unfold paso_lote
    rw [if_pos (by omega)]
    simp [procesar_lote, show (0 : Int) ≤ n by omega]
  refine ⟨h1, ?_, ?_⟩
  · intro k
    induction k with
    | zero => rfl
    | succ k ih => simp [estado_tras_iteraciones, ih, h1]
  · intro fuel
    induction fuel with
    | zero => rfl
    | succ fuel ih => rw [bucle_lotes_paso, h1]; simp [ih]

/-- Witness of claim C39: the argument `abc` gives `Q = 0`; with three queries the loop is
still in its initial state after five iterations and has not ended within ten. -/
theorem lote_cero_no_termina_witness :
    atoi "abc".toList = 0 ∧
    estado_tras_iteraciones (atoi "abc".toList) 3 5 = some ([], 0, 0) ∧
    bucle_lotes (atoi "abc".toList) 3 10 0 0 = none :=
  ⟨by decide, (lote_cero_no_termina 3 (by decide)).2.1 5,
    (lote_cero_no_termina 3 (by decide)).2.2 10⟩

/-! ## The indexer: document ids of a line, and the texts of the vocabulary -/

/-- Claim C35: whenever the indexer writes its files, `qsort` meeting its contract, the
document ids on each line of listas_invertidas.txt are in strictly ascending order, so no
document appears twice on a line. -/
theorem doc_ids_estrictamente_ascendentes {α : Type} [LinearOrderedField α]
    (qsort_vocabulario : List PalabraVocabIndexador → List PalabraVocabIndexador)
    (qsort_doc_freqs : List DocFreq → List DocFreq)
    (hv : ContratoQsortCon comparar_palabras qsort_vocabulario)
    (hd : ContratoQsortCon comparar_doc_ids qsort_doc_freqs)
    (archivo_base archivo_stopwords : Option (List Cadena)) (archivos : ArchivosIndice α)
    (h : indexador_main qsort_vocabulario qsort_doc_freqs archivo_base archivo_stopwords
      = FinIndexador.escrito archivos) :
    ∀ ll ∈ archivos.listas_invertidas_txt,
      (ll.pares.map (fun par => par.1)).Pairwise (fun a b => a < b) ∧
      (ll.pares.map (fun par => par.1)).Nodup := by
  obtain ⟨stops, st, _, _, hc, he⟩ := indexador_main_escrito _ _ _ _ _ h
  obtain ⟨_, e2, e3⟩ := emitir_indice_archivos _ _ hv hd st hc archivos he
  rw [e2]
  intro ll hll
  obtain ⟨p, hp, hpl⟩ := List.mem_map.mp hll
  subst hpl
  have hids : ((qsort_doc_freqs p.doc_freqs).map (fun e =>
        (e.doc_id,
          if st.max_freq_por_doc e.doc_id > 0 then
            (e.frecuencia : α) / (st.max_freq_por_doc e.doc_id : α)
          else 0))).map (fun par => par.1)
      = (qsort_doc_freqs p.doc_freqs).map (fun e => e.doc_id) := by
    rw [List.map_map]
    rfl
  simp only
  rw [hids]
  have hnd : ((qsort_doc_freqs p.doc_freqs).map (fun e => e.doc_id)).Nodup :=
    (((hd p.doc_freqs).1.map _).nodup_iff).mpr (e3 p hp).1.2.2.2.1
  refine ⟨?_, hnd⟩
  have hord : ((qsort_doc_freqs p.doc_freqs).map (fun e => e.doc_id)).Pairwise
      (fun a b => a ≤ b) := by
    rw [List.pairwise_map]
    refine (hd p.doc_freqs).2.imp ?_
    intro a b hab
    unfold comparar_doc_ids at hab
    omega
  exact (hord.and hnd).imp (fun hab => lt_of_le_of_ne hab.1 hab.2)

/-- Witness of claim C35 on the example corpus: the lines carry the documents `1`, `0, 1`
and `0`. -/
theorem doc_ids_estrictamente_ascendentes_witness :
    ∃ archivos : ArchivosIndice ℚ,
      indexador_main ordenar_vocabulario ordenar_doc_freqs (some corpus_ejemplo)
        (some stopwords_ejemplo) = FinIndexador.escrito archivos ∧
      archivos.listas_invertidas_txt.map (fun ll => ll.pares.map (fun par => par.1))
        = [[1], [0, 1], [0]] ∧
      ∀ ll ∈ archivos.listas_invertidas_txt,
        (ll.pares.map (fun par => par.1)).Pairwise (fun a b => a < b) ∧
        (ll.pares.map (fun par => par.1)).Nodup :=
  ⟨_, rfl, by decide,
    doc_ids_estrictamente_ascendentes ordenar_vocabulario ordenar_doc_freqs
      contrato_ordenar_vocabulario contrato_ordenar_doc_freqs (some corpus_ejemplo)
      (some stopwords_ejemplo) _ rfl⟩

theorem toLower_es_minuscula (c : Char) (h : c.isAlpha = true) : c.toLower.isLower = true := by
  by_cases hu : c.isUpper = true
  · have hle : 65 ≤ c.toNat ∧ c.toNat ≤ 90 := by
      simp only [Char.isUpper, Bool.and_eq_true, decide_eq_true_eq] at hu
      have h1 : (65 : UInt32) ≤ c.val := hu.1
      have h2 : c.val ≤ (90 : UInt32) := hu.2
      rw [UInt32.le_def] at h1 h2
      exact ⟨h1, h2⟩
    have key : ∀ k : Nat, k < 26 → (Char.ofNat (65 + k)).toLower.isLower = true := by decide
    have := key (c.toNat - 65) (by omega)
    rw [show 65 + (c.toNat - 65) = c.toNat by omega, Char.ofNat_toNat] at this
    exact this
  · have hl : c.isLower = true := by
      simp only [Char.isAlpha, Bool.or_eq_true] at h
      rcases h with h | h
      · exact absurd h hu
      · exact h
    have : c.toLower = c := by
      simp only [Char.isUpper, Bool.and_eq_true, decide_eq_true_eq, not_and] at hu
      simp only [Char.isLower, Bool.and_eq_true, decide_eq_true_eq] at hl
      unfold Char.toLower
      have h1 : (97 : UInt32) ≤ c.val := hl.1
      rw [UInt32.le_def] at h1
      have h3 : 97 ≤ c.toNat := h1
      have : ¬ (c.toNat ≥ 65 ∧ c.toNat ≤ 90) := by
        intro hc
        omega
      simp [this]
    rw [this]
    exact hl

theorem limpiar_palabra_indexador_minusculas (token : Cadena) :
    ∀ c ∈ limpiar_palabra_indexador token, c.isLower = true := by
  intro c hc
  have e : limpiar_palabra_indexador token = (limpiar_referencia token).take 99 := by
    rw [← limpiar_palabra_eq]
    exact limpiar_desde_indexador_eq token 0
  rw [e] at hc
  have hc2 := List.mem_of_mem_take hc
  unfold limpiar_referencia at hc2
  obtain ⟨x, hx, hxc⟩ := List.mem_map.mp hc2
  rw [← hxc]
  exact toLower_es_minuscula x (List.mem_filter.mp hx).2

theorem es_stopword_false_iff (stops : List Cadena) (palabra : Cadena) :
    es_stopword stops palabra = false ↔ palabra ∉ stops := by
  induction stops with
  | nil => simp [es_stopword]
  | cons s resto ih =>
    by_cases h : s = palabra
    · simp [es_stopword, h]
    · have h2 : ¬ palabra = s := fun e => h e.symm
      simp [es_stopword, h, h2, ih]

theorem registrar_ocurrencia_palabra (p p2 : PalabraVocabIndexador) (d f : Int)
    (h : registrar_ocurrencia p d = some (p2, f)) : p2.palabra = p.palabra := by
  unfold registrar_ocurrencia at h
  by_cases h1 : 0 ≤ buscar_doc d (p.doc_freqs.take p.num_docs.toNat) 0
  · rw [if_pos h1] at h
    cases hg : p.doc_freqs[(buscar_doc d (p.doc_freqs.take p.num_docs.toNat) 0).toNat]? with
    | none => simp [hg] at h
    | some e =>
      simp only [hg] at h
      have := Option.some.inj h
      rw [← (Prod.mk.inj this).1]
  · rw [if_neg h1] at h
    by_cases h2 : (if p.capacity ≤ p.num_docs then p.capacity * 2 else p.capacity)
        ≤ p.num_docs ∨ p.num_docs < 0 ∨ (p.doc_freqs.length : Int) < p.num_docs
    · rw [if_pos h2] at h
      exact absurd h (by simp)
    · rw [if_neg h2] at h
      have := Option.some.inj h
      rw [← (Prod.mk.inj this).1]

theorem agregar_frecuencia_palabra_textos (st st2 : EstadoIndexador) (idx d : Int)
    (h : agregar_frecuencia_palabra st idx d = some st2) :
    st2.vocabulario.map (fun p => p.palabra) = st.vocabulario.map (fun p => p.palabra) ∧
    st2.documentos = st.documentos := by
  unfold agregar_frecuencia_palabra at h
  split at h
  · exact absurd h (by simp)
  · cases hg : st.vocabulario[idx.toNat]? with
    | none => simp [hg] at h
    | some p =>
      simp only [hg] at h
      cases hr : registrar_ocurrencia p d with
      | none => simp [hr] at h
      | some r =>
        obtain ⟨p2, f⟩ := r
        simp only [hr] at h
        rw [← Option.some.inj h]
        exact ⟨nodup_map_set (fun q : PalabraVocabIndexador => q.palabra) _ _ p2 p hg
          (registrar_ocurrencia_palabra p p2 d f hr), rfl⟩

theorem agregar_palabra_vocabulario_textos (st : EstadoIndexador) (palabra : Cadena) :
    (agregar_palabra_vocabulario st palabra).vocabulario.map (fun p => p.palabra)
        = st.vocabulario.map (fun p => p.palabra) ∨
    (agregar_palabra_vocabulario st palabra).vocabulario.map (fun p => p.palabra)
        = st.vocabulario.map (fun p => p.palabra) ++ [palabra] := by
  unfold agregar_palabra_vocabulario
  by_cases hc : (MAX_WORDS : Int) ≤ st.vocabulario.length
  · rw [if_pos hc]; exact Or.inl rfl
  · rw [if_neg hc]; exact Or.inr (by simp)

theorem procesar_token_filtrado (stops : List Cadena) (doc_actual : Int)
    (st st2 : EstadoIndexador) (token : Cadena) (h : VocabularioFiltrado stops st)
    (hr : procesar_token stops doc_actual st token = some st2) :
    VocabularioFiltrado stops st2 := by
  unfold procesar_token at hr
  by_cases hc : (limpiar_palabra_indexador token).length > 0
      ∧ es_stopword stops (limpiar_palabra_indexador token) = false
  · rw [if_pos hc] at hr
    by_cases hb : buscar_palabra_vocabulario st.vocabulario (limpiar_palabra_indexador token) < 0
    · rw [if_pos hb] at hr
      obtain ⟨ht, _⟩ := agregar_frecuencia_palabra_textos _ _ _ _ hr
      unfold VocabularioFiltrado
      rw [ht]
      rcases agregar_palabra_vocabulario_textos st (limpiar_palabra_indexador token) with e | e
      · rw [e]; exact h
      · rw [e]
        intro w hw
        rcases List.mem_append.mp hw with hw | hw
        · exact h w hw
        · rw [List.mem_singleton] at hw
          subst hw
          refine ⟨?_, limpiar_palabra_indexador_minusculas token,
            (es_stopword_false_iff _ _).mp hc.2⟩
          intro e0
          rw [e0] at hc
          exact absurd hc.1 (by simp)
    · rw [if_neg hb] at hr
      obtain ⟨ht, _⟩ := agregar_frecuencia_palabra_textos _ _ _ _ hr
      unfold VocabularioFiltrado
      rw [ht]
      exact h
  · rw [if_neg hc] at hr
    rw [← Option.some.inj hr]
    exact h

theorem procesar_tokens_filtrado (stops : List Cadena) (doc_actual : Int) :
    ∀ (tokens : List Cadena) (st st2 : EstadoIndexador), VocabularioFiltrado stops st →
      procesar_tokens stops doc_actual tokens st = some st2 → VocabularioFiltrado stops st2
  | [], st, st2, h, hr => by
    have : st = st2 := by simpa [procesar_tokens] using hr
    subst this
    exact h
  | t :: ts, st, st2, h, hr => by
    simp only [procesar_tokens] at hr
    cases h1 : procesar_token stops doc_actual st t with
    | none => simp [h1] at hr
    | some st1 =>
      simp only [h1] at hr
      exact procesar_tokens_filtrado stops doc_actual ts st1 st2
        (procesar_token_filtrado stops doc_actual st st1 t h h1) hr

theorem procesar_linea_filtrado (stops : List Cadena) (linea : Cadena) (l l2 : Lectura)
    (h : VocabularioFiltrado stops l.estado) (hr : procesar_linea stops linea l = some l2) :
    VocabularioFiltrado stops l2.estado := by
  unfold procesar_linea at hr
  split at hr
  · unfold procesar_linea_documento at hr
    split at hr
    · split at hr
      · exact absurd hr (by simp)
      · rw [← Option.some.inj hr]; exact h
    · rw [← Option.some.inj hr]; exact h
  · split at hr
    · unfold procesar_linea_url at hr
      split at hr
      · rw [← Option.some.inj hr]; exact h
      · split at hr
        · exact absurd hr (by simp)
        · split at hr
          · exact absurd hr (by simp)
          · split at hr
            · exact absurd hr (by simp)
            · rw [← Option.some.inj hr]
              exact h
    · split at hr
      · rw [← Option.some.inj hr]; exact h
      · split at hr
        · rw [← Option.some.inj hr]; exact h
        · split at hr
          · split at hr
            · exact absurd hr (by simp)
            · rename_i st hst
              rw [← Option.some.inj hr]
              exact procesar_tokens_filtrado stops _ _ _ st h hst
          · rw [← Option.some.inj hr]; exact h

theorem procesar_lineas_filtrado (stops : List Cadena) :
    ∀ (lineas : List Cadena) (l l2 : Lectura), VocabularioFiltrado stops l.estado →
      procesar_lineas stops lineas l = some l2 → VocabularioFiltrado stops l2.estado
  | [], l, l2, h, hr => by
    have : l = l2 := by simpa [procesar_lineas] using hr
    subst this
    exact h
  | x :: xs, l, l2, h, hr => by
    simp only [procesar_lineas] at hr
    cases h1 : procesar_linea stops x l with
    | none => simp [h1] at hr
    | some l1 =>
      simp only [h1] at hr
      exact procesar_lineas_filtrado stops xs l1 l2
        (procesar_linea_filtrado stops x l l1 h h1) hr

theorem procesar_base_texto_filtrado (archivo_base : Option (List Cadena))
    (stops : List Cadena) (st : EstadoIndexador)
    (hr : procesar_base_texto archivo_base stops estado_indexador_inicial = some st) :
    VocabularioFiltrado stops st := by
  have h0 : VocabularioFiltrado stops estado_indexador_inicial := by
    intro w hw
    simp [estado_indexador_inicial] at hw
  unfold procesar_base_texto at hr
  cases archivo_base with
  | none =>
    rw [← Option.some.inj hr]
    exact h0
  | some lineas =>
    simp only at hr
    cases h1 : procesar_lineas stops lineas
        { estado := estado_indexador_inicial, doc_actual := -1, en_texto := false } with
    | none => simp [h1] at hr
    | some l =>
      simp only [h1] at hr
      rw [← Option.some.inj hr]
      exact procesar_lineas_filtrado stops lineas _ l h0 h1

/-- Claim C34: whenever the indexer writes its files, `qsort` meeting its contract, every
term on a line of vocabulario.txt is a non-empty string of lowercase letters that is not
in the stopword list the indexer loaded (the lines of the stopwords file without their
final newline). -/
theorem terminos_filtrados {α : Type} [LinearOrderedField α]
    (qsort_vocabulario : List PalabraVocabIndexador → List PalabraVocabIndexador)
    (qsort_doc_freqs : List DocFreq → List DocFreq)
    (hv : ContratoQsortCon comparar_palabras qsort_vocabulario)
    (archivo_base archivo_stopwords : Option (List Cadena)) (archivos : ArchivosIndice α)
    (h : indexador_main qsort_vocabulario qsort_doc_freqs archivo_base archivo_stopwords
      = FinIndexador.escrito archivos) :
    ∃ stops, cargar_stopwords archivo_stopwords = some stops ∧
      ∀ lv ∈ archivos.vocabulario_txt,
        lv.palabra ≠ [] ∧ (∀ c ∈ lv.palabra, c.isLower = true) ∧ lv.palabra ∉ stops := by
  obtain ⟨stops, st, hs, hb, _, he⟩ := indexador_main_escrito _ _ _ _ _ h
  have hvoc := emitir_indice_vocabulario _ _ _ _ he
  have hf := procesar_base_texto_filtrado _ _ _ hb
  refine ⟨stops, hs, ?_⟩
  intro lv hlv
  have hmem : lv.palabra ∈ st.vocabulario.map (fun p => p.palabra) := by
    have h1 : lv.palabra ∈ archivos.vocabulario_txt.map (fun a => a.palabra) :=
      List.mem_map_of_mem _ hlv
    rw [hvoc] at h1
    have h2 : (generar_vocabulario_txt
        (reasignar_ids (qsort_vocabulario st.vocabulario) 0)).map (fun a => a.palabra)
        = (qsort_vocabulario st.vocabulario).map (fun p => p.palabra) := by
      rw [← (reasignar_ids_forma (qsort_vocabulario st.vocabulario) 0).1]
      simp [generar_vocabulario_txt]
    rw [h2] at h1
    exact ((hv st.vocabulario).1.map _).subset h1
  exact hf lv.palabra hmem

/-- Witness of claim C34 on the example corpus with the stopwords `el` and `y`. -/
theorem terminos_filtrados_witness :
    ∃ archivos : ArchivosIndice ℚ,
      indexador_main ordenar_vocabulario ordenar_doc_freqs (some corpus_ejemplo)
        (some stopwords_ejemplo) = FinIndexador.escrito archivos ∧
      archivos.vocabulario_txt.map (fun a => a.palabra)
        = ["azul".toList, "gato".toList, "perro".toList] ∧
      ∃ stops, cargar_stopwords (some stopwords_ejemplo) = some stops ∧
        ∀ lv ∈ archivos.vocabulario_txt,
          lv.palabra ≠ [] ∧ (∀ c ∈ lv.palabra, c.isLower = true) ∧ lv.palabra ∉ stops :=
  ⟨_, rfl, by decide,
    terminos_filtrados ordenar_vocabulario ordenar_doc_freqs contrato_ordenar_vocabulario
      (some corpus_ejemplo) (some stopwords_ejemplo) _ rfl⟩

/-! ## Binary search in a sorted word list -/

theorem strcmp_refl : ∀ a : Cadena, strcmp a a = 0
  | [] => rfl
  | x :: a => by simp [strcmp, strcmp_refl a]

theorem strcmp_antisimetrica : ∀ a b : Cadena, strcmp a b = -strcmp b a
  | [], [] => rfl
  | [], _ :: _ => rfl
  | _ :: _, [] => rfl
  | x :: a, y :: b => by
    by_cases hxy : x = y
    · subst hxy
      simp only [strcmp, if_true]
      exact strcmp_antisimetrica a b
    · have hyx : ¬ y = x := fun e => hxy e.symm
      simp only [strcmp, hxy, hyx, if_false]
      omega

theorem strcmp_eq_zero_iff (a b : Cadena) : strcmp a b = 0 ↔ a = b :=
  ⟨strcmp_eq_zero a b, fun h => h ▸ strcmp_refl a⟩

theorem buscar_binaria_desde_spec (palabras : List Cadena) (palabra : Cadena)
    (hs : palabras.Pairwise (fun a b => strcmp a b ≤ 0)) :
    ∀ (fuel : Nat) (izquierda derecha : Int), 0 ≤ izquierda →
      derecha < (palabras.length : Int) → derecha - izquierda + 2 ≤ (fuel : Int) → 1 ≤ fuel →
      (∀ i : Nat, palabras[i]? = some palabra → izquierda ≤ (i : Int) ∧ (i : Int) ≤ derecha) →
      buscar_binaria_desde palabras palabra fuel izquierda derecha
        = Ejecucion.retorna (if palabra ∈ palabras then 1 else 0) := by
  intro fuel
  induction fuel with
  | zero => intro _ _ _ _ _ h; omega
  | succ fuel ih =>
    intro izquierda derecha h0 h1 hf _ hinv
    unfold buscar_binaria_desde
    by_cases hle : izquierda ≤ derecha
    · rw [if_pos hle]
      have hm0 : 0 ≤ izquierda + (derecha - izquierda) / 2 := by omega
      have hm1 : izquierda ≤ izquierda + (derecha - izquierda) / 2 := by omega
      have hm2 : izquierda + (derecha - izquierda) / 2 ≤ derecha := by omega
      rw [if_neg (by omega)]
      have hlt : (izquierda + (derecha - izquierda) / 2).toNat < palabras.length := by omega
      rw [List.getElem?_eq_getElem hlt]
      simp only
      by_cases hc0 : strcmp (palabras[(izquierda + (derecha - izquierda) / 2).toNat]) palabra = 0
      · rw [if_pos hc0]
        have hmem : palabra ∈ palabras := by
          rw [← strcmp_eq_zero _ _ hc0]
          exact List.getElem_mem hlt
        rw [if_pos hmem]
      · rw [if_neg hc0]
        have hfuel : 1 ≤ fuel := by omega
        by_cases hneg : strcmp (palabras[(izquierda + (derecha - izquierda) / 2).toNat]) palabra < 0
        · rw [if_pos hneg]
          have hinv2 : ∀ i : Nat, palabras[i]? = some palabra →
              izquierda + (derecha - izquierda) / 2 + 1 ≤ (i : Int) ∧ (i : Int) ≤ derecha := by
            intro i hi
            refine ⟨?_, (hinv i hi).2⟩
            by_contra hcon
            have hilt : i < palabras.length := (List.getElem?_eq_some.mp hi).1
            have hie : palabras[i] = palabra := (List.getElem?_eq_some.mp hi).2
            rcases Nat.lt_or_ge i (izquierda + (derecha - izquierda) / 2).toNat with hlt2 | hge2
            · have := List.pairwise_iff_getElem.mp hs i _ hilt hlt hlt2
              rw [hie, strcmp_antisimetrica] at this
              omega
            · have heq : i = (izquierda + (derecha - izquierda) / 2).toNat := by omega
              subst heq
              rw [hie, strcmp_refl] at hc0
              exact hc0 rfl
          exact ih _ _ (by omega) h1 (by omega) hfuel hinv2
        · rw [if_neg hneg]
          have hpos : 0 < strcmp (palabras[(izquierda + (derecha - izquierda) / 2).toNat]) palabra := by
            omega
          have hinv2 : ∀ i : Nat, palabras[i]? = some palabra →
              izquierda ≤ (i : Int) ∧ (i : Int) ≤ izquierda + (derecha - izquierda) / 2 - 1 := by
            intro i hi
            refine ⟨(hinv i hi).1, ?_⟩
            by_contra hcon
            have hilt : i < palabras.length := (List.getElem?_eq_some.mp hi).1
            have hie : palabras[i] = palabra := (List.getElem?_eq_some.mp hi).2
            rcases Nat.lt_or_ge (izquierda + (derecha - izquierda) / 2).toNat i with hlt2 | hge2
            · have := List.pairwise_iff_getElem.mp hs _ i hlt hilt hlt2
              rw [hie] at this
              omega
            · have heq : i = (izquierda + (derecha - izquierda) / 2).toNat := by omega
              subst heq
              rw [hie, strcmp_refl] at hc0
              exact hc0 rfl
          exact ih _ _ h0 (by omega) (by omega) hfuel hinv2
    · rw [if_neg hle]
      have hmem : palabra ∉ palabras := by
        intro hm
        obtain ⟨i, hi, hie⟩ := List.getElem_of_mem hm
        have := hinv i (by rw [List.getElem?_eq_getElem hi, hie])
        omega
      rw [if_neg hmem]

theorem existe_binaria_desde_eq (palabras : List Cadena) (palabra : Cadena) :
    ∀ (fuel : Nat) (izquierda derecha : Int),
      existe_binaria_desde palabras palabra fuel izquierda derecha
        = buscar_binaria_desde palabras palabra fuel izquierda derecha
  | 0, _, _ => rfl
  | fuel + 1, izquierda, derecha => by
    simp only [existe_binaria_desde, buscar_binaria_desde,
      existe_binaria_desde_eq palabras palabra fuel]

theorem buscar_palabra_binaria_spec (lista : List Cadena) (palabra : Cadena)
    (hs : lista.Pairwise (fun a b => strcmp a b ≤ 0)) :
    buscar_palabra_binaria lista palabra
      = Ejecucion.retorna (if palabra ∈ lista then 1 else 0) := by
  unfold buscar_palabra_binaria
  apply buscar_binaria_desde_spec lista palabra hs
  · exact le_rfl
  · omega
  · push_cast
    omega
  · omega
  · intro i hi
    have := (List.getElem?_eq_some.mp hi).1
    omega

theorem palabra_existe_spec (palabra : Cadena) :
    ∀ lista : List Cadena, palabra_existe lista palabra = if palabra ∈ lista then 1 else 0
  | [] => by simp [palabra_existe]
  | w :: resto => by
    by_cases h : w = palabra
    · subst h
      simp [palabra_existe, strcmp_refl]
    · have h2 : ¬ palabra = w := fun e => h e.symm
      have h3 : strcmp w palabra ≠ 0 := fun e => h (strcmp_eq_zero _ _ e)
      simp only [palabra_existe, if_neg h3, palabra_existe_spec palabra resto, List.mem_cons, h2,
        false_or]

theorem faltantes_desde_spec (diccionario : List Cadena)
    (hs : diccionario.Pairwise (fun a b => strcmp a b ≤ 0)) :
    ∀ (base faltantes : List Cadena),
      faltantes_desde diccionario base faltantes
        = Ejecucion.retorna (faltantes ++ base.filter (fun w => decide (w ∉ diccionario)))
  | [], faltantes => by simp [faltantes_desde]
  | w :: resto, faltantes => by
    simp only [faltantes_desde, buscar_palabra_binaria_spec diccionario w hs]
    by_cases h : w ∈ diccionario
    · simp [h, faltantes_desde_spec diccionario hs resto faltantes]
    · simp [h, faltantes_desde_spec diccionario hs resto (faltantes ++ [w])]

/-- Claim C40: for every word list in ascending `strcmp` order and every word,
`buscar_palabra_binaria` and `palabra_existe_binaria` end within `count + 1` iterations
without reading outside the array and return 1 exactly when the word occurs in the list,
as the linear scan `palabra_existe` does; consequently `encontrar_palabras_faltantes`
returns the words of `base_html` that are not in the dictionary, in their order and with
their repetitions. -/
theorem busqueda_binaria_correcta (diccionario : List Cadena) (palabra : Cadena)
    (hs : diccionario.Pairwise (fun a b => strcmp a b ≤ 0)) :
    buscar_palabra_binaria diccionario palabra
      = Ejecucion.retorna (if palabra ∈ diccionario then 1 else 0) ∧
    palabra_existe_binaria diccionario palabra
      = Ejecucion.retorna (if palabra ∈ diccionario then 1 else 0) ∧
    buscar_palabra_binaria diccionario palabra
      = Ejecucion.retorna (palabra_existe diccionario palabra) ∧
    palabra_existe_binaria diccionario palabra
      = Ejecucion.retorna (palabra_existe diccionario palabra) ∧
    ∀ base_html : List Cadena,
      encontrar_palabras_faltantes base_html diccionario
        = Ejecucion.retorna (base_html.filter (fun w => decide (w ∉ diccionario))) := by
  have h1 := buscar_palabra_binaria_spec diccionario palabra hs
  have h2 : palabra_existe_binaria diccionario palabra
      = Ejecucion.retorna (if palabra ∈ diccionario then 1 else 0) := by
    unfold palabra_existe_binaria
    rw [existe_binaria_desde_eq]
    exact h1
  refine ⟨h1, h2, ?_, ?_, ?_⟩
  · rw [h1, palabra_existe_spec]
  · rw [h2, palabra_existe_spec]
  · intro base_html
    unfold encontrar_palabras_faltantes
    rw [faltantes_desde_spec diccionario hs]
    simp

/-- Witness of claim C40: the dictionary `a`, `b`, `d` and the words `c`, `b`, `e`, `c`. -/
theorem busqueda_binaria_correcta_witness :
    buscar_palabra_binaria [['a'], ['b'], ['d']] ['b'] = Ejecucion.retorna 1 ∧
    palabra_existe_binaria [['a'], ['b'], ['d']] ['c'] = Ejecucion.retorna 0 ∧
    encontrar_palabras_faltantes [['c'], ['b'], ['e'], ['c']] [['a'], ['b'], ['d']]
      = Ejecucion.retorna [['c'], ['e'], ['c']] :=
  ⟨(busqueda_binaria_correcta [['a'], ['b'], ['d']] ['b'] (by decide)).1,
   (busqueda_binaria_correcta [['a'], ['b'], ['d']] ['c'] (by decide)).2.1,
   (busqueda_binaria_correcta [['a'], ['b'], ['d']] ['c'] (by decide)).2.2.2.2
     [['c'], ['b'], ['e'], ['c']]⟩

/-! ## The occurrences counted by the indexer -/

theorem letra_propiedades (i : Nat) :
    (letra i).isAlpha = true ∧ (letra i).toLower = letra i ∧ es_delimitador (letra i) = false
      ∧ letra i ≠ '<' ∧ letra i ≠ Char.ofNat 0 ∧ letra i ≠ '\n' := by
  have h : ∀ m, m < 26 →
      (Char.ofNat (97 + m)).isAlpha = true ∧ (Char.ofNat (97 + m)).toLower = Char.ofNat (97 + m)
        ∧ es_delimitador (Char.ofNat (97 + m)) = false
        ∧ Char.ofNat (97 + m) ≠ '<' ∧ Char.ofNat (97 + m) ≠ Char.ofNat 0
        ∧ Char.ofNat (97 + m) ≠ '\n' := by decide
  exact h (i % 26) (Nat.mod_lt _ (by decide))

theorem letra_inyectiva (i j : Nat) (h : letra i = letra j) : i % 26 = j % 26 := by
  have hd : ∀ m, m < 26 → ∀ n, n < 26 → Char.ofNat (97 + m) = Char.ofNat (97 + n) → m = n := by
    decide
  exact hd (i % 26) (Nat.mod_lt _ (by decide)) (j % 26) (Nat.mod_lt _ (by decide)) h

theorem palabra_numero_inyectiva (j k : Nat) (hj : j < 456976) (hk : k < 456976)
    (h : palabra_numero j = palabra_numero k) : j = k := by
  simp only [palabra_numero, List.cons.injEq, and_true] at h
  obtain ⟨h3, h2, h1, h0⟩ := h
  have e3 := letra_inyectiva _ _ h3
  have e2 := letra_inyectiva _ _ h2
  have e1 := letra_inyectiva _ _ h1
  have e0 := letra_inyectiva _ _ h0
  omega

theorem limpiar_palabra_numero (k : Nat) :
    limpiar_palabra_indexador (palabra_numero k) = palabra_numero k := by
  simp [limpiar_palabra_indexador, limpiar_desde_indexador, palabra_numero, MAX_WORD_LENGTH,
    letra_propiedades]

theorem strstr_sin_inicial (a : Char) (resto : Cadena) :
    ∀ s : Cadena, a ∉ s → strstr s (a :: resto) = none
  | [], _ => by simp [strstr]
  | c :: cs, h => by
    have hc : c ≠ a := fun e => h (by simp [e])
    have hcs : a ∉ cs := fun e => h (List.mem_cons_of_mem _ e)
    simp [strstr, empieza_con, hc, strstr_sin_inicial a resto cs hcs]

theorem linea_de_palabra (k : Nat) :
    quitar_salto (cadena_c (palabra_numero k ++ ['\n'])) = palabra_numero k := by
  have hn : Char.ofNat 0 ∉ palabra_numero k ++ ['\n'] := by
    have h1 := fun i => (letra_propiedades i).2.2.2.2.1
    simp [palabra_numero, Ne.symm (h1 _)]
  rw [cadena_c_sin_nul _ hn]
  apply quitar_salto_linea _ _ _ (Or.inr rfl)
  have h2 := fun i => (letra_propiedades i).2.2.2.2.2
  simp [palabra_numero, Ne.symm (h2 _)]

theorem palabra_numero_sin_etiqueta (k : Nat) (resto : Cadena) :
    strstr (palabra_numero k) ('<' :: resto) = none := by
  apply strstr_sin_inicial
  have h1 := fun i => (letra_propiedades i).2.2.2.1
  simp [palabra_numero, Ne.symm (h1 _)]

theorem strtok_palabra_numero (k : Nat) :
    strtok_desde (palabra_numero k) [] = [palabra_numero k] := by
  simp [strtok_desde, palabra_numero, letra_propiedades]

theorem buscar_palabra_desde_ausente (palabra : Cadena) :
    ∀ (vs : List PalabraVocabIndexador) (i : Nat),
      palabra ∉ vs.map (fun p => p.palabra) → buscar_palabra_desde palabra vs i = -1
  | [], _, _ => rfl
  | v :: resto, i, h => by
    have hv : v.palabra ≠ palabra := fun e => h (by simp [e])
    have hr : palabra ∉ resto.map (fun p => p.palabra) := fun e => h (by simp at e ⊢; exact Or.inr e)
    simp [buscar_palabra_desde, hv, buscar_palabra_desde_ausente palabra resto (i + 1) hr]

theorem textos_estado_con_palabras (n : Nat) :
    (estado_con_palabras n).vocabulario.map (fun p => p.palabra)
      = (List.range n).map palabra_numero := by
  simp [estado_con_palabras, Function.comp_def]

theorem palabra_numero_ausente (n k : Nat) (hn : n ≤ k) (hk : k < 456976) :
    palabra_numero k ∉ (estado_con_palabras n).vocabulario.map (fun p => p.palabra) := by
  rw [textos_estado_con_palabras]
  intro h
  obtain ⟨j, hj, e⟩ := List.mem_map.mp h
  have hj2 : j < n := List.mem_range.mp hj
  have := palabra_numero_inyectiva j k (by omega) hk e
  omega

theorem paso_palabra_nueva (n : Nat) (hn : n < MAX_WORDS) :
    procesar_token [] 0 (estado_con_palabras n) (palabra_numero n)
      = some (estado_con_palabras (n + 1)) := by
  have hM : MAX_WORDS = 50000 := rfl
  have hb : buscar_palabra_vocabulario (estado_con_palabras n).vocabulario (palabra_numero n)
      = -1 :=
    buscar_palabra_desde_ausente _ _ _ (palabra_numero_ausente n n (le_refl _) (by omega))
  have hl : (estado_con_palabras n).vocabulario.length = n := by simp [estado_con_palabras]
  have ha : agregar_palabra_vocabulario (estado_con_palabras n) (palabra_numero n)
      = { estado_con_palabras n with
          vocabulario := (estado_con_palabras n).vocabulario ++
            [PalabraVocabIndexador.mk (palabra_numero n) (n : Int) 0 [] 10] } := by
    unfold agregar_palabra_vocabulario
    rw [if_neg (by rw [hl]; omega), hl]
  unfold procesar_token
  rw [limpiar_palabra_numero, if_pos ⟨by simp [palabra_numero], rfl⟩, hb, if_pos (by decide), ha]
  have hi : (((estado_con_palabras n).vocabulario ++
            [PalabraVocabIndexador.mk (palabra_numero n) (n : Int) 0 [] 10]).length : Int) - 1
      = (n : Int) := by
    rw [List.length_append, hl]; simp
  simp only [hi]
  unfold agregar_frecuencia_palabra
  rw [if_neg (by simp [MAX_DOCS])]
  simp only [Int.toNat_ofNat]
  rw [List.getElem?_append_right (by omega), hl]
  simp only [Nat.sub_self, List.getElem?_cons_zero]
  have hr : registrar_ocurrencia
      (PalabraVocabIndexador.mk (palabra_numero n) (n : Int) 0 [] 10) 0
      = some (PalabraVocabIndexador.mk (palabra_numero n) (n : Int) 1 [DocFreq.mk 0 1] 10, 1) := by
    simp [registrar_ocurrencia, buscar_doc]
  rw [hr]
  simp only [Option.some.injEq]
  have hs : ((estado_con_palabras n).vocabulario ++
        [PalabraVocabIndexador.mk (palabra_numero n) (n : Int) 0 [] 10]).set n
        (PalabraVocabIndexador.mk (palabra_numero n) (n : Int) 1 [DocFreq.mk 0 1] 10)
      = (estado_con_palabras (n + 1)).vocabulario := by
    rw [List.set_append_right _ _ (by omega), hl]
    simp [estado_con_palabras, List.range_succ]
  rw [hs]
  by_cases h0 : n = 0
  · subst h0
    simp [estado_con_palabras]
  · simp [estado_con_palabras, h0]

theorem longitud_estado_con_palabras (n : Nat) :
    (estado_con_palabras n).vocabulario.length = n := by
  simp [estado_con_palabras]

theorem palabra_de_estado_con_palabras (n k : Nat) (hk : k < n) :
    (estado_con_palabras n).vocabulario[k]?
      = some (PalabraVocabIndexador.mk (palabra_numero k) (k : Int) 1 [DocFreq.mk 0 1] 10) := by
  unfold estado_con_palabras
  simp only [List.getElem?_map]
  rw [List.getElem?_range hk]
  rfl

theorem maximos_estado_con_palabras (n : Nat) (hn : n ≠ 0) :
    (estado_con_palabras n).max_freq_por_doc = fun d => if d = 0 then 1 else 0 := by
  simp [estado_con_palabras, hn]

theorem documentos_estado_con_palabras (n : Nat) :
    (estado_con_palabras n).documentos = [Documento.mk 0 ['u']] := rfl

theorem registrar_segunda_ocurrencia (w : Cadena) (i : Int) :
    registrar_ocurrencia (PalabraVocabIndexador.mk w i 1 [DocFreq.mk 0 1] 10) 0
      = some (PalabraVocabIndexador.mk w i 1 [DocFreq.mk 0 2] 10, 2) := by
  simp [registrar_ocurrencia, buscar_doc]

theorem paso_palabra_sobrante :
    procesar_token [] 0 (estado_con_palabras MAX_WORDS) (palabra_numero MAX_WORDS)
      = some estado_desbordado := by
  have hM : MAX_WORDS = 50000 := rfl
  have hb : buscar_palabra_vocabulario (estado_con_palabras MAX_WORDS).vocabulario
      (palabra_numero MAX_WORDS) = -1 :=
    buscar_palabra_desde_ausente _ _ _
      (palabra_numero_ausente MAX_WORDS MAX_WORDS (le_refl _) (by omega))
  have ha : agregar_palabra_vocabulario (estado_con_palabras MAX_WORDS)
      (palabra_numero MAX_WORDS) = estado_con_palabras MAX_WORDS := by
    unfold agregar_palabra_vocabulario
    rw [if_pos (by rw [longitud_estado_con_palabras])]
  unfold procesar_token
  rw [limpiar_palabra_numero, if_pos ⟨by simp [palabra_numero], rfl⟩, hb, if_pos (by decide), ha,
    longitud_estado_con_palabras]
  have hi : ((MAX_WORDS : Nat) : Int) - 1 = ((MAX_WORDS - 1 : Nat) : Int) := by omega
  rw [hi]
  unfold agregar_frecuencia_palabra
  rw [if_neg (by simp [MAX_DOCS]), Int.toNat_ofNat,
    palabra_de_estado_con_palabras MAX_WORDS (MAX_WORDS - 1) (by omega)]
  simp only [registrar_segunda_ocurrencia,
    maximos_estado_con_palabras MAX_WORDS (by omega), documentos_estado_con_palabras,
    if_true]
  rw [if_pos (by decide)]
  rfl

theorem procesar_lineas_append (stops : List Cadena) :
    ∀ (xs ys : List Cadena) (l : Lectura),
      procesar_lineas stops (xs ++ ys) l
        = (procesar_lineas stops xs l).bind (procesar_lineas stops ys)
  | [], _, _ => rfl
  | x :: xs, ys, l => by
    simp only [List.cons_append, procesar_lineas]
    cases procesar_linea stops x l with
    | none => rfl
    | some l2 => exact procesar_lineas_append stops xs ys l2

theorem procesar_linea_de_palabra (stops : List Cadena) (k : Nat) (st : EstadoIndexador) :
    procesar_linea stops (palabra_numero k ++ ['\n']) { estado := st, doc_actual := 0, en_texto := true }
      = (procesar_token stops 0 st (palabra_numero k)).map
          (fun st2 => { estado := st2, doc_actual := 0, en_texto := true }) := by
  unfold procesar_linea
  rw [linea_de_palabra]
  have h1 : ∀ resto, (strstr (palabra_numero k) ('<' :: resto)).isSome = false := by
    intro resto; rw [palabra_numero_sin_etiqueta]; rfl
  have e1 : "<DOCUMENTO".toList = '<' :: "DOCUMENTO".toList := rfl
  have e2 : "<URL".toList = '<' :: "URL".toList := rfl
  have e3 : "<TEXTO>".toList = '<' :: "TEXTO>".toList := rfl
  have e4 : "</TEXTO>".toList = '<' :: "/TEXTO>".toList := rfl
  rw [e1, e2, e3, e4]
  simp only [h1, Bool.false_eq_true, if_false]
  rw [if_pos ⟨trivial, le_refl _⟩, strtok_palabra_numero]
  simp only [procesar_tokens]
  cases procesar_token stops 0 st (palabra_numero k) <;> rfl

theorem procesar_palabras_hasta : ∀ n : Nat, n ≤ MAX_WORDS →
    procesar_lineas [] ((List.range n).map (fun k => palabra_numero k ++ ['\n']))
        { estado := estado_con_palabras 0, doc_actual := 0, en_texto := true }
      = some { estado := estado_con_palabras n, doc_actual := 0, en_texto := true }
  | 0, _ => rfl
  | n + 1, h => by
    rw [List.range_succ, List.map_append, procesar_lineas_append,
      procesar_palabras_hasta n (by omega)]
    simp only [Option.some_bind, List.map_cons, List.map_nil, procesar_lineas]
    rw [procesar_linea_de_palabra, paso_palabra_nueva n (by omega)]
    rfl

theorem cabecera_corpus_desbordado :
    procesar_lineas [] ["<DOCUMENTO [1]>\n".toList, "<URL u>\n".toList, "<TEXTO>\n".toList]
        { estado := estado_indexador_inicial, doc_actual := -1, en_texto := false }
      = some { estado := estado_con_palabras 0, doc_actual := 0, en_texto := true } := by
  rfl

theorem procesar_lineas_una (stops : List Cadena) (linea : Cadena) (l : Lectura) :
    procesar_lineas stops [linea] l = procesar_linea stops linea l := by
  simp only [procesar_lineas]
  cases procesar_linea stops linea l <;> rfl

theorem lineas_corpus_desbordado :
    procesar_lineas [] corpus_desbordado
        { estado := estado_indexador_inicial, doc_actual := -1, en_texto := false }
      = some { estado := estado_desbordado, doc_actual := 0, en_texto := true } := by
  rw [corpus_desbordado, procesar_lineas_append, cabecera_corpus_desbordado, Option.some_bind,
    List.range_succ, List.map_append, procesar_lineas_append,
    procesar_palabras_hasta MAX_WORDS (le_refl _), Option.some_bind, List.map_cons, List.map_nil,
    procesar_lineas_una, procesar_linea_de_palabra, paso_palabra_sobrante, Option.map_some']

theorem procesar_corpus_desbordado :
    procesar_base_texto (some corpus_desbordado) [] estado_indexador_inicial
      = some estado_desbordado := by
  rw [procesar_base_texto, lineas_corpus_desbordado]

theorem tokens_de_cabecera (resto : List Cadena) :
    tokens_de_lineas ("<DOCUMENTO [1]>\n".toList :: "<URL u>\n".toList :: "<TEXTO>\n".toList
        :: resto) (-1) false
      = tokens_de_lineas resto 0 true := by
  rfl

theorem tokens_de_palabras : ∀ ks : List Nat,
    tokens_de_lineas (ks.map (fun k => palabra_numero k ++ ['\n'])) 0 true
      = ks.map (fun k => ((0 : Int), palabra_numero k))
  | [] => rfl
  | k :: ks => by
    have h1 : ∀ resto, (strstr (palabra_numero k) ('<' :: resto)).isSome = false := by
      intro resto; rw [palabra_numero_sin_etiqueta]; rfl
    have e1 : "<DOCUMENTO".toList = '<' :: "DOCUMENTO".toList := rfl
    have e2 : "<URL".toList = '<' :: "URL".toList := rfl
    have e3 : "<TEXTO>".toList = '<' :: "TEXTO>".toList := rfl
    have e4 : "</TEXTO>".toList = '<' :: "/TEXTO>".toList := rfl
    rw [List.map_cons, tokens_de_lineas, linea_de_palabra, e1, e2, e3, e4]
    simp only [h1, Bool.false_eq_true, if_false]
    rw [if_pos ⟨trivial, le_refl _⟩, strtok_palabra_numero, tokens_de_palabras ks]
    rfl

theorem tokens_corpus_desbordado :
    tokens_de_lineas corpus_desbordado (-1) false
      = (List.range (MAX_WORDS + 1)).map (fun k => ((0 : Int), palabra_numero k)) := by
  rw [corpus_desbordado, List.cons_append, List.cons_append, List.cons_append, List.nil_append,
    tokens_de_cabecera, tokens_de_palabras]

theorem cuenta_en_corpus_desbordado (j : Nat) (hj : j ≤ MAX_WORDS) :
    cuenta_de_tokens corpus_desbordado (palabra_numero j) 0 = 1 := by
  have hM : MAX_WORDS = 50000 := rfl
  rw [cuenta_de_tokens, cuenta_en_tokens, tokens_corpus_desbordado, List.countP_map]
  have hc : List.countP
      ((fun t : Int × Cadena =>
          decide (t.1 = 0 ∧ limpiar_palabra_indexador t.2 = palabra_numero j))
        ∘ fun k => ((0 : Int), palabra_numero k)) (List.range (MAX_WORDS + 1))
      = List.count j (List.range (MAX_WORDS + 1)) := by
    rw [List.count]
    apply List.countP_congr
    intro k hk
    have hk2 : k < MAX_WORDS + 1 := List.mem_range.mp hk
    simp only [Function.comp, limpiar_palabra_numero, true_and, decide_eq_true_eq, beq_iff_eq]
    constructor
    · intro h; exact palabra_numero_inyectiva k j (by omega) (by omega) h
    · intro h; rw [h]
  rw [hc]
  exact List.count_eq_one_of_mem (List.nodup_range _) (List.mem_range.mpr (by omega))

theorem find_palabra_unica (w : Cadena) :
    ∀ (vs : List PalabraVocabIndexador) (p : PalabraVocabIndexador),
      (vs.map (fun q => q.palabra)).Nodup → p ∈ vs → p.palabra = w →
      vs.find? (fun q => decide (q.palabra = w)) = some p
  | [], _, _, h, _ => absurd h (List.not_mem_nil _)
  | v :: resto, p, hn, h, hw => by
    rw [List.map_cons, List.nodup_cons] at hn
    rcases List.mem_cons.mp h with e | hr
    · subst e
      rw [List.find?_cons_of_pos _ (by simpa using hw)]
    · have hv : v.palabra ≠ w := by
        intro e
        apply hn.1
        rw [e, ← hw]
        exact List.mem_map_of_mem _ hr
      rw [List.find?_cons_of_neg _ (by simpa using hv)]
      exact find_palabra_unica w resto p hn.2 hr hw

theorem textos_tras_set (vs : List PalabraVocabIndexador) (k : Nat) (p q : PalabraVocabIndexador)
    (hk : vs[k]? = some q) (hq : q.palabra = p.palabra) :
    (vs.set k p).map (fun x => x.palabra) = vs.map (fun x => x.palabra) := by
  apply List.ext_getElem?
  intro j
  rw [List.getElem?_map, List.getElem?_map]
  by_cases hjk : k = j
  · subst hjk
    have hlt : k < vs.length := by
      by_contra hc
      rw [List.getElem?_eq_none (by omega)] at hk
      cases hk
    rw [List.getElem?_set_self hlt, hk]
    simp [hq]
  · rw [List.getElem?_set_ne hjk]

theorem vocabulario_estado_desbordado :
    estado_desbordado.vocabulario
      = (estado_con_palabras MAX_WORDS).vocabulario.set (MAX_WORDS - 1)
          (PalabraVocabIndexador.mk (palabra_numero (MAX_WORDS - 1))
            ((MAX_WORDS - 1 : Nat) : Int) 1 [DocFreq.mk 0 2] 10) := by
  rw [estado_desbordado]

theorem textos_estado_desbordado :
    estado_desbordado.vocabulario.map (fun p => p.palabra)
      = (List.range MAX_WORDS).map palabra_numero := by
  have hM : MAX_WORDS = 50000 := rfl
  rw [vocabulario_estado_desbordado,
    textos_tras_set _ _ (PalabraVocabIndexador.mk (palabra_numero (MAX_WORDS - 1))
        ((MAX_WORDS - 1 : Nat) : Int) 1 [DocFreq.mk 0 2] 10) _
      (palabra_de_estado_con_palabras MAX_WORDS (MAX_WORDS - 1) (by omega)) rfl,
    textos_estado_con_palabras]

theorem ultima_palabra_estado_desbordado :
    PalabraVocabIndexador.mk (palabra_numero (MAX_WORDS - 1))
        ((MAX_WORDS - 1 : Nat) : Int) 1 [DocFreq.mk 0 2] 10 ∈ estado_desbordado.vocabulario := by
  have hM : MAX_WORDS = 50000 := rfl
  rw [vocabulario_estado_desbordado]
  apply List.mem_iff_getElem?.mpr
  refine ⟨MAX_WORDS - 1, ?_⟩
  rw [List.getElem?_set_self (by rw [longitud_estado_con_palabras]; omega)]

theorem textos_sin_repetir (n : Nat) (hn : n ≤ 456976) :
    ((List.range n).map palabra_numero).Nodup := by
  apply List.Nodup.map_on _ (List.nodup_range n)
  intro j hj k hk h
  have hj2 : j < n := List.mem_range.mp hj
  have hk2 : k < n := List.mem_range.mp hk
  exact palabra_numero_inyectiva j k (by omega) (by omega) h

/-- Claim C33, failing input: `corpus_desbordado` has one document whose text is
`MAX_WORDS + 1` different words, one per line, and no stopword is given. After
`procesar_base_texto` the vocabulary holds the first `MAX_WORDS` words and not the last one,
and the raw frequency stored for the word number `MAX_WORDS - 1` and document 0 is 2,
although exactly one token of the text of document 0 has that cleaned form: the occurrence
of the word that found the vocabulary full was counted on the last word of the vocabulary. -/
theorem ocurrencia_sobrante_contada_en_la_ultima_palabra :
    procesar_base_texto (some corpus_desbordado) [] estado_indexador_inicial
      = some estado_desbordado ∧
    palabra_numero (MAX_WORDS - 1) ∈ estado_desbordado.vocabulario.map (fun p => p.palabra) ∧
    palabra_numero MAX_WORDS ∉ estado_desbordado.vocabulario.map (fun p => p.palabra) ∧
    frecuencia_almacenada estado_desbordado.vocabulario (palabra_numero (MAX_WORDS - 1)) 0 = 2 ∧
    cuenta_de_tokens corpus_desbordado (palabra_numero (MAX_WORDS - 1)) 0 = 1 ∧
    cuenta_de_tokens corpus_desbordado (palabra_numero MAX_WORDS) 0 = 1 := by
  have hM : MAX_WORDS = 50000 := rfl
  refine ⟨procesar_corpus_desbordado, ?_, ?_, ?_,
    cuenta_en_corpus_desbordado (MAX_WORDS - 1) (by omega),
    cuenta_en_corpus_desbordado MAX_WORDS (le_refl _)⟩
  · rw [textos_estado_desbordado]
    exact List.mem_map.mpr ⟨MAX_WORDS - 1, List.mem_range.mpr (by omega), rfl⟩
  · rw [textos_estado_desbordado]
    intro h
    obtain ⟨j, hj, e⟩ := List.mem_map.mp h
    have hj2 : j < MAX_WORDS := List.mem_range.mp hj
    have := palabra_numero_inyectiva j MAX_WORDS (by omega) (by omega) e
    omega
  · rw [frecuencia_almacenada,
      find_palabra_unica (palabra_numero (MAX_WORDS - 1)) estado_desbordado.vocabulario _
        (by rw [textos_estado_desbordado]; exact textos_sin_repetir MAX_WORDS (by omega))
        ultima_palabra_estado_desbordado rfl]
    rfl

/-! ### Below the limit of the vocabulary every occurrence is counted on its own word -/

theorem find_doc_unico (d : Int) :
    ∀ (l : List DocFreq) (e : DocFreq),
      (l.map (fun x : DocFreq => x.doc_id)).Nodup → e ∈ l → e.doc_id = d →
      l.find? (fun x => decide (x.doc_id = d)) = some e
  | [], _, _, h, _ => absurd h (List.not_mem_nil _)
  | v :: resto, e, hn, h, hd => by
    rw [List.map_cons, List.nodup_cons] at hn
    rcases List.mem_cons.mp h with e1 | hr
    · subst e1
      rw [List.find?_cons_of_pos _ (by simpa using hd)]
    · have hv : v.doc_id ≠ d := by
        intro e1
        apply hn.1
        rw [e1, ← hd]
        exact List.mem_map_of_mem _ hr
      rw [List.find?_cons_of_neg _ (by simpa using hv)]
      exact find_doc_unico d resto e hn.2 hr hd

theorem find_doc_ausente (d : Int) (l : List DocFreq) (h : ∀ e ∈ l, e.doc_id ≠ d) :
    l.find? (fun x => decide (x.doc_id = d)) = none := by
  rw [List.find?_eq_none]
  intro x hx
  simpa using h x hx

theorem frecuencia_de_palabra_entrada (p : PalabraVocabIndexador) (e : DocFreq)
    (hn : (p.doc_freqs.map (fun x : DocFreq => x.doc_id)).Nodup) (he : e ∈ p.doc_freqs) :
    frecuencia_de_palabra p e.doc_id = e.frecuencia := by
  rw [frecuencia_de_palabra, find_doc_unico e.doc_id p.doc_freqs e hn he rfl]

theorem frecuencia_de_palabra_ausente (p : PalabraVocabIndexador) (d : Int)
    (h : ∀ e ∈ p.doc_freqs, e.doc_id ≠ d) : frecuencia_de_palabra p d = 0 := by
  rw [frecuencia_de_palabra, find_doc_ausente d p.doc_freqs h]

theorem registrar_ocurrencia_nueva (p p2 : PalabraVocabIndexador) (d f : Int)
    (ha : ∀ e ∈ p.doc_freqs, e.doc_id ≠ d)
    (h : registrar_ocurrencia p d = some (p2, f)) : f = 1 := by
  have hb : buscar_doc d (p.doc_freqs.take p.num_docs.toNat) 0 = -1 := by
    rcases buscar_doc_spec d (p.doc_freqs.take p.num_docs.toNat) 0 with ⟨h1, _⟩ | ⟨k, e, _, h2, h3⟩
    · exact h1
    · exact absurd h3 (ha e (List.mem_of_mem_take (List.mem_iff_getElem?.mpr ⟨k, h2⟩)))
  unfold registrar_ocurrencia at h
  rw [hb, if_neg (by decide)] at h
  by_cases hc : (if p.capacity ≤ p.num_docs then p.capacity * 2 else p.capacity)
        ≤ p.num_docs ∨ p.num_docs < 0 ∨ (p.doc_freqs.length : Int) < p.num_docs
  · rw [if_pos hc] at h
    cases h
  · rw [if_neg hc] at h
    simp only [Option.some.injEq, Prod.mk.injEq] at h
    exact h.2.symm

theorem registrar_ocurrencia_cuenta (m : Int → Int) (p p2 : PalabraVocabIndexador) (d f : Int)
    (hp : PalabraConsistente m p) (h : registrar_ocurrencia p d = some (p2, f)) (d2 : Int) :
    frecuencia_de_palabra p2 d2 = frecuencia_de_palabra p d2 + (if d2 = d then 1 else 0) := by
  obtain ⟨q, g, hq, _, _, _, _, _, _, hn2, hm, h1, h2, h3⟩ := registrar_ocurrencia_spec m p d hp
  rw [h] at hq
  simp only [Option.some.injEq, Prod.mk.injEq] at hq
  obtain ⟨e1, e2⟩ := hq
  subst e1
  subst e2
  by_cases hd : d2 = d
  · subst hd
    rw [if_pos rfl]
    have hv := frecuencia_de_palabra_entrada p2 (DocFreq.mk d2 f) hn2 hm
    simp only at hv
    rw [hv]
    by_cases hex : ∃ e ∈ p.doc_freqs, e.doc_id = d2
    · obtain ⟨e, he, hed⟩ := hex
      have ho := frecuencia_de_palabra_entrada p e hp.2.2.2.1 he
      rw [hed] at ho
      rw [ho, h3 e he hed]
    · have ha : ∀ e ∈ p.doc_freqs, e.doc_id ≠ d2 := fun e he hed => hex ⟨e, he, hed⟩
      rw [frecuencia_de_palabra_ausente p d2 ha, registrar_ocurrencia_nueva p p2 d2 f ha h]
      rfl
  · rw [if_neg hd, add_zero]
    by_cases hex : ∃ e ∈ p.doc_freqs, e.doc_id = d2
    · obtain ⟨e, he, hed⟩ := hex
      have ho := frecuencia_de_palabra_entrada p e hp.2.2.2.1 he
      have hn := frecuencia_de_palabra_entrada p2 e hn2 (h2 e he (by rw [hed]; exact hd))
      rw [hed] at ho hn
      rw [ho, hn]
    · have ha : ∀ e ∈ p.doc_freqs, e.doc_id ≠ d2 := fun e he hed => hex ⟨e, he, hed⟩
      have ha2 : ∀ e ∈ p2.doc_freqs, e.doc_id ≠ d2 := by
        intro e he
        rcases h1 e he with e1 | ⟨he1, _⟩
        · rw [e1]; exact fun x => hd x.symm
        · exact ha e he1
      rw [frecuencia_de_palabra_ausente p d2 ha, frecuencia_de_palabra_ausente p2 d2 ha2]

theorem find_set_de_otros {β : Type} (P : β → Bool) :
    ∀ (l : List β) (k : Nat) (x y : β), l[k]? = some y → P y = false → P x = false →
      (l.set k x).find? P = l.find? P
  | [], _, _, _, h, _, _ => by simp at h
  | a :: l, 0, x, y, h, hy, hx => by
    simp only [List.getElem?_cons_zero, Option.some.injEq] at h
    subst h
    rw [List.set_cons_zero, List.find?_cons_of_neg _ (by simp [hx]),
      List.find?_cons_of_neg _ (by simp [hy])]
  | a :: l, k + 1, x, y, h, hy, hx => by
    simp only [List.getElem?_cons_succ] at h
    rw [List.set_cons_succ]
    by_cases ha : P a = true
    · rw [List.find?_cons_of_pos _ ha, List.find?_cons_of_pos _ ha]
    · rw [List.find?_cons_of_neg _ ha, List.find?_cons_of_neg _ ha]
      exact find_set_de_otros P l k x y h hy hx

theorem agregar_frecuencia_palabra_cuenta (st st2 : EstadoIndexador) (idx d : Int)
    (p : PalabraVocabIndexador) (hc : EstadoConsistente st)
    (hp : st.vocabulario[idx.toNat]? = some p)
    (h : agregar_frecuencia_palabra st idx d = some st2) (w : Cadena) (d2 : Int) :
    frecuencia_almacenada st2.vocabulario w d2
      = frecuencia_almacenada st.vocabulario w d2
        + (if w = p.palabra ∧ d2 = d then 1 else 0) := by
  have hpm : p ∈ st.vocabulario := List.mem_iff_getElem?.mpr ⟨_, hp⟩
  have hlt : idx.toNat < st.vocabulario.length := by
    by_contra hcon
    rw [List.getElem?_eq_none (by omega)] at hp
    cases hp
  unfold agregar_frecuencia_palabra at h
  by_cases h0 : idx < 0 ∨ d < 0 ∨ (MAX_DOCS : Int) ≤ d
  · rw [if_pos h0] at h
    cases h
  rw [if_neg h0, hp] at h
  simp only [] at h
  cases hr : registrar_ocurrencia p d with
  | none =>
    rw [hr] at h
    cases h
  | some par =>
    obtain ⟨p2, f⟩ := par
    rw [hr] at h
    simp only [Option.some.injEq] at h
    subst h
    simp only []
    have hpal := registrar_ocurrencia_palabra p p2 d f hr
    by_cases hw : w = p.palabra
    · subst hw
      have h1 := find_palabra_unica p.palabra st.vocabulario p hc.1 hpm rfl
      have h2 := find_palabra_unica p.palabra (st.vocabulario.set idx.toNat p2) p2
        (by rw [textos_tras_set _ _ _ _ hp hpal.symm]; exact hc.1)
        (List.mem_iff_getElem?.mpr ⟨idx.toNat, by rw [List.getElem?_set_self hlt]⟩) hpal
      rw [frecuencia_almacenada, frecuencia_almacenada, h1, h2]
      simp only [true_and]
      exact registrar_ocurrencia_cuenta st.max_freq_por_doc p p2 d f (hc.2.1 p hpm) hr d2
    · have hne : ¬ (w = p.palabra ∧ d2 = d) := fun x => hw x.1
      rw [if_neg hne, add_zero, frecuencia_almacenada, frecuencia_almacenada,
        find_set_de_otros _ st.vocabulario idx.toNat p2 p hp
          (by simpa using fun x : p.palabra = w => hw x.symm)
          (by rw [hpal]; simpa using fun x : p.palabra = w => hw x.symm)]

theorem buscar_palabra_desde_valor (palabra : Cadena) :
    ∀ (v : List PalabraVocabIndexador) (i : Nat),
      (buscar_palabra_desde palabra v i = -1 ∧ palabra ∉ v.map (fun p => p.palabra)) ∨
      (∃ k p, buscar_palabra_desde palabra v i = ((i + k : Nat) : Int) ∧ v[k]? = some p
        ∧ p.palabra = palabra)
  | [], i => Or.inl ⟨rfl, by simp⟩
  | x :: v, i => by
    by_cases h : x.palabra = palabra
    · right
      exact ⟨0, x, by simp [buscar_palabra_desde, h], by simp, h⟩
    · rcases buscar_palabra_desde_valor palabra v (i + 1) with ⟨h1, h2⟩ | ⟨k, p, h1, h2, h3⟩
      · left
        refine ⟨by simp [buscar_palabra_desde, h, h1], ?_⟩
        simp only [List.map_cons, List.mem_cons, not_or]
        exact ⟨fun e => h e.symm, h2⟩
      · right
        refine ⟨k + 1, p, ?_, by simpa using h2, h3⟩
        simp only [buscar_palabra_desde, h, if_false, h1]
        congr 1
        omega

theorem frecuencia_almacenada_con_palabra_nueva (v : List PalabraVocabIndexador)
    (c : Cadena) (i : Int) (hc : c ∉ v.map (fun p => p.palabra)) (w : Cadena) (d : Int) :
    frecuencia_almacenada (v ++ [PalabraVocabIndexador.mk c i 0 [] 10]) w d
      = frecuencia_almacenada v w d := by
  rw [frecuencia_almacenada, frecuencia_almacenada, List.find?_append]
  by_cases hw : c = w
  · subst hw
    have hn : v.find? (fun p => decide (p.palabra = c)) = none := by
      rw [List.find?_eq_none]
      intro x hx
      simp only [decide_eq_true_eq]
      intro e
      exact hc (List.mem_map.mpr ⟨x, hx, e⟩)
    rw [hn, List.find?_cons_of_pos _ (by simp)]
    rfl
  · rw [List.find?_cons_of_neg _ (by simpa using hw), List.find?_nil, Option.or_none]

theorem procesar_token_cuenta (stops : List Cadena) (d : Int) (st st2 : EstadoIndexador)
    (token : Cadena) (hc : EstadoConsistente st) (hcap : st.vocabulario.length < MAX_WORDS)
    (hr : procesar_token stops d st token = some st2)
    (w : Cadena) (hw : w ≠ [] ∧ es_stopword stops w = false) (d2 : Int) :
    frecuencia_almacenada st2.vocabulario w d2
      = frecuencia_almacenada st.vocabulario w d2
        + (if w = limpiar_palabra_indexador token ∧ d2 = d then 1 else 0) := by
  unfold procesar_token at hr
  by_cases hcond : (limpiar_palabra_indexador token).length > 0
      ∧ es_stopword stops (limpiar_palabra_indexador token) = false
  · rw [if_pos hcond] at hr
    rcases buscar_palabra_desde_valor (limpiar_palabra_indexador token) st.vocabulario 0
      with ⟨h1, h2⟩ | ⟨k, p, h1, h2, h3⟩
    · have hb : buscar_palabra_vocabulario st.vocabulario (limpiar_palabra_indexador token)
          = -1 := h1
      have ha : agregar_palabra_vocabulario st (limpiar_palabra_indexador token)
          = { st with vocabulario := st.vocabulario ++
              [PalabraVocabIndexador.mk (limpiar_palabra_indexador token)
                (st.vocabulario.length : Int) 0 [] 10] } := by
        unfold agregar_palabra_vocabulario
        rw [if_neg (by omega)]
      have hcons := (agregar_palabra_vocabulario_consistente st _ hc h2).1
      rw [hb, if_pos (by decide)] at hr
      have hidx : (((agregar_palabra_vocabulario st
          (limpiar_palabra_indexador token)).vocabulario.length : Int) - 1).toNat
          = st.vocabulario.length := by
        rw [ha]
        simp
      have hget : (agregar_palabra_vocabulario st
          (limpiar_palabra_indexador token)).vocabulario[(((agregar_palabra_vocabulario st
            (limpiar_palabra_indexador token)).vocabulario.length : Int) - 1).toNat]?
          = some (PalabraVocabIndexador.mk (limpiar_palabra_indexador token)
                (st.vocabulario.length : Int) 0 [] 10) := by
        rw [hidx, ha]
        simp
      rw [agregar_frecuencia_palabra_cuenta _ st2 _ d _ hcons hget hr w d2, ha]
      simp only []
      rw [frecuencia_almacenada_con_palabra_nueva _ _ _ h2]
    · have hb : buscar_palabra_vocabulario st.vocabulario (limpiar_palabra_indexador token)
          = ((0 + k : Nat) : Int) := h1
      rw [hb, if_neg (by omega)] at hr
      have hget : st.vocabulario[(((0 + k : Nat) : Int)).toNat]? = some p := by
        simpa using h2
      rw [agregar_frecuencia_palabra_cuenta st st2 _ d p hc hget hr w d2, h3]
  · rw [if_neg hcond] at hr
    simp only [Option.some.injEq] at hr
    subst hr
    have hne : ¬ (w = limpiar_palabra_indexador token ∧ d2 = d) := by
      intro x
      apply hcond
      rw [← x.1]
      exact ⟨List.length_pos.mpr hw.1, hw.2⟩
    rw [if_neg hne, add_zero]

theorem procesar_linea_efecto (stops : List Cadena) (linea : Cadena) (l l2 : Lectura)
    (hr : procesar_linea stops linea l = some l2) :
    (l2.estado.vocabulario = l.estado.vocabulario ∧
      ∀ resto, tokens_de_lineas (linea :: resto) l.doc_actual l.en_texto
        = tokens_de_lineas resto l2.doc_actual l2.en_texto) ∨
    (l2.doc_actual = l.doc_actual ∧ l2.en_texto = l.en_texto ∧
      procesar_tokens stops l.doc_actual (strtok_desde (quitar_salto (cadena_c linea)) [])
        l.estado = some l2.estado ∧
      ∀ resto, tokens_de_lineas (linea :: resto) l.doc_actual l.en_texto
        = (strtok_desde (quitar_salto (cadena_c linea)) []).map (fun t => (l.doc_actual, t))
          ++ tokens_de_lineas resto l2.doc_actual l2.en_texto) := by
  unfold procesar_linea at hr
  by_cases hD : (strstr (quitar_salto (cadena_c linea)) "<DOCUMENTO".toList).isSome = true
  · rw [if_pos hD] at hr
    left
    unfold procesar_linea_documento at hr
    cases h1 : strchr (quitar_salto (cadena_c linea)) '[' with
    | none =>
      rw [h1] at hr
      simp only [Option.some.injEq] at hr
      subst hr
      refine ⟨rfl, fun resto => ?_⟩
      rw [tokens_de_lineas, if_pos hD, h1]
    | some inicio =>
      cases h2 : strchr (quitar_salto (cadena_c linea)) ']' with
      | none =>
        rw [h1, h2] at hr
        simp only [Option.some.injEq] at hr
        subst hr
        refine ⟨rfl, fun resto => ?_⟩
        rw [tokens_de_lineas, if_pos hD, h1, h2]
      | some fin =>
        rw [h1, h2] at hr
        simp only [] at hr
        by_cases hu : (inicio.length : Int) - fin.length - 1 < 0
            ∨ 20 ≤ (inicio.length : Int) - fin.length - 1
        · rw [if_pos hu] at hr
          cases hr
        · rw [if_neg hu] at hr
          simp only [Option.some.injEq] at hr
          subst hr
          refine ⟨rfl, fun resto => ?_⟩
          rw [tokens_de_lineas, if_pos hD, h1, h2]
  · rw [if_neg hD] at hr
    by_cases hU : (strstr (quitar_salto (cadena_c linea)) "<URL".toList).isSome = true
    · rw [if_pos hU] at hr
      left
      have ht : ∀ resto, tokens_de_lineas (linea :: resto) l.doc_actual l.en_texto
          = tokens_de_lineas resto l.doc_actual l.en_texto := by
        intro resto
        rw [tokens_de_lineas, if_neg hD, if_pos hU]
      unfold procesar_linea_url at hr
      cases h1 : strstr (quitar_salto (cadena_c linea)) "<URL".toList with
      | none =>
        rw [h1] at hr
        simp only [Option.some.injEq] at hr
        subst hr
        exact ⟨rfl, ht⟩
      | some inicio =>
        rw [h1] at hr
        simp only [] at hr
        split at hr
        · cases hr
        · split at hr
          · cases hr
          · split at hr
            · cases hr
            · simp only [Option.some.injEq] at hr
              subst hr
              exact ⟨rfl, ht⟩
    · rw [if_neg hU] at hr
      by_cases hT : (strstr (quitar_salto (cadena_c linea)) "<TEXTO>".toList).isSome = true
      · rw [if_pos hT] at hr
        simp only [Option.some.injEq] at hr
        subst hr
        left
        refine ⟨rfl, fun resto => ?_⟩
        rw [tokens_de_lineas, if_neg hD, if_neg hU, if_pos hT]
      · rw [if_neg hT] at hr
        by_cases hF : (strstr (quitar_salto (cadena_c linea)) "</TEXTO>".toList).isSome = true
        · rw [if_pos hF] at hr
          simp only [Option.some.injEq] at hr
          subst hr
          left
          refine ⟨rfl, fun resto => ?_⟩
          rw [tokens_de_lineas, if_neg hD, if_neg hU, if_neg hT, if_pos hF]
        · rw [if_neg hF] at hr
          by_cases hE : l.en_texto = true ∧ 0 ≤ l.doc_actual
          · rw [if_pos hE] at hr
            right
            cases hp : procesar_tokens stops l.doc_actual
                (strtok_desde (quitar_salto (cadena_c linea)) []) l.estado with
            | none =>
              rw [hp] at hr
              cases hr
            | some st =>
              rw [hp] at hr
              simp only [Option.some.injEq] at hr
              subst hr
              refine ⟨rfl, rfl, rfl, fun resto => ?_⟩
              rw [tokens_de_lineas, if_neg hD, if_neg hU, if_neg hT, if_neg hF, if_pos hE]
          · rw [if_neg hE] at hr
            simp only [Option.some.injEq] at hr
            subst hr
            left
            refine ⟨rfl, fun resto => ?_⟩
            rw [tokens_de_lineas, if_neg hD, if_neg hU, if_neg hT, if_neg hF, if_neg hE]

theorem procesar_token_longitud (stops : List Cadena) (d : Int) (st st2 : EstadoIndexador)
    (token : Cadena) (hr : procesar_token stops d st token = some st2) :
    st.vocabulario.length ≤ st2.vocabulario.length := by
  unfold procesar_token at hr
  split at hr
  · split at hr
    · have h1 := congrArg List.length (agregar_frecuencia_palabra_textos _ _ _ _ hr).1
      rcases agregar_palabra_vocabulario_textos st (limpiar_palabra_indexador token)
        with h2 | h2
      · have h3 := congrArg List.length h2
        simp only [List.length_map] at h1 h3
        omega
      · have h3 := congrArg List.length h2
        simp only [List.length_map, List.length_append, List.length_singleton] at h1 h3
        omega
    · have h1 := congrArg List.length (agregar_frecuencia_palabra_textos _ _ _ _ hr).1
      simp only [List.length_map] at h1
      omega
  · simp only [Option.some.injEq] at hr
    subst hr
    exact le_refl _

theorem procesar_tokens_longitud (stops : List Cadena) (d : Int) :
    ∀ (tokens : List Cadena) (st st2 : EstadoIndexador),
      procesar_tokens stops d tokens st = some st2 →
      st.vocabulario.length ≤ st2.vocabulario.length
  | [], st, st2, hr => by
    have : st = st2 := by simpa [procesar_tokens] using hr
    subst this
    exact le_refl _
  | t :: ts, st, st2, hr => by
    simp only [procesar_tokens] at hr
    cases h1 : procesar_token stops d st t with
    | none => simp [h1] at hr
    | some st1 =>
      simp only [h1] at hr
      exact le_trans (procesar_token_longitud stops d st st1 t h1)
        (procesar_tokens_longitud stops d ts st1 st2 hr)

theorem procesar_tokens_cuenta (stops : List Cadena) (d : Int) (w : Cadena)
    (hw : w ≠ [] ∧ es_stopword stops w = false) (d2 : Int) :
    ∀ (tokens : List Cadena) (st st2 : EstadoIndexador), EstadoConsistente st →
      st2.vocabulario.length < MAX_WORDS →
      procesar_tokens stops d tokens st = some st2 →
      frecuencia_almacenada st2.vocabulario w d2
        = frecuencia_almacenada st.vocabulario w d2
          + ((cuenta_en_tokens (tokens.map (fun t => (d, t))) w d2 : Nat) : Int)
  | [], st, st2, _, _, hr => by
    have : st = st2 := by simpa [procesar_tokens] using hr
    subst this
    simp [cuenta_en_tokens]
  | t :: ts, st, st2, hc, hcap, hr => by
    simp only [procesar_tokens] at hr
    cases h1 : procesar_token stops d st t with
    | none => simp [h1] at hr
    | some st1 =>
      simp only [h1] at hr
      have hl1 := procesar_token_longitud stops d st st1 t h1
      have hl2 := procesar_tokens_longitud stops d ts st1 st2 hr
      have hc1 := (procesar_token_consistente stops d st st1 t hc h1).1
      rw [procesar_tokens_cuenta stops d w hw d2 ts st1 st2 hc1 hcap hr,
        procesar_token_cuenta stops d st st1 t hc (by omega) h1 w hw d2]
      simp only [cuenta_en_tokens, List.map_cons, List.countP_cons, decide_eq_true_eq]
      by_cases hx : w = limpiar_palabra_indexador t ∧ d2 = d
      · rw [if_pos hx, if_pos ⟨hx.2.symm, hx.1.symm⟩]
        push_cast
        ring
      · rw [if_neg hx, if_neg (fun y => hx ⟨y.2.symm, y.1.symm⟩)]
        push_cast
        ring

theorem procesar_lineas_cuenta (stops : List Cadena) (w : Cadena)
    (hw : w ≠ [] ∧ es_stopword stops w = false) (d2 : Int) :
    ∀ (lineas : List Cadena) (l l2 : Lectura), EstadoConsistente l.estado →
      l2.estado.vocabulario.length < MAX_WORDS →
      procesar_lineas stops lineas l = some l2 →
      l.estado.vocabulario.length ≤ l2.estado.vocabulario.length ∧
      frecuencia_almacenada l2.estado.vocabulario w d2
        = frecuencia_almacenada l.estado.vocabulario w d2
          + ((cuenta_en_tokens (tokens_de_lineas lineas l.doc_actual l.en_texto) w d2 : Nat)
              : Int)
  | [], l, l2, _, _, hr => by
    have : l = l2 := by simpa [procesar_lineas] using hr
    subst this
    simp [cuenta_en_tokens, tokens_de_lineas]
  | x :: xs, l, l2, hc, hcap, hr => by
    simp only [procesar_lineas] at hr
    cases h1 : procesar_linea stops x l with
    | none => simp [h1] at hr
    | some l1 =>
      simp only [h1] at hr
      have hc1 := procesar_linea_consistente stops x l l1 hc h1
      obtain ⟨hlen, hcnt⟩ := procesar_lineas_cuenta stops w hw d2 xs l1 l2 hc1 hcap hr
      rcases procesar_linea_efecto stops x l l1 h1 with ⟨hv, ht⟩ | ⟨hd, he, hp, ht⟩
      · rw [hcnt, ht xs, hv]
        exact ⟨by rw [← hv]; exact hlen, rfl⟩
      · have hl1 := procesar_tokens_longitud stops _ _ _ _ hp
        refine ⟨le_trans hl1 hlen, ?_⟩
        rw [hcnt, ht xs,
          procesar_tokens_cuenta stops l.doc_actual w hw d2 _ l.estado l1.estado hc
            (by omega) hp]
        simp only [cuenta_en_tokens, List.countP_append]
        push_cast
        ring

theorem frecuencias_contadas_bajo_el_limite (corpus stops : List Cadena)
    (st : EstadoIndexador)
    (hr : procesar_base_texto (some corpus) stops estado_indexador_inicial = some st)
    (hcap : st.vocabulario.length < MAX_WORDS) :
    ∀ p ∈ st.vocabulario, ∀ d : Int,
      frecuencia_de_palabra p d = ((cuenta_de_tokens corpus p.palabra d : Nat) : Int) ∧
      p.num_docs = ((p.doc_freqs.map (fun e => e.doc_id)).length : Int) ∧
      (p.doc_freqs.map (fun e => e.doc_id)).Nodup ∧
      (d ∈ p.doc_freqs.map (fun e => e.doc_id) ↔ 1 ≤ cuenta_de_tokens corpus p.palabra d) := by
  intro p hp d
  have hc := procesar_base_texto_consistente (some corpus) stops st hr
  have hf := procesar_base_texto_filtrado (some corpus) stops st hr
  have hw := hf p.palabra (List.mem_map_of_mem _ hp)
  have hpc := hc.2.1 p hp
  have hcount : ∀ d2 : Int,
      frecuencia_de_palabra p d2 = ((cuenta_de_tokens corpus p.palabra d2 : Nat) : Int) := by
    intro d2
    rw [procesar_base_texto] at hr
    cases h1 : procesar_lineas stops corpus
        { estado := estado_indexador_inicial, doc_actual := -1, en_texto := false } with
    | none =>
      rw [h1] at hr
      cases hr
    | some l2 =>
      rw [h1] at hr
      simp only [Option.some.injEq] at hr
      subst hr
      have h2 := (procesar_lineas_cuenta stops p.palabra
        ⟨hw.1, (es_stopword_false_iff stops p.palabra).mpr hw.2.2⟩ d2 corpus _ l2
        estado_inicial_consistente hcap h1).2
      have h3 : frecuencia_almacenada l2.estado.vocabulario p.palabra d2
          = frecuencia_de_palabra p d2 := by
        rw [frecuencia_almacenada, find_palabra_unica p.palabra _ p hc.1 hp rfl]
      rw [← h3, h2, cuenta_de_tokens]
      simp [frecuencia_almacenada, estado_indexador_inicial]
  refine ⟨hcount d, by rw [List.length_map]; exact hpc.1, hpc.2.2.2.1, ?_⟩
  constructor
  · intro hd
    obtain ⟨e, he, hed⟩ := List.mem_map.mp hd
    have h1 := frecuencia_de_palabra_entrada p e hpc.2.2.2.1 he
    rw [hed, hcount d] at h1
    have h2 := (hpc.2.2.2.2 e he).1
    omega
  · intro hd
    by_contra hn
    have ha : ∀ e ∈ p.doc_freqs, e.doc_id ≠ d :=
      fun e he hed => hn (List.mem_map.mpr ⟨e, he, hed⟩)
    have h1 := frecuencia_de_palabra_ausente p d ha
    rw [hcount d] at h1
    omega

/-! ## The single node with the sort of the C library -/

theorem decimos_valores :
    decimos 1 = some ⟨7205759403792794, -56⟩ ∧ decimos 2 = some ⟨7205759403792794, -55⟩ ∧
    decimos 3 = some ⟨5404319552844595, -54⟩ ∧ decimos 6 = some ⟨5404319552844595, -53⟩ := by
  decide

theorem acumular_lista_maq_exacta {α : Type} [LinearOrderedField α] (log10 : α → α)
    (idx : Indice α) (t : Int) : ∀ (ps : List (DocFrec α)) (r : List α),
    acumular_lista_maq (aritmetica_exacta log10) idx t ps r = acumular_lista log10 idx t ps r
  | [], _ => rfl
  | p :: ps, r => by
    have e : sumar_ranking_maq (aritmetica_exacta log10) r p.doc_id
        (calcular_w_maq (aritmetica_exacta log10) idx t p.doc_id p.frecuencia_norm)
        = sumar_ranking r p.doc_id (calcular_w log10 idx t p.doc_id p.frecuencia_norm) := rfl
    rw [acumular_lista_maq, acumular_lista, e]
    cases sumar_ranking r p.doc_id (calcular_w log10 idx t p.doc_id p.frecuencia_norm) with
    | none => rfl
    | some r2 => exact acumular_lista_maq_exacta log10 idx t ps r2

theorem acumular_palabra_maq_exacta {α : Type} [LinearOrderedField α] (log10 : α → α)
    (idx : Indice α) (t : Int) : ∀ (ls : List (ListaInvertida α)) (r : List α),
    acumular_palabra_maq (aritmetica_exacta log10) idx t ls r = acumular_palabra log10 idx t ls r
  | [], _ => rfl
  | l :: ls, r => by
    rw [acumular_palabra_maq, acumular_palabra, acumular_lista_maq_exacta,
      acumular_palabra_maq_exacta log10 idx t ls r]

theorem acumular_consulta_maq_exacta {α : Type} [LinearOrderedField α] (log10 : α → α)
    (idx : Indice α) : ∀ (ids : List Int) (r : List α),
    acumular_consulta_maq (aritmetica_exacta log10) idx ids r = acumular_consulta log10 idx ids r
  | [], _ => rfl
  | t :: ids, r => by
    rw [acumular_consulta_maq, acumular_consulta, acumular_palabra_maq_exacta]
    cases acumular_palabra log10 idx t idx.listas_invertidas r with
    | none => rfl
    | some r2 => exact acumular_consulta_maq_exacta log10 idx ids r2

/-- The scoring loops over exact arithmetic are the scoring loops over a field. -/
theorem calcular_rankings_maq_exacta {α : Type} [LinearOrderedField α] (log10 : α → α)
    (idx : Indice α) (ids : List Int) :
    calcular_rankings_maq (aritmetica_exacta log10) idx ids = calcular_rankings log10 idx ids :=
  acumular_consulta_maq_exacta log10 idx ids _

theorem recopilar_desde_maq_exacta {α : Type} [LinearOrderedField α] (log10 : α → α) :
    ∀ (rs : List α) (ds : List Documento) (i : Nat),
    recopilar_desde_maq (aritmetica_exacta log10) i rs ds = recopilar_desde i rs ds
  | [], _, _ => by simp [recopilar_desde_maq, recopilar_desde]
  | _ :: _, [], _ => by simp [recopilar_desde_maq, recopilar_desde]
  | r :: rs, d :: ds, i => by
    have e : (aritmetica_exacta log10).mayor r (aritmetica_exacta log10).cero
        = decide (r > 0) := rfl
    rw [recopilar_desde_maq, recopilar_desde, e, recopilar_desde_maq_exacta log10 rs ds (i + 1)]
    by_cases h : r > 0 <;> simp [h]

/-- Function `procesar_consulta_local` over exact arithmetic is the one over a field. -/
theorem procesar_consulta_local_maq_exacta {α : Type} [LinearOrderedField α]
    (qsort : List (ResultadoBusqueda α) → List (ResultadoBusqueda α)) (log10 : α → α)
    (idx : Indice α) (consulta : Cadena) (K : Int) :
    procesar_consulta_local_maq qsort (aritmetica_exacta log10) idx consulta K
      = procesar_consulta_local qsort log10 idx consulta K := by
  rw [procesar_consulta_local_maq, procesar_consulta_local, calcular_rankings_maq_exacta]
  cases calcular_rankings log10 idx (resolver_ids idx.vocabulario (palabras_consulta consulta))
    with
  | none => rfl
  | some r => simp only [recopilar_desde_maq_exacta]

theorem sumar_ranking_maq_length {β : Type} (ar : Aritmetica β) (r : List β) (d : Int) (w : β)
    (h : 0 ≤ d ∧ d < (r.length : Int)) :
    ∃ r2, sumar_ranking_maq ar r d w = some r2 ∧ r2.length = r.length :=
  ⟨_, by rw [sumar_ranking_maq, if_pos h], by rw [List.length_set]⟩

theorem acumular_lista_maq_definido {β : Type} (ar : Aritmetica β) (idx : Indice β) (t : Int)
    (n : Nat) : ∀ (ps : List (DocFrec β)) (r : List β), r.length = n →
    (∀ p ∈ ps, 0 ≤ p.doc_id ∧ p.doc_id < (n : Int)) →
    ∃ r2, acumular_lista_maq ar idx t ps r = some r2 ∧ r2.length = n
  | [], r, hr, _ => ⟨r, rfl, hr⟩
  | p :: ps, r, hr, h => by
    obtain ⟨r1, e1, l1⟩ := sumar_ranking_maq_length ar r p.doc_id
      (calcular_w_maq ar idx t p.doc_id p.frecuencia_norm)
      (by rw [hr]; exact h p (List.mem_cons_self _ _))
    obtain ⟨r2, e2, l2⟩ := acumular_lista_maq_definido ar idx t n ps r1 (by rw [l1, hr])
      (fun q hq => h q (List.mem_cons_of_mem _ hq))
    exact ⟨r2, by rw [acumular_lista_maq, e1]; exact e2, l2⟩

theorem acumular_palabra_maq_definido {β : Type} (ar : Aritmetica β) (idx : Indice β) (t : Int)
    (n : Nat) : ∀ (ls : List (ListaInvertida β)) (r : List β), r.length = n →
    (∀ l ∈ ls, ∀ p ∈ l.documentos, 0 ≤ p.doc_id ∧ p.doc_id < (n : Int)) →
    ∃ r2, acumular_palabra_maq ar idx t ls r = some r2 ∧ r2.length = n
  | [], r, hr, _ => ⟨r, rfl, hr⟩
  | l :: ls, r, hr, h => by
    by_cases hl : l.palabra_id = t
    · rw [acumular_palabra_maq, if_pos hl]
      exact acumular_lista_maq_definido ar idx t n l.documentos r hr
        (h l (List.mem_cons_self _ _))
    · rw [acumular_palabra_maq, if_neg hl]
      exact acumular_palabra_maq_definido ar idx t n ls r hr
        (fun l2 hl2 => h l2 (List.mem_cons_of_mem _ hl2))

theorem acumular_consulta_maq_definido {β : Type} (ar : Aritmetica β) (idx : Indice β)
    (h : PostingsEnRango idx) : ∀ (ids : List Int) (r : List β),
    r.length = idx.documentos.length →
    ∃ r2, acumular_consulta_maq ar idx ids r = some r2 ∧ r2.length = idx.documentos.length
  | [], r, hr => ⟨r, rfl, hr⟩
  | t :: ids, r, hr => by
    obtain ⟨r1, e1, l1⟩ := acumular_palabra_maq_definido ar idx t idx.documentos.length
      idx.listas_invertidas r hr h
    obtain ⟨r2, e2, l2⟩ := acumular_consulta_maq_definido ar idx h ids r1 l1
    exact ⟨r2, by rw [acumular_consulta_maq, e1]; exact e2, l2⟩

theorem calcular_rankings_maq_definido {β : Type} (ar : Aritmetica β) (idx : Indice β)
    (h : PostingsEnRango idx) (ids : List Int) :
    ∃ r, calcular_rankings_maq ar idx ids = some r ∧ r.length = idx.documentos.length :=
  acumular_consulta_maq_definido ar idx h ids _ (List.length_replicate _ _)

/-! ### Exact sums -/

theorem getD_set_igual {β : Type} (l : List β) (i : Nat) (a c : β) (h : i < l.length) :
    (l.set i a).getD i c = a := by
  simp [List.getD_eq_getElem?_getD, h]

theorem getD_set_distinto {β : Type} (l : List β) (i d : Nat) (a c : β) (h : i ≠ d) :
    (l.set i a).getD d c = l.getD d c := by
  simp [List.getD_eq_getElem?_getD, List.getElem?_set_ne h]

/-- Counterexample to claim C14: on the example index, the query of 100 words `x`, absent
from the vocabulary, followed by `perro`. The tokenising loop keeps the first 100 terms, all
absent, so no id is resolved and the ranked list is empty; the same query without its
absent terms is `perro`, whose ranked list has two documents. -/
theorem terminos_ausentes_ocupan_el_limite :
    tokenizar_referencia ((List.replicate 100 ['x', ' ']).flatten ++ "perro".toList)
      = List.replicate 100 ['x'] ++ ["perro".toList] ∧
    (tokenizar_referencia ((List.replicate 100 ['x', ' ']).flatten ++ "perro".toList)).filter
        (en_vocabulario (indice_ejemplo ℝ).vocabulario)
      = palabras_consulta "perro".toList ∧
    palabras_consulta ((List.replicate 100 ['x', ' ']).flatten ++ "perro".toList)
      = List.replicate 100 ['x'] ∧
    procesar_consulta_local ordenar_por_insercion (Real.logb 10) (indice_ejemplo ℝ)
        ((List.replicate 100 ['x', ' ']).flatten ++ "perro".toList) 10 = some [] ∧
    procesar_consulta_local ordenar_por_insercion (Real.logb 10) (indice_ejemplo ℝ)
        "perro".toList 10
      = some [⟨1, Real.logb 10 (3 / 2) * 1, "doc1".toList⟩,
          ⟨0, Real.logb 10 (3 / 2) * (1 / 2), "doc0".toList⟩] := by
  have hp : palabras_consulta ((List.replicate 100 ['x', ' ']).flatten ++ "perro".toList)
      = List.replicate 100 ['x'] := by decide
  have h1 := logb_tres_medios_pos
  have h2 : (2 : ℝ)⁻¹ < 1 := by norm_num
  refine ⟨by decide, by decide, hp, ?_, ?_⟩
  · have hr : resolver_ids (indice_ejemplo ℝ).vocabulario (List.replicate 100 ['x']) = [] := by
      decide
    simp only [procesar_consulta_local, hp, hr]
    simp
  · have hq : palabras_consulta "perro".toList = ["perro".toList] := by decide
    simp only [procesar_consulta_local, hq]
    simp [resolver_ids, buscar_palabra_id, indice_ejemplo, calcular_rankings, acumular_consulta,
      acumular_palabra, acumular_lista, sumar_ranking, calcular_w, buscar_d_t,
      rankings_iniciales, num_documentos, recopilar_desde, h1, h2, ordenar_por_insercion,
      comparar_resultados]

/-- Claim C14, amended: for every index and every query (a C string) of at most 100 words,
each of fewer than 100 letters, removing from the query the terms that are absent from the
vocabulary changes neither the resolved ids, nor any document's accumulated score, nor the
ranked list, nor the pairs printed: the terms extracted from the query without its absent
terms are those extracted from the query, the absent ones left out, and an unresolved term
is skipped. -/
theorem terminos_ausentes_se_omiten_bajo_el_limite {α : Type} [LinearOrderedField α]
    (qsort : List (ResultadoBusqueda α) → List (ResultadoBusqueda α)) (log10 : α → α)
    (idx : Indice α) (consulta consulta2 : Cadena) (K : Int)
    (hn : ∀ c ∈ consulta, c ≠ Char.ofNat 0) (hn2 : ∀ c ∈ consulta2, c ≠ Char.ofNat 0)
    (hlim : (tokenizar_referencia consulta).length ≤ MAX_QUERY_WORDS)
    (hlet : ∀ p ∈ tokenizar_referencia consulta, p.length < MAX_WORD_LENGTH)
    (h : tokenizar_referencia consulta2
      = (tokenizar_referencia consulta).filter (en_vocabulario idx.vocabulario)) :
    palabras_consulta consulta2
      = (palabras_consulta consulta).filter (en_vocabulario idx.vocabulario) ∧
    resolver_ids idx.vocabulario (palabras_consulta consulta2)
      = resolver_ids idx.vocabulario (palabras_consulta consulta) ∧
    calcular_rankings log10 idx (resolver_ids idx.vocabulario (palabras_consulta consulta2))
      = calcular_rankings log10 idx
          (resolver_ids idx.vocabulario (palabras_consulta consulta)) ∧
    procesar_consulta_local qsort log10 idx consulta2 K
      = procesar_consulta_local qsort log10 idx consulta K ∧
    (procesar_consulta qsort log10 idx consulta2).map pares_impresos
      = (procesar_consulta qsort log10 idx consulta).map pares_impresos := by
  have hM : MAX_QUERY_WORDS = 100 := rfl
  have hW : MAX_WORD_LENGTH = 100 := rfl
  have e1 : palabras_consulta consulta = tokenizar_referencia consulta := by
    rw [palabras_consulta_eq, strcpy_sin_nul _ hn,
      List.take_of_length_le (by rw [List.length_map]; omega)]
    conv_rhs => rw [← List.map_id (tokenizar_referencia consulta)]
    apply List.map_congr_left
    intro p hp
    exact List.take_of_length_le (by have := hlet p hp; omega)
  have hlen : ((tokenizar_referencia consulta).filter
      (en_vocabulario idx.vocabulario)).length ≤ 100 :=
    le_trans (List.length_filter_le _ _) (by omega)
  have e2 : palabras_consulta consulta2
      = (tokenizar_referencia consulta).filter (en_vocabulario idx.vocabulario) := by
    rw [palabras_consulta_eq, strcpy_sin_nul _ hn2, h,
      List.take_of_length_le (by rw [List.length_map]; exact hlen)]
    conv_rhs => rw [← List.map_id
      ((tokenizar_referencia consulta).filter (en_vocabulario idx.vocabulario))]
    apply List.map_congr_left
    intro p hp
    exact List.take_of_length_le (by have := hlet p (List.mem_of_mem_filter hp); omega)
  have e : palabras_consulta consulta2
      = (palabras_consulta consulta).filter (en_vocabulario idx.vocabulario) := by
    rw [e1, e2]
  exact ⟨e, terminos_ausentes_se_omiten qsort log10 idx consulta consulta2 K e⟩

/-- Witness of claim C14, amended: `perro zeta gato` and `perro gato` on the example
index. -/
theorem terminos_ausentes_se_omiten_bajo_el_limite_witness :
    palabras_consulta "perro gato".toList
      = (palabras_consulta "perro zeta gato".toList).filter
          (en_vocabulario (indice_ejemplo ℝ).vocabulario) ∧
    procesar_consulta_local ordenar_por_insercion (Real.logb 10) (indice_ejemplo ℝ)
        "perro gato".toList 10
      = procesar_consulta_local ordenar_por_insercion (Real.logb 10) (indice_ejemplo ℝ)
        "perro zeta gato".toList 10 :=
  ⟨(terminos_ausentes_se_omiten_bajo_el_limite ordenar_por_insercion (Real.logb 10)
      (indice_ejemplo ℝ) "perro zeta gato".toList "perro gato".toList 10
      (by decide) (by decide) (by decide) (by decide) (by decide)).1,
    (terminos_ausentes_se_omiten_bajo_el_limite ordenar_por_insercion (Real.logb 10)
      (indice_ejemplo ℝ) "perro zeta gato".toList "perro gato".toList 10
      (by decide) (by decide) (by decide) (by decide) (by decide)).2.2.2.1⟩

/-! ## The order of the postings inside an inverted list -/

theorem intercambiables_symm {β : Type} (ar : Aritmetica β) (p q : DocFrec β)
    (h : Intercambiables ar p q) : Intercambiables ar q p := by
  rcases h with h | h
  · exact Or.inl (fun e => h e.symm)
  · exact Or.inr h

/-- Two consecutive statements `rankings[d] += w` can be exchanged when they name different
documents, or when sums are exact and commutative. -/
theorem sumar_ranking_maq_conmuta {β : Type} (ar : Aritmetica β) (r : List β) (d1 d2 : Int)
    (w1 w2 : β) (h : d1 ≠ d2 ∨ (SumaExacta ar ∧ SumaConmutativa ar)) :
    (sumar_ranking_maq ar r d1 w1).bind (fun r1 => sumar_ranking_maq ar r1 d2 w2)
      = (sumar_ranking_maq ar r d2 w2).bind (fun r2 => sumar_ranking_maq ar r2 d1 w1) := by
  unfold sumar_ranking_maq
  by_cases h1 : 0 ≤ d1 ∧ d1 < (r.length : Int)
  · by_cases h2 : 0 ≤ d2 ∧ d2 < (r.length : Int)
    · simp only [if_pos h1, if_pos h2, Option.some_bind, List.length_set]
      congr 1
      by_cases e : d1.toNat = d2.toNat
      · have ed : d1 = d2 := by omega
        subst ed
        rcases h with h | ⟨hs, hc⟩
        · exact absurd rfl h
        · have hi : d1.toNat < r.length := by omega
          have key : ∀ a b : β,
              (r.set d1.toNat (ar.suma (r.getD d1.toNat ar.cero) a)).set d1.toNat
                (ar.suma ((r.set d1.toNat (ar.suma (r.getD d1.toNat ar.cero) a)).getD
                  d1.toNat ar.cero) b)
              = r.set d1.toNat (ar.suma (ar.suma (r.getD d1.toNat ar.cero) a) b) := by
            intro a b
            rw [getD_set_igual _ _ _ _ hi, List.set_set]
          rw [key w1 w2, key w2 w1, hs.1, hc w1 w2, ← hs.1]
      · have e2 : d2.toNat ≠ d1.toNat := fun x => e x.symm
        rw [getD_set_distinto _ _ _ _ _ e, getD_set_distinto _ _ _ _ _ e2,
          List.set_comm _ _ _ e]
    · rw [if_pos h1, if_neg h2, Option.some_bind, List.length_set, if_neg h2]
      rfl
  · by_cases h2 : 0 ≤ d2 ∧ d2 < (r.length : Int)
    · rw [if_neg h1, if_pos h2, Option.some_bind, List.length_set, if_neg h1]
      rfl
    · rw [if_neg h1, if_neg h2]
      rfl

theorem acumular_lista_maq_dos {β : Type} (ar : Aritmetica β) (idx : Indice β) (t : Int)
    (p q : DocFrec β) (ps : List (DocFrec β)) (r : List β) :
    acumular_lista_maq ar idx t (p :: q :: ps) r
      = ((sumar_ranking_maq ar r p.doc_id
            (calcular_w_maq ar idx t p.doc_id p.frecuencia_norm)).bind
          (fun r1 => sumar_ranking_maq ar r1 q.doc_id
            (calcular_w_maq ar idx t q.doc_id q.frecuencia_norm))).bind
        (acumular_lista_maq ar idx t ps) := by
  rw [acumular_lista_maq]
  cases sumar_ranking_maq ar r p.doc_id (calcular_w_maq ar idx t p.doc_id p.frecuencia_norm) with
  | none => rfl
  | some r1 =>
    show acumular_lista_maq ar idx t (q :: ps) r1
      = (sumar_ranking_maq ar r1 q.doc_id
          (calcular_w_maq ar idx t q.doc_id q.frecuencia_norm)).bind
        (acumular_lista_maq ar idx t ps)
    rw [acumular_lista_maq]
    cases sumar_ranking_maq ar r1 q.doc_id
        (calcular_w_maq ar idx t q.doc_id q.frecuencia_norm) with
    | none => rfl
    | some r2 => rfl

theorem acumular_lista_maq_perm {β : Type} (ar : Aritmetica β) (idx : Indice β) (t : Int)
    {ps ps2 : List (DocFrec β)} (hp : ps.Perm ps2) :
    ps.Pairwise (Intercambiables ar) →
    ∀ r, acumular_lista_maq ar idx t ps r = acumular_lista_maq ar idx t ps2 r := by
  induction hp with
  | nil => intro _ r; rfl
  | cons x _ ih =>
    intro hw r
    rw [acumular_lista_maq, acumular_lista_maq]
    cases sumar_ranking_maq ar r x.doc_id (calcular_w_maq ar idx t x.doc_id x.frecuencia_norm) with
    | none => rfl
    | some r1 => exact ih (List.Pairwise.of_cons hw) r1
  | swap x y l =>
    intro hw r
    rw [acumular_lista_maq_dos, acumular_lista_maq_dos,
      sumar_ranking_maq_conmuta ar r y.doc_id x.doc_id _ _
        ((List.pairwise_cons.mp hw).1 x (List.mem_cons_self _ _))]
  | trans h1 _ ih1 ih2 =>
    intro hw r
    rw [ih1 hw r]
    exact ih2 ((h1.pairwise_iff (fun {a b} hab => intercambiables_symm ar a b hab)).mp hw) r

theorem calcular_w_maq_congr {β : Type} (ar : Aritmetica β) (idx idx2 : Indice β)
    (hv : idx2.vocabulario = idx.vocabulario) (hd : idx2.documentos = idx.documentos)
    (t d : Int) (f : β) : calcular_w_maq ar idx2 t d f = calcular_w_maq ar idx t d f := by
  simp only [calcular_w_maq, num_documentos, hv, hd]

theorem acumular_lista_maq_congr {β : Type} (ar : Aritmetica β) (idx idx2 : Indice β)
    (hv : idx2.vocabulario = idx.vocabulario) (hd : idx2.documentos = idx.documentos)
    (t : Int) : ∀ (ps : List (DocFrec β)) (r : List β),
    acumular_lista_maq ar idx2 t ps r = acumular_lista_maq ar idx t ps r
  | [], _ => rfl
  | p :: ps, r => by
    rw [acumular_lista_maq, acumular_lista_maq, calcular_w_maq_congr ar idx idx2 hv hd]
    cases sumar_ranking_maq ar r p.doc_id (calcular_w_maq ar idx t p.doc_id p.frecuencia_norm) with
    | none => rfl
    | some r1 => exact acumular_lista_maq_congr ar idx idx2 hv hd t ps r1

theorem acumular_palabra_maq_perm {β : Type} (ar : Aritmetica β) (idx idx2 : Indice β)
    (hv : idx2.vocabulario = idx.vocabulario) (hd : idx2.documentos = idx.documentos)
    (t : Int) {ls ls2 : List (ListaInvertida β)}
    (hf : List.Forall₂ (fun l l2 => l2.palabra_id = l.palabra_id
      ∧ l2.documentos.Perm l.documentos) ls ls2) :
    (∀ l ∈ ls, l.documentos.Pairwise (Intercambiables ar)) →
    ∀ r, acumular_palabra_maq ar idx2 t ls2 r = acumular_palabra_maq ar idx t ls r := by
  induction hf with
  | nil => intro _ r; rfl
  | @cons l l2 ls ls2 hab _ ih =>
    intro hw r
    rw [acumular_palabra_maq, acumular_palabra_maq, hab.1,
      acumular_lista_maq_congr ar idx idx2 hv hd,
      ← acumular_lista_maq_perm ar idx t hab.2.symm (hw l (List.mem_cons_self _ _)) r,
      ih (fun l3 h3 => hw l3 (List.mem_cons_of_mem _ h3)) r]

theorem acumular_consulta_maq_perm {β : Type} (ar : Aritmetica β) (idx idx2 : Indice β)
    (hp : ListasPermutadas idx idx2)
    (hw : ∀ l ∈ idx.listas_invertidas, l.documentos.Pairwise (Intercambiables ar)) :
    ∀ (ids : List Int) (r : List β),
    acumular_consulta_maq ar idx2 ids r = acumular_consulta_maq ar idx ids r
  | [], _ => rfl
  | t :: ids, r => by
    rw [acumular_consulta_maq, acumular_consulta_maq,
      acumular_palabra_maq_perm ar idx idx2 hp.1 hp.2.1 t hp.2.2 hw r]
    cases acumular_palabra_maq ar idx t idx.listas_invertidas r with
    | none => rfl
    | some r1 => exact acumular_consulta_maq_perm ar idx idx2 hp hw ids r1

theorem intercambiables_de_hipotesis {β : Type} (ar : Aritmetica β) (idx : Indice β)
    (hn : DocumentosSinRepetir idx ∨ (SumaExacta ar ∧ SumaConmutativa ar)) :
    ∀ l ∈ idx.listas_invertidas, l.documentos.Pairwise (Intercambiables ar) := by
  intro l hl
  rcases hn with hn | hn
  · have := hn l hl
    rw [List.Nodup, List.pairwise_map] at this
    exact this.imp (fun h => Or.inl h)
  · exact List.pairwise_of_forall (fun _ _ => Or.inr hn)

/-- Claim C20, amended: for every arithmetic of `double` and every index whose postings name
documents of the partition, permuting the postings inside the inverted lists leaves the
accumulated score of every document unchanged, for every list of query ids, and therefore
leaves the list `procesar_consulta_local` returns unchanged, for every query, provided that
no inverted list names a document twice, or else that sums are exact and commutative (as
they are on real numbers and are not on `double`): under that condition scoring does not
depend on the postings being sorted by docId. -/
theorem puntuacion_independiente_del_orden_sin_repetidos {β : Type} (ar : Aritmetica β)
    (idx idx2 : Indice β) (hp : ListasPermutadas idx idx2) (h : PostingsEnRango idx)
    (hn : DocumentosSinRepetir idx ∨ (SumaExacta ar ∧ SumaConmutativa ar)) :
    (∀ ids : List Int, ∃ r, calcular_rankings_maq ar idx ids = some r ∧
      calcular_rankings_maq ar idx2 ids = some r) ∧
    (∀ (qsort : List (ResultadoBusqueda β) → List (ResultadoBusqueda β))
      (consulta : Cadena) (K : Int),
      procesar_consulta_local_maq qsort ar idx2 consulta K
        = procesar_consulta_local_maq qsort ar idx consulta K) := by
  have hw := intercambiables_de_hipotesis ar idx hn
  have e : ∀ ids, calcular_rankings_maq ar idx2 ids = calcular_rankings_maq ar idx ids := by
    intro ids
    rw [calcular_rankings_maq, calcular_rankings_maq, rankings_iniciales_maq,
      rankings_iniciales_maq, hp.2.1]
    exact acumular_consulta_maq_perm ar idx idx2 hp hw ids _
  refine ⟨?_, ?_⟩
  · intro ids
    obtain ⟨r, er, _⟩ := calcular_rankings_maq_definido ar idx h ids
    exact ⟨r, er, by rw [e, er]⟩
  · intro qsort consulta K
    rw [procesar_consulta_local_maq, procesar_consulta_local_maq, hp.1, hp.2.1, e]

theorem postings_en_rango_repetido : PostingsEnRango indice_repetido := by
  intro l hl p hp
  simp [indice_repetido] at hl
  subst hl
  simp at hp
  rcases hp with rfl | rfl | rfl | rfl <;> decide

theorem listas_permutadas_repetido :
    ListasPermutadas indice_repetido indice_repetido_permutado := by
  refine ⟨rfl, rfl, List.Forall₂.cons ⟨rfl, ?_⟩ List.Forall₂.nil⟩
  exact List.reverse_perm
    [DocFrec.mk 1 (decimos 1), DocFrec.mk 1 (decimos 2), DocFrec.mk 1 (decimos 3),
      DocFrec.mk 0 (decimos 6)]

set_option maxRecDepth 100000 in
theorem rankings_repetido :
    calcular_rankings_maq aritmetica_doble indice_repetido [0]
      = some (some ⟨5404319552844595, -53⟩ :: some ⟨5404319552844596, -53⟩
          :: List.replicate 18 (some ⟨0, 0⟩)) ∧
    calcular_rankings_maq aritmetica_doble indice_repetido_permutado [0]
      = some (some ⟨5404319552844595, -53⟩ :: some ⟨5404319552844595, -53⟩
          :: List.replicate 18 (some ⟨0, 0⟩)) ∧
    procesar_consulta_local_maq (ordenar_por_insercion_maq aritmetica_doble) aritmetica_doble
        indice_repetido "perro".toList 10
      = some [⟨1, some ⟨5404319552844596, -53⟩, "doc1".toList⟩,
          ⟨0, some ⟨5404319552844595, -53⟩, "doc0".toList⟩] ∧
    procesar_consulta_local_maq (ordenar_por_insercion_maq aritmetica_doble) aritmetica_doble
        indice_repetido_permutado "perro".toList 10
      = some [⟨0, some ⟨5404319552844595, -53⟩, "doc0".toList⟩,
          ⟨1, some ⟨5404319552844595, -53⟩, "doc1".toList⟩] := by
  refine ⟨by decide, by decide, rfl, rfl⟩

/-- Counterexample to claim C20. In `double` arithmetic, an index of twenty documents whose
inverted list of `perro` names document 1 three times, with frequencies `0.100`, `0.200` and
`0.300`, and document 0 once, with `0.600`; the weight is `log10(20 / 2) = 1`. With the
postings in this order the score of document 1 is `(0.1 + 0.2) + 0.3 = 0.6000000000000001`
and document 1 is ranked before document 0, whose score is `0.6`; with the postings in the
reverse order the score of document 1 is `(0.3 + 0.2) + 0.1 = 0.6`, and a sort that keeps
the order of equal elements ranks document 0 first. -/
theorem puntuacion_depende_del_orden_de_postings :
    ListasPermutadas indice_repetido indice_repetido_permutado ∧
    PostingsEnRango indice_repetido ∧
    calcular_rankings_maq aritmetica_doble indice_repetido [0]
      = some (some ⟨5404319552844595, -53⟩ :: some ⟨5404319552844596, -53⟩
          :: List.replicate 18 (some ⟨0, 0⟩)) ∧
    calcular_rankings_maq aritmetica_doble indice_repetido_permutado [0]
      = some (some ⟨5404319552844595, -53⟩ :: some ⟨5404319552844595, -53⟩
          :: List.replicate 18 (some ⟨0, 0⟩)) ∧
    procesar_consulta_local_maq (ordenar_por_insercion_maq aritmetica_doble) aritmetica_doble
        indice_repetido "perro".toList 10
      = some [⟨1, some ⟨5404319552844596, -53⟩, "doc1".toList⟩,
          ⟨0, some ⟨5404319552844595, -53⟩, "doc0".toList⟩] ∧
    procesar_consulta_local_maq (ordenar_por_insercion_maq aritmetica_doble) aritmetica_doble
        indice_repetido_permutado "perro".toList 10
      = some [⟨0, some ⟨5404319552844595, -53⟩, "doc0".toList⟩,
          ⟨1, some ⟨5404319552844595, -53⟩, "doc1".toList⟩] :=
  ⟨listas_permutadas_repetido, postings_en_rango_repetido, rankings_repetido⟩

theorem postings_en_rango_sin_repetir : PostingsEnRango indice_sin_repetir := by
  intro l hl p hp
  simp [indice_sin_repetir] at hl
  subst hl
  simp at hp
  rcases hp with rfl | rfl <;> decide

theorem documentos_sin_repetir_ejemplo : DocumentosSinRepetir indice_sin_repetir := by
  intro l hl
  simp [indice_sin_repetir] at hl
  subst hl
  decide

theorem listas_permutadas_sin_repetir :
    ListasPermutadas indice_sin_repetir indice_sin_repetir_permutado := by
  refine ⟨rfl, rfl, List.Forall₂.cons ⟨rfl, ?_⟩ List.Forall₂.nil⟩
  exact List.Perm.swap _ _ _

/-- Witness of claim C20, amended: in `double` arithmetic, the index whose list names
documents 0 and 1 once each, and the same index with the two postings exchanged. -/
theorem puntuacion_independiente_del_orden_sin_repetidos_witness :
    ListasPermutadas indice_sin_repetir indice_sin_repetir_permutado ∧
    PostingsEnRango indice_sin_repetir ∧ DocumentosSinRepetir indice_sin_repetir ∧
    (∀ ids : List Int, ∃ r, calcular_rankings_maq aritmetica_doble indice_sin_repetir ids
        = some r ∧
      calcular_rankings_maq aritmetica_doble indice_sin_repetir_permutado ids = some r) ∧
    (∀ (qsort : List (ResultadoBusqueda (Option Doble)) → List (ResultadoBusqueda (Option Doble)))
      (consulta : Cadena) (K : Int),
      procesar_consulta_local_maq qsort aritmetica_doble indice_sin_repetir_permutado consulta K
        = procesar_consulta_local_maq qsort aritmetica_doble indice_sin_repetir consulta K) :=
  ⟨listas_permutadas_sin_repetir, postings_en_rango_sin_repetir, documentos_sin_repetir_ejemplo,
    puntuacion_independiente_del_orden_sin_repetidos aritmetica_doble indice_sin_repetir
      indice_sin_repetir_permutado listas_permutadas_sin_repetir postings_en_rango_sin_repetir
      (Or.inl documentos_sin_repetir_ejemplo)⟩

/-! ## The batch loop with its turns -/

theorem turno_no_retorna (size rank : Nat) (h : 2 ≤ size) : ¬ TurnoRetorna size rank := by
  rintro ⟨e, ha, ht⟩
  obtain ⟨_, i2, i3⟩ := invariante_recoleccion size h e ha
  by_cases hr0 : rank = 0
  · subst hr0
    rcases i2 with i2 | i2 <;> rw [i2] at ht <;> cases ht
  · rw [i3 rank hr0] at ht
    cases ht

theorem turno_retorna_un_nodo : TurnoRetorna 1 0 := by
  have p1 : paso 1 0 estado_inicial
      = some { control := Function.update estado_inicial.control 0 (Control.recibiendo 1),
               en_vuelo := estado_inicial.en_vuelo } := by
    simp [paso, estado_inicial]
  have a1 := Alcanzable.avance _ _ 0 (by decide) Alcanzable.inicio p1
  have p2 : paso 1 0
      { control := Function.update estado_inicial.control 0 (Control.recibiendo 1),
        en_vuelo := estado_inicial.en_vuelo }
      = some { control := Function.update
                 (Function.update estado_inicial.control 0 (Control.recibiendo 1)) 0
                 (Control.enviando 0),
               en_vuelo := estado_inicial.en_vuelo } := by
    simp [paso]
  have a2 := Alcanzable.avance _ _ 0 (by decide) a1 p2
  have p3 : paso 1 0
      { control := Function.update
          (Function.update estado_inicial.control 0 (Control.recibiendo 1)) 0
          (Control.enviando 0),
        en_vuelo := estado_inicial.en_vuelo }
      = some { control := Function.update (Function.update
                 (Function.update estado_inicial.control 0 (Control.recibiendo 1)) 0
                 (Control.enviando 0)) 0 (Control.enviando 1),
               en_vuelo := estado_inicial.en_vuelo } := by
    simp [paso]
  have a3 := Alcanzable.avance _ _ 0 (by decide) a2 p3
  have p4 : paso 1 0
      { control := Function.update (Function.update
          (Function.update estado_inicial.control 0 (Control.recibiendo 1)) 0
          (Control.enviando 0)) 0 (Control.enviando 1),
        en_vuelo := estado_inicial.en_vuelo }
      = some { control := Function.update (Function.update (Function.update
                 (Function.update estado_inicial.control 0 (Control.recibiendo 1)) 0
                 (Control.enviando 0)) 0 (Control.enviando 1)) 0 Control.terminado,
               en_vuelo := estado_inicial.en_vuelo } := by
    simp [paso]
  exact ⟨_, Alcanzable.avance _ _ 0 (by decide) a3 p4, by simp⟩

/-- Claim C23, evaluated on the code: in a cluster of two or more nodes, for every batch size
`Q ≥ 1` and every number `n ≥ 1` of loaded queries, the batch loop of every node enters the
turn of query 0 (the loop condition holds and `0 < consultas_en_lote`), the collect step of
that turn returns in no interleaving, and so the loop never leaves its initial state: no
turn is completed and the loop does not end. -/
theorem lotes_sin_turno_completado (size rank : Nat) (Q n : Int) (hs : 2 ≤ size)
    (hQ : 1 ≤ Q) (hn : 1 ≤ n) :
    estado_lotes_inicial.lote < n ∧
    estado_lotes_inicial.i
      < (if estado_lotes_inicial.lote + Q ≤ n then Q else n - estado_lotes_inicial.lote) ∧
    ¬ TurnoRetorna size rank ∧
    ∀ s, AlcanzableLotes size rank Q n s →
      s = estado_lotes_inicial ∧ s.completados = [] ∧ s.lote < n := by
  have h0 : estado_lotes_inicial.i
      < (if estado_lotes_inicial.lote + Q ≤ n then Q else n - estado_lotes_inicial.lote) := by
    simp only [estado_lotes_inicial]
    split <;> omega
  refine ⟨by simp only [estado_lotes_inicial]; omega, h0, turno_no_retorna size rank hs, ?_⟩
  intro s ha
  have key : s = estado_lotes_inicial := by
    induction ha with
    | inicio => rfl
    | avance s s2 _ hp ih =>
      subst ih
      cases hp with
      | turno _ _ h3 => exact absurd h3 (turno_no_retorna size rank hs)
      | siguiente_lote _ h2 => exact absurd h0 h2
  subst key
  exact ⟨rfl, rfl, by simp only [estado_lotes_inicial]; omega⟩

/-- Witness of the evaluation of claim C23: two nodes, batches of two, five queries. -/
theorem lotes_sin_turno_completado_witness :
    (2 ≤ 2) ∧ ((1 : Int) ≤ 2) ∧ ((1 : Int) ≤ 5) ∧
    ¬ TurnoRetorna 2 0 ∧
    ∀ s, AlcanzableLotes 2 0 2 5 s →
      s = estado_lotes_inicial ∧ s.completados = [] ∧ s.lote < 5 :=
  ⟨le_refl 2, by decide, by decide,
    (lotes_sin_turno_completado 2 0 2 5 (le_refl 2) (by decide) (by decide)).2.2.1,
    (lotes_sin_turno_completado 2 0 2 5 (le_refl 2) (by decide) (by decide)).2.2.2⟩

theorem lotes_bucle_interior (Q n lote cid : Int) (comp : List (Int × Int)) (hlt : lote < n)
    (ha : AlcanzableLotes 1 0 Q n (EstadoLotes.mk lote 0 cid comp)) :
    ∀ k : Nat, k ≤ (if lote + Q ≤ n then Q else n - lote).toNat →
      AlcanzableLotes 1 0 Q n
        (EstadoLotes.mk lote (k : Int) (cid + (k : Int))
          (comp ++ (List.range k).map (fun (i : Nat) => (lote + (i : Int), cid + (i : Int)))))
  | 0, _ => by simpa using ha
  | k + 1, hk => by
    have ih := lotes_bucle_interior Q n lote cid comp hlt ha k (by omega)
    have h2 : ((k : Nat) : Int) < (if lote + Q ≤ n then Q else n - lote) := by omega
    have hp := @PasoLotes.turno 1 0 Q n
      (EstadoLotes.mk lote (k : Int) (cid + (k : Int))
        (comp ++ (List.range k).map (fun (i : Nat) => (lote + (i : Int), cid + (i : Int)))))
      hlt h2 turno_retorna_un_nodo
    have hs := AlcanzableLotes.avance _ _ ih hp
    have e : EstadoLotes.mk lote ((k + 1 : Nat) : Int) (cid + ((k + 1 : Nat) : Int))
          (comp ++ (List.range (k + 1)).map
            (fun (i : Nat) => (lote + (i : Int), cid + (i : Int))))
        = EstadoLotes.mk lote ((k : Int) + 1) (cid + (k : Int) + 1)
            ((comp ++ (List.range k).map
              (fun (i : Nat) => (lote + (i : Int), cid + (i : Int))))
              ++ [(lote + (k : Int), cid + (k : Int))]) := by
      rw [List.range_succ, List.map_append, List.append_assoc]
      simp only [List.map_cons, List.map_nil, Nat.cast_add, Nat.cast_one, add_assoc]
    rw [e]
    exact hs

theorem lotes_un_nodo_desde (Q n : Int) :
    ∀ (fuel : Nat) (lote cid : Int) (turnos comp : List (Int × Int)),
      bucle_lotes Q n fuel lote cid = some turnos →
      AlcanzableLotes 1 0 Q n (EstadoLotes.mk lote 0 cid comp) →
      ∃ s, AlcanzableLotes 1 0 Q n s ∧ n ≤ s.lote ∧ s.completados = comp ++ turnos
  | 0, _, _, _, _, h, _ => by simp [bucle_lotes] at h
  | fuel + 1, lote, cid, turnos, comp, h, ha => by
    by_cases hlt : lote < n
    · rw [bucle_lotes, if_pos hlt] at h
      cases hr : bucle_lotes Q n fuel (lote + Q)
          (cid + (((if lote + Q ≤ n then Q else n - lote).toNat : Nat) : Int)) with
      | none =>
        rw [hr] at h
        cases h
      | some resto =>
        rw [hr] at h
        simp only [Option.some.injEq] at h
        subst h
        have h1 := lotes_bucle_interior Q n lote cid comp hlt ha
          (if lote + Q ≤ n then Q else n - lote).toNat (le_refl _)
        have h2 : ¬ (((if lote + Q ≤ n then Q else n - lote).toNat : Nat) : Int)
            < (if lote + Q ≤ n then Q else n - lote) := by omega
        have hp := @PasoLotes.siguiente_lote 1 0 Q n
          (EstadoLotes.mk lote (((if lote + Q ≤ n then Q else n - lote).toNat : Nat) : Int)
            (cid + (((if lote + Q ≤ n then Q else n - lote).toNat : Nat) : Int))
            (comp ++ (List.range (if lote + Q ≤ n then Q else n - lote).toNat).map
              (fun (i : Nat) => (lote + (i : Int), cid + (i : Int)))))
          hlt h2
        have h3 := AlcanzableLotes.avance _ _ h1 hp
        obtain ⟨s, hs1, hs2, hs3⟩ := lotes_un_nodo_desde Q n fuel _ _ resto _ hr h3
        refine ⟨s, hs1, hs2, ?_⟩
        rw [hs3, procesar_lote, List.append_assoc]
    · rw [bucle_lotes, if_neg hlt] at h
      simp only [Option.some.injEq] at h
      subst h
      exact ⟨_, ha, by simpa using hlt, by simp⟩

/-- On a single node the batch loop does end, for every batch size `Q ≥ 1` and every number
`n ≥ 0` of queries, with exactly one completed turn for each query index `0, ..., n-1`, in
order, the query of index `k` numbered `k`. -/
theorem lotes_un_nodo (Q n : Int) (hQ : 1 ≤ Q) (hn : 0 ≤ n) :
    ∃ s, AlcanzableLotes 1 0 Q n s ∧ n ≤ s.lote ∧
      s.completados = (List.range n.toNat).map (fun (k : Nat) => ((k : Int), (k : Int))) := by
  obtain ⟨s, h1, h2, h3⟩ := lotes_un_nodo_desde Q n (n.toNat + 1) 0 0 _ []
    (bucle_lotes_un_turno_por_consulta Q n (n.toNat + 1) hQ hn (le_refl _))
    AlcanzableLotes.inicio
  exact ⟨s, h1, h2, by simpa using h3⟩

/-! ## An inverted-list line with a pair that cannot be read -/

theorem maximo_estado_desbordado : estado_desbordado.max_freq_por_doc 0 = 2 := by
  rw [estado_desbordado]
  rfl

theorem primera_palabra_estado_desbordado :
    PalabraVocabIndexador.mk (palabra_numero 0) ((0 : Nat) : Int) 1 [DocFreq.mk 0 1] 10
      ∈ estado_desbordado.vocabulario := by
  have hM : MAX_WORDS = 50000 := rfl
  rw [vocabulario_estado_desbordado]
  apply List.mem_iff_getElem?.mpr
  refine ⟨0, ?_⟩
  rw [List.getElem?_set_ne (by omega), palabra_de_estado_con_palabras MAX_WORDS 0 (by omega)]

theorem cuenta_en_corpus_desbordado_cota (w : Cadena) (d : Int) :
    cuenta_de_tokens corpus_desbordado w d ≤ 1 := by
  have hM : MAX_WORDS = 50000 := rfl
  by_cases h : ∃ j, j ≤ MAX_WORDS ∧ palabra_numero j = w ∧ d = 0
  · obtain ⟨j, hj, e, e2⟩ := h
    subst e
    subst e2
    rw [cuenta_en_corpus_desbordado j hj]
  · rw [cuenta_de_tokens, cuenta_en_tokens, tokens_corpus_desbordado, List.countP_map]
    have : List.countP
        ((fun t : Int × Cadena => decide (t.1 = d ∧ limpiar_palabra_indexador t.2 = w))
          ∘ fun k => ((0 : Int), palabra_numero k)) (List.range (MAX_WORDS + 1)) = 0 := by
      rw [List.countP_eq_zero]
      intro k hk
      have hk2 : k < MAX_WORDS + 1 := List.mem_range.mp hk
      simp only [Function.comp, limpiar_palabra_numero, decide_eq_true_eq]
      intro hx
      exact h ⟨k, by omega, hx.2, hx.1.symm⟩
    rw [this]
    exact Nat.zero_le _

theorem linea_escrita_de_palabra {α : Type} [LinearOrderedField α]
    (qsort_vocabulario : List PalabraVocabIndexador → List PalabraVocabIndexador)
    (qsort_doc_freqs : List DocFreq → List DocFreq)
    (hv : ContratoQsortCon comparar_palabras qsort_vocabulario)
    (hd : ContratoQsortCon comparar_doc_ids qsort_doc_freqs)
    (archivo_base archivo_stopwords : Option (List Cadena)) (stops : List Cadena)
    (st : EstadoIndexador) (hs : cargar_stopwords archivo_stopwords = some stops)
    (hb : procesar_base_texto archivo_base stops estado_indexador_inicial = some st)
    (p : PalabraVocabIndexador) (hp : p ∈ st.vocabulario) (d f : Int)
    (hpf : p.doc_freqs = [DocFreq.mk d f]) :
    ∃ archivos : ArchivosIndice α,
      indexador_main qsort_vocabulario qsort_doc_freqs archivo_base archivo_stopwords
        = FinIndexador.escrito archivos ∧
      ∃ (i : Nat) (lv : LineaVocabulario) (ll : LineaListas α),
        archivos.vocabulario_txt[i]? = some lv ∧
        archivos.listas_invertidas_txt[i]? = some ll ∧
        lv.palabra = p.palabra ∧ lv.palabra_id = ll.palabra_id ∧
        ll.pares = [(d, if st.max_freq_por_doc d > 0 then
                          (f : α) / (st.max_freq_por_doc d : α) else 0)] := by
  have hc : EstadoConsistente st := procesar_base_texto_consistente archivo_base stops st hb
  have hmain : (indexador_main qsort_vocabulario qsort_doc_freqs archivo_base
      archivo_stopwords : FinIndexador α)
      = FinIndexador.escrito
        { vocabulario_txt :=
            generar_vocabulario_txt (reasignar_ids (qsort_vocabulario st.vocabulario) 0),
          documentos_txt := generar_documentos_txt st.documentos,
          listas_invertidas_txt :=
            (reasignar_ids (qsort_vocabulario st.vocabulario) 0).map (fun p =>
              { palabra_id := p.palabra_id,
                pares := (qsort_doc_freqs p.doc_freqs).map (fun e =>
                  (e.doc_id,
                   if st.max_freq_por_doc e.doc_id > 0 then
                     (e.frecuencia : α) / (st.max_freq_por_doc e.doc_id : α)
                   else 0)) }) } := by
    rw [indexador_main, hs]
    simp only []
    rw [hb]
    simp only []
    rw [emitir_indice_forma qsort_vocabulario qsort_doc_freqs hv hd st hc]
  refine ⟨_, hmain, ?_⟩
  obtain ⟨q, hq, hq1, hq2⟩ := reasignar_ids_mem (qsort_vocabulario st.vocabulario) 0 p
    ((hv _).1.symm.subset hp)
  obtain ⟨i, hi⟩ := List.mem_iff_getElem?.mp hq
  refine ⟨i, LineaVocabulario.mk q.palabra q.palabra_id q.num_docs,
    LineaListas.mk q.palabra_id ((qsort_doc_freqs q.doc_freqs).map (fun e =>
      (e.doc_id,
       if st.max_freq_por_doc e.doc_id > 0 then
         (e.frecuencia : α) / (st.max_freq_por_doc e.doc_id : α)
       else 0))), ?_, ?_, hq1, rfl, ?_⟩
  · rw [generar_vocabulario_txt, List.getElem?_map, hi]
    rfl
  · rw [List.getElem?_map, hi]
    rfl
  · simp only [hq2, hpf]
    have h1 : qsort_doc_freqs [DocFreq.mk d f] = [DocFreq.mk d f] :=
      List.perm_singleton.mp (hd _).1
    rw [h1]
    rfl

/-- Claim C29, evaluated on the code: on `corpus_desbordado` (one document whose text is
`MAX_WORDS + 1` different words, no stopword), with `qsort` meeting its contract, the
indexer writes its files, and the line of the first word of the corpus carries for
document 0 the normalized frequency `1/2`, although that word occurs once in the document
and no word occurs there more than once, so that count / maximum count is 1: the maximum
recorded for the document is the 2 stored on the last word of the full vocabulary. -/
theorem frecuencia_escrita_con_vocabulario_lleno {α : Type} [LinearOrderedField α]
    (qsort_vocabulario : List PalabraVocabIndexador → List PalabraVocabIndexador)
    (qsort_doc_freqs : List DocFreq → List DocFreq)
    (hv : ContratoQsortCon comparar_palabras qsort_vocabulario)
    (hd : ContratoQsortCon comparar_doc_ids qsort_doc_freqs) :
    ∃ archivos : ArchivosIndice α,
      indexador_main qsort_vocabulario qsort_doc_freqs (some corpus_desbordado) (some [])
        = FinIndexador.escrito archivos ∧
      (∃ (i : Nat) (lv : LineaVocabulario) (ll : LineaListas α),
        archivos.vocabulario_txt[i]? = some lv ∧
        archivos.listas_invertidas_txt[i]? = some ll ∧
        lv.palabra = palabra_numero 0 ∧ lv.palabra_id = ll.palabra_id ∧
        ll.pares = [((0 : Int), ((1 : Int) : α) / ((2 : Int) : α))]) ∧
      cuenta_de_tokens corpus_desbordado (palabra_numero 0) 0 = 1 ∧
      ∀ w : Cadena, cuenta_de_tokens corpus_desbordado w 0 ≤ 1 := by
  obtain ⟨archivos, h1, i, lv, ll, h2, h3, h4, h5, h6⟩ :=
    linea_escrita_de_palabra (α := α) qsort_vocabulario qsort_doc_freqs hv hd
      (some corpus_desbordado) (some []) [] estado_desbordado rfl procesar_corpus_desbordado
      (PalabraVocabIndexador.mk (palabra_numero 0) ((0 : Nat) : Int) 1 [DocFreq.mk 0 1] 10)
      primera_palabra_estado_desbordado 0 1 rfl
  rw [maximo_estado_desbordado, if_pos (by decide)] at h6
  exact ⟨archivos, h1, ⟨i, lv, ll, h2, h3, h4, h5, h6⟩,
    cuenta_en_corpus_desbordado 0 (Nat.zero_le _),
    fun w => cuenta_en_corpus_desbordado_cota w 0⟩

/-- Witness of the evaluation of claim C29 with the two insertion sorts. -/
theorem frecuencia_escrita_con_vocabulario_lleno_witness :
    ContratoQsortCon comparar_palabras ordenar_vocabulario ∧
    ContratoQsortCon comparar_doc_ids ordenar_doc_freqs ∧
    ∃ archivos : ArchivosIndice ℚ,
      indexador_main ordenar_vocabulario ordenar_doc_freqs (some corpus_desbordado) (some [])
        = FinIndexador.escrito archivos ∧
      (∃ (i : Nat) (lv : LineaVocabulario) (ll : LineaListas ℚ),
        archivos.vocabulario_txt[i]? = some lv ∧
        archivos.listas_invertidas_txt[i]? = some ll ∧
        lv.palabra = palabra_numero 0 ∧ lv.palabra_id = ll.palabra_id ∧
        ll.pares = [((0 : Int), ((1 : Int) : ℚ) / ((2 : Int) : ℚ))]) ∧
      cuenta_de_tokens corpus_desbordado (palabra_numero 0) 0 = 1 ∧
      ∀ w : Cadena, cuenta_de_tokens corpus_desbordado w 0 ≤ 1 :=
  ⟨contrato_ordenar_vocabulario, contrato_ordenar_doc_freqs,
    frecuencia_escrita_con_vocabulario_lleno ordenar_vocabulario ordenar_doc_freqs
      contrato_ordenar_vocabulario contrato_ordenar_doc_freqs⟩

end Buscador
